import Mathlib

/-! BLE-MIDI packet decoder of bluez-alsa.

Shallow embedding of `src/ble-midi.c` (`ble_midi_message_len`, `ble_midi_parse`)
and of the decode loop of `midi_watch_ble_midi` in `src/midi.c`.

* Bytes (`uint8_t`) and sizes (`size_t`) are natural numbers; packets are lists
  of bytes and the packet length `len` is the length of the list.
* The fixed arrays `buffer_midi[8]` and `buffer_sys[256]` are lists of that
  length, written with `List.set`.
* `errno` is threaded through every call: a call that does not assign it
  leaves the value it received.
* The labels `retry`, `final`, `reset` and `fail` of `ble_midi_parse` are
  separate definitions; the backward jump `goto retry` is a recursion bounded
  by the packet length, as is the `while` loop that extracts data bytes.
* A read `data[i]` with `i` at or past the packet length is the distinguished
  outcome `out_of_bounds`.
-/

namespace BleMidi

/-! ## Constants -/

/-- Largest value of `size_t` (64-bit). -/
def SIZE_MAX : Nat := 2 ^ 64 - 1

/-- Linux value of `EINVAL`. -/
def EINVAL : Nat := 22

/-- Linux value of `ENOMSG`. -/
def ENOMSG : Nat := 42

/-- Linux value of `EBADMSG`. -/
def EBADMSG : Nat := 74

/-- Linux value of `EMSGSIZE`. -/
def EMSGSIZE : Nat := 90

/-! ## Data model -/

/-- The two storage arrays of `struct ble_midi` a buffer pointer can designate. -/
inductive Buf
  | midi
  | sys
  deriving DecidableEq, Repr

/-- Parser structure `struct ble_midi` of `ble-midi.h`. The pointer `buffer` is
`none` when it is NULL. -/
structure ble_midi where
  ts : Nat
  buffer : Option Buf
  len : Nat
  buffer_midi : List Nat
  buffer_midi_len : Nat
  ts_sys : Nat
  buffer_sys : List Nat
  buffer_sys_len : Nat
  ts_high : Nat
  status : Nat
  status_sys : Bool
  status_restore : Bool
  current_len : Nat
  deriving DecidableEq, Repr

/-- The all-zero parser structure (`struct ble_midi bm = { 0 }`). -/
def ble_midi.zero : ble_midi :=
  { ts := 0, buffer := none, len := 0,
    buffer_midi := List.replicate 8 0, buffer_midi_len := 0,
    ts_sys := 0, buffer_sys := List.replicate 256 0, buffer_sys_len := 0,
    ts_high := 0, status := 0, status_sys := false, status_restore := false,
    current_len := 0 }

/-- The decoded message a caller reads after a call: `buffer[0..len)`. -/
def ble_midi.message (bm : ble_midi) : List Nat :=
  match bm.buffer with
  | none => []
  | some Buf.midi => bm.buffer_midi.take bm.len
  | some Buf.sys => bm.buffer_sys.take bm.len

/-- Local variables of `ble_midi_parse`. -/
structure Locals where
  bm_buffer : Buf
  bm_buffer_size : Nat
  bm_buffer_len : Nat
  bm_status : Nat
  bm_current_len : Nat
  deriving DecidableEq, Repr

/-- Result of one call of `ble_midi_parse`: the updated structure, the value of
`errno` after the call and the returned integer; or a read outside the packet;
or exhaustion of the recursion bound of the model. -/
inductive Outcome
  | ret (bm : ble_midi) (errno : Nat) (rv : Int)
  | out_of_bounds
  | out_of_fuel
  deriving DecidableEq, Repr

/-- How the data-byte `while` loop is left: by `goto final`, or by its
condition becoming false (with the decremented `midi_msg_len`). -/
inductive LoopExit
  | goto_final (bm : ble_midi) (l : Locals)
  | exit (bm : ble_midi) (l : Locals) (midi_msg_len : Nat)
  | out_of_bounds
  | out_of_fuel
  deriving DecidableEq, Repr

/-- Result of one pass through the code between the label `retry` and the
statement `goto retry`. -/
inductive Step
  | done (o : Outcome)
  | again (bm : ble_midi) (l : Locals) (errno : Nat)
  deriving DecidableEq, Repr

/-! ## `ble_midi_message_len` -/

/-- Length of the MIDI message determined by its status byte
(`ble-midi.c`, lines 22-60). -/
def ble_midi_message_len (status : Nat) : Nat :=
  if status &&& 0xF0 = 0x80 ∨ status &&& 0xF0 = 0x90 ∨
      status &&& 0xF0 = 0xA0 ∨ status &&& 0xF0 = 0xB0 then 3
  else if status &&& 0xF0 = 0xC0 ∨ status &&& 0xF0 = 0xD0 then 2
  else if status &&& 0xF0 = 0xE0 then 3
  else if status &&& 0xF0 = 0xF0 then
    if status = 0xF0 then SIZE_MAX
    else if status = 0xF1 then 2
    else if status = 0xF2 then 3
    else if status = 0xF3 then 2
    else if status = 0xF6 ∨ status = 0xF7 ∨ status = 0xF8 ∨ status = 0xFA ∨
        status = 0xFB ∨ status = 0xFC ∨ status = 0xFE ∨ status = 0xFF then 1
    else 0
  else 0

/-! ## `ble_midi_parse` -/

/-- Capacity of the array a buffer pointer designates (`sizeof`). -/
def Buf.size : Buf → Nat
  | Buf.midi => 8
  | Buf.sys => 256

/-- The statement `bm_buffer[bm_buffer_len++] = v`. -/
def store (bm : ble_midi) (l : Locals) (v : Nat) : ble_midi × Locals :=
  match l.bm_buffer with
  | Buf.midi =>
    ({ bm with buffer_midi := bm.buffer_midi.set l.bm_buffer_len v },
     { l with bm_buffer_len := l.bm_buffer_len + 1 })
  | Buf.sys =>
    ({ bm with buffer_sys := bm.buffer_sys.set l.bm_buffer_len v },
     { l with bm_buffer_len := l.bm_buffer_len + 1 })

/-- Label `reset`: `bm->current_len = 0; return 0;`. -/
def reset (bm : ble_midi) (errno : Nat) : Outcome :=
  Outcome.ret { bm with current_len := 0 } errno 0

/-- Label `fail`: `bm->current_len = 0; return -1;` (the caller of this
definition passes the value just assigned to `errno`). -/
def fail (bm : ble_midi) (errno : Nat) : Outcome :=
  Outcome.ret { bm with current_len := 0 } errno (-1)

/-- Label `final` (`ble-midi.c`, lines 197-228). -/
def final (bm : ble_midi) (l : Locals) (errno : Nat) : Outcome :=
  let bm1 := { bm with buffer := some l.bm_buffer, len := l.bm_buffer_len }
  let bm2 := if l.bm_status &&& 0xF0 ≠ 0xF0 then { bm1 with status := l.bm_status } else bm1
  let bm3 := if l.bm_status ≥ 0xF0 ∧ l.bm_status < 0xF8 then
    { bm2 with status_restore := true } else bm2
  let bm4 := { bm3 with current_len := l.bm_current_len }
  if l.bm_status = 0xF0 then
    reset { bm4 with buffer_sys_len := l.bm_buffer_len } errno
  else if l.bm_status = 0xF7 then
    Outcome.ret { bm4 with buffer_sys_len := 0, ts := bm4.ts_sys } errno 1
  else
    Outcome.ret bm4 errno 1

/-- The loop `while (--midi_msg_len > 0 && !(data[bm_current_len] & 0x80) &&
bm_buffer_len < bm_buffer_size) { ... }` (`ble-midi.c`, lines 169-175). Every
iteration that continues has consumed one packet byte. -/
def data_loop (data : List Nat) : Nat → ble_midi → Locals → Nat → LoopExit
  | 0, _, _, _ => LoopExit.out_of_fuel
  | fuel + 1, bm, l, midi_msg_len =>
    if midi_msg_len - 1 = 0 then LoopExit.exit bm l (midi_msg_len - 1)
    else
      match data[l.bm_current_len]? with
      | none => LoopExit.out_of_bounds
      | some b =>
        if b &&& 0x80 ≠ 0 then LoopExit.exit bm l (midi_msg_len - 1)
        else if ¬ (l.bm_buffer_len < l.bm_buffer_size) then
          LoopExit.exit bm l (midi_msg_len - 1)
        else
          let p := store bm l b
          let l1 := { p.2 with bm_current_len := p.2.bm_current_len + 1 }
          if l1.bm_current_len = data.length then LoopExit.goto_final p.1 l1
          else data_loop data fuel p.1 l1 (midi_msg_len - 1)

/-- The code after the `while` loop up to `goto retry`
(`ble-midi.c`, lines 177-195). -/
def after_data (bm : ble_midi) (l : Locals) (errno : Nat) (midi_msg_len : Nat) : Step :=
  if midi_msg_len ≠ 0 ∧ l.bm_status ≠ 0xF0 then Step.done (fail bm EBADMSG)
  else if l.bm_buffer_len = l.bm_buffer_size then Step.done (final bm l EMSGSIZE)
  else if l.bm_status = 0xF0 then
    Step.again { bm with buffer_sys_len := l.bm_buffer_len } l errno
  else Step.done (final bm l errno)

/-- The running-status fix, the length lookup and the data bytes
(`ble-midi.c`, lines 155-195). -/
def parse_message (data : List Nat) (bm : ble_midi) (l : Locals) (errno : Nat) : Step :=
  let p := if l.bm_buffer_len = 0 ∧ bm.status_restore = true then
      ({ (store bm l l.bm_status).1 with status_restore := false }, (store bm l l.bm_status).2)
    else (bm, l)
  let midi_msg_len := ble_midi_message_len p.2.bm_status
  if midi_msg_len = 0 then Step.done (fail p.1 ENOMSG)
  else
    match data_loop data (data.length + 1) p.1 p.2 midi_msg_len with
    | LoopExit.goto_final bm1 l1 => Step.done (final bm1 l1 errno)
    | LoopExit.exit bm1 l1 m => after_data bm1 l1 errno m
    | LoopExit.out_of_bounds => Step.done Outcome.out_of_bounds
    | LoopExit.out_of_fuel => Step.done Outcome.out_of_fuel

/-- The status byte found after a timestamp byte
(`ble-midi.c`, lines 128-149). -/
def parse_status (data : List Nat) (bm : ble_midi) (l : Locals) (errno : Nat) (s : Nat) : Step :=
  let l1 := { l with bm_status := s }
  let p := if s = 0xF0 then
      ({ bm with ts_sys := bm.ts, status_sys := true },
       { l1 with bm_buffer := Buf.sys, bm_buffer_size := Buf.sys.size,
                 bm_buffer_len := bm.buffer_sys_len })
    else if s = 0xF7 then ({ bm with status_sys := false }, l1)
    else (bm, l1)
  let q := if p.2.bm_buffer_len < p.2.bm_buffer_size then store p.1 p.2 p.2.bm_status else p
  let l2 := { q.2 with bm_current_len := q.2.bm_current_len + 1 }
  if l2.bm_current_len = data.length then Step.done (final q.1 l2 errno)
  else parse_message data q.1 l2 errno

/-- One pass from the label `retry` (`ble-midi.c`, lines 110-195). -/
def retry_body (data : List Nat) (bm : ble_midi) (l : Locals) (errno : Nat) : Step :=
  match data[l.bm_current_len]? with
  | none => Step.done Outcome.out_of_bounds
  | some b =>
    if b &&& 0x80 ≠ 0 then
      let bm1 := { bm with ts := bm.ts_high ||| (b &&& 0x7F) }
      let l1 := { l with bm_current_len := l.bm_current_len + 1 }
      if l1.bm_current_len = data.length then Step.done (fail bm1 EINVAL)
      else
        match data[l1.bm_current_len]? with
        | none => Step.done Outcome.out_of_bounds
        | some s =>
          if s &&& 0x80 ≠ 0 then parse_status data bm1 l1 errno s
          else parse_message data bm1 l1 errno
    else parse_message data bm l errno

/-- The label `retry` with its backward jump. -/
def retry (data : List Nat) : Nat → ble_midi → Locals → Nat → Outcome
  | 0, _, _, _ => Outcome.out_of_fuel
  | fuel + 1, bm, l, errno =>
    match retry_body data bm l errno with
    | Step.done o => o
    | Step.again bm1 l1 errno1 => retry data fuel bm1 l1 errno1

/-- The function `ble_midi_parse` (`ble-midi.c`, lines 75-237), called with
the packet `data` of length `data.length` while `errno` holds `errno`. -/
def ble_midi_parse (bm : ble_midi) (errno : Nat) (data : List Nat) : Outcome :=
  let l0 : Locals :=
    { bm_buffer := Buf.midi, bm_buffer_size := Buf.midi.size, bm_buffer_len := 0,
      bm_status := bm.status, bm_current_len := bm.current_len }
  if l0.bm_current_len = data.length then reset bm errno
  else
    let l1 := if bm.status_sys = true then
        { l0 with bm_buffer := Buf.sys, bm_buffer_size := Buf.sys.size,
                  bm_buffer_len := bm.buffer_sys_len, bm_status := 0xF0 }
      else l0
    if l1.bm_current_len = 0 then
      if data.length < 3 then fail bm EINVAL
      else
        match data[0]? with
        | none => Outcome.out_of_bounds
        | some h =>
          if h >>> 6 ≠ 0x02 then fail bm EINVAL
          else
            retry data (data.length + 1) { bm with ts_high := (h &&& 0x3F) <<< 7 }
              { l1 with bm_current_len := l1.bm_current_len + 1 } errno
    else retry data (data.length + 1) bm l1 errno

/-! ## Observing calls -/

/-- Returned integer of a call (`none` for a faulting call). -/
def Outcome.rv? : Outcome → Option Int
  | Outcome.ret _ _ rv => some rv
  | _ => none

/-- What a caller observes from a call: the returned integer together with the
message `buffer[0..len)`. -/
def Outcome.view : Outcome → Option (Int × List Nat)
  | Outcome.ret bm _ rv => some (rv, bm.message)
  | _ => none

/-- Successive calls of `ble_midi_parse` on the same packet, whatever they
return: the outcomes of `n` calls in order. A faulting call ends the list. -/
def parse_calls (data : List Nat) : Nat → ble_midi → Nat → List Outcome
  | 0, _, _ => []
  | n + 1, bm, errno =>
    match ble_midi_parse bm errno data with
    | Outcome.ret bm1 errno1 rv => Outcome.ret bm1 errno1 rv :: parse_calls data n bm1 errno1
    | o => [o]

/-! ## Definitions used to state and prove the properties -/

/-- The array `buf` after the bytes `vs` were stored from index `i` on. -/
def write_at (buf : List Nat) (i : Nat) : List Nat → List Nat
  | [] => buf
  | v :: vs => write_at (buf.set i v) (i + 1) vs

/-- State after the body of the data-byte loop ran once for every byte of `ds`. -/
def consume (bm : ble_midi) (l : Locals) (ds : List Nat) : ble_midi × Locals :=
  (match l.bm_buffer with
   | Buf.midi => { bm with buffer_midi := write_at bm.buffer_midi l.bm_buffer_len ds }
   | Buf.sys => { bm with buffer_sys := write_at bm.buffer_sys l.bm_buffer_len ds },
   { l with bm_buffer_len := l.bm_buffer_len + ds.length,
            bm_current_len := l.bm_current_len + ds.length })

/-- Local variables on reaching the header check. -/
def entry_locals (bm : ble_midi) : Locals :=
  if bm.status_sys = true then
    { bm_buffer := Buf.sys, bm_buffer_size := 256, bm_buffer_len := bm.buffer_sys_len,
      bm_status := 0xF0, bm_current_len := bm.current_len }
  else
    { bm_buffer := Buf.midi, bm_buffer_size := 8, bm_buffer_len := 0,
      bm_status := bm.status, bm_current_len := bm.current_len }

/-- Structure left by `final` for a status byte other than SysEx start. -/
def emit (bm : ble_midi) (l : Locals) : ble_midi :=
  { bm with
    buffer := some l.bm_buffer, len := l.bm_buffer_len,
    status := if l.bm_status &&& 0xF0 ≠ 0xF0 then l.bm_status else bm.status,
    status_restore := if l.bm_status ≥ 0xF0 ∧ l.bm_status < 0xF8 then true
      else bm.status_restore,
    current_len := l.bm_current_len,
    buffer_sys_len := if l.bm_status = 0xF7 then 0 else bm.buffer_sys_len,
    ts := if l.bm_status = 0xF7 then bm.ts_sys else bm.ts }

/-- Structure left by `final` when the status is SysEx start. -/
def suspend (bm : ble_midi) (l : Locals) : ble_midi :=
  { bm with
    buffer := some l.bm_buffer, len := l.bm_buffer_len, status_restore := true,
    buffer_sys_len := l.bm_buffer_len, current_len := 0 }

/-- Position of a call: either the first call on a packet with a valid header
and at least three bytes, the bytes `pre` being the header, or a later call
with the cursor after the bytes `pre`. -/
def Pos (bm : ble_midi) (data pre : List Nat) : Prop :=
  (bm.current_len = 0 ∧ 3 ≤ data.length ∧ ∃ h, pre = [h] ∧ 0x80 ≤ h ∧ h < 0xC0) ∨
  (bm.current_len ≠ 0 ∧ bm.current_len = pre.length)

/-- The structure on reaching `retry`: the header, when the call reads it,
sets `ts_high`. -/
def enter (bm : ble_midi) (data : List Nat) : ble_midi :=
  if bm.current_len = 0 then { bm with ts_high := (data.headD 0 &&& 0x3F) <<< 7 } else bm

/-- Structure after a call emitted the complete message `s :: ds` that
followed the timestamp byte `t`; `cur` is the cursor behind the message. -/
def msg_state (bm : ble_midi) (t s : Nat) (ds : List Nat) (cur : Nat) : ble_midi :=
  { bm with
    ts := bm.ts_high ||| (t &&& 0x7F),
    buffer := some Buf.midi, len := ds.length + 1,
    buffer_midi := write_at bm.buffer_midi 0 (s :: ds),
    status := if s &&& 0xF0 ≠ 0xF0 then s else bm.status,
    status_restore := if s ≥ 0xF0 ∧ s < 0xF8 then true else bm.status_restore,
    current_len := cur }

/-- A MIDI message as it travels in a BLE-MIDI packet: its timestamp byte, its
status byte and its data bytes. -/
structure Msg where
  ts : Nat
  status : Nat
  data : List Nat
  deriving DecidableEq, Repr

/-- The MIDI bytes of a message. -/
def Msg.bytes (m : Msg) : List Nat := m.status :: m.data

/-- The packet bytes of a message: timestamp byte, then the MIDI bytes. -/
def Msg.wire (m : Msg) : List Nat := m.ts :: m.status :: m.data

/-- A complete message other than SysEx, preceded by its own timestamp byte:
the timestamp byte has bit 7 set, the status byte has classifier length 1, 2
or 3 and is neither 0xF0 nor 0xF7, and the data bytes, one fewer than the
classifier length, are below 0x80. -/
@[reducible] def Msg.complete (m : Msg) : Prop :=
  0x80 ≤ m.ts ∧ m.ts < 0x100 ∧ m.status < 0x100 ∧ m.status ≠ 0xF0 ∧ m.status ≠ 0xF7 ∧
  ble_midi_message_len m.status = m.data.length + 1 ∧ m.data.length ≤ 2 ∧
  ∀ d ∈ m.data, d < 0x80

/-- The packet bytes of a sequence of messages, in order. -/
def wire_all : List Msg → List Nat
  | [] => []
  | m :: ms => m.wire ++ wire_all ms

/-- The status-byte table of the specification: 3 for 0x80-0xBF and 0xE0-0xEF,
2 for 0xC0-0xDF, unbounded for 0xF0, 2 for 0xF1 and 0xF3, 3 for 0xF2, 1 for 0xF6,
0xF7, 0xF8, 0xFA, 0xFB, 0xFC, 0xFE and 0xFF, and 0 for anything else. -/
def status_table (s : Nat) : Nat :=
  if 0x80 ≤ s ∧ s ≤ 0xBF then 3
  else if 0xE0 ≤ s ∧ s ≤ 0xEF then 3
  else if 0xC0 ≤ s ∧ s ≤ 0xDF then 2
  else if s = 0xF0 then SIZE_MAX
  else if s = 0xF1 ∨ s = 0xF3 then 2
  else if s = 0xF2 then 3
  else if s = 0xF6 ∨ s = 0xF7 ∨ s = 0xF8 ∨ s = 0xFA ∨ s = 0xFB ∨ s = 0xFC ∨ s = 0xFE ∨
      s = 0xFF then 1
  else 0

/-- Structure and local variables after the SysEx start byte was stored. -/
def sysex_started (bm : ble_midi) (cur : Nat) : ble_midi × Locals :=
  ({ bm with ts_sys := bm.ts, status_sys := true,
             buffer_sys := bm.buffer_sys.set bm.buffer_sys_len 0xF0 },
   Locals.mk Buf.sys 256 (bm.buffer_sys_len + 1) 0xF0 cur)

/-- The status byte the running-status fix puts in front of the data bytes:
the remembered status when `status_restore` is set, nothing otherwise. -/
def restored (bm : ble_midi) : List Nat :=
  if bm.status_restore = true then [bm.status] else []

/-- Structure after a call emitted a running-status message with the data
bytes `ds`; `cur` is the cursor behind them. -/
def running_state (bm : ble_midi) (ds : List Nat) (cur : Nat) : ble_midi :=
  { bm with
    buffer := some Buf.midi, len := (restored bm ++ ds).length,
    buffer_midi := write_at bm.buffer_midi 0 (restored bm ++ ds),
    status_restore := false, current_len := cur }

/-- The timestamp a timestamp byte sets, when there is one. -/
def stamp (bm : ble_midi) : Option Nat → ble_midi
  | none => bm
  | some t => { bm with ts := bm.ts_high ||| (t &&& 0x7F) }

/-- A SysEx is in flight between two packets, `acc` being the bytes gathered
in `buffer_sys` so far. -/
def SysInv (bm : ble_midi) (acc : List Nat) : Prop :=
  bm.current_len = 0 ∧ bm.status_sys = true ∧ bm.buffer_sys.length = 256 ∧
  bm.buffer_sys_len = acc.length ∧ bm.buffer_sys.take acc.length = acc ∧ acc ≠ []

/-- Structure after a header, a timestamp byte `t` and the SysEx start byte
were parsed with an empty reassembly buffer. -/
def sysex_open (bm : ble_midi) (t : Nat) : ble_midi :=
  { bm with
    ts := bm.ts_high ||| (t &&& 0x7F), ts_sys := bm.ts_high ||| (t &&& 0x7F),
    status_sys := true, buffer_sys := bm.buffer_sys.set 0 0xF0 }

/-- What the caller loop leaves after one packet: the parser structure,
`errno`, the messages emitted by the calls that returned 1, and the value of
the call that ended the loop (0 or -1). -/
structure Decoded where
  bm : ble_midi
  errno : Nat
  emitted : List (List Nat)
  rv : Int
  deriving DecidableEq, Repr

/-- The caller loop of `ble_midi_parse`, as in `midi_watch_ble_midi`
(`midi.c`, lines 48-64): the same packet is parsed again and again until a call
returns a value `<= 0`; after every call that returned 1 the message
`buffer[0..len)` is taken (the bridge writes it to the MIDI input FIFO). The
first argument bounds the number of calls; `none` stands for a faulting call or
for the bound being reached. -/
def parse_loop (data : List Nat) : Nat → ble_midi → Nat → List (List Nat) → Option Decoded
  | 0, _, _, _ => none
  | n + 1, bm, errno, emitted =>
    match ble_midi_parse bm errno data with
    | Outcome.ret bm1 errno1 rv =>
      if rv ≤ 0 then some ⟨bm1, errno1, emitted, rv⟩
      else parse_loop data n bm1 errno1 (emitted ++ [bm1.message])
    | _ => none

/-- The caller loop on one packet. -/
def parse_packet (bm : ble_midi) (errno : Nat) (data : List Nat) : Option Decoded :=
  parse_loop data (data.length + 1) bm errno []

/-- What the caller loop leaves after a sequence of packets: the parser
structure, `errno`, all emitted messages in order, and for every packet the
value of the call that ended its loop. -/
structure Session where
  bm : ble_midi
  errno : Nat
  emitted : List (List Nat)
  rvs : List Int
  deriving DecidableEq, Repr

/-- The caller loop on a sequence of packets, in order. -/
def parse_packets : List (List Nat) → ble_midi → Nat → Option Session
  | [], bm, errno => some ⟨bm, errno, [], []⟩
  | p :: ps, bm, errno =>
    match parse_packet bm errno p with
    | none => none
    | some d =>
      match parse_packets ps d.bm d.errno with
      | none => none
      | some s => some ⟨s.bm, s.errno, d.emitted ++ s.emitted, d.rv :: s.rvs⟩

/-- The body bytes carried by a list of continuation packets, given as pairs
of header byte and body bytes. -/
def chunks : List (Nat × List Nat) → List Nat
  | [] => []
  | p :: ps => p.2 ++ chunks ps

/-- The packets of a SysEx split over two or more packets: the first holds
header, timestamp byte, 0xF0 and body bytes; every continuation packet holds a
header and body bytes; the last holds a header, body bytes, a timestamp byte
and 0xF7. -/
def sysex_packets (h0 t0 : Nat) (c0 : List Nat) (conts : List (Nat × List Nat))
    (hl : Nat) (cl : List Nat) (tl : Nat) : List (List Nat) :=
  (h0 :: t0 :: 0xF0 :: c0) :: (conts.map (fun p => p.1 :: p.2) ++ [hl :: (cl ++ [tl, 0xF7])])

/-- A continuation packet with an optional timestamp byte: header, timestamp
byte if any, body bytes. -/
def cont_packet (p : Nat × Option Nat × List Nat) : List Nat :=
  p.1 :: (p.2.1.toList ++ p.2.2)

/-- The body bytes carried by a list of such continuation packets. -/
def chunks_ts : List (Nat × Option Nat × List Nat) → List Nat
  | [] => []
  | p :: ps => p.2.2 ++ chunks_ts ps

/-- The parser structure after the first call on the packet of
`test_ble_midi_parse_single_running_status`: the note-on message 90 40 7F was
emitted and the cursor stands behind it. -/
def note_on_emitted : ble_midi :=
  { ble_midi.zero with
    ts := 1, buffer := some Buf.midi, len := 3,
    buffer_midi := [0x90, 0x40, 0x7f, 0, 0, 0, 0, 0], status := 0x90, current_len := 5 }

/-- The label through which a call of `ble_midi_parse` leaves, with the
structure, the locals and `errno` at that moment: `final` with all locals,
`fail` and `reset` with the local cursor `bm_current_len`. -/
inductive Leave
  | at_final (bm : ble_midi) (l : Locals) (errno : Nat)
  | at_fail (bm : ble_midi) (errno : Nat) (cursor : Nat)
  | at_reset (bm : ble_midi) (errno : Nat) (cursor : Nat)
  | out_of_bounds
  | out_of_fuel
  deriving DecidableEq, Repr

/-- What the call returns after leaving through the label. -/
def Leave.outcome : Leave → Outcome
  | Leave.at_final bm l errno => BleMidi.final bm l errno
  | Leave.at_fail bm errno _ => BleMidi.fail bm errno
  | Leave.at_reset bm errno _ => BleMidi.reset bm errno
  | Leave.out_of_bounds => Outcome.out_of_bounds
  | Leave.out_of_fuel => Outcome.out_of_fuel

/-- The local cursor `bm_current_len` when the call leaves. -/
def Leave.cursor : Leave → Option Nat
  | Leave.at_final _ l _ => some l.bm_current_len
  | Leave.at_fail _ _ c => some c
  | Leave.at_reset _ _ c => some c
  | Leave.out_of_bounds => none
  | Leave.out_of_fuel => none

/-- Result of one pass from `retry`, the labels kept apart. -/
inductive Pass
  | done (x : Leave)
  | again (bm : ble_midi) (l : Locals) (errno : Nat)
  deriving DecidableEq, Repr

/-- The pass with the label replaced by what the call returns. -/
def Pass.step : Pass → Step
  | Pass.done x => Step.done x.outcome
  | Pass.again bm l errno => Step.again bm l errno

/-- The code of `after_data`, the label it jumps to kept
(`ble-midi.c`, lines 177-195). -/
def after_data_trace (bm : ble_midi) (l : Locals) (errno : Nat) (midi_msg_len : Nat) : Pass :=
  if midi_msg_len ≠ 0 ∧ l.bm_status ≠ 0xF0 then
    Pass.done (Leave.at_fail bm EBADMSG l.bm_current_len)
  else if l.bm_buffer_len = l.bm_buffer_size then Pass.done (Leave.at_final bm l EMSGSIZE)
  else if l.bm_status = 0xF0 then
    Pass.again { bm with buffer_sys_len := l.bm_buffer_len } l errno
  else Pass.done (Leave.at_final bm l errno)

/-- The code of `parse_message`, the label it jumps to kept
(`ble-midi.c`, lines 155-195). -/
def parse_message_trace (data : List Nat) (bm : ble_midi) (l : Locals) (errno : Nat) : Pass :=
  let p := if l.bm_buffer_len = 0 ∧ bm.status_restore = true then
      ({ (store bm l l.bm_status).1 with status_restore := false }, (store bm l l.bm_status).2)
    else (bm, l)
  let midi_msg_len := ble_midi_message_len p.2.bm_status
  if midi_msg_len = 0 then Pass.done (Leave.at_fail p.1 ENOMSG p.2.bm_current_len)
  else
    match data_loop data (data.length + 1) p.1 p.2 midi_msg_len with
    | LoopExit.goto_final bm1 l1 => Pass.done (Leave.at_final bm1 l1 errno)
    | LoopExit.exit bm1 l1 m => after_data_trace bm1 l1 errno m
    | LoopExit.out_of_bounds => Pass.done Leave.out_of_bounds
    | LoopExit.out_of_fuel => Pass.done Leave.out_of_fuel

/-- The code of `parse_status`, the label it jumps to kept
(`ble-midi.c`, lines 128-149). -/
def parse_status_trace (data : List Nat) (bm : ble_midi) (l : Locals) (errno : Nat) (s : Nat) :
    Pass :=
  let l1 := { l with bm_status := s }
  let p := if s = 0xF0 then
      ({ bm with ts_sys := bm.ts, status_sys := true },
       { l1 with bm_buffer := Buf.sys, bm_buffer_size := Buf.sys.size,
                 bm_buffer_len := bm.buffer_sys_len })
    else if s = 0xF7 then ({ bm with status_sys := false }, l1)
    else (bm, l1)
  let q := if p.2.bm_buffer_len < p.2.bm_buffer_size then store p.1 p.2 p.2.bm_status else p
  let l2 := { q.2 with bm_current_len := q.2.bm_current_len + 1 }
  if l2.bm_current_len = data.length then Pass.done (Leave.at_final q.1 l2 errno)
  else parse_message_trace data q.1 l2 errno

/-- The code of `retry_body`, the label it jumps to kept
(`ble-midi.c`, lines 110-195). -/
def retry_body_trace (data : List Nat) (bm : ble_midi) (l : Locals) (errno : Nat) : Pass :=
  match data[l.bm_current_len]? with
  | none => Pass.done Leave.out_of_bounds
  | some b =>
    if b &&& 0x80 ≠ 0 then
      let bm1 := { bm with ts := bm.ts_high ||| (b &&& 0x7F) }
      let l1 := { l with bm_current_len := l.bm_current_len + 1 }
      if l1.bm_current_len = data.length then
        Pass.done (Leave.at_fail bm1 EINVAL l1.bm_current_len)
      else
        match data[l1.bm_current_len]? with
        | none => Pass.done Leave.out_of_bounds
        | some s =>
          if s &&& 0x80 ≠ 0 then parse_status_trace data bm1 l1 errno s
          else parse_message_trace data bm1 l1 errno
    else parse_message_trace data bm l errno

/-- The label `retry` with its backward jump, the label of leaving kept. -/
def retry_trace (data : List Nat) : Nat → ble_midi → Locals → Nat → Leave
  | 0, _, _, _ => Leave.out_of_fuel
  | fuel + 1, bm, l, errno =>
    match retry_body_trace data bm l errno with
    | Pass.done x => x
    | Pass.again bm1 l1 errno1 => retry_trace data fuel bm1 l1 errno1

/-- The function `ble_midi_parse` (`ble-midi.c`, lines 75-237) up to the jump
to one of its labels `final`, `reset` and `fail`, with the local cursor at
that moment. -/
def ble_midi_parse_trace (bm : ble_midi) (errno : Nat) (data : List Nat) : Leave :=
  let l0 : Locals :=
    { bm_buffer := Buf.midi, bm_buffer_size := Buf.midi.size, bm_buffer_len := 0,
      bm_status := bm.status, bm_current_len := bm.current_len }
  if l0.bm_current_len = data.length then Leave.at_reset bm errno l0.bm_current_len
  else
    let l1 := if bm.status_sys = true then
        { l0 with bm_buffer := Buf.sys, bm_buffer_size := Buf.sys.size,
                  bm_buffer_len := bm.buffer_sys_len, bm_status := 0xF0 }
      else l0
    if l1.bm_current_len = 0 then
      if data.length < 3 then Leave.at_fail bm EINVAL l1.bm_current_len
      else
        match data[0]? with
        | none => Leave.out_of_bounds
        | some h =>
          if h >>> 6 ≠ 0x02 then Leave.at_fail bm EINVAL l1.bm_current_len
          else
            retry_trace data (data.length + 1) { bm with ts_high := (h &&& 0x3F) <<< 7 }
              { l1 with bm_current_len := l1.bm_current_len + 1 } errno
    else retry_trace data (data.length + 1) bm l1 errno

/-- Well-formed parser structure: the arrays have their declared sizes, the
stored SysEx length fits the SysEx array, the remembered status is not a system
status, and the timestamps are 13-bit values built from a 6-bit high part. -/
def WF (bm : ble_midi) : Prop :=
  bm.buffer_midi.length = 8 ∧ bm.buffer_sys.length = 256 ∧ bm.buffer_sys_len ≤ 256 ∧
  bm.status &&& 0xF0 ≠ 0xF0 ∧ bm.ts < 8192 ∧ bm.ts_sys < 8192 ∧
  bm.ts_high % 128 = 0 ∧ bm.ts_high ≤ 8064

/-- The fields of the structure that only the labels `final`, `reset` and
`fail` assign are those of `bm`. -/
def Keeps (bm bm1 : ble_midi) : Prop :=
  bm1.buffer = bm.buffer ∧ bm1.len = bm.len ∧ bm1.status = bm.status ∧
  bm1.current_len = bm.current_len ∧ bm1.buffer_midi_len = bm.buffer_midi_len

/-- Consistent local variables: the fill level does not exceed the capacity,
the capacity is that of the designated array, and the status SysEx start goes
with the SysEx array. -/
def LOK (l : Locals) : Prop :=
  l.bm_buffer_len ≤ l.bm_buffer_size ∧ l.bm_buffer_size = l.bm_buffer.size ∧
  (l.bm_status = 0xF0 → l.bm_buffer = Buf.sys)

/-- What holds when a call that started with the cursor `c0` in the structure
`bm0`, `errno` being `e0`, leaves through a label. -/
def LeaveOK (data : List Nat) (c0 : Nat) (bm0 : ble_midi) (e0 : Nat) : Leave → Prop
  | Leave.at_final bm l e =>
    Keeps bm0 bm ∧ WF bm ∧ LOK l ∧ l.bm_current_len ≤ data.length ∧ c0 ≤ l.bm_current_len ∧
    (l.bm_status ≠ 0xF0 → c0 < l.bm_current_len) ∧
    (l.bm_status = 0xF0 →
      (l.bm_current_len = data.length ∧ e = e0) ∨
      (e = EMSGSIZE ∧ l.bm_buffer_len = l.bm_buffer_size ∧ l.bm_current_len < data.length))
  | Leave.at_fail bm e c =>
    Keeps bm0 bm ∧ WF bm ∧ c ≤ data.length ∧ (e = EINVAL ∨ e = ENOMSG ∨ e = EBADMSG)
  | Leave.at_reset bm e c => bm = bm0 ∧ e = e0 ∧ c = data.length ∧ c0 = data.length
  | Leave.out_of_bounds => False
  | Leave.out_of_fuel => False

/-- What holds after one pass from `retry` that started with the local cursor
`lp`. -/
def PassOK (data : List Nat) (c0 lp : Nat) (bm0 : ble_midi) (e0 : Nat) : Pass → Prop
  | Pass.done x => LeaveOK data c0 bm0 e0 x
  | Pass.again bm l e =>
    Keeps bm0 bm ∧ WF bm ∧ LOK l ∧ lp < l.bm_current_len ∧ l.bm_current_len < data.length ∧
    l.bm_status = 0xF0 ∧ e = e0

/-- What holds when the data-byte loop entered with the locals `l` and the
counter `m` is left. -/
def LoopOK (data : List Nat) (bm0 : ble_midi) (l : Locals) (m : Nat) : LoopExit → Prop
  | LoopExit.goto_final bm1 l1 =>
    Keeps bm0 bm1 ∧ WF bm1 ∧ LOK l1 ∧ l1.bm_current_len = data.length ∧
    l.bm_current_len < l1.bm_current_len ∧ l1.bm_status = l.bm_status
  | LoopExit.exit bm1 l1 m1 =>
    Keeps bm0 bm1 ∧ WF bm1 ∧ LOK l1 ∧ l.bm_current_len ≤ l1.bm_current_len ∧
    l1.bm_current_len < data.length ∧ l1.bm_status = l.bm_status ∧
    (l.bm_current_len < l1.bm_current_len ∨
      (m1 = m - 1 ∧ l1.bm_current_len = l.bm_current_len ∧
        (m - 1 = 0 ∨ (∃ b, data[l.bm_current_len]? = some b ∧ b &&& 0x80 ≠ 0) ∨
          l1.bm_buffer_len = l1.bm_buffer_size)))
  | LoopExit.out_of_bounds => False
  | LoopExit.out_of_fuel => False

/-- Parser structures reached from the all-zero structure by a sequence of
calls of `ble_midi_parse` that return, on any packets of bytes, `errno` being
anything at each call. -/
inductive Reachable : ble_midi → Prop
  | zero : Reachable ble_midi.zero
  | call (bm : ble_midi) (e : Nat) (data : List Nat) (bm1 : ble_midi) (e1 : Nat) (rv : Int) :
    Reachable bm → (∀ b ∈ data, b < 256) →
    ble_midi_parse bm e data = Outcome.ret bm1 e1 rv → Reachable bm1

/-- The caller protocol of `midi_watch_ble_midi`: `Protocol bm data` says that
the structure `bm` was reached from the all-zero structure by calls that
present the same packet again as long as the call returns 1 and present the
next packet after a call returned 0 or -1, and that `data` is the packet to
present to the next call. -/
inductive Protocol : ble_midi → List Nat → Prop
  | start (data : List Nat) : Protocol ble_midi.zero data
  | again (bm : ble_midi) (e : Nat) (data : List Nat) (bm1 : ble_midi) (e1 : Nat) :
    Protocol bm data → ble_midi_parse bm e data = Outcome.ret bm1 e1 1 → Protocol bm1 data
  | next (bm : ble_midi) (e : Nat) (data : List Nat) (bm1 : ble_midi) (e1 : Nat) (rv : Int)
    (data1 : List Nat) :
    Protocol bm data → ble_midi_parse bm e data = Outcome.ret bm1 e1 rv → rv ≤ 0 →
    Protocol bm1 data1

/-- A packet that starts a SysEx with 256 body bytes, ends it, and carries
a complete timestamped note-on message: header, timestamp, F0, 256 times 01,
timestamp, F7, timestamp, 90 40 7F. -/
def overflow_packet : List Nat :=
  0x80 :: 0x81 :: 0xF0 :: (List.replicate 256 0x01 ++ [0x82, 0xF7, 0x83, 0x90, 0x40, 0x7F])

/-! ## The cursor, whatever the structure holds -/
/-- Cursor of the data-byte loop when it is left: not behind the cursor `l`
had on entry, within the packet, and no read outside the packet was made. -/
def CurLoop (data : List Nat) (l : Locals) : LoopExit → Prop
  | LoopExit.goto_final _ l1 =>
    l.bm_current_len ≤ l1.bm_current_len ∧ l1.bm_current_len ≤ data.length
  | LoopExit.exit _ l1 _ =>
    l.bm_current_len ≤ l1.bm_current_len ∧ l1.bm_current_len < data.length
  | LoopExit.out_of_bounds => False
  | LoopExit.out_of_fuel => True

/-- Cursor when a call leaves: at `final` it is at least `c` and within the
packet; no read outside the packet was made. -/
def CurLeave (data : List Nat) (c : Nat) : Leave → Prop
  | Leave.at_final _ l _ => c ≤ l.bm_current_len ∧ l.bm_current_len ≤ data.length
  | Leave.at_fail _ _ _ => True
  | Leave.at_reset _ _ _ => True
  | Leave.out_of_bounds => False
  | Leave.out_of_fuel => True

/-- Cursor after one pass from `retry`. -/
def CurPass (data : List Nat) (c : Nat) : Pass → Prop
  | Pass.done x => CurLeave data c x
  | Pass.again _ l _ => c ≤ l.bm_current_len ∧ l.bm_current_len < data.length

/-! ## Real-time messages inside a SysEx -/
/-- A SysEx is in flight, `acc` being the bytes gathered in `buffer_sys` so
far; the stored cursor may stand anywhere in the packet. -/
def SysMid (bm : ble_midi) (acc : List Nat) : Prop :=
  bm.status_sys = true ∧ bm.buffer_sys.length = 256 ∧ bm.buffer_sys_len = acc.length ∧
  bm.buffer_sys.take acc.length = acc ∧ acc ≠ []

/-! ## Capacity of the buffers -/
/-- Locals at a point where the short-message array holds at most `k` bytes:
they are consistent, and the fill level is at most `k` when the short-message
array is the active one. -/
def MidL (k : Nat) (l : Locals) : Prop :=
  LOK l ∧ (l.bm_buffer = Buf.midi → l.bm_buffer_len ≤ k)

/-- Fill levels when the data-byte loop is left. -/
def MidLoop : LoopExit → Prop
  | LoopExit.goto_final bm l => bm.buffer_sys_len ≤ 256 ∧ MidL 3 l
  | LoopExit.exit bm l _ => bm.buffer_sys_len ≤ 256 ∧ MidL 3 l
  | LoopExit.out_of_bounds => True
  | LoopExit.out_of_fuel => True

/-- Length of the message a call that returned 1 hands to the caller: at most
256 in the SysEx array, at most 3 in the short-message array. -/
def MidOut : Outcome → Prop
  | Outcome.ret bm _ rv => rv = 1 →
    (bm.buffer = some Buf.sys ∧ bm.len ≤ 256) ∨ (bm.buffer = some Buf.midi ∧ bm.len ≤ 3)
  | Outcome.out_of_bounds => True
  | Outcome.out_of_fuel => True

/-- Fill levels after one pass from `retry`. -/
def MidStep : Step → Prop
  | Step.done o => MidOut o
  | Step.again bm l _ => bm.buffer_sys_len ≤ 256 ∧ MidL 0 l

/-! ## The writes of a call -/
/-- The writes `bm_buffer[bm_buffer_len++] = data[bm_current_len]` of the
data-byte loop, in order: the array written, the index and the value
(`ble-midi.c`, lines 169-175). -/
def data_loop_writes (data : List Nat) : Nat → ble_midi → Locals → Nat → List (Buf × Nat × Nat)
  | 0, _, _, _ => []
  | fuel + 1, bm, l, midi_msg_len =>
    if midi_msg_len - 1 = 0 then []
    else
      match data[l.bm_current_len]? with
      | none => []
      | some b =>
        if b &&& 0x80 ≠ 0 then []
        else if ¬ (l.bm_buffer_len < l.bm_buffer_size) then []
        else
          let p := store bm l b
          let l1 := { p.2 with bm_current_len := p.2.bm_current_len + 1 }
          (l.bm_buffer, l.bm_buffer_len, b) ::
            (if l1.bm_current_len = data.length then []
            else data_loop_writes data fuel p.1 l1 (midi_msg_len - 1))

/-- The writes of `parse_message`: the restored running status, then the data
bytes (`ble-midi.c`, lines 155-175). -/
def parse_message_writes (data : List Nat) (bm : ble_midi) (l : Locals) : List (Buf × Nat × Nat) :=
  let p := if l.bm_buffer_len = 0 ∧ bm.status_restore = true then
      ({ (store bm l l.bm_status).1 with status_restore := false }, (store bm l l.bm_status).2)
    else (bm, l)
  let w := if l.bm_buffer_len = 0 ∧ bm.status_restore = true then
      [(l.bm_buffer, l.bm_buffer_len, l.bm_status)]
    else []
  let midi_msg_len := ble_midi_message_len p.2.bm_status
  if midi_msg_len = 0 then w
  else w ++ data_loop_writes data (data.length + 1) p.1 p.2 midi_msg_len

/-- The writes of `parse_status`: the status byte, when there is room for it,
then the writes of `parse_message` (`ble-midi.c`, lines 128-175). -/
def parse_status_writes (data : List Nat) (bm : ble_midi) (l : Locals) (s : Nat) :
    List (Buf × Nat × Nat) :=
  let l1 := { l with bm_status := s }
  let p := if s = 0xF0 then
      ({ bm with ts_sys := bm.ts, status_sys := true },
       { l1 with bm_buffer := Buf.sys, bm_buffer_size := Buf.sys.size,
                 bm_buffer_len := bm.buffer_sys_len })
    else if s = 0xF7 then ({ bm with status_sys := false }, l1)
    else (bm, l1)
  let w := if p.2.bm_buffer_len < p.2.bm_buffer_size then
      [(p.2.bm_buffer, p.2.bm_buffer_len, p.2.bm_status)]
    else []
  let q := if p.2.bm_buffer_len < p.2.bm_buffer_size then store p.1 p.2 p.2.bm_status else p
  let l2 := { q.2 with bm_current_len := q.2.bm_current_len + 1 }
  if l2.bm_current_len = data.length then w
  else w ++ parse_message_writes data q.1 l2

/-- The writes of one pass from the label `retry`
(`ble-midi.c`, lines 110-175). -/
def retry_body_writes (data : List Nat) (bm : ble_midi) (l : Locals) : List (Buf × Nat × Nat) :=
  match data[l.bm_current_len]? with
  | none => []
  | some b =>
    if b &&& 0x80 ≠ 0 then
      let bm1 := { bm with ts := bm.ts_high ||| (b &&& 0x7F) }
      let l1 := { l with bm_current_len := l.bm_current_len + 1 }
      if l1.bm_current_len = data.length then []
      else
        match data[l1.bm_current_len]? with
        | none => []
        | some s =>
          if s &&& 0x80 ≠ 0 then parse_status_writes data bm1 l1 s
          else parse_message_writes data bm1 l1
    else parse_message_writes data bm l

/-- The writes made from the label `retry` on, every pass after a backward
jump included. -/
def retry_writes (data : List Nat) : Nat → ble_midi → Locals → Nat → List (Buf × Nat × Nat)
  | 0, _, _, _ => []
  | fuel + 1, bm, l, errno =>
    retry_body_writes data bm l ++
      match retry_body data bm l errno with
      | Step.done _ => []
      | Step.again bm1 l1 errno1 => retry_writes data fuel bm1 l1 errno1

/-- The writes into `buffer_midi` and `buffer_sys` one call of
`ble_midi_parse` makes, in order (`ble-midi.c`, lines 75-237). -/
def ble_midi_parse_writes (bm : ble_midi) (errno : Nat) (data : List Nat) :
    List (Buf × Nat × Nat) :=
  let l0 : Locals :=
    { bm_buffer := Buf.midi, bm_buffer_size := Buf.midi.size, bm_buffer_len := 0,
      bm_status := bm.status, bm_current_len := bm.current_len }
  if l0.bm_current_len = data.length then []
  else
    let l1 := if bm.status_sys = true then
        { l0 with bm_buffer := Buf.sys, bm_buffer_size := Buf.sys.size,
                  bm_buffer_len := bm.buffer_sys_len, bm_status := 0xF0 }
      else l0
    if l1.bm_current_len = 0 then
      if data.length < 3 then []
      else
        match data[0]? with
        | none => []
        | some h =>
          if h >>> 6 ≠ 0x02 then []
          else
            retry_writes data (data.length + 1) { bm with ts_high := (h &&& 0x3F) <<< 7 }
              { l1 with bm_current_len := l1.bm_current_len + 1 } errno
    else retry_writes data (data.length + 1) bm l1 errno

/-- The arrays `buffer_midi` and `buffer_sys` after the writes `ws` were
applied to them in order. -/
def apply_writes (arrays : List Nat × List Nat) (ws : List (Buf × Nat × Nat)) :
    List Nat × List Nat :=
  ws.foldl (fun a w =>
    match w.1 with
    | Buf.midi => (a.1.set w.2.1 w.2.2, a.2)
    | Buf.sys => (a.1, a.2.set w.2.1 w.2.2)) arrays

/-! ## Every write lands inside its array -/
/-- Every write of the list has its index below the capacity of the array it
is made into. -/
def WritesOK (ws : List (Buf × Nat × Nat)) : Prop :=
  ∀ w ∈ ws, w.2.1 < w.1.size

/-- The arrays `buffer_midi` and `buffer_sys` of the structure. -/
def ble_midi.arrays (bm : ble_midi) : List Nat × List Nat :=
  (bm.buffer_midi, bm.buffer_sys)

/-- The arrays with which the data-byte loop is left. -/
def ArrLoop (a : List Nat × List Nat) : LoopExit → Prop
  | LoopExit.goto_final bm _ => bm.arrays = a
  | LoopExit.exit bm _ _ => bm.arrays = a
  | LoopExit.out_of_bounds => True
  | LoopExit.out_of_fuel => True

/-- The arrays of the structure a call leaves. -/
def ArrOut (a : List Nat × List Nat) : Outcome → Prop
  | Outcome.ret bm _ _ => bm.arrays = a
  | Outcome.out_of_bounds => True
  | Outcome.out_of_fuel => True

/-- The arrays after one pass from `retry`. -/
def ArrStep (a : List Nat × List Nat) : Step → Prop
  | Step.done o => ArrOut a o
  | Step.again bm _ _ => bm.arrays = a

/-! ## The MIDI transport bridge (`midi.c`) -/
/-- The callbacks `midi.c` installs as I/O watches: `midi_watch_ble_midi`,
`midi_watch_input` and `midi_watch_output`. -/
inductive Watch
  | ble_midi
  | input
  | output
  deriving DecidableEq, Repr

/-- The values of `g_io_channel_read_chars` the callbacks of `midi.c` switch
on. -/
inductive GIOStatus
  | G_IO_STATUS_AGAIN
  | G_IO_STATUS_ERROR
  | G_IO_STATUS_NORMAL
  | G_IO_STATUS_EOF
  deriving DecidableEq, Repr

/-- The fields of `struct ba_transport_midi` (`ba-transport-midi.h`) that
`midi.c` uses: the FIFO descriptor, `-1` when it is closed, and the id of its
watch. -/
structure ba_transport_midi where
  fd : Int
  fd_watch_id : Nat
  deriving DecidableEq, Repr

/-- The fields of `struct ba_transport` that `midi.c` uses: the descriptor of
the BLE-MIDI link, its write MTU, `midi.parser`, `midi.fd_watch_id`,
`midi.midi_in`, `midi.midi_out`, and the reference count. -/
structure ba_transport where
  bt_fd : Int
  mtu_write : Nat
  parser : ble_midi
  fd_watch_id : Nat
  midi_in : ba_transport_midi
  midi_out : ba_transport_midi
  ref_count : Int
  deriving DecidableEq, Repr

/-- Modelled from the spec: a watch held by the event loop of GLib, which is
not part of the repository. The watch has its id and its callback, and it holds
the transport reference taken when it was installed. -/
structure Source where
  id : Nat
  callback : Watch
  deriving DecidableEq, Repr

/-- Modelled from the spec: the event loop of GLib, which is not part of the
repository: the watches it holds and the last id it gave out. -/
structure MainLoop where
  sources : List Source
  last_id : Nat
  deriving DecidableEq, Repr

/-- What the functions of `midi.c` act on: the transport, the event loop,
`errno`, and the bytes written to the MIDI input FIFO and to the BLE-MIDI
link. -/
structure World where
  t : ba_transport
  loop : MainLoop
  errno : Nat
  fifo : List (List Nat)
  link : List (List Nat)
  deriving DecidableEq, Repr

/-- Modelled from the spec: `ba_transport_ref` of `ba-transport.c`, which is
not under `src/`: one more reference to the transport is held. -/
def ba_transport_ref (t : ba_transport) : ba_transport :=
  { t with ref_count := t.ref_count + 1 }

/-- Modelled from the spec: `ba_transport_unref` of `ba-transport.c`, which is
not under `src/`: a reference to the transport is dropped. -/
def ba_transport_unref (t : ba_transport) : ba_transport :=
  { t with ref_count := t.ref_count - 1 }

/-- Modelled from the spec: `g_io_add_watch_full` of GLib, which is not part of
the repository: the watch is installed, holding the transport reference passed
to it until it is removed, and its id, which is not zero, is returned. -/
def g_io_add_watch_full (loop : MainLoop) (callback : Watch) : MainLoop × Nat :=
  ({ sources := loop.sources ++ [{ id := loop.last_id + 1, callback := callback }],
     last_id := loop.last_id + 1 },
   loop.last_id + 1)

/-- Modelled from the spec: `g_source_remove` of GLib, which is not part of the
repository: the watch with the given id, when the loop holds one, is removed,
and the removal releases its reference through `ba_transport_unref`. -/
def g_source_remove (w : World) (id : Nat) : World :=
  if w.loop.sources.any (fun s => decide (s.id = id)) = true then
    { w with
      loop := { w.loop with sources := w.loop.sources.filter (fun s => decide (s.id ≠ id)) },
      t := ba_transport_unref w.t }
  else w

/-- The callback `midi_watch_ble_midi` (`midi.c`, lines 26-67) on the result
`status` of the read and the packet `data` that was read; the second component
is the returned `gboolean`. `none` stands for a faulting call of the parser. -/
def midi_watch_ble_midi (w : World) (status : GIOStatus) (data : List Nat) :
    Option (World × Bool) :=
  match status with
  | GIOStatus.G_IO_STATUS_AGAIN => some (w, true)
  | GIOStatus.G_IO_STATUS_ERROR => some (w, true)
  | GIOStatus.G_IO_STATUS_EOF => some (w, false)
  | GIOStatus.G_IO_STATUS_NORMAL =>
    match parse_packet w.t.parser w.errno data with
    | none => none
    | some d =>
      some ({ w with
              t := { w.t with parser := d.bm },
              errno := d.errno,
              fifo := if w.t.midi_in.fd ≠ -1 then w.fifo ++ d.emitted else w.fifo },
            true)

/-- The callback `midi_watch_input` (`midi.c`, lines 69-82). -/
def midi_watch_input (w : World) : World × Bool :=
  ({ w with t := { w.t with midi_in := { fd := -1, fd_watch_id := 0 } } }, false)

/-- The callback `midi_watch_output` (`midi.c`, lines 84-117). -/
def midi_watch_output (w : World) (status : GIOStatus) (data : List Nat) : World × Bool :=
  match status with
  | GIOStatus.G_IO_STATUS_AGAIN => (w, true)
  | GIOStatus.G_IO_STATUS_ERROR => (w, true)
  | GIOStatus.G_IO_STATUS_EOF =>
    ({ w with t := { w.t with midi_out := { fd := -1, fd_watch_id := 0 } } }, false)
  | GIOStatus.G_IO_STATUS_NORMAL =>
    (if w.t.bt_fd ≠ -1 ∧ w.t.mtu_write ≠ 0 then { w with link := w.link ++ [data] } else w,
     true)

/-- The function `midi_transport_start` (`midi.c`, lines 119-177). -/
def midi_transport_start (w : World) : World :=
  let w0 : World := { w with t := { w.t with parser := ble_midi.zero } }
  let w1 : World :=
    if w0.t.fd_watch_id = 0 ∧ w0.t.bt_fd ≠ -1 then
      { w0 with
        loop := (g_io_add_watch_full w0.loop Watch.ble_midi).1,
        t := { ba_transport_ref w0.t with
               fd_watch_id := (g_io_add_watch_full w0.loop Watch.ble_midi).2 } }
    else w0
  let w2 : World :=
    if w1.t.midi_in.fd_watch_id = 0 ∧ w1.t.midi_in.fd ≠ -1 then
      { w1 with
        loop := (g_io_add_watch_full w1.loop Watch.input).1,
        t := { ba_transport_ref w1.t with
               midi_in := { w1.t.midi_in with
                            fd_watch_id := (g_io_add_watch_full w1.loop Watch.input).2 } } }
    else w1
  if w2.t.midi_out.fd_watch_id = 0 ∧ w2.t.midi_out.fd ≠ -1 then
    { w2 with
      loop := (g_io_add_watch_full w2.loop Watch.output).1,
      t := { ba_transport_ref w2.t with
             midi_out := { w2.t.midi_out with
                           fd_watch_id := (g_io_add_watch_full w2.loop Watch.output).2 } } }
  else w2

/-- The function `midi_transport_stop` (`midi.c`, lines 179-189). -/
def midi_transport_stop (w : World) : World :=
  let w1 := if w.t.fd_watch_id ≠ 0 then g_source_remove w w.t.fd_watch_id else w
  let w2 := if w1.t.midi_in.fd_watch_id ≠ 0 then g_source_remove w1 w1.t.midi_in.fd_watch_id
    else w1
  if w2.t.midi_out.fd_watch_id ≠ 0 then g_source_remove w2 w2.t.midi_out.fd_watch_id else w2

/-- Modelled from the spec: one dispatch by the event loop of GLib, which is
not part of the repository, of the watch with the given id: its callback is
called, and when the callback returns FALSE the watch is removed and its
transport reference dropped. -/
def dispatch (w : World) (id : Nat) (status : GIOStatus) (data : List Nat) : Option World :=
  match w.loop.sources.find? (fun s => decide (s.id = id)) with
  | none => some w
  | some s =>
    let r : Option (World × Bool) :=
      match s.callback with
      | Watch.ble_midi => midi_watch_ble_midi w status data
      | Watch.input => some (midi_watch_input w)
      | Watch.output => some (midi_watch_output w status data)
    match r with
    | none => none
    | some (w1, true) => some w1
    | some (w1, false) => some (g_source_remove w1 id)

/-- The event loop holds the watch with the given id and callback, and with it
the transport reference of that watch. -/
def holds (w : World) (id : Nat) (callback : Watch) : Bool :=
  w.loop.sources.any (fun s => decide (s.id = id ∧ s.callback = callback))

/-- The invariant of the watch ids: each of `midi.fd_watch_id`,
`midi_in.fd_watch_id` and `midi_out.fd_watch_id` is non-zero exactly when the
event loop holds that watch. -/
def watch_invariant (w : World) : Bool :=
  decide ((w.t.fd_watch_id ≠ 0 ↔ holds w w.t.fd_watch_id Watch.ble_midi = true) ∧
    (w.t.midi_in.fd_watch_id ≠ 0 ↔ holds w w.t.midi_in.fd_watch_id Watch.input = true) ∧
    (w.t.midi_out.fd_watch_id ≠ 0 ↔ holds w w.t.midi_out.fd_watch_id Watch.output = true))

/-- A transport that was never started: the BLE-MIDI link has the descriptor
5, the two FIFOs have the descriptors 6 and 7, no watch is installed and the
only reference is that of the owner. -/
def fresh_world : World :=
  { t := { bt_fd := 5, mtu_write := 23, parser := ble_midi.zero, fd_watch_id := 0,
           midi_in := { fd := 6, fd_watch_id := 0 }, midi_out := { fd := 7, fd_watch_id := 0 },
           ref_count := 1 },
    loop := { sources := [], last_id := 0 },
    errno := 0, fifo := [], link := [] }

/-- The states reached from the never-started transport through
`midi_transport_start`, `midi_transport_stop` and dispatches of the three
watches. -/
inductive BridgeReachable : World → Prop
  | fresh : BridgeReachable fresh_world
  | start (w : World) : BridgeReachable w → BridgeReachable (midi_transport_start w)
  | stop (w : World) : BridgeReachable w → BridgeReachable (midi_transport_stop w)
  | event (w w1 : World) (id : Nat) (status : GIOStatus) (data : List Nat) :
    BridgeReachable w → dispatch w id status data = some w1 → BridgeReachable w1

/-- What is read off a state of the bridge: the three watch ids, the watches
the event loop holds, and the reference count. -/
def World.watches (w : World) : Nat × Nat × Nat × List Source × Int :=
  (w.t.fd_watch_id, w.t.midi_in.fd_watch_id, w.t.midi_out.fd_watch_id, w.loop.sources,
   w.t.ref_count)

/-! # Properties -/

/-! ## Bytes -/

theorem and_0x80_of_lt : ∀ b, b < 128 → b &&& 0x80 = 0 := by decide

set_option maxRecDepth 100000 in
theorem and_0x80_of_ge : ∀ b, b < 256 → 128 ≤ b → b &&& 0x80 ≠ 0 := by decide

/-! ## Writing a run of bytes into a fixed array -/

theorem write_at_length (vs : List Nat) : ∀ (buf : List Nat) (i : Nat),
    (write_at buf i vs).length = buf.length := by
  induction vs with
  | nil => intro buf i; rfl
  | cons v vs ih => intro buf i; simp [write_at, ih]

theorem take_succ_set (v : Nat) : ∀ (buf : List Nat) (i : Nat), i < buf.length →
    (buf.set i v).take (i + 1) = buf.take i ++ [v] := by
  intro buf
  induction buf with
  | nil => intro i h; simp at h
  | cons x xs ih =>
    intro i h
    cases i with
    | zero => simp
    | succ j =>
      have hj : j < xs.length := by simpa using h
      simp [ih j hj]

theorem write_at_take (vs : List Nat) : ∀ (buf : List Nat) (i : Nat),
    i + vs.length ≤ buf.length → (write_at buf i vs).take (i + vs.length) = buf.take i ++ vs := by
  induction vs with
  | nil => intro buf i _; simp [write_at]
  | cons v vs ih =>
    intro buf i h
    have h1 : i < buf.length := by simp at h; omega
    have h2 : i + 1 + vs.length ≤ (buf.set i v).length := by simp at h ⊢; omega
    have e : i + (v :: vs).length = i + 1 + vs.length := by simp; omega
    rw [e]
    simp only [write_at]
    rw [ih (buf.set i v) (i + 1) h2, take_succ_set v buf i h1]
    simp

theorem write_at_append (vs ws : List Nat) : ∀ (buf : List Nat) (i : Nat),
    write_at buf i (vs ++ ws) = write_at (write_at buf i vs) (i + vs.length) ws := by
  induction vs with
  | nil => intro buf i; simp [write_at]
  | cons v vs ih =>
    intro buf i
    have e : i + (vs.length + 1) = i + 1 + vs.length := by omega
    show write_at (buf.set i v) (i + 1) (vs ++ ws) = _
    rw [ih]
    simp only [write_at, List.length_cons, e]

/-! ## The data-byte loop -/

theorem consume_nil (bm : ble_midi) (l : Locals) : consume bm l [] = (bm, l) := by
  obtain ⟨b, sz, bl, st, cur⟩ := l
  cases b <;> rfl

theorem consume_cons (bm : ble_midi) (l : Locals) (d : Nat) (ds : List Nat) :
    consume (store bm l d).1
      { (store bm l d).2 with bm_current_len := (store bm l d).2.bm_current_len + 1 } ds
      = consume bm l (d :: ds) := by
  obtain ⟨b, sz, bl, st, cur⟩ := l
  cases b <;>
    simp [consume, store, write_at, Nat.add_assoc, Nat.add_comm 1]

theorem getElem?_mid (pre post : List Nat) (b : Nat) :
    (pre ++ b :: post)[pre.length]? = some b := by
  rw [List.getElem?_append_right (Nat.le_refl _)]
  simp

theorem data_loop_consume (data rest : List Nat) (hrest : rest ≠ []) :
    ∀ (ds pre : List Nat) (f : Nat) (bm : ble_midi) (l : Locals) (m : Nat),
      data = pre ++ (ds ++ rest) → l.bm_current_len = pre.length →
      (∀ d ∈ ds, d &&& 0x80 = 0) → ds.length < m →
      l.bm_buffer_len + ds.length ≤ l.bm_buffer_size →
      data_loop data (f + ds.length) bm l m =
        data_loop data f (consume bm l ds).1 (consume bm l ds).2 (m - ds.length) := by
  intro ds
  induction ds with
  | nil =>
    intro pre f bm l m _ _ _ _ _
    simp [consume_nil]
  | cons d ds ih =>
    intro pre f bm l m hdata hcur hlow hm hcap
    have hd : d &&& 0x80 = 0 := hlow d (by simp)
    have hread : data[l.bm_current_len]? = some d := by
      rw [hdata, hcur]; exact getElem?_mid pre (ds ++ rest) d
    have hlen : data.length = pre.length + (ds.length + 1 + rest.length) := by
      rw [hdata]; simp; omega
    have hrl : 0 < rest.length := List.length_pos.mpr hrest
    simp only [List.length_cons] at hm hcap
    have hf : f + (d :: ds).length = (f + ds.length) + 1 := by simp; omega
    rw [hf, data_loop]
    have hm1 : ¬ (m - 1 = 0) := by omega
    have hsz : l.bm_buffer_len < l.bm_buffer_size := by omega
    have hst : (store bm l d).2.bm_current_len = l.bm_current_len := by
      obtain ⟨b, sz, bl, st, cur⟩ := l
      cases b <;> rfl
    have hstl : (store bm l d).2.bm_buffer_len = l.bm_buffer_len + 1 := by
      obtain ⟨b, sz, bl, st, cur⟩ := l
      cases b <;> rfl
    have hsts : (store bm l d).2.bm_buffer_size = l.bm_buffer_size := by
      obtain ⟨b, sz, bl, st, cur⟩ := l
      cases b <;> rfl
    have hne : ¬ ((store bm l d).2.bm_current_len + 1 = data.length) := by
      rw [hst, hcur, hlen]; omega
    simp only [hm1, if_false, hread, hd, ne_eq, not_true_eq_false, hsz, hne]
    rw [ih (pre ++ [d]) f _ _ (m - 1) (by rw [hdata]; simp) (by simp [hst, hcur])
      (fun x hx => hlow x (by simp [hx])) (by omega) (by simp [hstl, hsts]; omega)]
    rw [consume_cons]
    have e : m - 1 - ds.length = m - (ds.length + 1) := by omega
    simp only [List.length_cons, e]

theorem consume_fst_sel (bm : ble_midi) (l : Locals) (ds : List Nat) :
    (consume bm l ds).2 = { l with bm_buffer_len := l.bm_buffer_len + ds.length,
                                   bm_current_len := l.bm_current_len + ds.length } := rfl

theorem data_loop_msg_done (data : List Nat) (f : Nat) (bm : ble_midi) (l : Locals) :
    data_loop data (f + 1) bm l 1 = LoopExit.exit bm l 0 := by
  simp [data_loop]

theorem data_loop_high (data : List Nat) (f : Nat) (bm : ble_midi) (l : Locals) (m b : Nat)
    (hm : 1 < m) (hread : data[l.bm_current_len]? = some b) (hb : b &&& 0x80 ≠ 0) :
    data_loop data (f + 1) bm l m = LoopExit.exit bm l (m - 1) := by
  have hm1 : ¬ (m - 1 = 0) := by omega
  simp [data_loop, hm1, hread, hb]

theorem data_loop_full (data : List Nat) (f : Nat) (bm : ble_midi) (l : Locals) (m b : Nat)
    (hm : 1 < m) (hread : data[l.bm_current_len]? = some b)
    (hfull : ¬ (l.bm_buffer_len < l.bm_buffer_size)) :
    data_loop data (f + 1) bm l m = LoopExit.exit bm l (m - 1) := by
  have hm1 : ¬ (m - 1 = 0) := by omega
  by_cases hb : b &&& 0x80 = 0
  · simp [data_loop, hm1, hread, hb, hfull]
  · simp [data_loop, hm1, hread, hb]

theorem data_loop_last (data : List Nat) (f : Nat) (bm : ble_midi) (l : Locals) (m b : Nat)
    (hm : 1 < m) (hread : data[l.bm_current_len]? = some b) (hb : b &&& 0x80 = 0)
    (hsz : l.bm_buffer_len < l.bm_buffer_size) (hend : l.bm_current_len + 1 = data.length) :
    data_loop data (f + 1) bm l m =
      LoopExit.goto_final (consume bm l [b]).1 (consume bm l [b]).2 := by
  have hm1 : ¬ (m - 1 = 0) := by omega
  have hst : (store bm l b).2.bm_current_len = l.bm_current_len := by
    obtain ⟨bf, sz, bl, st, cur⟩ := l
    cases bf <;> rfl
  have hc : consume bm l [b] = ((store bm l b).1,
      { (store bm l b).2 with bm_current_len := (store bm l b).2.bm_current_len + 1 }) := by
    obtain ⟨bf, sz, bl, st, cur⟩ := l
    cases bf <;> rfl
  simp [data_loop, hm1, hread, hb, hsz, hst, hend, hc]

theorem consume_append (bm : ble_midi) (l : Locals) (ds es : List Nat) :
    consume (consume bm l ds).1 (consume bm l ds).2 es = consume bm l (ds ++ es) := by
  obtain ⟨bf, sz, bl, st, cur⟩ := l
  cases bf <;>
    simp [consume, write_at_append, Nat.add_assoc]

/-- The loop reaches the end of the packet while storing the data bytes `ds`. -/
theorem data_loop_to_end (data : List Nat) (ds pre : List Nat) (fuel : Nat) (bm : ble_midi)
    (l : Locals) (m : Nat) (hds : ds ≠ [])
    (hdata : data = pre ++ ds) (hcur : l.bm_current_len = pre.length)
    (hlow : ∀ d ∈ ds, d &&& 0x80 = 0) (hm : ds.length < m)
    (hcap : l.bm_buffer_len + ds.length ≤ l.bm_buffer_size) (hfuel : ds.length ≤ fuel) :
    data_loop data fuel bm l m =
      LoopExit.goto_final (consume bm l ds).1 (consume bm l ds).2 := by
  obtain ⟨es, d, rfl⟩ : ∃ es d, ds = es ++ [d] := by
    rcases List.eq_nil_or_concat ds with h | ⟨es, d, h⟩
    · exact absurd h hds
    · exact ⟨es, d, by simpa using h⟩
  simp only [List.length_append, List.length_singleton] at hm hcap hfuel
  have hf : fuel = (fuel - es.length - 1 + 1) + es.length := by omega
  rw [hf, data_loop_consume data [d] (by simp) es pre _ bm l m (by rw [hdata]) hcur
    (fun x hx => hlow x (by simp [hx])) (by omega) (by omega)]
  have hread : data[(consume bm l es).2.bm_current_len]? = some d := by
    rw [consume_fst_sel, hdata, hcur]
    simpa using getElem?_mid (pre ++ es) [] d
  rw [data_loop_last data _ _ _ (m - es.length) d (by omega) hread (hlow d (by simp))
    (by rw [consume_fst_sel]; simp; omega)
    (by rw [consume_fst_sel, hdata, hcur]; simp; omega), consume_append]

/-- The loop stores the data bytes `ds` and stops in front of the byte after
them, which is inside the packet. -/
theorem data_loop_to_rest (data : List Nat) (ds pre rest : List Nat) (fuel : Nat)
    (bm : ble_midi) (l : Locals) (m : Nat) (hrest : rest ≠ [])
    (hdata : data = pre ++ (ds ++ rest)) (hcur : l.bm_current_len = pre.length)
    (hlow : ∀ d ∈ ds, d &&& 0x80 = 0) (hm : ds.length < m)
    (hcap : l.bm_buffer_len + ds.length ≤ l.bm_buffer_size) (hfuel : ds.length < fuel) :
    data_loop data fuel bm l m =
      data_loop data (fuel - ds.length - 1 + 1) (consume bm l ds).1 (consume bm l ds).2
        (m - ds.length) := by
  have hf : fuel = (fuel - ds.length - 1 + 1) + ds.length := by omega
  conv_lhs => rw [hf]
  exact data_loop_consume data rest hrest ds pre _ bm l m hdata hcur hlow hm hcap

/-! ## One message -/

theorem message_len_sysex : ble_midi_message_len 0xF0 = SIZE_MAX := by decide

theorem size_max_large : 1000 < SIZE_MAX := by decide

theorem consume_snd_status (bm : ble_midi) (l : Locals) (ds : List Nat) :
    (consume bm l ds).2.bm_status = l.bm_status := rfl

theorem consume_snd_len (bm : ble_midi) (l : Locals) (ds : List Nat) :
    (consume bm l ds).2.bm_buffer_len = l.bm_buffer_len + ds.length := rfl

theorem consume_snd_size (bm : ble_midi) (l : Locals) (ds : List Nat) :
    (consume bm l ds).2.bm_buffer_size = l.bm_buffer_size := rfl

theorem consume_snd_cur (bm : ble_midi) (l : Locals) (ds : List Nat) :
    (consume bm l ds).2.bm_current_len = l.bm_current_len + ds.length := rfl

/-- A message other than SysEx whose data bytes `ds` are all present is
handed to `final` with exactly those bytes stored. -/
theorem parse_message_complete (data ds pre rest : List Nat) (bm : ble_midi) (l : Locals)
    (e : Nat) (hs : ble_midi_message_len l.bm_status = ds.length + 1)
    (hnf0 : l.bm_status ≠ 0xF0)
    (hnr : ¬ (l.bm_buffer_len = 0 ∧ bm.status_restore = true))
    (hdata : data = pre ++ (ds ++ rest)) (hcur : l.bm_current_len = pre.length)
    (hlow : ∀ d ∈ ds, d &&& 0x80 = 0)
    (hcap : l.bm_buffer_len + ds.length < l.bm_buffer_size) :
    parse_message data bm l e =
      Step.done (final (consume bm l ds).1 (consume bm l ds).2 e) := by
  have hlen : data.length = pre.length + (ds.length + rest.length) := by
    rw [hdata]; simp
  unfold parse_message
  simp only [hnr, if_false, hs]
  rw [if_neg (by omega)]
  by_cases hrest : rest = []
  · by_cases hds : ds = []
    · subst hds
      simp only [List.length_nil, Nat.zero_add, data_loop_msg_done, consume_nil, after_data]
      simp at hcap
      simp [hnf0, Nat.ne_of_lt hcap]
    · rw [data_loop_to_end data ds pre _ bm l _ hds (by rw [hdata, hrest]; simp) hcur hlow
        (by omega) (by omega) (by omega)]
  · rw [data_loop_to_rest data ds pre rest _ bm l _ hrest hdata hcur hlow (by omega)
      (by omega) (by omega)]
    have e1 : ds.length + 1 - ds.length = 1 := by omega
    rw [e1, data_loop_msg_done]
    simp only [after_data, consume_snd_status, consume_snd_len, consume_snd_size]
    simp [hnf0, Nat.ne_of_lt hcap]

/-- The running-status fix stores the remembered status byte first. -/
theorem parse_message_restore (data : List Nat) (bm : ble_midi) (l : Locals) (e : Nat)
    (h0 : l.bm_buffer_len = 0) (hr : bm.status_restore = true) :
    parse_message data bm l e =
      parse_message data { (store bm l l.bm_status).1 with status_restore := false }
        (store bm l l.bm_status).2 e := by
  obtain ⟨bf, sz, bl, st, cur⟩ := l
  simp only at h0
  subst h0
  cases bf <;> simp [parse_message, hr, store]

/-- SysEx body bytes up to the end of the packet. -/
theorem parse_message_sysex_end (data ds pre : List Nat) (bm : ble_midi) (l : Locals)
    (e : Nat) (hs : l.bm_status = 0xF0) (hds : ds ≠ [])
    (hnr : ¬ (l.bm_buffer_len = 0 ∧ bm.status_restore = true))
    (hdata : data = pre ++ ds) (hcur : l.bm_current_len = pre.length)
    (hlow : ∀ d ∈ ds, d &&& 0x80 = 0)
    (hcap : l.bm_buffer_len + ds.length ≤ l.bm_buffer_size) (hsz : l.bm_buffer_size ≤ 256) :
    parse_message data bm l e =
      Step.done (final (consume bm l ds).1 (consume bm l ds).2 e) := by
  have hlen : data.length = pre.length + ds.length := by rw [hdata]; simp
  have hbig := size_max_large
  unfold parse_message
  simp only [hnr, if_false, hs, message_len_sysex]
  rw [if_neg (by omega)]
  rw [data_loop_to_end data ds pre _ bm l _ hds hdata hcur hlow (by omega) hcap (by omega)]

/-- SysEx body bytes followed by a byte with bit 7 set: the pass ends with
`goto retry`, the cursor on that byte. -/
theorem parse_message_sysex_high (data ds pre rest : List Nat) (b : Nat) (bm : ble_midi)
    (l : Locals) (e : Nat) (hs : l.bm_status = 0xF0)
    (hnr : ¬ (l.bm_buffer_len = 0 ∧ bm.status_restore = true))
    (hdata : data = pre ++ (ds ++ b :: rest)) (hcur : l.bm_current_len = pre.length)
    (hlow : ∀ d ∈ ds, d &&& 0x80 = 0) (hb : b &&& 0x80 ≠ 0)
    (hcap : l.bm_buffer_len + ds.length < l.bm_buffer_size) (hsz : l.bm_buffer_size ≤ 256) :
    parse_message data bm l e =
      Step.again { (consume bm l ds).1 with buffer_sys_len := l.bm_buffer_len + ds.length }
        (consume bm l ds).2 e := by
  have hlen : data.length = pre.length + (ds.length + (rest.length + 1)) := by
    rw [hdata]; simp
  have hbig := size_max_large
  unfold parse_message
  simp only [hnr, if_false, hs, message_len_sysex]
  rw [if_neg (by omega)]
  rw [data_loop_to_rest data ds pre (b :: rest) _ bm l _ (by simp) hdata hcur hlow (by omega)
      (by omega) (by omega)]
  have hread : data[(consume bm l ds).2.bm_current_len]? = some b := by
    rw [consume_snd_cur, hcur, hdata, ← List.append_assoc]
    simpa using getElem?_mid (pre ++ ds) rest b
  rw [data_loop_high data _ _ _ _ b (by omega) hread hb]
  simp only [after_data, consume_snd_status, consume_snd_len, consume_snd_size, hs]
  simp [Nat.ne_of_lt hcap]

/-- SysEx body bytes that fill the reassembly buffer while more packet bytes
follow: `errno` becomes `EMSGSIZE` and the truncated message goes to `final`. -/
theorem parse_message_sysex_overflow (data ds pre rest : List Nat) (bm : ble_midi)
    (l : Locals) (e : Nat) (hs : l.bm_status = 0xF0) (hrest : rest ≠ [])
    (hnr : ¬ (l.bm_buffer_len = 0 ∧ bm.status_restore = true))
    (hdata : data = pre ++ (ds ++ rest)) (hcur : l.bm_current_len = pre.length)
    (hlow : ∀ d ∈ ds, d &&& 0x80 = 0)
    (hcap : l.bm_buffer_len + ds.length = l.bm_buffer_size) (hsz : l.bm_buffer_size ≤ 256) :
    parse_message data bm l e =
      Step.done (final (consume bm l ds).1 (consume bm l ds).2 EMSGSIZE) := by
  obtain ⟨b, rest1, rfl⟩ : ∃ b r, rest = b :: r := by
    cases rest with
    | nil => exact absurd rfl hrest
    | cons b r => exact ⟨b, r, rfl⟩
  have hlen : data.length = pre.length + (ds.length + (rest1.length + 1)) := by
    rw [hdata]; simp
  have hbig := size_max_large
  unfold parse_message
  simp only [hnr, if_false, hs, message_len_sysex]
  rw [if_neg (by omega)]
  rw [data_loop_to_rest data ds pre (b :: rest1) _ bm l _ (by simp) hdata hcur hlow (by omega)
      (by omega) (by omega)]
  have hread : data[(consume bm l ds).2.bm_current_len]? = some b := by
    rw [consume_snd_cur, hcur, hdata, ← List.append_assoc]
    simpa using getElem?_mid (pre ++ ds) rest1 b
  rw [data_loop_full data _ _ _ _ b (by omega) hread
    (by rw [consume_snd_len, consume_snd_size]; omega)]
  simp only [after_data, consume_snd_status, consume_snd_len, consume_snd_size, hs]
  simp [hcap]

/-! ## Status bytes, timestamps and the entry of a call -/

/-- A status byte other than SysEx start or end, followed by all its data
bytes. -/
theorem parse_status_complete (data ds pre rest : List Nat) (s : Nat) (bm : ble_midi)
    (l : Locals) (e : Nat) (hs : ble_midi_message_len s = ds.length + 1)
    (hf0 : s ≠ 0xF0) (hf7 : s ≠ 0xF7)
    (hdata : data = pre ++ (s :: (ds ++ rest))) (hcur : l.bm_current_len = pre.length)
    (hlow : ∀ d ∈ ds, d &&& 0x80 = 0)
    (hcap : l.bm_buffer_len + 1 + ds.length < l.bm_buffer_size) :
    parse_status data bm l e s =
      Step.done (final (consume bm { l with bm_status := s } (s :: ds)).1
        (consume bm { l with bm_status := s } (s :: ds)).2 e) := by
  have hlen : data.length = pre.length + (1 + (ds.length + rest.length)) := by
    rw [hdata]; simp; omega
  have hsz : l.bm_buffer_len < l.bm_buffer_size := by omega
  unfold parse_status
  simp only [hf0, hf7, if_false, hsz, if_true]
  have hst : (store bm { l with bm_status := s } s).2.bm_current_len = l.bm_current_len := by
    obtain ⟨bf, sz, bl, st, cur⟩ := l
    cases bf <;> rfl
  by_cases hend : l.bm_current_len + 1 = data.length
  · have hds : ds = [] := by
      apply List.eq_nil_of_length_eq_zero; omega
    subst hds
    simp only [hst, hend, if_true]
    rw [← consume_cons, consume_nil]
    simp [hst, hend]
  · simp only [hst, hend, if_false]
    rw [parse_message_complete data ds (pre ++ [s]) rest _ _ e
      (by obtain ⟨bf, sz, bl, st, cur⟩ := l; cases bf <;> simpa [store] using hs)
      (by obtain ⟨bf, sz, bl, st, cur⟩ := l; cases bf <;> simpa [store] using hf0)
      (by obtain ⟨bf, sz, bl, st, cur⟩ := l; cases bf <;> simp [store])
      (by rw [hdata]; simp)
      (by simp [hst, hcur])
      hlow
      (by obtain ⟨bf, sz, bl, st, cur⟩ := l; cases bf <;> simp [store] <;> simp at hcap <;> omega)]
    rw [← consume_cons bm { l with bm_status := s } s ds]
    simp [hst]

/-- Timestamp byte followed by a status byte. -/
theorem retry_body_ts_status (data pre post : List Nat) (t s : Nat) (bm : ble_midi)
    (l : Locals) (e : Nat) (hdata : data = pre ++ (t :: s :: post))
    (hcur : l.bm_current_len = pre.length) (ht : t &&& 0x80 ≠ 0) (hs : s &&& 0x80 ≠ 0) :
    retry_body data bm l e =
      parse_status data { bm with ts := bm.ts_high ||| (t &&& 0x7F) }
        { l with bm_current_len := l.bm_current_len + 1 } e s := by
  have hlen : data.length = pre.length + (2 + post.length) := by
    rw [hdata]; simp; omega
  have h1 : data[l.bm_current_len]? = some t := by
    rw [hdata, hcur]; exact getElem?_mid pre _ t
  have h2 : data[l.bm_current_len + 1]? = some s := by
    rw [hdata, hcur]
    simpa using getElem?_mid (pre ++ [t]) post s
  have hne : ¬ (l.bm_current_len + 1 = data.length) := by omega
  unfold retry_body
  simp only [h1, h2, ht, hs, ne_eq, not_false_eq_true, if_true, hne, if_false]

/-- Timestamp byte followed by a data byte (running status or SysEx body). -/
theorem retry_body_ts_data (data pre post : List Nat) (t d : Nat) (bm : ble_midi)
    (l : Locals) (e : Nat) (hdata : data = pre ++ (t :: d :: post))
    (hcur : l.bm_current_len = pre.length) (ht : t &&& 0x80 ≠ 0) (hd : d &&& 0x80 = 0) :
    retry_body data bm l e =
      parse_message data { bm with ts := bm.ts_high ||| (t &&& 0x7F) }
        { l with bm_current_len := l.bm_current_len + 1 } e := by
  have hlen : data.length = pre.length + (2 + post.length) := by
    rw [hdata]; simp; omega
  have h1 : data[l.bm_current_len]? = some t := by
    rw [hdata, hcur]; exact getElem?_mid pre _ t
  have h2 : data[l.bm_current_len + 1]? = some d := by
    rw [hdata, hcur]
    simpa using getElem?_mid (pre ++ [t]) post d
  have hne : ¬ (l.bm_current_len + 1 = data.length) := by omega
  unfold retry_body
  simp only [h1, h2, ht, hd, ne_eq, not_false_eq_true, not_true_eq_false, if_true, hne, if_false]

/-- Data byte without a timestamp byte in front of it. -/
theorem retry_body_data (data pre post : List Nat) (d : Nat) (bm : ble_midi)
    (l : Locals) (e : Nat) (hdata : data = pre ++ (d :: post))
    (hcur : l.bm_current_len = pre.length) (hd : d &&& 0x80 = 0) :
    retry_body data bm l e = parse_message data bm l e := by
  have h1 : data[l.bm_current_len]? = some d := by
    rw [hdata, hcur]; exact getElem?_mid pre _ d
  unfold retry_body
  simp only [h1, hd, ne_eq, not_true_eq_false, if_false]

theorem retry_done (data : List Nat) (f : Nat) (bm : ble_midi) (l : Locals) (e : Nat)
    (o : Outcome) (h : retry_body data bm l e = Step.done o) :
    retry data (f + 1) bm l e = o := by
  simp [retry, h]

theorem retry_again (data : List Nat) (f : Nat) (bm bm1 : ble_midi) (l l1 : Locals)
    (e e1 : Nat) (h : retry_body data bm l e = Step.again bm1 l1 e1) :
    retry data (f + 1) bm l e = retry data f bm1 l1 e1 := by
  simp [retry, h]

set_option maxRecDepth 100000 in
theorem header_shift : ∀ h, h < 0xC0 → 0x80 ≤ h → h >>> 6 = 2 := by decide

/-- First call on a packet with a valid header. -/
theorem parse_entry_header (bm : ble_midi) (e h : Nat) (post : List Nat)
    (hcur : bm.current_len = 0) (hlen : 3 ≤ (h :: post).length)
    (hh : 0x80 ≤ h ∧ h < 0xC0) :
    ble_midi_parse bm e (h :: post) =
      retry (h :: post) ((h :: post).length + 1) { bm with ts_high := (h &&& 0x3F) <<< 7 }
        { entry_locals bm with bm_current_len := 1 } e := by
  have hsh := header_shift h hh.2 hh.1
  have h3 : ¬ ((h :: post).length < 3) := by omega
  have h0 : ¬ (0 = (h :: post).length) := by simp
  unfold ble_midi_parse entry_locals
  have h4 : ¬ (post.length + 1 < 3) := by simpa using h3
  cases hsys : bm.status_sys <;>
    simp [hcur, h4, hsh, Buf.size]

/-- Later call on the same packet, the cursor inside it. -/
theorem parse_entry_mid (bm : ble_midi) (e : Nat) (data : List Nat)
    (h0 : bm.current_len ≠ 0) (hne : bm.current_len ≠ data.length) :
    ble_midi_parse bm e data = retry data (data.length + 1) bm (entry_locals bm) e := by
  unfold ble_midi_parse entry_locals
  cases hsys : bm.status_sys <;>
    simp [hne, h0, Buf.size]

/-- Call with the cursor at the end of the packet. -/
theorem parse_entry_end (bm : ble_midi) (e : Nat) (data : List Nat)
    (h : bm.current_len = data.length) :
    ble_midi_parse bm e data = Outcome.ret { bm with current_len := 0 } e 0 := by
  simp [ble_midi_parse, h, reset]

/-! ## The label `final` -/

theorem final_emit (bm : ble_midi) (l : Locals) (e : Nat) (h : l.bm_status ≠ 0xF0) :
    final bm l e = Outcome.ret (emit bm l) e 1 := by
  unfold final emit
  simp only [h, if_false]
  split_ifs <;> rfl

theorem final_suspend (bm : ble_midi) (l : Locals) (e : Nat) (h : l.bm_status = 0xF0) :
    final bm l e = Outcome.ret (suspend bm l) e 0 := by
  unfold final suspend reset
  simp [h]

theorem parse_enter (bm : ble_midi) (e : Nat) (data pre post : List Nat)
    (hdata : data = pre ++ post) (hpost : post ≠ []) (hpos : Pos bm data pre) :
    ble_midi_parse bm e data =
      retry data (data.length + 1) (enter bm data)
        { entry_locals bm with bm_current_len := pre.length } e := by
  rcases hpos with ⟨h0, h3, h, hpre, hh⟩ | ⟨h0, hcur⟩
  · subst hpre
    have hd : data = h :: post := by simpa using hdata
    subst hd
    rw [parse_entry_header bm e h post h0 h3 hh]
    simp [enter, h0]
  · have hne : bm.current_len ≠ data.length := by
      have : 0 < post.length := List.length_pos.mpr hpost
      rw [hdata, hcur, List.length_append]; omega
    rw [parse_entry_mid bm e data h0 hne]
    have he : { entry_locals bm with bm_current_len := pre.length } = entry_locals bm := by
      unfold entry_locals
      cases bm.status_sys <;> simp [hcur]
    simp [enter, h0, he]

theorem message_len_le (s : Nat) (h : s ≠ 0xF0) : ble_midi_message_len s ≤ 3 := by
  unfold ble_midi_message_len
  split_ifs <;> omega

set_option maxRecDepth 100000 in
theorem status_high : ∀ s, s < 256 → ble_midi_message_len s ≠ 0 → s &&& 0x80 ≠ 0 := by
  decide

theorem msg_state_message (bm : ble_midi) (t s : Nat) (ds : List Nat) (cur : Nat)
    (hbuf : bm.buffer_midi.length = 8) (hds : ds.length ≤ 2) :
    (msg_state bm t s ds cur).message = s :: ds := by
  have h := write_at_take (s :: ds) bm.buffer_midi 0 (by simp; omega)
  simp only [Nat.zero_add, List.length_cons, List.take_zero, List.nil_append] at h
  simp [msg_state, ble_midi.message, h]

/-- A call positioned in front of a timestamp byte, a status byte other than
SysEx start or end and all its data bytes, no SysEx being in flight, returns 1
and leaves `msg_state`. -/
theorem parse_complete_message (bm : ble_midi) (e : Nat) (data pre ds rest : List Nat)
    (t s : Nat) (hdata : data = pre ++ (t :: s :: (ds ++ rest))) (hpos : Pos bm data pre)
    (hsys : bm.status_sys = false)
    (ht : t &&& 0x80 ≠ 0) (hs : s &&& 0x80 ≠ 0) (hf0 : s ≠ 0xF0) (hf7 : s ≠ 0xF7)
    (hlen : ble_midi_message_len s = ds.length + 1) (hlow : ∀ d ∈ ds, d &&& 0x80 = 0) :
    ble_midi_parse bm e data =
      Outcome.ret (msg_state (enter bm data) t s ds (pre.length + 2 + ds.length)) e 1 := by
  have hle := message_len_le s hf0
  rw [parse_enter bm e data pre _ hdata (by simp) hpos]
  have hl : entry_locals bm = Locals.mk Buf.midi 8 0 bm.status bm.current_len := by
    simp [entry_locals, hsys]
  rw [hl]
  rw [retry_done data _ _ _ e _
    (by
      rw [retry_body_ts_status data pre (ds ++ rest) t s _ _ e hdata rfl ht hs]
      exact parse_status_complete data ds (pre ++ [t]) rest s _ _ e hlen hf0 hf7
        (by rw [hdata]; simp) (by simp) hlow (by simp; omega))]
  rw [final_emit _ _ e (by simpa [consume] using hf0)]
  congr 1
  simp [emit, consume, msg_state, hf7, Nat.add_assoc]
  omega

/-! ## Packets of complete messages -/

theorem enter_status_sys (bm : ble_midi) (data : List Nat) :
    (enter bm data).status_sys = bm.status_sys := by
  unfold enter; split_ifs <;> rfl

theorem enter_buffer_midi (bm : ble_midi) (data : List Nat) :
    (enter bm data).buffer_midi = bm.buffer_midi := by
  unfold enter; split_ifs <;> rfl

theorem enter_status (bm : ble_midi) (data : List Nat) :
    (enter bm data).status = bm.status := by
  unfold enter; split_ifs <;> rfl

theorem enter_status_restore (bm : ble_midi) (data : List Nat) :
    (enter bm data).status_restore = bm.status_restore := by
  unfold enter; split_ifs <;> rfl

theorem low_of_lt (ds : List Nat) (h : ∀ d ∈ ds, d < 0x80) : ∀ d ∈ ds, d &&& 0x80 = 0 :=
  fun d hd => and_0x80_of_lt d (h d hd)

theorem calls_complete_messages (e : Nat) (data : List Nat) :
    ∀ (ms : List Msg) (pre : List Nat) (bm : ble_midi),
      data = pre ++ wire_all ms → Pos bm data pre → bm.status_sys = false →
      bm.buffer_midi.length = 8 → (∀ m ∈ ms, m.complete) →
      (parse_calls data (ms.length + 1) bm e).map Outcome.view =
        ms.map (fun m => some (1, m.bytes)) ++
          [some (0, (ms.getLast?.map Msg.bytes).getD bm.message)] := by
  intro ms
  induction ms with
  | nil =>
    intro pre bm hdata hpos _ _ _
    have hd : data = pre := by simpa [wire_all] using hdata
    rcases hpos with ⟨_, h3, h, hpre, _⟩ | ⟨_, hcur⟩
    · rw [hd, hpre] at h3; simp at h3
    · have hend : bm.current_len = data.length := by rw [hd, hcur]
      simp [parse_calls, parse_entry_end bm e data hend, Outcome.view, ble_midi.message]
  | cons m ms ih =>
    intro pre bm hdata hpos hsys hbuf hms
    obtain ⟨ht1, ht2, hs1, hf0, hf7, hlen, hle, hlow⟩ := hms m (by simp)
    have hd : data = pre ++ (m.ts :: m.status :: (m.data ++ wire_all ms)) := by
      rw [hdata]; simp [wire_all, Msg.wire]
    have hcall := parse_complete_message bm e data pre m.data (wire_all ms) m.ts m.status hd hpos
      hsys (and_0x80_of_ge m.ts ht2 ht1)
      (status_high m.status hs1 (by rw [hlen]; omega)) hf0 hf7 hlen (low_of_lt m.data hlow)
    have hmsg := msg_state_message (enter bm data) m.ts m.status m.data
      (pre.length + 2 + m.data.length) (by rw [enter_buffer_midi]; exact hbuf) hle
    have hih := ih (pre ++ m.wire)
      (msg_state (enter bm data) m.ts m.status m.data (pre.length + 2 + m.data.length))
      (by rw [hdata]; simp [wire_all])
      (Or.inr ⟨by simp [msg_state], by simp [msg_state, Msg.wire]; omega⟩)
      (by simp [msg_state, enter_status_sys, hsys])
      (by simp [msg_state, write_at_length, enter_buffer_midi, hbuf])
      (fun x hx => hms x (by simp [hx]))
    have hcalls : parse_calls data (ms.length + 1 + 1) bm e =
        Outcome.ret (msg_state (enter bm data) m.ts m.status m.data
          (pre.length + 2 + m.data.length)) e 1 ::
        parse_calls data (ms.length + 1)
          (msg_state (enter bm data) m.ts m.status m.data (pre.length + 2 + m.data.length)) e := by
      rw [parse_calls, hcall]
    simp only [List.length_cons, hcalls, List.map_cons, hih, Outcome.view, hmsg, Msg.bytes,
      List.cons_append]
    cases ms with
    | nil => simp [Msg.bytes]
    | cons m2 ms2 =>
      simp [List.getLast?_cons_cons, Msg.bytes, List.getLast?_eq_getLast (m2 :: ms2) (by simp)]

/-- C1: a packet made of a valid header byte followed by k >= 1 complete
messages other than SysEx, each preceded by its own timestamp byte, parsed from
the all-zero state: call i (i = 1..k) returns 1 with `buffer[0..len)` equal to
the i-th message, and call k+1 returns 0 (so no call returns -1). -/
theorem parse_joined_messages (h e : Nat) (ms : List Msg) (hh : 0x80 ≤ h ∧ h < 0xC0)
    (hne : ms ≠ []) (hms : ∀ m ∈ ms, m.complete) :
    (parse_calls (h :: wire_all ms) (ms.length + 1) ble_midi.zero e).map Outcome.view =
      ms.map (fun m => some (1, m.bytes)) ++ [some (0, (ms.getLast hne).bytes)] := by
  have hlen : 3 ≤ (h :: wire_all ms).length := by
    cases ms with
    | nil => exact absurd rfl hne
    | cons m ms => simp [wire_all, Msg.wire]
  have hmain := calls_complete_messages e (h :: wire_all ms) ms [h] ble_midi.zero rfl
    (Or.inl ⟨rfl, hlen, h, rfl, hh.1, hh.2⟩) rfl rfl hms
  rw [hmain, List.getLast?_eq_getLast ms hne]
  simp

/-- Witness of C1 on the packet of `test_ble_midi_parse_single_joined`. -/
theorem parse_joined_messages_witness :
    (parse_calls [0x80, 0x81, 0x90, 0x40, 0x7f, 0x81, 0xE0, 0x10, 0x42] 3 ble_midi.zero 0).map
        Outcome.view =
      [some (1, [0x90, 0x40, 0x7f]), some (1, [0xE0, 0x10, 0x42]),
       some (0, [0xE0, 0x10, 0x42])] :=
  parse_joined_messages 0x80 0 [⟨0x81, 0x90, [0x40, 0x7f]⟩, ⟨0x81, 0xE0, [0x10, 0x42]⟩]
    (by decide) (by decide) (by decide)

theorem enter_ts_high_first (bm : ble_midi) (h : Nat) (post : List Nat)
    (hcur : bm.current_len = 0) :
    (enter bm (h :: post)).ts_high = (h &&& 0x3F) <<< 7 := by
  simp [enter, hcur]

/-- C2: a packet with a valid header, one timestamp byte and one complete
message whose status byte has classifier length 1, 2 or 3 and is not 0xF7,
parsed from the all-zero state: the first call returns 1 with `len` the
classifier length, `buffer` the message and `ts` built from header and
timestamp byte; the second call returns 0 and leaves `ts`, `len` and the
buffer contents as they were. -/
theorem parse_single_message (h t s e : Nat) (ds : List Nat)
    (hh : 0x80 ≤ h ∧ h < 0xC0) (ht : 0x80 ≤ t ∧ t < 0x100) (hs : s < 0x100) (hf7 : s ≠ 0xF7)
    (hlen : ble_midi_message_len s = ds.length + 1) (hn : ds.length ≤ 2)
    (hlow : ∀ d ∈ ds, d < 0x80) :
    ∃ bm1 bm2,
      ble_midi_parse ble_midi.zero e (h :: t :: s :: ds) = Outcome.ret bm1 e 1 ∧
      bm1.len = ds.length + 1 ∧ bm1.message = s :: ds ∧
      bm1.ts = ((h &&& 0x3F) <<< 7) ||| (t &&& 0x7F) ∧
      ble_midi_parse bm1 e (h :: t :: s :: ds) = Outcome.ret bm2 e 0 ∧
      bm2.ts = bm1.ts ∧ bm2.len = bm1.len ∧ bm2.message = bm1.message ∧
      bm2.buffer = bm1.buffer ∧ bm2.buffer_midi = bm1.buffer_midi ∧
      bm2.buffer_sys = bm1.buffer_sys := by
  have hf0 : s ≠ 0xF0 := by
    intro h0
    rw [h0, message_len_sysex] at hlen
    have := size_max_large
    omega
  have hcall := parse_complete_message ble_midi.zero e (h :: t :: s :: ds) [h] ds [] t s
    (by simp) (Or.inl ⟨rfl, by simp, h, rfl, hh.1, hh.2⟩) rfl
    (and_0x80_of_ge t ht.2 ht.1) (status_high s hs (by rw [hlen]; omega)) hf0 hf7 hlen
    (low_of_lt ds hlow)
  have hmsg := msg_state_message (enter ble_midi.zero (h :: t :: s :: ds)) t s ds
    ([h].length + 2 + ds.length) (by rw [enter_buffer_midi]; rfl) hn
  refine ⟨_, _, hcall, rfl, hmsg, ?_, parse_entry_end _ e _ ?_, rfl, rfl, rfl, rfl, rfl, rfl⟩
  · show (enter ble_midi.zero (h :: t :: s :: ds)).ts_high ||| (t &&& 0x7F) = _
    rw [enter_ts_high_first _ _ _ rfl]
  · simp [msg_state]; omega

/-- Witness of C2 on the packet of `test_ble_midi_parse_single`. -/
theorem parse_single_message_witness :
    ∃ bm1 bm2,
      ble_midi_parse ble_midi.zero 0 [0x85, 0x81, 0xC0, 0x42] = Outcome.ret bm1 0 1 ∧
      bm1.len = [0x42].length + 1 ∧ bm1.message = [0xC0, 0x42] ∧
      bm1.ts = ((0x85 &&& 0x3F) <<< 7) ||| (0x81 &&& 0x7F) ∧
      ble_midi_parse bm1 0 [0x85, 0x81, 0xC0, 0x42] = Outcome.ret bm2 0 0 ∧
      bm2.ts = bm1.ts ∧ bm2.len = bm1.len ∧ bm2.message = bm1.message ∧
      bm2.buffer = bm1.buffer ∧ bm2.buffer_midi = bm1.buffer_midi ∧
      bm2.buffer_sys = bm1.buffer_sys :=
  parse_single_message 0x85 0x81 0xC0 0 [0x42] (by decide) (by decide) (by decide) (by decide)
    (by decide) (by decide) (by decide)

set_option maxRecDepth 1000000 in
theorem status_table_all : ∀ s, s < 256 →
    (ble_midi_message_len s = status_table s ∧
      (ble_midi_message_len s = 0 ↔
        (s < 0x80 ∨ s = 0xF4 ∨ s = 0xF5 ∨ s = 0xF9 ∨ s = 0xFD))) := by
  decide

/-- C3: for every byte value, `ble_midi_message_len` equals the status-byte
table, and it is 0 exactly for the bytes below 0x80 and for 0xF4, 0xF5, 0xF9 and
0xFD. -/
theorem message_len_table (s : Nat) (hs : s < 256) :
    ble_midi_message_len s = status_table s ∧
      (ble_midi_message_len s = 0 ↔
        (s < 0x80 ∨ s = 0xF4 ∨ s = 0xF5 ∨ s = 0xF9 ∨ s = 0xFD)) :=
  status_table_all s hs

/-- Witness of C3 at the note-on status byte 0x90. -/
theorem message_len_table_witness :
    0x90 < 256 ∧ ble_midi_message_len 0x90 = status_table 0x90 ∧
      (ble_midi_message_len 0x90 = 0 ↔
        (0x90 < 0x80 ∨ 0x90 = 0xF4 ∨ 0x90 = 0xF5 ∨ 0x90 = 0xF9 ∨ 0x90 = 0xFD)) :=
  ⟨by decide, message_len_table 0x90 (by decide)⟩

/-! ## System exclusive messages -/

/-- SysEx start byte as the last byte of the packet. -/
theorem parse_status_sysex_start_end (data pre : List Nat) (bm : ble_midi) (l : Locals)
    (e : Nat) (hdata : data = pre ++ [0xF0]) (hcur : l.bm_current_len = pre.length)
    (hroom : bm.buffer_sys_len < 256) :
    parse_status data bm l e 0xF0 =
      Step.done (final (sysex_started bm (pre.length + 1)).1
        (sysex_started bm (pre.length + 1)).2 e) := by
  have hlen : data.length = pre.length + 1 := by rw [hdata]; simp
  unfold parse_status
  simp [Buf.size, hroom, store, hcur, hlen, sysex_started]

/-- SysEx start byte followed by more packet bytes. -/
theorem parse_status_sysex_start (data pre post : List Nat) (bm : ble_midi) (l : Locals)
    (e : Nat) (hdata : data = pre ++ (0xF0 :: post)) (hpost : post ≠ [])
    (hcur : l.bm_current_len = pre.length) (hroom : bm.buffer_sys_len < 256) :
    parse_status data bm l e 0xF0 =
      parse_message data (sysex_started bm (pre.length + 1)).1
        (sysex_started bm (pre.length + 1)).2 e := by
  have hp : 0 < post.length := List.length_pos.mpr hpost
  have hlen : data.length = pre.length + (1 + post.length) := by rw [hdata]; simp; omega
  have hne : ¬ (pre.length + 1 = data.length) := by omega
  unfold parse_status
  simp [Buf.size, hroom, store, hcur, hne, sysex_started]

/-- SysEx end byte as the last byte of the packet, the buffer having room. -/
theorem parse_status_sysex_stop (data pre : List Nat) (bm : ble_midi) (k cur st : Nat)
    (e : Nat) (hdata : data = pre ++ [0xF7]) (hcur : cur = pre.length) (hroom : k < 256) :
    parse_status data bm (Locals.mk Buf.sys 256 k st cur) e 0xF7 =
      Step.done (Outcome.ret (emit { bm with status_sys := false,
                                             buffer_sys := bm.buffer_sys.set k 0xF7 }
        (Locals.mk Buf.sys 256 (k + 1) 0xF7 (cur + 1))) e 1) := by
  have hlen : data.length = pre.length + 1 := by rw [hdata]; simp
  unfold parse_status
  simp [hroom, store, hcur, hlen, final_emit]

/-- SysEx end byte as the last byte of the packet, the buffer being full. -/
theorem parse_status_sysex_stop_full (data pre : List Nat) (bm : ble_midi) (cur st : Nat)
    (e : Nat) (hdata : data = pre ++ [0xF7]) (hcur : cur = pre.length) :
    parse_status data bm (Locals.mk Buf.sys 256 256 st cur) e 0xF7 =
      Step.done (Outcome.ret (emit { bm with status_sys := false }
        (Locals.mk Buf.sys 256 256 0xF7 (cur + 1))) e 1) := by
  have hlen : data.length = pre.length + 1 := by rw [hdata]; simp
  unfold parse_status
  simp [store, hcur, hlen, final_emit]

/-- The pass over a timestamp byte and the SysEx end byte that close the
packet, the buffer having room. -/
theorem retry_sysex_stop (data pre : List Nat) (t : Nat) (bm : ble_midi) (k cur st f : Nat)
    (e : Nat) (hdata : data = pre ++ [t, 0xF7]) (hcur : cur = pre.length)
    (ht : t &&& 0x80 ≠ 0) (hroom : k < 256) :
    retry data (f + 1) bm (Locals.mk Buf.sys 256 k st cur) e =
      Outcome.ret (emit { bm with ts := bm.ts_high ||| (t &&& 0x7F), status_sys := false,
                                  buffer_sys := bm.buffer_sys.set k 0xF7 }
        (Locals.mk Buf.sys 256 (k + 1) 0xF7 (cur + 2))) e 1 := by
  apply retry_done
  rw [retry_body_ts_status data pre [] t 0xF7 bm _ e hdata hcur ht (by decide)]
  exact parse_status_sysex_stop data (pre ++ [t]) _ k (cur + 1) st e (by rw [hdata]; simp)
    (by simp [hcur]) hroom

theorem take_write_set (buf : List Nat) (k : Nat) (ds : List Nat) (v : Nat)
    (h : k + ds.length + 1 ≤ buf.length) :
    ((write_at buf k ds).set (k + ds.length) v).take (k + ds.length + 1) =
      buf.take k ++ ds ++ [v] := by
  have e1 : (write_at buf k ds).set (k + ds.length) v = write_at buf k (ds ++ [v]) := by
    rw [write_at_append]; rfl
  have e2 : k + ds.length + 1 = k + (ds ++ [v]).length := by simp; omega
  rw [e1, e2, write_at_take (ds ++ [v]) buf k (by simp; omega)]
  simp

theorem entry_locals_midi (bm : ble_midi) (h : bm.status_sys = false) :
    entry_locals bm = Locals.mk Buf.midi 8 0 bm.status bm.current_len := by
  simp [entry_locals, h]

theorem entry_locals_sys (bm : ble_midi) (h : bm.status_sys = true) :
    entry_locals bm = Locals.mk Buf.sys 256 bm.buffer_sys_len 0xF0 bm.current_len := by
  simp [entry_locals, h]

theorem enter_buffer_sys (bm : ble_midi) (data : List Nat) :
    (enter bm data).buffer_sys = bm.buffer_sys := by
  unfold enter; split_ifs <;> rfl

theorem enter_buffer_sys_len (bm : ble_midi) (data : List Nat) :
    (enter bm data).buffer_sys_len = bm.buffer_sys_len := by
  unfold enter; split_ifs <;> rfl

theorem zero_buffer_sys_length : ble_midi.zero.buffer_sys.length = 256 := by
  show (List.replicate 256 0).length = 256
  exact List.length_replicate 256 0

/-- A whole SysEx message inside one packet, parsed from a state with no
SysEx in flight and an empty reassembly buffer: the call returns 1 with the
message in `buffer_sys`. -/
theorem parse_sysex_one_packet (bm : ble_midi) (e : Nat) (data pre body : List Nat)
    (t1 t2 : Nat) (hdata : data = pre ++ (t1 :: 0xF0 :: (body ++ [t2, 0xF7])))
    (hpos : Pos bm data pre) (hsys : bm.status_sys = false) (hk : bm.buffer_sys_len = 0)
    (hbuf : bm.buffer_sys.length = 256)
    (ht1 : t1 &&& 0x80 ≠ 0) (ht2 : t2 &&& 0x80 ≠ 0) (hlow : ∀ d ∈ body, d &&& 0x80 = 0)
    (hlen : body.length + 2 ≤ 256) :
    ∃ bm1, ble_midi_parse bm e data = Outcome.ret bm1 e 1 ∧
      bm1.message = 0xF0 :: (body ++ [0xF7]) ∧ bm1.len = body.length + 2 ∧
      bm1.current_len = data.length ∧ bm1.ts = bm1.ts_sys ∧
      bm1.ts_sys = (enter bm data).ts_high ||| (t1 &&& 0x7F) := by
  have hdl : data.length = pre.length + (4 + body.length) := by
    rw [hdata]; simp; omega
  rw [parse_enter bm e data pre _ hdata (by simp) hpos, entry_locals_midi bm hsys]
  have hpass : retry_body data (enter bm data) (Locals.mk Buf.midi 8 0 bm.status pre.length) e =
      Step.again
        { (consume (sysex_started { enter bm data with
              ts := (enter bm data).ts_high ||| (t1 &&& 0x7F) } (pre.length + 1 + 1)).1
            (sysex_started { enter bm data with
              ts := (enter bm data).ts_high ||| (t1 &&& 0x7F) } (pre.length + 1 + 1)).2 body).1
          with buffer_sys_len := 1 + body.length }
        (Locals.mk Buf.sys 256 (1 + body.length) 0xF0 (pre.length + 2 + body.length)) e := by
    rw [retry_body_ts_status data pre (body ++ [t2, 0xF7]) t1 0xF0 _ _ e hdata rfl ht1
      (by decide)]
    rw [parse_status_sysex_start data (pre ++ [t1]) (body ++ [t2, 0xF7]) _ _ e
      (by rw [hdata]; simp) (by simp) (by simp) (by simp [enter_buffer_sys_len, hk])]
    rw [parse_message_sysex_high data body (pre ++ [t1, 0xF0]) [0xF7] t2 _ _ e rfl
      (by simp [sysex_started]) (by rw [hdata]; simp) (by simp [sysex_started]) hlow ht2
      (by simp [sysex_started, enter_buffer_sys_len, hk]; omega) (by simp [sysex_started])]
    simp [sysex_started, consume, enter_buffer_sys_len, hk, Nat.add_assoc, Nat.add_comm]
    omega
  rw [retry_again data _ _ _ _ _ e e hpass]
  have hf : data.length = (data.length - 1) + 1 := by omega
  rw [hf, retry_sysex_stop data (pre ++ t1 :: 0xF0 :: body) t2 _ (1 + body.length)
    (pre.length + 2 + body.length) 0xF0 _ e (by rw [hdata]; simp) (by simp; omega) ht2
    (by omega)]
  refine ⟨_, rfl, ?_, ?_, ?_, ?_, ?_⟩
  · have htk := take_write_set ((enter bm data).buffer_sys.set 0 0xF0) 1 body 0xF7
      (by simp [enter_buffer_sys, hbuf]; omega)
    have h0 : ((enter bm data).buffer_sys.set 0 0xF0).take 1 = [0xF0] := by
      have := take_succ_set 0xF0 (enter bm data).buffer_sys 0 (by simp [enter_buffer_sys, hbuf])
      simpa using this
    rw [h0] at htk
    simp [emit, ble_midi.message, consume, sysex_started, enter_buffer_sys_len, hk]
    simpa using htk
  · simp [emit]; omega
  · simp [emit]; omega
  · simp [emit]
  · simp [emit, consume, sysex_started]

/-- C5: a packet holding a whole SysEx message (header, timestamp byte, 0xF0,
k >= 0 body bytes below 0x80, timestamp byte, 0xF7, with k + 2 <= 256), parsed
from the all-zero state: the first call returns 1 with the complete message
and `len = k + 2`, and the second call returns 0. -/
theorem parse_sysex_single (h t1 t2 e : Nat) (body : List Nat)
    (hh : 0x80 ≤ h ∧ h < 0xC0) (ht1 : 0x80 ≤ t1 ∧ t1 < 0x100) (ht2 : 0x80 ≤ t2 ∧ t2 < 0x100)
    (hlow : ∀ d ∈ body, d < 0x80) (hlen : body.length + 2 ≤ 256) :
    ∃ bm1 bm2,
      ble_midi_parse ble_midi.zero e (h :: t1 :: 0xF0 :: (body ++ [t2, 0xF7])) =
        Outcome.ret bm1 e 1 ∧
      bm1.message = 0xF0 :: (body ++ [0xF7]) ∧ bm1.len = body.length + 2 ∧
      ble_midi_parse bm1 e (h :: t1 :: 0xF0 :: (body ++ [t2, 0xF7])) = Outcome.ret bm2 e 0 := by
  obtain ⟨bm1, hcall, hmsg, hl, hcur, _, _⟩ :=
    parse_sysex_one_packet ble_midi.zero e (h :: t1 :: 0xF0 :: (body ++ [t2, 0xF7])) [h] body
      t1 t2 rfl (Or.inl ⟨rfl, by simp, h, rfl, hh.1, hh.2⟩) rfl rfl zero_buffer_sys_length
      (and_0x80_of_ge t1 ht1.2 ht1.1) (and_0x80_of_ge t2 ht2.2 ht2.1) (low_of_lt body hlow) hlen
  exact ⟨bm1, _, hcall, hmsg, hl, parse_entry_end bm1 e _ hcur⟩

/-- Witness of C5 on the packet of `test_ble_midi_parse_single_system_exclusive`. -/
theorem parse_sysex_single_witness :
    ∃ bm1 bm2,
      ble_midi_parse ble_midi.zero 0 (0x80 :: 0x81 :: 0xF0 :: ([0x01, 0x02] ++ [0x81, 0xF7])) =
        Outcome.ret bm1 0 1 ∧
      bm1.message = 0xF0 :: ([0x01, 0x02] ++ [0xF7]) ∧ bm1.len = [0x01, 0x02].length + 2 ∧
      ble_midi_parse bm1 0 (0x80 :: 0x81 :: 0xF0 :: ([0x01, 0x02] ++ [0x81, 0xF7])) =
        Outcome.ret bm2 0 0 :=
  parse_sysex_single 0x80 0x81 0x81 0 [0x01, 0x02] (by decide) (by decide) (by decide)
    (by decide) (by decide)

/-! ## Running status -/

theorem running_state_message (bm : ble_midi) (ds : List Nat) (cur : Nat)
    (hbuf : bm.buffer_midi.length = 8) (hds : ds.length ≤ 2) :
    (running_state bm ds cur).message = restored bm ++ ds := by
  have hr : (restored bm).length ≤ 1 := by
    unfold restored; split_ifs <;> simp
  have h := write_at_take (restored bm ++ ds) bm.buffer_midi 0 (by simp; omega)
  simp only [Nat.zero_add, List.take_zero, List.nil_append] at h
  simp only [running_state, ble_midi.message]
  exact h

set_option maxRecDepth 100000 in
theorem system_common_nibble : ∀ s, s < 0xF8 → 0xF0 ≤ s → s &&& 0xF0 = 0xF0 := by decide

/-- Data bytes of a channel-voice message under running status, at the level
of `parse_message`. -/
theorem parse_message_running (data ds pre rest : List Nat) (bm : ble_midi) (cur e : Nat)
    (hs : ble_midi_message_len bm.status = ds.length + 1)
    (hcv : bm.status &&& 0xF0 ≠ 0xF0)
    (hdata : data = pre ++ (ds ++ rest)) (hcur : cur = pre.length)
    (hlow : ∀ d ∈ ds, d &&& 0x80 = 0) :
    parse_message data bm (Locals.mk Buf.midi 8 0 bm.status cur) e =
      Step.done (Outcome.ret (running_state bm ds (cur + ds.length)) e 1) := by
  have hf0 : bm.status ≠ 0xF0 := by
    intro h; rw [h] at hcv; exact hcv (by decide)
  have hle := message_len_le bm.status hf0
  have hnf : ¬ (bm.status ≥ 0xF0 ∧ bm.status < 0xF8) := by
    intro ⟨h1, h2⟩
    exact hcv (system_common_nibble _ h2 h1)
  have hf7 : bm.status ≠ 0xF7 := by
    intro h; rw [h] at hcv; exact hcv (by decide)
  cases hr : bm.status_restore
  · rw [parse_message_complete data ds pre rest bm _ e hs hf0 (by simp [hr]) hdata hcur hlow
      (by simp; omega)]
    rw [final_emit _ _ e (by simpa [consume] using hf0)]
    simp [emit, consume, running_state, restored, hr, hcv, hnf, hf7]
  · rw [parse_message_restore data bm _ e rfl hr]
    rw [parse_message_complete data ds pre rest _ _ e (by simpa [store] using hs)
      (by simpa [store] using hf0) (by simp [store]) hdata (by simp [store, hcur]) hlow
      (by simp [store]; omega)]
    rw [final_emit _ _ e (by simpa [consume, store] using hf0)]
    simp [emit, consume, store, running_state, restored, hr, hcv, hnf, hf7, write_at]
    omega

/-- A call positioned in front of a running-status message (its data bytes,
with or without a timestamp byte before them), no SysEx being in flight and
the remembered status being a channel-voice status. -/
theorem parse_running_status (bm : ble_midi) (e : Nat) (data pre ds rest : List Nat)
    (tsb : Option Nat) (hdata : data = pre ++ (tsb.toList ++ (ds ++ rest)))
    (hpos : Pos bm data pre) (hsys : bm.status_sys = false) (hds : ds ≠ [])
    (hs : ble_midi_message_len bm.status = ds.length + 1)
    (hcv : bm.status &&& 0xF0 ≠ 0xF0)
    (ht : ∀ t ∈ tsb, t &&& 0x80 ≠ 0) (hlow : ∀ d ∈ ds, d &&& 0x80 = 0) :
    ble_midi_parse bm e data =
      Outcome.ret (running_state (stamp (enter bm data) tsb) ds
        (pre.length + tsb.toList.length + ds.length)) e 1 := by
  obtain ⟨d, ds1, rfl⟩ : ∃ d r, ds = d :: r := by
    cases ds with
    | nil => exact absurd rfl hds
    | cons d r => exact ⟨d, r, rfl⟩
  have hd : d &&& 0x80 = 0 := hlow d (by simp)
  rw [parse_enter bm e data pre _ hdata (by cases tsb <;> simp) hpos, entry_locals_midi bm hsys]
  apply retry_done
  cases tsb with
  | none =>
    rw [retry_body_data data pre (ds1 ++ rest) d _ _ e (by simpa using hdata) rfl hd]
    have h := parse_message_running data (d :: ds1) pre rest (enter bm data) pre.length e
      (by rw [enter_status]; exact hs) (by rw [enter_status]; exact hcv)
      (by simpa using hdata) rfl hlow
    rw [enter_status] at h
    simpa [stamp] using h
  | some t =>
    rw [retry_body_ts_data data pre (ds1 ++ rest) t d _ _ e (by simpa using hdata) rfl
      (ht t rfl) hd]
    have h := parse_message_running data (d :: ds1) (pre ++ [t]) rest
      { enter bm data with ts := (enter bm data).ts_high ||| (t &&& 0x7F) } (pre.length + 1) e
      (by simp only [enter_status]; exact hs) (by simp only [enter_status]; exact hcv)
      (by simpa using hdata) (by simp) hlow
    rw [← enter_status bm data]
    simpa [stamp, Nat.add_assoc] using h

theorem enter_mid (bm : ble_midi) (data : List Nat) (h : bm.current_len ≠ 0) :
    enter bm data = bm := by
  simp [enter, h]

theorem parse_calls_ret (data : List Nat) (n : Nat) (bm bm1 : ble_midi) (e e1 : Nat) (rv : Int)
    (h : ble_midi_parse bm e data = Outcome.ret bm1 e1 rv) :
    parse_calls data (n + 1) bm e = Outcome.ret bm1 e1 rv :: parse_calls data n bm1 e1 := by
  rw [parse_calls, h]

set_option maxRecDepth 100000 in
theorem channel_voice_nibble : ∀ s, s < 0xF0 → s &&& 0xF0 ≠ 0xF0 := by decide

set_option maxRecDepth 100000 in
theorem channel_voice_high : ∀ s, s < 0xF0 → 0x80 ≤ s → s &&& 0x80 ≠ 0 := by decide

set_option maxRecDepth 100000 in
theorem system_nibble : ∀ s, s < 0x100 → 0xF0 ≤ s → s &&& 0xF0 = 0xF0 := by decide

set_option maxRecDepth 100000 in
theorem channel_voice_len : ∀ s, s < 0xF0 → 0x80 ≤ s → ble_midi_message_len s ≠ 1 := by
  decide

/-- C6 (amended): in a state whose remembered status is a channel-voice status
s with classifier length n, with no SysEx in flight and `status_restore` clear,
a running-status message of n-1 data bytes below 0x80 (with or without a
timestamp byte in front, later in the same packet or right after the header of
a next packet of at least 3 bytes) makes `ble_midi_parse` return 1 with
`len = n-1` and `buffer` exactly those data bytes; without a timestamp byte
`ts` keeps its value. -/
theorem running_status_message (bm : ble_midi) (e : Nat) (data pre ds rest : List Nat)
    (tsb : Option Nat) (hdata : data = pre ++ (tsb.toList ++ (ds ++ rest)))
    (hpos : Pos bm data pre) (hbuf : bm.buffer_midi.length = 8)
    (hcv : 0x80 ≤ bm.status ∧ bm.status ≤ 0xEF)
    (hlen : ble_midi_message_len bm.status = ds.length + 1)
    (hsys : bm.status_sys = false) (hr : bm.status_restore = false)
    (ht : ∀ t ∈ tsb, 0x80 ≤ t ∧ t < 0x100) (hlow : ∀ d ∈ ds, d < 0x80) :
    ∃ bm1, ble_midi_parse bm e data = Outcome.ret bm1 e 1 ∧
      bm1.len = ds.length ∧ bm1.message = ds ∧ (tsb = none → bm1.ts = bm.ts) := by
  have hf0 : bm.status ≠ 0xF0 := by omega
  have hle := message_len_le bm.status hf0
  have hds : ds ≠ [] := by
    intro h0
    rw [h0] at hlen
    exact channel_voice_len bm.status (by omega) hcv.1 (by simpa using hlen)
  have hcall := parse_running_status bm e data pre ds rest tsb hdata hpos hsys hds hlen
    (channel_voice_nibble bm.status (by omega))
    (fun t h => and_0x80_of_ge t (ht t h).2 (ht t h).1) (low_of_lt ds hlow)
  have hres : restored (stamp (enter bm data) tsb) = [] := by
    cases tsb <;> simp [restored, stamp, enter_status_restore, hr]
  have hmsg := running_state_message (stamp (enter bm data) tsb) ds
    (pre.length + tsb.toList.length + ds.length)
    (by cases tsb <;> simp [stamp, enter_buffer_midi, hbuf]) (by omega)
  rw [hres] at hmsg
  refine ⟨_, hcall, ?_, by simpa using hmsg, ?_⟩
  · simp [running_state, hres]
  · intro hn
    subst hn
    simp only [running_state, stamp, enter]
    split_ifs <;> rfl

/-! ## SysEx spread over several packets -/

/-- SysEx body bytes that end the packet: as many as fit are stored, the call
returns 0, and `errno` becomes `EMSGSIZE` when some byte did not fit. -/
theorem parse_message_sysex_chunk (data pre chunk : List Nat) (bm : ble_midi) (k cur e : Nat)
    (hk : k ≠ 0) (hk2 : k ≤ 256) (hchunk : chunk ≠ []) (hdata : data = pre ++ chunk)
    (hcur : cur = pre.length) (hlow : ∀ d ∈ chunk, d &&& 0x80 = 0) :
    parse_message data bm (Locals.mk Buf.sys 256 k 0xF0 cur) e =
      Step.done (Outcome.ret
        (suspend (consume bm (Locals.mk Buf.sys 256 k 0xF0 cur) (chunk.take (256 - k))).1
          (consume bm (Locals.mk Buf.sys 256 k 0xF0 cur) (chunk.take (256 - k))).2)
        (if k + chunk.length ≤ 256 then e else EMSGSIZE) 0) := by
  by_cases hfit : k + chunk.length ≤ 256
  · have htake : chunk.take (256 - k) = chunk := List.take_of_length_le (by omega)
    rw [htake, if_pos hfit]
    rw [parse_message_sysex_end data chunk pre bm _ e rfl hchunk (by simp [hk]) hdata hcur hlow
      hfit (Nat.le_refl _)]
    rw [final_suspend _ _ e rfl]
  · rw [if_neg hfit]
    have hsplit : chunk = chunk.take (256 - k) ++ chunk.drop (256 - k) :=
      (List.take_append_drop _ _).symm
    have hdrop : chunk.drop (256 - k) ≠ [] := by
      intro h0
      have := congrArg List.length h0
      simp at this
      omega
    have htl : (chunk.take (256 - k)).length = 256 - k := by
      rw [List.length_take]; omega
    rw [parse_message_sysex_overflow data (chunk.take (256 - k)) pre (chunk.drop (256 - k)) bm
      _ e rfl hdrop (by simp [hk]) (by rw [← hsplit]; exact hdata) hcur
      (fun d hd => hlow d (List.mem_of_mem_take hd)) (by simp only [htl]; omega)
      (Nat.le_refl _)]
    rw [final_suspend _ _ _ rfl]

theorem suspend_sysinv (bm : ble_midi) (k cur : Nat) (acc ds : List Nat)
    (hsys : bm.status_sys = true) (hbuf : bm.buffer_sys.length = 256)
    (hk : k = acc.length) (hacc : bm.buffer_sys.take acc.length = acc) (hne : acc ≠ [])
    (hfit : acc.length + ds.length ≤ 256) :
    SysInv (suspend (consume bm (Locals.mk Buf.sys 256 k 0xF0 cur) ds).1
      (consume bm (Locals.mk Buf.sys 256 k 0xF0 cur) ds).2) (acc ++ ds) := by
  subst hk
  refine ⟨rfl, ?_, ?_, ?_, ?_, by simp [hne]⟩
  · simpa [suspend, consume] using hsys
  · simp [suspend, consume, write_at_length, hbuf]
  · simp [suspend, consume]
  · have h := write_at_take ds bm.buffer_sys acc.length (by omega)
    rw [hacc] at h
    simpa [suspend, consume] using h

theorem stamp_status_sys (bm : ble_midi) (tsb : Option Nat) :
    (stamp bm tsb).status_sys = bm.status_sys := by
  cases tsb <;> rfl

theorem stamp_buffer_sys (bm : ble_midi) (tsb : Option Nat) :
    (stamp bm tsb).buffer_sys = bm.buffer_sys := by
  cases tsb <;> rfl

theorem stamp_buffer_sys_len (bm : ble_midi) (tsb : Option Nat) :
    (stamp bm tsb).buffer_sys_len = bm.buffer_sys_len := by
  cases tsb <;> rfl

/-- A packet that continues a SysEx in flight: header, possibly a timestamp
byte, then body bytes up to the end of the packet. The call returns 0. -/
theorem parse_sysex_continuation (bm : ble_midi) (e h : Nat) (tsb : Option Nat)
    (chunk acc : List Nat) (hinv : SysInv bm acc) (hh : 0x80 ≤ h ∧ h < 0xC0)
    (ht : ∀ t ∈ tsb, t &&& 0x80 ≠ 0) (hchunk : chunk ≠ [])
    (hlen : 3 ≤ (h :: (tsb.toList ++ chunk)).length) (hlow : ∀ d ∈ chunk, d &&& 0x80 = 0) :
    ∃ bm1, ble_midi_parse bm e (h :: (tsb.toList ++ chunk)) =
        Outcome.ret bm1 (if acc.length + chunk.length ≤ 256 then e else EMSGSIZE) 0 ∧
      SysInv bm1 (acc ++ chunk.take (256 - acc.length)) ∧ bm1.ts_sys = bm.ts_sys := by
  obtain ⟨hcur, hsys, hbuf, hk, hacc, hne⟩ := hinv
  obtain ⟨d, ds, rfl⟩ : ∃ d r, chunk = d :: r := by
    cases chunk with
    | nil => exact absurd rfl hchunk
    | cons d r => exact ⟨d, r, rfl⟩
  have hd : d &&& 0x80 = 0 := hlow d (by simp)
  have hal : acc.length ≤ 256 := by
    have := congrArg List.length hacc
    rw [List.length_take] at this
    omega
  have ha0 : acc.length ≠ 0 := by
    intro h0; exact hne (List.eq_nil_of_length_eq_zero h0)
  have hfit : acc.length + ((d :: ds).take (256 - acc.length)).length ≤ 256 := by
    rw [List.length_take]; omega
  rw [parse_enter bm e (h :: (tsb.toList ++ d :: ds)) [h] (tsb.toList ++ d :: ds) rfl (by cases tsb <;> simp)
    (Or.inl ⟨hcur, hlen, h, rfl, hh.1, hh.2⟩), entry_locals_sys bm hsys, hk]
  cases tsb with
  | none =>
    refine ⟨_, ?_, suspend_sysinv (enter bm (h :: ([] ++ d :: ds))) acc.length 1 acc _
      (by rw [enter_status_sys]; exact hsys) (by rw [enter_buffer_sys]; exact hbuf) rfl
      (by rw [enter_buffer_sys]; exact hacc) hne hfit, ?_⟩
    · apply retry_done
      rw [retry_body_data _ [h] ds d _ _ e (by simp) rfl hd]
      exact parse_message_sysex_chunk _ [h] (d :: ds) _ acc.length 1 e ha0 hal (by simp)
        (by simp) rfl hlow
    · simp [suspend, consume, enter, hcur]
  | some t =>
    refine ⟨_, ?_, suspend_sysinv
      { enter bm (h :: ([t] ++ d :: ds)) with
        ts := (enter bm (h :: ([t] ++ d :: ds))).ts_high ||| (t &&& 0x7F) } acc.length 2 acc _
      (by simp only [enter_status_sys]; exact hsys) (by simp only [enter_buffer_sys]; exact hbuf)
      rfl (by simp only [enter_buffer_sys]; exact hacc) hne hfit, ?_⟩
    · apply retry_done
      rw [retry_body_ts_data _ [h] ds t d _ _ e (by simp) rfl (ht t rfl) hd]
      exact parse_message_sysex_chunk _ [h, t] (d :: ds) _ acc.length 2 e ha0 hal (by simp)
        (by simp) rfl hlow
    · simp [suspend, consume, enter, hcur]

/-- The first packet of a SysEx that does not end in it: header, timestamp
byte, 0xF0 and body bytes up to the end of the packet, parsed with no SysEx in
flight and an empty reassembly buffer. The call returns 0. -/
theorem parse_sysex_first (bm : ble_midi) (e h t : Nat) (chunk : List Nat)
    (hcur : bm.current_len = 0) (hsys : bm.status_sys = false) (hk : bm.buffer_sys_len = 0)
    (hbuf : bm.buffer_sys.length = 256) (hh : 0x80 ≤ h ∧ h < 0xC0) (ht : t &&& 0x80 ≠ 0)
    (hlow : ∀ d ∈ chunk, d &&& 0x80 = 0) :
    ∃ bm1, ble_midi_parse bm e (h :: t :: 0xF0 :: chunk) =
        Outcome.ret bm1 (if 1 + chunk.length ≤ 256 then e else EMSGSIZE) 0 ∧
      SysInv bm1 (0xF0 :: chunk.take 255) ∧
      bm1.ts_sys = ((h &&& 0x3F) <<< 7) ||| (t &&& 0x7F) := by
  rw [parse_enter bm e (h :: t :: 0xF0 :: chunk) [h] (t :: 0xF0 :: chunk) rfl (by simp)
    (Or.inl ⟨hcur, by simp, h, rfl, hh.1, hh.2⟩), entry_locals_midi bm hsys]
  have hts : (enter bm (h :: t :: 0xF0 :: chunk)).ts_high = (h &&& 0x3F) <<< 7 :=
    enter_ts_high_first bm h _ hcur
  have hbl : (enter bm (h :: t :: 0xF0 :: chunk)).buffer_sys_len = 0 := by
    rw [enter_buffer_sys_len]; exact hk
  have hbb : (enter bm (h :: t :: 0xF0 :: chunk)).buffer_sys.length = 256 := by
    rw [enter_buffer_sys]; exact hbuf
  generalize enter bm (h :: t :: 0xF0 :: chunk) = bmE at hts hbl hbb ⊢
  have h1 : (bmE.buffer_sys.set 0 0xF0).take 1 = [0xF0] := by
    have := take_succ_set 0xF0 bmE.buffer_sys 0 (by omega)
    simpa using this
  have hstart : sysex_started { bmE with ts := bmE.ts_high ||| (t &&& 0x7F) } 3 =
      (sysex_open bmE t, Locals.mk Buf.sys 256 1 0xF0 3) := by
    simp [sysex_started, sysex_open, hbl]
  have hbody : retry_body (h :: t :: 0xF0 :: chunk) bmE (Locals.mk Buf.midi 8 0 bm.status 1) e =
      Step.done (Outcome.ret
        (suspend (consume (sysex_open bmE t) (Locals.mk Buf.sys 256 1 0xF0 3)
            (chunk.take 255)).1
          (consume (sysex_open bmE t) (Locals.mk Buf.sys 256 1 0xF0 3) (chunk.take 255)).2)
        (if 1 + chunk.length ≤ 256 then e else EMSGSIZE) 0) := by
    rw [retry_body_ts_status (h :: t :: 0xF0 :: chunk) [h] chunk t 0xF0 _ _ e rfl rfl ht
      (by decide)]
    by_cases hc : chunk = []
    · subst hc
      rw [parse_status_sysex_start_end [h, t, 0xF0] [h, t] _ _ e rfl rfl (by simp [hbl])]
      rw [final_suspend _ _ e (by simp [sysex_started])]
      simp only [List.length_cons, List.length_nil, hstart, List.take_nil, consume_nil]
      simp
    · rw [parse_status_sysex_start (h :: t :: 0xF0 :: chunk) [h, t] chunk _ _ e rfl hc rfl
        (by simp [hbl])]
      simp only [List.length_cons, List.length_nil, hstart]
      exact parse_message_sysex_chunk (h :: t :: 0xF0 :: chunk) [h, t, 0xF0] chunk _ 1 3 e
        (by decide) (by decide) hc rfl rfl hlow
  have hcall := retry_done (h :: t :: 0xF0 :: chunk) ((h :: t :: 0xF0 :: chunk).length) bmE
    (Locals.mk Buf.midi 8 0 bm.status 1) e _ hbody
  refine ⟨_, hcall, ?_, ?_⟩
  · have hfit : [0xF0].length + (chunk.take 255).length ≤ 256 := by
      rw [List.length_take]; simp; omega
    exact suspend_sysinv (sysex_open bmE t) 1 3 [0xF0] (chunk.take 255) rfl
      (by simpa [sysex_open] using hbb) rfl (by simpa [sysex_open] using h1) (by simp) hfit
  · simp [suspend, consume, sysex_open, hts]

/-- The last packet of a SysEx in flight whose bytes fit the reassembly
buffer: header, body bytes, timestamp byte and 0xF7. The call returns 1 with
the whole message and the timestamp of its start. -/
theorem parse_sysex_last (bm : ble_midi) (e h t : Nat) (chunk acc : List Nat)
    (hinv : SysInv bm acc) (hh : 0x80 ≤ h ∧ h < 0xC0) (ht : t &&& 0x80 ≠ 0)
    (hlow : ∀ d ∈ chunk, d &&& 0x80 = 0) (hfit : acc.length + chunk.length + 1 ≤ 256) :
    ∃ bm1, ble_midi_parse bm e (h :: (chunk ++ [t, 0xF7])) = Outcome.ret bm1 e 1 ∧
      bm1.message = acc ++ chunk ++ [0xF7] ∧ bm1.len = acc.length + chunk.length + 1 ∧
      bm1.current_len = (h :: (chunk ++ [t, 0xF7])).length ∧ bm1.ts = bm.ts_sys ∧
      bm1.buffer_sys_len = 0 ∧ bm1.status_sys = false := by
  obtain ⟨hcur, hsys, hbuf, hk, hacc, hne⟩ := hinv
  have ha0 : acc.length ≠ 0 := by
    intro h0; exact hne (List.eq_nil_of_length_eq_zero h0)
  have htk := take_write_set bm.buffer_sys acc.length chunk 0xF7 (by rw [hbuf]; omega)
  rw [hacc] at htk
  have hdl : (h :: (chunk ++ [t, 0xF7])).length = chunk.length + 3 := by simp
  have htsys : (enter bm (h :: (chunk ++ [t, 0xF7]))).ts_sys = bm.ts_sys := by
    simp [enter, hcur]
  have hbs := enter_buffer_sys bm (h :: (chunk ++ [t, 0xF7]))
  rw [parse_enter bm e (h :: (chunk ++ [t, 0xF7])) [h] (chunk ++ [t, 0xF7]) rfl (by simp)
    (Or.inl ⟨hcur, by simp, h, rfl, hh.1, hh.2⟩), entry_locals_sys bm hsys, hk]
  generalize enter bm (h :: (chunk ++ [t, 0xF7])) = bmE at htsys hbs ⊢
  show ∃ bm1, retry (h :: (chunk ++ [t, 0xF7])) ((h :: (chunk ++ [t, 0xF7])).length + 1) bmE
      (Locals.mk Buf.sys 256 acc.length 0xF0 1) e = Outcome.ret bm1 e 1 ∧ _
  by_cases hc : chunk = []
  · subst hc
    rw [retry_sysex_stop (h :: ([] ++ [t, 0xF7])) [h] t _ acc.length 1 0xF0 _ e (by simp) rfl
      ht (by omega)]
    refine ⟨_, rfl, ?_, ?_, ?_, ?_, ?_, ?_⟩
    · simpa [emit, ble_midi.message, write_at, hbs] using htk
    · simp [emit]
    · simp [emit]
    · simp [emit, htsys]
    · simp [emit]
    · simp [emit]
  · obtain ⟨d, ds, rfl⟩ : ∃ d r, chunk = d :: r := by
      cases chunk with
      | nil => exact absurd rfl hc
      | cons d r => exact ⟨d, r, rfl⟩
    have hpass := parse_message_sysex_high (h :: (d :: ds ++ [t, 0xF7])) (d :: ds) [h] [0xF7] t
      bmE (Locals.mk Buf.sys 256 acc.length 0xF0 1) e rfl
      (by simp [ha0]) (by simp) rfl hlow ht (by simp at hfit ⊢; omega) (Nat.le_refl _)
    rw [retry_again (h :: (d :: ds ++ [t, 0xF7])) _ _ _ _ _ e e (by
      rw [retry_body_data (h :: (d :: ds ++ [t, 0xF7])) [h] (ds ++ [t, 0xF7]) d _ _ e
        (by simp) rfl (hlow d (by simp))]
      exact hpass)]
    have hf : (h :: (d :: ds ++ [t, 0xF7])).length = (ds.length + 3) + 1 := by simp
    rw [hf]
    have hl2 : (consume bmE (Locals.mk Buf.sys 256 acc.length 0xF0 1) (d :: ds)).2 =
        Locals.mk Buf.sys 256 (acc.length + (d :: ds).length) 0xF0 (1 + (d :: ds).length) := rfl
    rw [hl2, retry_sysex_stop (h :: (d :: ds ++ [t, 0xF7])) (h :: d :: ds) t _ _ _ 0xF0 _ e
      (by simp) (by simp; omega) ht (by simp at hfit ⊢; omega)]
    refine ⟨_, rfl, ?_, ?_, ?_, ?_, ?_, ?_⟩
    · simpa [emit, ble_midi.message, consume, hbs] using htk
    · simp [emit]
    · simp [emit]; omega
    · simp [emit, consume, htsys]
    · simp [emit]
    · simp [emit]

/-- The last packet of a SysEx in flight when the reassembly buffer is full:
header, timestamp byte and 0xF7. The call returns 1 with the 256 bytes
gathered, the end byte being dropped. -/
theorem parse_sysex_last_full (bm : ble_midi) (e h t : Nat) (acc : List Nat)
    (hinv : SysInv bm acc) (hfull : acc.length = 256) (hh : 0x80 ≤ h ∧ h < 0xC0)
    (ht : t &&& 0x80 ≠ 0) :
    ∃ bm1, ble_midi_parse bm e [h, t, 0xF7] = Outcome.ret bm1 e 1 ∧
      bm1.message = acc ∧ bm1.len = 256 ∧ bm1.current_len = 3 ∧ bm1.ts = bm.ts_sys := by
  obtain ⟨hcur, hsys, hbuf, hk, hacc, hne⟩ := hinv
  have htsys : (enter bm [h, t, 0xF7]).ts_sys = bm.ts_sys := by
    simp [enter, hcur]
  have hbs := enter_buffer_sys bm [h, t, 0xF7]
  rw [parse_enter bm e [h, t, 0xF7] [h] [t, 0xF7] rfl (by simp)
    (Or.inl ⟨hcur, by simp, h, rfl, hh.1, hh.2⟩), entry_locals_sys bm hsys, hk, hfull]
  generalize enter bm [h, t, 0xF7] = bmE at htsys hbs ⊢
  show ∃ bm1, retry [h, t, 0xF7] ([h, t, 0xF7].length + 1) bmE
      (Locals.mk Buf.sys 256 256 0xF0 1) e = Outcome.ret bm1 e 1 ∧ _
  rw [retry_done [h, t, 0xF7] _ _ _ e _ (by
    rw [retry_body_ts_status [h, t, 0xF7] [h] [] t 0xF7 _ _ e rfl rfl ht (by decide)]
    exact parse_status_sysex_stop_full [h, t, 0xF7] [h, t] _ 2 0xF0 e rfl rfl)]
  rw [hfull] at hacc
  refine ⟨_, rfl, ?_, ?_, ?_, ?_⟩
  · simpa [emit, ble_midi.message, hbs] using hacc
  · simp [emit]
  · simp [emit]
  · simp [emit, htsys]

/-! ## The caller loop -/

theorem parse_packet_zero (bm bm1 : ble_midi) (e e1 : Nat) (rv : Int) (data : List Nat)
    (h : ble_midi_parse bm e data = Outcome.ret bm1 e1 rv) (hrv : rv ≤ 0) :
    parse_packet bm e data = some ⟨bm1, e1, [], rv⟩ := by
  simp [parse_packet, parse_loop, h, hrv]

theorem parse_packet_one (bm bm1 bm2 : ble_midi) (e e1 e2 : Nat) (rv : Int) (data : List Nat)
    (hne : data ≠ []) (h1 : ble_midi_parse bm e data = Outcome.ret bm1 e1 1)
    (h2 : ble_midi_parse bm1 e1 data = Outcome.ret bm2 e2 rv) (hrv : rv ≤ 0) :
    parse_packet bm e data = some ⟨bm2, e2, [bm1.message], rv⟩ := by
  obtain ⟨n, hn⟩ : ∃ n, data.length = n + 1 :=
    ⟨data.length - 1, by have := List.length_pos.mpr hne; omega⟩
  simp [parse_packet, hn, parse_loop, h1, h2, hrv]

theorem parse_packets_cons (p : List Nat) (ps : List (List Nat)) (bm : ble_midi) (e : Nat)
    (d : Decoded) (s : Session) (h1 : parse_packet bm e p = some d)
    (h2 : parse_packets ps d.bm d.errno = some s) :
    parse_packets (p :: ps) bm e =
      some ⟨s.bm, s.errno, d.emitted ++ s.emitted, d.rv :: s.rvs⟩ := by
  simp [parse_packets, h1, h2]

theorem sysex_rest_packets (e hl tl : Nat) (cl : List Nat) (hhl : 0x80 ≤ hl ∧ hl < 0xC0)
    (htl : tl &&& 0x80 ≠ 0) (hcl : ∀ d ∈ cl, d &&& 0x80 = 0) :
    ∀ (conts : List (Nat × List Nat)) (acc : List Nat) (bm : ble_midi),
      SysInv bm acc →
      (∀ p ∈ conts, 0x80 ≤ p.1 ∧ p.1 < 0xC0 ∧ 2 ≤ p.2.length ∧ ∀ d ∈ p.2, d < 0x80) →
      acc.length + (chunks conts).length + cl.length + 1 ≤ 256 →
      ∃ s, parse_packets (conts.map (fun p => p.1 :: p.2) ++ [hl :: (cl ++ [tl, 0xF7])]) bm e
          = some s ∧
        s.emitted = [acc ++ chunks conts ++ cl ++ [0xF7]] ∧ (∀ rv ∈ s.rvs, rv = 0) ∧
        s.bm.ts = bm.ts_sys := by
  intro conts
  induction conts with
  | nil =>
    intro acc bm hinv _ hfit
    obtain ⟨bm1, hcall, hmsg, _, hcur, hts, _, _⟩ :=
      parse_sysex_last bm e hl tl cl acc hinv hhl htl hcl (by simpa [chunks] using hfit)
    have hp := parse_packet_one bm bm1 _ e e e 0 (hl :: (cl ++ [tl, 0xF7])) (by simp) hcall
      (parse_entry_end bm1 e _ hcur) (Int.le_refl 0)
    refine ⟨_, parse_packets_cons _ [] bm e _ ⟨_, _, [], []⟩ hp rfl, ?_, ?_, ?_⟩
    · simp [hmsg, chunks]
    · simp
    · simpa using hts
  | cons p conts ih =>
    intro acc bm hinv hconts hfit
    obtain ⟨hp1, hp2, hp3, hp4⟩ := hconts p (by simp)
    have hcl2 : (chunks (p :: conts)).length = p.2.length + (chunks conts).length := by
      simp [chunks]
    have hne : p.2 ≠ [] := by
      intro h0; rw [h0] at hp3; simp at hp3
    obtain ⟨bm1, hcall, hinv1, hts1⟩ := parse_sysex_continuation bm e p.1 none p.2 acc hinv
      ⟨hp1, hp2⟩ (by simp) hne (by simp; omega) (low_of_lt p.2 hp4)
    have hfit1 : acc.length + p.2.length ≤ 256 := by omega
    rw [if_pos hfit1] at hcall
    have htake : p.2.take (256 - acc.length) = p.2 := List.take_of_length_le (by omega)
    rw [htake] at hinv1
    obtain ⟨s, hs, hem, hrv, hts⟩ := ih (acc ++ p.2) bm1 hinv1
      (fun q hq => hconts q (by simp [hq])) (by simp; omega)
    have hp := parse_packet_zero bm bm1 e e 0 (p.1 :: p.2) (by simpa using hcall) (Int.le_refl 0)
    refine ⟨_, parse_packets_cons _ _ bm e _ s hp hs, ?_, ?_, ?_⟩
    · simp [hem, chunks]
    · intro rv hrv1
      simp at hrv1
      rcases hrv1 with h | h
      · exact h
      · exact hrv rv h
    · simpa [hts1] using hts

/-- C4 (amended): a SysEx message M = 0xF0, body bytes below 0x80, 0xF7 with
|M| <= 256, split over N >= 2 packets (first: valid header, timestamp byte,
0xF0, possibly empty chunk; continuation packets: valid header and two or more
body bytes; last: valid header, possibly empty chunk, timestamp byte, 0xF7),
fed in order from the all-zero state with the caller loop: no call returns -1
(the loop of every packet ends on 0) and exactly one message is emitted, equal
to M. -/
theorem sysex_round_trip (e h0 t0 hl tl : Nat) (c0 cl : List Nat)
    (conts : List (Nat × List Nat))
    (hh0 : 0x80 ≤ h0 ∧ h0 < 0xC0) (ht0 : 0x80 ≤ t0 ∧ t0 < 0x100)
    (hhl : 0x80 ≤ hl ∧ hl < 0xC0) (htl : 0x80 ≤ tl ∧ tl < 0x100)
    (hc0 : ∀ d ∈ c0, d < 0x80) (hcl : ∀ d ∈ cl, d < 0x80)
    (hconts : ∀ p ∈ conts, 0x80 ≤ p.1 ∧ p.1 < 0xC0 ∧ 2 ≤ p.2.length ∧ ∀ d ∈ p.2, d < 0x80)
    (hM : (0xF0 :: (c0 ++ chunks conts ++ cl) ++ [0xF7]).length ≤ 256) :
    ∃ s, parse_packets (sysex_packets h0 t0 c0 conts hl cl tl) ble_midi.zero e = some s ∧
      s.emitted = [0xF0 :: (c0 ++ chunks conts ++ cl) ++ [0xF7]] ∧ ∀ rv ∈ s.rvs, rv = 0 := by
  have hlen : c0.length + (chunks conts).length + cl.length + 2 ≤ 256 := by
    simp at hM; omega
  obtain ⟨bm1, hcall, hinv1, _⟩ := parse_sysex_first ble_midi.zero e h0 t0 c0 rfl rfl rfl
    zero_buffer_sys_length hh0 (and_0x80_of_ge t0 ht0.2 ht0.1) (low_of_lt c0 hc0)
  rw [if_pos (by omega)] at hcall
  have htake : c0.take 255 = c0 := List.take_of_length_le (by omega)
  rw [htake] at hinv1
  obtain ⟨s, hs, hem, hrv, _⟩ := sysex_rest_packets e hl tl cl hhl
    (and_0x80_of_ge tl htl.2 htl.1) (low_of_lt cl hcl) conts (0xF0 :: c0) bm1 hinv1 hconts
    (by simp; omega)
  have hp := parse_packet_zero ble_midi.zero bm1 e e 0 (h0 :: t0 :: 0xF0 :: c0) hcall
    (Int.le_refl 0)
  refine ⟨_, parse_packets_cons _ _ ble_midi.zero e _ s hp hs, ?_, ?_⟩
  · simp [hem]
  · intro rv hrv1
    simp at hrv1
    rcases hrv1 with h | h
    · exact h
    · exact hrv rv h

/-- Witness of the amended C4: the SysEx of
`test_ble_midi_parse_multiple_system_exclusive` with one continuation packet
of two body bytes put between its two packets. -/
theorem sysex_round_trip_witness :
    ∃ s, parse_packets (sysex_packets 0x80 0x81 [0x01, 0x02, 0x03] [(0x80, [0x10, 0x11])]
        0x80 [0x04, 0x05] 0x82) ble_midi.zero 0 = some s ∧
      s.emitted = [0xF0 :: ([0x01, 0x02, 0x03] ++ chunks [(0x80, [0x10, 0x11])] ++ [0x04, 0x05])
        ++ [0xF7]] ∧ ∀ rv ∈ s.rvs, rv = 0 :=
  sysex_round_trip 0 0x80 0x81 0x80 0x82 [0x01, 0x02, 0x03] [0x04, 0x05] [(0x80, [0x10, 0x11])]
    (by decide) (by decide) (by decide) (by decide) (by decide) (by decide) (by decide)
    (by decide)

set_option maxRecDepth 100000 in
/-- Counterexample to C4 as stated: the SysEx F0 01 F7 sent as the packets
80 81 F0, 80 01, 80 82 F7 (the continuation packet holds one body byte). The
call on the continuation packet returns -1 and the message emitted with the
last packet is F0 F7, not F0 01 F7. -/
theorem sysex_round_trip_counterexample :
    (parse_packets (sysex_packets 0x80 0x81 [] [(0x80, [0x01])] 0x80 [] 0x82)
        ble_midi.zero 0).map (fun s => (s.emitted, s.rvs)) =
      some ([[0xF0, 0xF7]], [0, -1, 0]) := by
  decide

/-! ## SysEx overflow -/

theorem take_append_acc (l chunk : List Nat) :
    (l ++ chunk).take 256 = l.take 256 ++ chunk.take (256 - (l.take 256).length) := by
  rw [List.take_append_eq_append_take]
  congr 1
  rw [List.length_take]
  by_cases h : l.length ≤ 256
  · rw [Nat.min_eq_right h]
  · have h1 : 256 - l.length = 0 := by omega
    have h2 : 256 - min 256 l.length = 0 := by
      rw [Nat.min_eq_left (by omega)]
    rw [h1, h2]

theorem overflow_packets_zero (e : Nat) :
    ∀ (conts : List (Nat × Option Nat × List Nat)) (body : List Nat) (bm : ble_midi) (e0 : Nat),
      SysInv bm ((0xF0 :: body).take 256) →
      (256 < 1 + body.length → e0 = EMSGSIZE) → (1 + body.length ≤ 256 → e0 = e) →
      (∀ p ∈ conts, 0x80 ≤ p.1 ∧ p.1 < 0xC0 ∧ (∀ t ∈ p.2.1, 0x80 ≤ t ∧ t < 0x100) ∧
        p.2.2 ≠ [] ∧ 3 ≤ (cont_packet p).length ∧ ∀ d ∈ p.2.2, d < 0x80) →
      ∃ s, parse_packets (conts.map cont_packet) bm e0 = some s ∧
        s.emitted = [] ∧ (∀ rv ∈ s.rvs, rv = 0) ∧ s.rvs.length = conts.length ∧
        SysInv s.bm ((0xF0 :: (body ++ chunks_ts conts)).take 256) ∧
        (256 < 1 + body.length + (chunks_ts conts).length → s.errno = EMSGSIZE) ∧
        (1 + body.length + (chunks_ts conts).length ≤ 256 → s.errno = e) ∧
        s.bm.ts_sys = bm.ts_sys := by
  intro conts
  induction conts with
  | nil =>
    intro body bm e0 hinv he1 he2 _
    refine ⟨⟨bm, e0, [], []⟩, rfl, rfl, by simp, rfl, by simpa [chunks_ts] using hinv, ?_, ?_,
      rfl⟩
    · intro h; exact he1 (by simpa [chunks_ts] using h)
    · intro h; exact he2 (by simpa [chunks_ts] using h)
  | cons p conts ih =>
    intro body bm e0 hinv he1 he2 hconts
    obtain ⟨hp1, hp2, hp3, hp4, hp5, hp6⟩ := hconts p (by simp)
    obtain ⟨bm1, hcall, hinv1, hts1⟩ := parse_sysex_continuation bm e0 p.1 p.2.1 p.2.2
      ((0xF0 :: body).take 256) hinv ⟨hp1, hp2⟩
      (fun t ht => and_0x80_of_ge t (hp3 t ht).2 (hp3 t ht).1) hp4 hp5 (low_of_lt p.2.2 hp6)
    have hacc : ((0xF0 :: body).take 256).length = min 256 (1 + body.length) := by
      rw [List.length_take]; simp; omega
    have hpl : 0 < p.2.2.length := List.length_pos.mpr hp4
    have hinv2 : SysInv bm1 ((0xF0 :: (body ++ p.2.2)).take 256) := by
      have := take_append_acc (0xF0 :: body) p.2.2
      rw [List.cons_append] at this
      rw [this]; exact hinv1
    obtain ⟨s, hs, hem, hrv, hrl, hinv3, hes1, hes2, hts⟩ := ih (body ++ p.2.2) bm1
      (if ((0xF0 :: body).take 256).length + p.2.2.length ≤ 256 then e0 else EMSGSIZE) hinv2
      (by
        intro hbig
        by_cases hfit : ((0xF0 :: body).take 256).length + p.2.2.length ≤ 256
        · rw [if_pos hfit]
          apply he1
          rw [hacc] at hfit
          simp at hbig
          omega
        · rw [if_neg hfit])
      (by
        intro hsmall
        simp at hsmall
        have hfit : ((0xF0 :: body).take 256).length + p.2.2.length ≤ 256 := by
          rw [hacc]; omega
        rw [if_pos hfit]
        exact he2 (by omega))
      (fun q hq => hconts q (by simp [hq]))
    have hp := parse_packet_zero bm bm1 e0 _ 0 (cont_packet p) hcall (Int.le_refl 0)
    refine ⟨_, parse_packets_cons _ _ bm e0 _ s hp hs, ?_, ?_, ?_, ?_, ?_, ?_, ?_⟩
    · simp [hem]
    · intro rv hrv1
      simp at hrv1
      rcases hrv1 with h | h
      · exact h
      · exact hrv rv h
    · simp [hrl]
    · simpa [chunks_ts] using hinv3
    · intro h; exact hes1 (by simp [chunks_ts] at h ⊢; omega)
    · intro h; exact hes2 (by simp [chunks_ts] at h ⊢; omega)
    · simpa [hts1] using hts

/-- C10: a SysEx whose 0xF0 plus body bytes number more than 256, sent from the
all-zero state in packets of at least 3 bytes (first: header, timestamp byte,
0xF0, body bytes; continuation packets: header, optional timestamp byte, one
or more body bytes; last: header, timestamp byte, 0xF7) under the caller
loop: on every packet before the last the only call returns 0 (nothing is
emitted), `errno` holds `EMSGSIZE` from then on, the first call on the last
packet returns 1 with `len = 256` and `buffer` the first 256 bytes of 0xF0
followed by the body, with the timestamp of the start, and the next call
returns 0. -/
theorem sysex_overflow (e h0 t0 hl tl : Nat) (c0 : List Nat)
    (conts : List (Nat × Option Nat × List Nat))
    (hh0 : 0x80 ≤ h0 ∧ h0 < 0xC0) (ht0 : 0x80 ≤ t0 ∧ t0 < 0x100)
    (hhl : 0x80 ≤ hl ∧ hl < 0xC0) (htl : 0x80 ≤ tl ∧ tl < 0x100)
    (hc0 : ∀ d ∈ c0, d < 0x80)
    (hconts : ∀ p ∈ conts, 0x80 ≤ p.1 ∧ p.1 < 0xC0 ∧ (∀ t ∈ p.2.1, 0x80 ≤ t ∧ t < 0x100) ∧
      p.2.2 ≠ [] ∧ 3 ≤ (cont_packet p).length ∧ ∀ d ∈ p.2.2, d < 0x80)
    (hbig : 256 < (0xF0 :: (c0 ++ chunks_ts conts)).length) :
    ∃ s bm1 bm2,
      parse_packets ((h0 :: t0 :: 0xF0 :: c0) :: conts.map cont_packet) ble_midi.zero e
        = some s ∧
      s.emitted = [] ∧ (∀ rv ∈ s.rvs, rv = 0) ∧ s.rvs.length = conts.length + 1 ∧
      s.errno = EMSGSIZE ∧
      ble_midi_parse s.bm s.errno [hl, tl, 0xF7] = Outcome.ret bm1 EMSGSIZE 1 ∧
      bm1.len = 256 ∧ bm1.message = (0xF0 :: (c0 ++ chunks_ts conts)).take 256 ∧
      bm1.ts = ((h0 &&& 0x3F) <<< 7) ||| (t0 &&& 0x7F) ∧
      ble_midi_parse bm1 EMSGSIZE [hl, tl, 0xF7] = Outcome.ret bm2 EMSGSIZE 0 := by
  have hlen : 256 < 1 + c0.length + (chunks_ts conts).length := by
    simp at hbig; omega
  obtain ⟨bmA, hcallA, hinvA, htsA⟩ := parse_sysex_first ble_midi.zero e h0 t0 c0 rfl rfl rfl
    zero_buffer_sys_length hh0 (and_0x80_of_ge t0 ht0.2 ht0.1) (low_of_lt c0 hc0)
  have hinvA2 : SysInv bmA ((0xF0 :: c0).take 256) := by
    simpa using hinvA
  obtain ⟨s, hs, hem, hrv, hrl, hinvS, hes, _, hts⟩ := overflow_packets_zero e conts c0 bmA
    (if 1 + c0.length ≤ 256 then e else EMSGSIZE) hinvA2
    (by intro h; rw [if_neg (by omega)])
    (by intro h; rw [if_pos h]) hconts
  have herr : s.errno = EMSGSIZE := hes hlen
  have hfull : ((0xF0 :: (c0 ++ chunks_ts conts)).take 256).length = 256 := by
    rw [List.length_take]; simp; omega
  obtain ⟨bm1, hcall1, hmsg1, hlen1, hcur1, hts1⟩ := parse_sysex_last_full s.bm s.errno hl tl
    _ hinvS hfull hhl (and_0x80_of_ge tl htl.2 htl.1)
  have hp := parse_packet_zero ble_midi.zero bmA e _ 0 (h0 :: t0 :: 0xF0 :: c0) hcallA
    (Int.le_refl 0)
  refine ⟨_, bm1, _, parse_packets_cons _ _ ble_midi.zero e _ s hp hs, ?_, ?_, ?_, herr, ?_,
    hlen1, hmsg1, ?_, parse_entry_end bm1 EMSGSIZE [hl, tl, 0xF7] hcur1⟩
  · simp [hem]
  · intro rv hrv1
    simp at hrv1
    rcases hrv1 with h | h
    · exact h
    · exact hrv rv h
  · simp [hrl]
  · simpa [herr] using hcall1
  · rw [hts1, hts, htsA]

set_option maxRecDepth 100000 in
/-- Witness of C10 on the packets of
`test_ble_midi_parse_multiple_system_exclusive_3`. -/
theorem sysex_overflow_witness :
    ∃ s bm1 bm2,
      parse_packets ((0x80 :: 0x81 :: 0xF0 :: [0x01, 0x02, 0x03]) ::
          [(0x80, some 0x81, List.replicate 510 0x77)].map cont_packet) ble_midi.zero 0
        = some s ∧
      s.emitted = [] ∧ (∀ rv ∈ s.rvs, rv = 0) ∧
      s.rvs.length = [(0x80, some 0x81, List.replicate 510 0x77)].length + 1 ∧
      s.errno = EMSGSIZE ∧
      ble_midi_parse s.bm s.errno [0x80, 0x82, 0xF7] = Outcome.ret bm1 EMSGSIZE 1 ∧
      bm1.len = 256 ∧
      bm1.message = (0xF0 :: ([0x01, 0x02, 0x03] ++
        chunks_ts [(0x80, some 0x81, List.replicate 510 0x77)])).take 256 ∧
      bm1.ts = ((0x80 &&& 0x3F) <<< 7) ||| (0x81 &&& 0x7F) ∧
      ble_midi_parse bm1 EMSGSIZE [0x80, 0x82, 0xF7] = Outcome.ret bm2 EMSGSIZE 0 :=
  sysex_overflow 0 0x80 0x81 0x80 0x82 [0x01, 0x02, 0x03]
    [(0x80, some 0x81, List.replicate 510 0x77)]
    (by decide) (by decide) (by decide) (by decide) (by decide)
    (by
      intro p hp
      simp only [List.mem_singleton] at hp
      subst hp
      refine ⟨by decide, by decide, by decide, by simp, by simp [cont_packet], ?_⟩
      intro d hd
      have := List.eq_of_mem_replicate hd
      omega)
    (by simp [chunks_ts])

/-! ## Three messages in one packet -/

/-- One call on a complete message other than SysEx, with what it leaves. -/
theorem complete_message_call (bm : ble_midi) (e : Nat) (data pre ds rest : List Nat)
    (t s : Nat) (hdata : data = pre ++ (t :: s :: (ds ++ rest))) (hpos : Pos bm data pre)
    (hsys : bm.status_sys = false) (hbuf : bm.buffer_midi.length = 8)
    (ht : 0x80 ≤ t ∧ t < 0x100) (hs : s < 0x100) (hf0 : s ≠ 0xF0) (hf7 : s ≠ 0xF7)
    (hlen : ble_midi_message_len s = ds.length + 1) (hlow : ∀ d ∈ ds, d < 0x80) :
    ∃ bm1, ble_midi_parse bm e data = Outcome.ret bm1 e 1 ∧
      bm1.message = s :: ds ∧ bm1.len = ds.length + 1 ∧
      bm1.current_len = pre.length + 2 + ds.length ∧ bm1.status_sys = false ∧
      bm1.buffer_midi.length = 8 ∧
      bm1.status = (if s &&& 0xF0 ≠ 0xF0 then s else bm.status) ∧
      bm1.status_restore = (if s ≥ 0xF0 ∧ s < 0xF8 then true else bm.status_restore) := by
  have hle := message_len_le s hf0
  refine ⟨_, parse_complete_message bm e data pre ds rest t s hdata hpos hsys
    (and_0x80_of_ge t ht.2 ht.1) (status_high s hs (by rw [hlen]; omega)) hf0 hf7 hlen
    (low_of_lt ds hlow),
    msg_state_message _ t s ds _ (by rw [enter_buffer_midi]; exact hbuf) (by omega),
    rfl, rfl, ?_, ?_, ?_, ?_⟩
  · simp [msg_state, enter_status_sys, hsys]
  · simp [msg_state, write_at_length, enter_buffer_midi, hbuf]
  · simp [msg_state, enter_status]
  · simp [msg_state, enter_status_restore]

/-- One call on a running-status message, with what it leaves. -/
theorem running_status_call (bm : ble_midi) (e : Nat) (data pre ds rest : List Nat)
    (tsb : Option Nat) (hdata : data = pre ++ (tsb.toList ++ (ds ++ rest)))
    (hpos : Pos bm data pre) (hbuf : bm.buffer_midi.length = 8)
    (hcv : 0x80 ≤ bm.status ∧ bm.status ≤ 0xEF)
    (hlen : ble_midi_message_len bm.status = ds.length + 1) (hsys : bm.status_sys = false)
    (ht : ∀ t ∈ tsb, 0x80 ≤ t ∧ t < 0x100) (hlow : ∀ d ∈ ds, d < 0x80) :
    ∃ bm1, ble_midi_parse bm e data = Outcome.ret bm1 e 1 ∧
      bm1.message = restored bm ++ ds ∧ bm1.len = (restored bm ++ ds).length ∧
      bm1.status = bm.status ∧ bm1.status_restore = false ∧
      bm1.current_len = pre.length + tsb.toList.length + ds.length := by
  have hf0 : bm.status ≠ 0xF0 := by omega
  have hle := message_len_le bm.status hf0
  have hds : ds ≠ [] := by
    intro h0
    rw [h0] at hlen
    exact channel_voice_len bm.status (by omega) hcv.1 (by simpa using hlen)
  have hres : restored (stamp (enter bm data) tsb) = restored bm := by
    cases tsb <;> simp [restored, stamp, enter_status_restore, enter_status]
  have hmsg := running_state_message (stamp (enter bm data) tsb) ds
    (pre.length + tsb.toList.length + ds.length)
    (by cases tsb <;> simp [stamp, enter_buffer_midi, hbuf]) (by omega)
  rw [hres] at hmsg
  refine ⟨_, parse_running_status bm e data pre ds rest tsb hdata hpos hsys hds hlen
    (channel_voice_nibble bm.status (by omega))
    (fun t h => and_0x80_of_ge t (ht t h).2 (ht t h).1) (low_of_lt ds hlow), hmsg, ?_, ?_,
    rfl, rfl⟩
  · simp [running_state, hres]
  · cases tsb <;> simp [running_state, stamp, enter_status]

/-- A packet parsed from the all-zero state that carries a complete
channel-voice message with status `s`, then a complete system message `x`
other than SysEx start or end, then a timestamp byte and running-status data
bytes: the three calls return 1; the third message is the data bytes, with `s`
in front exactly when `x` is below 0xF8. -/
theorem three_calls (e h t1 s t2 x t3 : Nat) (ds1 xd d rest : List Nat)
    (hh : 0x80 ≤ h ∧ h < 0xC0) (ht1 : 0x80 ≤ t1 ∧ t1 < 0x100) (ht2 : 0x80 ≤ t2 ∧ t2 < 0x100)
    (ht3 : 0x80 ≤ t3 ∧ t3 < 0x100) (hs : 0x80 ≤ s ∧ s ≤ 0xEF)
    (hslen : ble_midi_message_len s = ds1.length + 1) (hds1 : ∀ b ∈ ds1, b < 0x80)
    (hx : 0xF0 < x ∧ x < 0x100 ∧ x ≠ 0xF7)
    (hxlen : ble_midi_message_len x = xd.length + 1) (hxd : ∀ b ∈ xd, b < 0x80)
    (hd : d.length = ds1.length) (hdlow : ∀ b ∈ d, b < 0x80) :
    ∃ bm1 bm2 bm3,
      parse_calls (h :: (t1 :: s :: ds1 ++ (t2 :: x :: xd ++ (t3 :: d ++ rest)))) 3
          ble_midi.zero e =
        [Outcome.ret bm1 e 1, Outcome.ret bm2 e 1, Outcome.ret bm3 e 1] ∧
      bm1.message = s :: ds1 ∧ bm1.len = ds1.length + 1 ∧
      bm2.message = x :: xd ∧ bm2.len = xd.length + 1 ∧
      bm3.message = (if x < 0xF8 then [s] else []) ++ d ∧
      bm3.len = ((if x < 0xF8 then [s] else []) ++ d).length ∧ bm3.status = s := by
  obtain ⟨bm1, hc1, hm1, hl1, hcur1, hsys1, hbuf1, hst1, hr1⟩ :=
    complete_message_call ble_midi.zero e
      (h :: (t1 :: s :: ds1 ++ (t2 :: x :: xd ++ (t3 :: d ++ rest)))) [h] ds1
      (t2 :: x :: xd ++ (t3 :: d ++ rest)) t1 s (by simp)
      (Or.inl ⟨rfl, by simp, h, rfl, hh.1, hh.2⟩) rfl rfl ht1 (by omega) (by omega) (by omega)
      hslen hds1
  rw [if_pos (channel_voice_nibble s (by omega))] at hst1
  rw [if_neg (by omega)] at hr1
  obtain ⟨bm2, hc2, hm2, hl2, hcur2, hsys2, hbuf2, hst2, hr2⟩ :=
    complete_message_call bm1 e
      (h :: (t1 :: s :: ds1 ++ (t2 :: x :: xd ++ (t3 :: d ++ rest)))) (h :: t1 :: s :: ds1) xd
      (t3 :: d ++ rest) t2 x (by simp)
      (Or.inr ⟨by omega, by simp [hcur1]; omega⟩) hsys1 hbuf1 ht2 hx.2.1 (by omega) hx.2.2
      hxlen hxd
  rw [if_neg (by simpa using system_nibble x hx.2.1 (by omega)), hst1] at hst2
  have hr2' : bm2.status_restore = decide (x < 0xF8) := by
    have hz : ble_midi.zero.status_restore = false := rfl
    rw [hr2, hr1, hz]
    by_cases hlt : x < 0xF8
    · simp [hlt]; omega
    · simp [hlt]
  obtain ⟨bm3, hc3, hm3, hl3, hst3, _, _⟩ :=
    running_status_call bm2 e
      (h :: (t1 :: s :: ds1 ++ (t2 :: x :: xd ++ (t3 :: d ++ rest))))
      (h :: (t1 :: s :: ds1 ++ (t2 :: x :: xd))) d rest (some t3) (by simp)
      (Or.inr ⟨by omega, by simp [hcur2]; omega⟩) hbuf2 (by rw [hst2]; exact hs)
      (by rw [hst2, hslen, hd]) hsys2 (fun t ht => by cases ht; exact ht3) hdlow
  have hres : restored bm2 = if x < 0xF8 then [s] else [] := by
    unfold restored
    rw [hr2', hst2]
    by_cases hlt : x < 0xF8 <;> simp [hlt]
  rw [hres] at hm3 hl3
  refine ⟨bm1, bm2, bm3, ?_, hm1, hl1, hm2, hl2, hm3, hl3, by rw [hst3, hst2]⟩
  rw [parse_calls_ret _ 2 _ _ e e 1 hc1, parse_calls_ret _ 1 _ _ e e 1 hc2,
    parse_calls_ret _ 0 _ _ e e 1 hc3]
  rfl

set_option maxRecDepth 100000 in
/-- Witness of the amended C6 on the packet of
`test_ble_midi_parse_single_running_status`: the state is the one the first
call leaves, and the second call emits the running-status message 41 7F. -/
theorem running_status_message_witness :
    ble_midi_parse ble_midi.zero 0 [0x80, 0x81, 0x90, 0x40, 0x7f, 0x82, 0x41, 0x7f, 0x42, 0x7f]
      = Outcome.ret note_on_emitted 0 1 ∧
    ∃ bm1, ble_midi_parse note_on_emitted 0
        [0x80, 0x81, 0x90, 0x40, 0x7f, 0x82, 0x41, 0x7f, 0x42, 0x7f] = Outcome.ret bm1 0 1 ∧
      bm1.len = [0x41, 0x7f].length ∧ bm1.message = [0x41, 0x7f] ∧
      ((some 0x82 : Option Nat) = none → bm1.ts = note_on_emitted.ts) :=
  ⟨by decide,
   running_status_message note_on_emitted 0
    [0x80, 0x81, 0x90, 0x40, 0x7f, 0x82, 0x41, 0x7f, 0x42, 0x7f] [0x80, 0x81, 0x90, 0x40, 0x7f]
    [0x41, 0x7f] [0x42, 0x7f] (some 0x82) (by decide) (Or.inr ⟨by decide, by decide⟩)
    (by decide) (by decide) (by decide) (by decide) (by decide) (by decide) (by decide)⟩

set_option maxRecDepth 100000 in
/-- Counterexample to C6 as stated. First packet 80 81 F1 00 82 90 40 7F 83 41 7F:
the complete note-on message is emitted by the second call and no system
message follows it, yet the running-status message 41 7F comes out as
90 41 7F with `len = 3`, because `status_restore` was still set by the
system-common message in front. Second, after the packet 80 81 C0 42 the
running-status message 43 sent as the packet 80 43, right after the header,
makes the call return -1: the packet has fewer than 3 bytes. -/
theorem running_status_message_counterexample :
    (parse_calls [0x80, 0x81, 0xF1, 0x00, 0x82, 0x90, 0x40, 0x7F, 0x83, 0x41, 0x7F] 3
        ble_midi.zero 0).map Outcome.view =
      [some (1, [0xF1, 0x00]), some (1, [0x90, 0x40, 0x7F]), some (1, [0x90, 0x41, 0x7F])] ∧
    (parse_packets [[0x80, 0x81, 0xC0, 0x42], [0x80, 0x43]] ble_midi.zero 0).map
        (fun s => (s.emitted, s.rvs)) =
      some ([[0xC0, 0x42]], [0, -1]) := by
  decide

/-- C7: a packet parsed from the all-zero state that carries a complete
timestamped channel-voice message with status s (classifier length n), then a
complete timestamped system-common message (0xF1, 0xF2, 0xF3 or 0xF6 with its
data bytes), then a timestamp byte and n-1 running-status data bytes d: the
three calls return 1 and the third message is s followed by d, with
`len = n`. -/
theorem running_status_after_common (e h t1 s t2 c t3 : Nat) (ds1 cd d rest : List Nat)
    (hh : 0x80 ≤ h ∧ h < 0xC0) (ht1 : 0x80 ≤ t1 ∧ t1 < 0x100) (ht2 : 0x80 ≤ t2 ∧ t2 < 0x100)
    (ht3 : 0x80 ≤ t3 ∧ t3 < 0x100) (hs : 0x80 ≤ s ∧ s ≤ 0xEF)
    (hslen : ble_midi_message_len s = ds1.length + 1) (hds1 : ∀ b ∈ ds1, b < 0x80)
    (hc : c = 0xF1 ∨ c = 0xF2 ∨ c = 0xF3 ∨ c = 0xF6)
    (hclen : ble_midi_message_len c = cd.length + 1) (hcd : ∀ b ∈ cd, b < 0x80)
    (hd : d.length = ds1.length) (hdlow : ∀ b ∈ d, b < 0x80) :
    ∃ bm1 bm2 bm3,
      parse_calls (h :: (t1 :: s :: ds1 ++ (t2 :: c :: cd ++ (t3 :: d ++ rest)))) 3
          ble_midi.zero e =
        [Outcome.ret bm1 e 1, Outcome.ret bm2 e 1, Outcome.ret bm3 e 1] ∧
      bm1.message = s :: ds1 ∧ bm2.message = c :: cd ∧
      bm3.message = s :: d ∧ bm3.len = ble_midi_message_len s := by
  have hx : 0xF0 < c ∧ c < 0x100 ∧ c ≠ 0xF7 := by omega
  have hlt : c < 0xF8 := by omega
  obtain ⟨bm1, bm2, bm3, hcalls, hm1, _, hm2, _, hm3, hl3, _⟩ :=
    three_calls e h t1 s t2 c t3 ds1 cd d rest hh ht1 ht2 ht3 hs hslen hds1 hx hclen hcd hd hdlow
  rw [if_pos hlt] at hm3 hl3
  exact ⟨bm1, bm2, bm3, hcalls, hm1, hm2, by simpa using hm3, by rw [hl3, hslen]; simp [hd]⟩

set_option maxRecDepth 100000 in
/-- Witness of C7 on the packet of
`test_ble_midi_parse_single_running_status_with_common`. -/
theorem running_status_after_common_witness :
    ∃ bm1 bm2 bm3,
      parse_calls (0x80 :: (0x81 :: 0x90 :: [0x40, 0x7f] ++
          (0x82 :: 0xF1 :: [0x00] ++ (0x83 :: [0x41, 0x7f] ++ [])))) 3 ble_midi.zero 0 =
        [Outcome.ret bm1 0 1, Outcome.ret bm2 0 1, Outcome.ret bm3 0 1] ∧
      bm1.message = 0x90 :: [0x40, 0x7f] ∧ bm2.message = 0xF1 :: [0x00] ∧
      bm3.message = 0x90 :: [0x41, 0x7f] ∧ bm3.len = ble_midi_message_len 0x90 :=
  running_status_after_common 0 0x80 0x81 0x90 0x82 0xF1 0x83 [0x40, 0x7f] [0x00] [0x41, 0x7f] []
    (by decide) (by decide) (by decide) (by decide) (by decide) (by decide) (by decide)
    (by decide) (by decide) (by decide) (by decide) (by decide)

set_option maxRecDepth 100000 in
theorem real_time_len : ∀ r, (r = 0xF8 ∨ r = 0xFA ∨ r = 0xFB ∨ r = 0xFC ∨ r = 0xFE ∨ r = 0xFF) →
    ble_midi_message_len r = 1 := by
  intro r hr
  rcases hr with h | h | h | h | h | h <;> subst h <;> decide

set_option maxRecDepth 100000 in
theorem note_on_len : ∀ s, s < 0xA0 → 0x90 ≤ s → ble_midi_message_len s = 3 := by decide

/-- C8 (amended): a packet parsed from the all-zero state that carries a
complete timestamped note-on message, then a timestamped real-time message
(0xF8, 0xFA, 0xFB, 0xFC, 0xFE or 0xFF), then a timestamp byte and two
running-status data bytes: the three calls return 1 and the third message is
exactly the two data bytes, so it begins with the first data byte and the
note-on status byte is not put in front. -/
theorem note_on_real_time_running (e h t1 s a1 a2 t2 r t3 d1 d2 : Nat) (rest : List Nat)
    (hh : 0x80 ≤ h ∧ h < 0xC0) (ht1 : 0x80 ≤ t1 ∧ t1 < 0x100) (ht2 : 0x80 ≤ t2 ∧ t2 < 0x100)
    (ht3 : 0x80 ≤ t3 ∧ t3 < 0x100) (hs : 0x90 ≤ s ∧ s ≤ 0x9F)
    (ha : a1 < 0x80 ∧ a2 < 0x80)
    (hr : r = 0xF8 ∨ r = 0xFA ∨ r = 0xFB ∨ r = 0xFC ∨ r = 0xFE ∨ r = 0xFF)
    (hd : d1 < 0x80 ∧ d2 < 0x80) :
    ∃ bm1 bm2 bm3,
      parse_calls (h :: (t1 :: s :: [a1, a2] ++ (t2 :: r :: [] ++ (t3 :: [d1, d2] ++ rest)))) 3
          ble_midi.zero e =
        [Outcome.ret bm1 e 1, Outcome.ret bm2 e 1, Outcome.ret bm3 e 1] ∧
      bm3.message = [d1, d2] ∧ bm3.len = 2 ∧ bm3.message.head? ≠ some s := by
  have hx : 0xF0 < r ∧ r < 0x100 ∧ r ≠ 0xF7 := by omega
  have hge : ¬ r < 0xF8 := by omega
  obtain ⟨bm1, bm2, bm3, hcalls, _, _, _, _, hm3, hl3, _⟩ :=
    three_calls e h t1 s t2 r t3 [a1, a2] [] [d1, d2] rest hh ht1 ht2 ht3 (by omega)
      (by simpa using note_on_len s (by omega) hs.1)
      (by intro b hb; simp at hb; omega) hx (by simpa using real_time_len r hr) (by simp) rfl
      (by intro b hb; simp at hb; omega)
  rw [if_neg hge] at hm3 hl3
  refine ⟨bm1, bm2, bm3, hcalls, by simpa using hm3, by simpa using hl3, ?_⟩
  rw [hm3]
  simp
  omega

set_option maxRecDepth 100000 in
/-- Witness of the amended C8 on the packet of
`test_ble_midi_parse_single_running_status_with_real_time`. -/
theorem note_on_real_time_running_witness :
    ∃ bm1 bm2 bm3,
      parse_calls (0x80 :: (0x81 :: 0x90 :: [0x40, 0x7f] ++
          (0x82 :: 0xF8 :: [] ++ (0x83 :: [0x41, 0x7f] ++ [])))) 3 ble_midi.zero 0 =
        [Outcome.ret bm1 0 1, Outcome.ret bm2 0 1, Outcome.ret bm3 0 1] ∧
      bm3.message = [0x41, 0x7f] ∧ bm3.len = 2 ∧ bm3.message.head? ≠ some 0x90 :=
  note_on_real_time_running 0 0x80 0x81 0x90 0x40 0x7f 0x82 0xF8 0x83 0x41 0x7f []
    (by decide) (by decide) (by decide) (by decide) (by decide) (by decide) (by decide)
    (by decide)

set_option maxRecDepth 100000 in
/-- Counterexample to C8 as stated, on the packet of
`test_ble_midi_parse_single_running_status_with_real_time`
(80 81 90 40 7F 82 F8 83 41 7F): the third emitted message is 41 7F; it begins
with the data byte 0x41, not with the note-on status byte 0x90. -/
theorem note_on_real_time_counterexample :
    (parse_calls [0x80, 0x81, 0x90, 0x40, 0x7f, 0x82, 0xF8, 0x83, 0x41, 0x7f] 3
        ble_midi.zero 0).map Outcome.view =
      [some (1, [0x90, 0x40, 0x7f]), some (1, [0xF8]), some (1, [0x41, 0x7f])] ∧
    ([0x41, 0x7f] : List Nat).head? ≠ some 0x90 := by
  decide

/-- C9: a packet parsed from the all-zero state that carries a complete
timestamped channel-voice message with status s (classifier length n), then a
timestamped real-time message r (0xF8, 0xFA, 0xFB, 0xFC, 0xFE or 0xFF), then a
timestamp byte and n-1 running-status data bytes d: the calls emit the first
message, then r alone with `len = 1`, then exactly the data bytes d with
`len = n-1`, and the stored running status is still s. -/
theorem running_status_after_real_time (e h t1 s t2 r t3 : Nat) (ds1 d rest : List Nat)
    (hh : 0x80 ≤ h ∧ h < 0xC0) (ht1 : 0x80 ≤ t1 ∧ t1 < 0x100) (ht2 : 0x80 ≤ t2 ∧ t2 < 0x100)
    (ht3 : 0x80 ≤ t3 ∧ t3 < 0x100) (hs : 0x80 ≤ s ∧ s ≤ 0xEF)
    (hslen : ble_midi_message_len s = ds1.length + 1) (hds1 : ∀ b ∈ ds1, b < 0x80)
    (hr : r = 0xF8 ∨ r = 0xFA ∨ r = 0xFB ∨ r = 0xFC ∨ r = 0xFE ∨ r = 0xFF)
    (hd : d.length = ds1.length) (hdlow : ∀ b ∈ d, b < 0x80) :
    ∃ bm1 bm2 bm3,
      parse_calls (h :: (t1 :: s :: ds1 ++ (t2 :: r :: [] ++ (t3 :: d ++ rest)))) 3
          ble_midi.zero e =
        [Outcome.ret bm1 e 1, Outcome.ret bm2 e 1, Outcome.ret bm3 e 1] ∧
      bm1.message = s :: ds1 ∧ bm2.message = [r] ∧ bm2.len = 1 ∧
      bm3.message = d ∧ bm3.len + 1 = ble_midi_message_len s ∧ bm3.status = s := by
  have hx : 0xF0 < r ∧ r < 0x100 ∧ r ≠ 0xF7 := by omega
  have hge : ¬ r < 0xF8 := by omega
  obtain ⟨bm1, bm2, bm3, hcalls, hm1, _, hm2, hl2, hm3, hl3, hst3⟩ :=
    three_calls e h t1 s t2 r t3 ds1 [] d rest hh ht1 ht2 ht3 hs hslen hds1 hx
      (by simpa using real_time_len r hr) (by simp) hd hdlow
  rw [if_neg hge] at hm3 hl3
  exact ⟨bm1, bm2, bm3, hcalls, hm1, hm2, by simpa using hl2, by simpa using hm3,
    by rw [hl3, hslen]; simp [hd], hst3⟩

set_option maxRecDepth 100000 in
/-- Witness of C9 on the packet of
`test_ble_midi_parse_single_running_status_with_real_time`. -/
theorem running_status_after_real_time_witness :
    ∃ bm1 bm2 bm3,
      parse_calls (0x80 :: (0x81 :: 0x90 :: [0x40, 0x7f] ++
          (0x82 :: 0xF8 :: [] ++ (0x83 :: [0x41, 0x7f] ++ [])))) 3 ble_midi.zero 0 =
        [Outcome.ret bm1 0 1, Outcome.ret bm2 0 1, Outcome.ret bm3 0 1] ∧
      bm1.message = 0x90 :: [0x40, 0x7f] ∧ bm2.message = [0xF8] ∧ bm2.len = 1 ∧
      bm3.message = [0x41, 0x7f] ∧ bm3.len + 1 = ble_midi_message_len 0x90 ∧
      bm3.status = 0x90 :=
  running_status_after_real_time 0 0x80 0x81 0x90 0x82 0xF8 0x83 [0x40, 0x7f] [0x41, 0x7f] []
    (by decide) (by decide) (by decide) (by decide) (by decide) (by decide) (by decide)
    (by decide) (by decide) (by decide)

/-! ## Rejected packets -/

theorem cursor_zero_eta (bm : ble_midi) (hcur : bm.current_len = 0) :
    { bm with current_len := 0 } = bm := by
  cases bm; simp only at hcur; subst hcur; rfl

/-- A first call on a packet whose first byte is not a BLE-MIDI header. -/
theorem parse_reject_header (bm : ble_midi) (e h : Nat) (post : List Nat)
    (hcur : bm.current_len = 0) (hh : h >>> 6 ≠ 2) :
    ble_midi_parse bm e (h :: post) = Outcome.ret bm EINVAL (-1) := by
  have hbm := cursor_zero_eta bm hcur
  unfold ble_midi_parse
  cases hsys : bm.status_sys <;> simp [hcur, hh, fail, hbm]

/-- A first call on a packet of one or two bytes. -/
theorem parse_reject_short (bm : ble_midi) (e : Nat) (data : List Nat)
    (hcur : bm.current_len = 0) (hne : data ≠ []) (hlen : data.length < 3) :
    ble_midi_parse bm e data = Outcome.ret bm EINVAL (-1) := by
  have hbm := cursor_zero_eta bm hcur
  have h0 : ¬ (0 = data.length) := by
    intro h; exact hne (List.eq_nil_of_length_eq_zero h.symm)
  unfold ble_midi_parse
  cases hsys : bm.status_sys <;> simp [hcur, h0, hlen, fail, hbm]

/-- A first call on the empty packet. -/
theorem parse_empty (bm : ble_midi) (e : Nat) (hcur : bm.current_len = 0) :
    ble_midi_parse bm e [] = Outcome.ret bm e 0 := by
  have hbm := cursor_zero_eta bm hcur
  simp [ble_midi_parse, hcur, reset, hbm]

/-- C11: in every state with `current_len = 0`, a non-empty packet whose first
byte does not have its top two bits equal to 10 makes `ble_midi_parse` return
-1 with `errno = EINVAL`; nothing is emitted (the structure is left as it was,
`current_len` still 0). -/
theorem parse_invalid_header (bm : ble_midi) (e h : Nat) (post : List Nat)
    (hcur : bm.current_len = 0) (hh : h >>> 6 ≠ 2) :
    ble_midi_parse bm e (h :: post) = Outcome.ret bm EINVAL (-1) ∧ bm.current_len = 0 :=
  ⟨parse_reject_header bm e h post hcur hh, hcur⟩

/-- Witness of C11 on the packet of `test_ble_midi_parse_invalid_header`. -/
theorem parse_invalid_header_witness :
    ble_midi_parse ble_midi.zero 0 (0x10 :: [0x80, 0x90, 0x40, 0x7f]) =
      Outcome.ret ble_midi.zero EINVAL (-1) ∧ ble_midi.zero.current_len = 0 :=
  parse_invalid_header ble_midi.zero 0 0x10 [0x80, 0x90, 0x40, 0x7f] rfl (by decide)

/-- C12 (amended): in every state with `current_len = 0`, a packet of length 1
or 2 makes `ble_midi_parse` return -1 with `errno = EINVAL`, whatever its
bytes; an empty packet takes the check "no data to parse" and the call
returns 0, `errno` untouched. -/
theorem parse_short_packet (bm : ble_midi) (e : Nat) (data : List Nat)
    (hcur : bm.current_len = 0) (hlen : data.length < 3) :
    (data ≠ [] → ble_midi_parse bm e data = Outcome.ret bm EINVAL (-1)) ∧
    (data = [] → ble_midi_parse bm e data = Outcome.ret bm e 0) :=
  ⟨fun hne => parse_reject_short bm e data hcur hne hlen,
   fun hnil => by rw [hnil]; exact parse_empty bm e hcur⟩

/-- Witness of the amended C12 on the two-byte packet 80 81. -/
theorem parse_short_packet_witness :
    (([0x80, 0x81] : List Nat) ≠ [] →
      ble_midi_parse ble_midi.zero 0 [0x80, 0x81] = Outcome.ret ble_midi.zero EINVAL (-1)) ∧
    (([0x80, 0x81] : List Nat) = [] →
      ble_midi_parse ble_midi.zero 0 [0x80, 0x81] = Outcome.ret ble_midi.zero 0 0) :=
  parse_short_packet ble_midi.zero 0 [0x80, 0x81] rfl (by decide)

set_option maxRecDepth 100000 in
/-- Counterexample to C12 as stated: the packet of length 0, parsed from the
all-zero state, makes `ble_midi_parse` return 0, not -1, and `errno` is not
set to `EINVAL`. -/
theorem parse_short_packet_counterexample :
    ble_midi_parse ble_midi.zero 0 [] = Outcome.ret ble_midi.zero 0 0 := by
  decide

/-- C13: from the all-zero state, a packet of at least 3 bytes with a valid
header, a timestamp byte at index 1 and a byte below 0x80 at index 2 makes
`ble_midi_parse` return -1 with `errno = ENOMSG`, and `current_len` is 0. -/
theorem parse_invalid_status (e h t d : Nat) (rest : List Nat)
    (hh : 0x80 ≤ h ∧ h < 0xC0) (ht : 0x80 ≤ t ∧ t < 0x100) (hd : d < 0x80) :
    ∃ bm1, ble_midi_parse ble_midi.zero e (h :: t :: d :: rest) = Outcome.ret bm1 ENOMSG (-1) ∧
      bm1.current_len = 0 := by
  rw [parse_enter ble_midi.zero e (h :: t :: d :: rest) [h] (t :: d :: rest) rfl (by simp)
    (Or.inl ⟨rfl, by simp, h, rfl, hh.1, hh.2⟩), entry_locals_midi ble_midi.zero rfl]
  have hr : (enter ble_midi.zero (h :: t :: d :: rest)).status_restore = false := by
    rw [enter_status_restore]; rfl
  have hbody : retry_body (h :: t :: d :: rest) (enter ble_midi.zero (h :: t :: d :: rest))
      (Locals.mk Buf.midi 8 0 0 1) e =
      Step.done (fail { enter ble_midi.zero (h :: t :: d :: rest) with
        ts := (enter ble_midi.zero (h :: t :: d :: rest)).ts_high ||| (t &&& 0x7F) } ENOMSG) := by
    rw [retry_body_ts_data (h :: t :: d :: rest) [h] rest t d _ _ e rfl rfl
      (and_0x80_of_ge t ht.2 ht.1) (and_0x80_of_lt d hd)]
    have hlen0 : ble_midi_message_len 0 = 0 := by decide
    simp [parse_message, hr, hlen0]
  refine ⟨_, retry_done (h :: t :: d :: rest) _ _ _ e _ hbody, rfl⟩

/-- Witness of C13 on the packet of `test_ble_midi_parse_invalid_status`. -/
theorem parse_invalid_status_witness :
    ∃ bm1, ble_midi_parse ble_midi.zero 0 (0x80 :: 0x80 :: 0x40 :: [0x40, 0x7f]) =
        Outcome.ret bm1 ENOMSG (-1) ∧ bm1.current_len = 0 :=
  parse_invalid_status 0 0x80 0x80 0x40 [0x40, 0x7f] (by decide) (by decide) (by decide)

set_option maxRecDepth 100000 in
/-- C15, the code at the failing inputs: from the all-zero state the packet
80 80 90 40 (a note-on with one of its two data bytes) makes `ble_midi_parse`
return 1 and emit the two bytes 90 40, and the packet 80 80 90 (status byte
last) makes it return 1 and emit the single byte 90; `errno` is left as it
was and the next call returns 0. -/
theorem parse_truncated_message :
    (parse_calls [0x80, 0x80, 0x90, 0x40] 2 ble_midi.zero 0).map
        (fun o => match o with
          | Outcome.ret bm errno rv => some (rv, bm.message, errno)
          | _ => none) =
      [some (1, [0x90, 0x40], 0), some (0, [0x90, 0x40], 0)] ∧
    (parse_calls [0x80, 0x80, 0x90] 2 ble_midi.zero 0).map
        (fun o => match o with
          | Outcome.ret bm errno rv => some (rv, bm.message, errno)
          | _ => none) =
      [some (1, [0x90], 0), some (0, [0x90], 0)] := by
  decide

/-! ## Projections of `store` -/

theorem store_snd_status (bm : ble_midi) (l : Locals) (v : Nat) :
    (store bm l v).2.bm_status = l.bm_status := by
  unfold store; split <;> rfl

theorem store_snd_cur (bm : ble_midi) (l : Locals) (v : Nat) :
    (store bm l v).2.bm_current_len = l.bm_current_len := by
  unfold store; split <;> rfl

theorem store_snd_len (bm : ble_midi) (l : Locals) (v : Nat) :
    (store bm l v).2.bm_buffer_len = l.bm_buffer_len + 1 := by
  unfold store; split <;> rfl

theorem store_snd_size (bm : ble_midi) (l : Locals) (v : Nat) :
    (store bm l v).2.bm_buffer_size = l.bm_buffer_size := by
  unfold store; split <;> rfl

theorem store_snd_buffer (bm : ble_midi) (l : Locals) (v : Nat) :
    (store bm l v).2.bm_buffer = l.bm_buffer := by
  unfold store; split <;> rfl

theorem store_fst_buffer (bm : ble_midi) (l : Locals) (v : Nat) :
    (store bm l v).1.buffer = bm.buffer := by
  unfold store; split <;> rfl

theorem store_fst_len (bm : ble_midi) (l : Locals) (v : Nat) :
    (store bm l v).1.len = bm.len := by
  unfold store; split <;> rfl

theorem store_fst_restore (bm : ble_midi) (l : Locals) (v : Nat) :
    (store bm l v).1.status_restore = bm.status_restore := by
  unfold store; split <;> rfl

/-! ## Interrupted messages -/

/-- The data-byte loop meets a byte with bit 7 set before the message has all
its data bytes: it is left with `midi_msg_len` not 0. -/
theorem data_loop_interrupted (data rest : List Nat) (hb : Nat) (hhb : hb &&& 0x80 ≠ 0) :
    ∀ (ds pre : List Nat) (fuel : Nat) (bm : ble_midi) (l : Locals) (m : Nat),
      data = pre ++ (ds ++ hb :: rest) → l.bm_current_len = pre.length →
      (∀ d ∈ ds, d &&& 0x80 = 0) → ds.length + 1 < m → ds.length < fuel →
      ∃ bm1 l1 m1, data_loop data fuel bm l m = LoopExit.exit bm1 l1 m1 ∧ m1 ≠ 0 ∧
        l1.bm_status = l.bm_status ∧ bm1.buffer = bm.buffer ∧ bm1.len = bm.len := by
  intro ds
  induction ds with
  | nil =>
    intro pre fuel bm l m hdata hcur _ hm hfuel
    obtain ⟨f, rfl⟩ : ∃ f, fuel = f + 1 := ⟨fuel - 1, by simp at hfuel; omega⟩
    have hread : data[l.bm_current_len]? = some hb := by
      rw [hdata, hcur]; exact getElem?_mid pre rest hb
    simp at hm
    exact ⟨bm, l, m - 1, data_loop_high data f bm l m hb (by omega) hread hhb, by omega, rfl, rfl,
      rfl⟩
  | cons d ds ih =>
    intro pre fuel bm l m hdata hcur hlow hm hfuel
    simp only [List.length_cons] at hm hfuel
    obtain ⟨f, rfl⟩ : ∃ f, fuel = f + 1 := ⟨fuel - 1, by omega⟩
    have hread : data[l.bm_current_len]? = some d := by
      rw [hdata, hcur]; exact getElem?_mid pre _ d
    have hd : d &&& 0x80 = 0 := hlow d (by simp)
    by_cases hroom : l.bm_buffer_len < l.bm_buffer_size
    · have hlen : data.length = pre.length + (ds.length + 1 + (rest.length + 1)) := by
        rw [hdata]; simp; omega
      have hm1 : ¬ (m - 1 = 0) := by omega
      have hne : ¬ ((store bm l d).2.bm_current_len + 1 = data.length) := by
        rw [store_snd_cur, hcur, hlen]; omega
      obtain ⟨bm1, l1, m1, hloop, hm1', hst, hbuf, hl⟩ := ih (pre ++ [d]) f (store bm l d).1
        { (store bm l d).2 with bm_current_len := (store bm l d).2.bm_current_len + 1 } (m - 1)
        (by rw [hdata]; simp) (by simp [store_snd_cur, hcur])
        (fun x hx => hlow x (by simp [hx])) (by omega) (by omega)
      refine ⟨bm1, l1, m1, ?_, hm1', ?_, ?_, ?_⟩
      · rw [data_loop]
        simp only [hm1, if_false, hread, hd, ne_eq, not_true_eq_false, hroom, not_false_eq_true,
          hne]
        exact hloop
      · simpa [store_snd_status] using hst
      · rw [hbuf, store_fst_buffer]
      · rw [hl, store_fst_len]
    · exact ⟨bm, l, m - 1, data_loop_full data f bm l m d (by omega) hread hroom, by omega, rfl,
        rfl, rfl⟩

/-- Data bytes of a message with classifier length 2 or 3, fewer than it needs,
followed by a byte with bit 7 set: the pass fails with `EBADMSG`. -/
theorem parse_message_interrupted (data pre ds rest : List Nat) (hb : Nat) (bm : ble_midi)
    (l : Locals) (e : Nat) (hdata : data = pre ++ (ds ++ hb :: rest))
    (hcur : l.bm_current_len = pre.length) (hnr : l.bm_buffer_len ≠ 0)
    (hf0 : l.bm_status ≠ 0xF0)
    (hshort : ds.length + 1 < ble_midi_message_len l.bm_status)
    (hlow : ∀ d ∈ ds, d &&& 0x80 = 0) (hhb : hb &&& 0x80 ≠ 0) :
    ∃ bm1, parse_message data bm l e = Step.done (fail bm1 EBADMSG) ∧
      bm1.buffer = bm.buffer ∧ bm1.len = bm.len := by
  have hlen : data.length = pre.length + (ds.length + (1 + rest.length)) := by
    rw [hdata]; simp; omega
  have hm0 : ble_midi_message_len l.bm_status ≠ 0 := by omega
  obtain ⟨bm1, l1, m1, hloop, hm1, hst, hbuf, hl⟩ := data_loop_interrupted data rest hb hhb ds
    pre (data.length + 1) bm l (ble_midi_message_len l.bm_status) hdata hcur hlow hshort
    (by omega)
  refine ⟨bm1, ?_, hbuf, hl⟩
  unfold parse_message
  simp only [hnr, false_and, if_false, hm0]
  rw [hloop]
  simp only [after_data]
  rw [if_pos ⟨hm1, by rw [hst]; exact hf0⟩]

/-- A status byte with classifier length 2 or 3 followed by fewer data bytes
than it needs and then by a byte with bit 7 set: the pass fails with
`EBADMSG`. -/
theorem parse_status_interrupted (data pre ds rest : List Nat) (s hb : Nat) (bm : ble_midi)
    (l : Locals) (e : Nat) (hdata : data = pre ++ (s :: (ds ++ hb :: rest)))
    (hcur : l.bm_current_len = pre.length) (hsz : l.bm_buffer_size ≠ 0)
    (hn : ble_midi_message_len s = 2 ∨ ble_midi_message_len s = 3)
    (hshort : ds.length + 1 < ble_midi_message_len s)
    (hlow : ∀ d ∈ ds, d &&& 0x80 = 0) (hhb : hb &&& 0x80 ≠ 0) :
    ∃ bm1, parse_status data bm l e s = Step.done (fail bm1 EBADMSG) ∧
      bm1.buffer = bm.buffer ∧ bm1.len = bm.len := by
  have hf0 : s ≠ 0xF0 := by
    intro h; rw [h, message_len_sysex] at hn
    have := size_max_large; omega
  have hf7 : s ≠ 0xF7 := by
    intro h; rw [h] at hn
    have : ble_midi_message_len 0xF7 = 1 := by decide
    omega
  have hlen : data.length = pre.length + (1 + (ds.length + (1 + rest.length))) := by
    rw [hdata]; simp; omega
  unfold parse_status
  simp only [hf0, hf7, if_false]
  by_cases hroom : l.bm_buffer_len < l.bm_buffer_size
  · simp only [hroom, if_true]
    rw [if_neg (by rw [store_snd_cur, hcur, hlen]; omega)]
    obtain ⟨bm1, h1, h2, h3⟩ := parse_message_interrupted data (pre ++ [s]) ds rest hb
      (store bm { l with bm_status := s } s).1
      { (store bm { l with bm_status := s } s).2 with
        bm_current_len := (store bm { l with bm_status := s } s).2.bm_current_len + 1 } e
      (by rw [hdata]; simp) (by simp [store_snd_cur, hcur]) (by simp [store_snd_len])
      (by simpa [store_snd_status] using hf0) (by simpa [store_snd_status] using hshort) hlow hhb
    exact ⟨bm1, h1, by rw [h2, store_fst_buffer], by rw [h3, store_fst_len]⟩
  · simp only [hroom, if_false]
    rw [if_neg (by rw [hcur, hlen]; omega)]
    exact parse_message_interrupted data (pre ++ [s]) ds rest hb bm
      { l with bm_status := s, bm_current_len := l.bm_current_len + 1 } e
      (by rw [hdata]; simp) (by simp [hcur]) (by show l.bm_buffer_len ≠ 0; omega) hf0 hshort
      hlow hhb

/-- C14: a status byte s other than SysEx with classifier length n in {2,3}
that follows a timestamp byte, with fewer than n-1 data bytes between it and
the next byte with bit 7 set: the call that parses s, in whatever state,
returns -1 with `errno = EBADMSG`; nothing is emitted (`buffer` and `len` keep
their values) and `current_len` is 0. -/
theorem parse_interrupted_message (bm : ble_midi) (e : Nat) (data pre ds rest : List Nat)
    (t s hb : Nat) (hdata : data = pre ++ (t :: s :: (ds ++ hb :: rest)))
    (hpos : Pos bm data pre) (ht : 0x80 ≤ t ∧ t < 0x100) (hs : s < 0x100)
    (hn : ble_midi_message_len s = 2 ∨ ble_midi_message_len s = 3)
    (hshort : ds.length + 1 < ble_midi_message_len s)
    (hlow : ∀ d ∈ ds, d < 0x80) (hhb : 0x80 ≤ hb ∧ hb < 0x100) :
    ∃ bm1, ble_midi_parse bm e data = Outcome.ret bm1 EBADMSG (-1) ∧ bm1.current_len = 0 ∧
      bm1.buffer = bm.buffer ∧ bm1.len = bm.len := by
  rw [parse_enter bm e data pre _ hdata (by simp) hpos]
  have hsz : ({ entry_locals bm with bm_current_len := pre.length } : Locals).bm_buffer_size ≠ 0 := by
    unfold entry_locals
    cases bm.status_sys <;> simp
  obtain ⟨bm1, hst, hbuf, hl⟩ := parse_status_interrupted data (pre ++ [t]) ds rest s hb
    { enter bm data with ts := (enter bm data).ts_high ||| (t &&& 0x7F) }
    { bm_buffer := ({ entry_locals bm with bm_current_len := pre.length } : Locals).bm_buffer,
      bm_buffer_size :=
        ({ entry_locals bm with bm_current_len := pre.length } : Locals).bm_buffer_size,
      bm_buffer_len :=
        ({ entry_locals bm with bm_current_len := pre.length } : Locals).bm_buffer_len,
      bm_status := ({ entry_locals bm with bm_current_len := pre.length } : Locals).bm_status,
      bm_current_len := pre.length + 1 } e
    (by rw [hdata]; simp) (by simp) hsz hn hshort (low_of_lt ds hlow)
    (and_0x80_of_ge hb hhb.2 hhb.1)
  refine ⟨{ bm1 with current_len := 0 }, ?_, rfl, ?_, ?_⟩
  · apply retry_done
    rw [retry_body_ts_status data pre (ds ++ hb :: rest) t s _ _ e hdata rfl
      (and_0x80_of_ge t ht.2 ht.1)
      (status_high s hs (by omega))]
    exact hst
  · show bm1.buffer = bm.buffer
    rw [hbuf]
    show (enter bm data).buffer = bm.buffer
    unfold enter; split_ifs <;> rfl
  · show bm1.len = bm.len
    rw [hl]
    show (enter bm data).len = bm.len
    unfold enter; split_ifs <;> rfl

/-- Witness of C14 on the packet of
`test_ble_midi_parse_invalid_interleaved_real_time`. -/
theorem parse_interrupted_message_witness :
    ∃ bm1, ble_midi_parse ble_midi.zero 0 [0x80, 0x80, 0x90, 0x40, 0xF8, 0x7f] =
        Outcome.ret bm1 EBADMSG (-1) ∧ bm1.current_len = 0 ∧
      bm1.buffer = ble_midi.zero.buffer ∧ bm1.len = ble_midi.zero.len :=
  parse_interrupted_message ble_midi.zero 0 [0x80, 0x80, 0x90, 0x40, 0xF8, 0x7f] [0x80] [0x40]
    [0x7f] 0x80 0x90 0xF8 (by decide) (Or.inl ⟨rfl, by decide, 0x80, rfl, by decide, by decide⟩)
    (by decide) (by decide) (by decide) (by decide) (by decide) (by decide)

/-! ## Timestamp byte at the end of the packet -/

/-- The pass from `retry` on the last byte of the packet, that byte having bit
7 set: the pass fails with `EINVAL`. -/
theorem retry_body_ts_last (data : List Nat) (hb : Nat) (bm : ble_midi) (l : Locals) (e : Nat)
    (hcur : l.bm_current_len + 1 = data.length)
    (hread : data[l.bm_current_len]? = some hb) (hhb : hb &&& 0x80 ≠ 0) :
    retry_body data bm l e =
      Step.done (fail { bm with ts := bm.ts_high ||| (hb &&& 0x7F) } EINVAL) := by
  unfold retry_body
  simp only [hread, hhb, ne_eq, not_false_eq_true, if_true, hcur]

theorem getElem?_last (body : List Nat) (hb : Nat) :
    (body ++ [hb])[body.length]? = some hb := getElem?_mid body [] hb

/-- C16: in a packet of at least 3 bytes whose last byte has bit 7 set,
whenever `ble_midi_parse` stands at the label `retry` on index len-1, the call
returns -1 with `errno = EINVAL` and `current_len = 0`. This is the case at
the start of a call with `current_len = len-1`, after a chunk of the body of a
SysEx in flight, and after the start and a chunk of the body of a SysEx begun
in the same call (the chunk leaving room in the reassembly buffer). -/
theorem timestamp_last_byte (data body : List Nat) (hb : Nat) (hdata : data = body ++ [hb])
    (h3 : 3 ≤ data.length) (hhb : 0x80 ≤ hb ∧ hb < 0x100) :
    (∀ (bm : ble_midi) (l : Locals) (e fuel : Nat), l.bm_current_len + 1 = data.length →
      ∃ bm1, retry data (fuel + 1) bm l e = Outcome.ret bm1 EINVAL (-1) ∧
        bm1.current_len = 0) ∧
    (∀ (bm : ble_midi) (e : Nat), bm.current_len + 1 = data.length →
      ∃ bm1, ble_midi_parse bm e data = Outcome.ret bm1 EINVAL (-1) ∧ bm1.current_len = 0) ∧
    (∀ (bm : ble_midi) (e : Nat) (pre chunk : List Nat), Pos bm data pre →
      body = pre ++ chunk → chunk ≠ [] → (∀ d ∈ chunk, d < 0x80) → bm.status_sys = true →
      bm.buffer_sys_len ≠ 0 → bm.buffer_sys_len + chunk.length < 256 →
      ∃ bm1, ble_midi_parse bm e data = Outcome.ret bm1 EINVAL (-1) ∧ bm1.current_len = 0) ∧
    (∀ (bm : ble_midi) (e : Nat) (pre chunk : List Nat) (t : Nat), Pos bm data pre →
      body = pre ++ t :: 0xF0 :: chunk → 0x80 ≤ t ∧ t < 0x100 → (∀ d ∈ chunk, d < 0x80) →
      bm.buffer_sys_len + 1 + chunk.length < 256 →
      ∃ bm1, ble_midi_parse bm e data = Outcome.ret bm1 EINVAL (-1) ∧
        bm1.current_len = 0) := by
  have hbit := and_0x80_of_ge hb hhb.2 hhb.1
  have hdl : data.length = body.length + 1 := by rw [hdata]; simp
  have hretry : ∀ (bm : ble_midi) (l : Locals) (e fuel : Nat),
      l.bm_current_len + 1 = data.length →
      ∃ bm1, retry data (fuel + 1) bm l e = Outcome.ret bm1 EINVAL (-1) ∧
        bm1.current_len = 0 := by
    intro bm l e fuel hcur
    have hread : data[l.bm_current_len]? = some hb := by
      have : l.bm_current_len = body.length := by omega
      rw [this, hdata]; exact getElem?_last body hb
    exact ⟨_, retry_done data fuel bm l e _ (retry_body_ts_last data hb bm l e hcur hread hbit),
      rfl⟩
  obtain ⟨f, hf⟩ : ∃ f, data.length = f + 1 := ⟨data.length - 1, by omega⟩
  refine ⟨hretry, ?_, ?_, ?_⟩
  · intro bm e hcur
    rw [parse_entry_mid bm e data (by omega) (by omega)]
    exact hretry bm (entry_locals bm) e data.length (by
      unfold entry_locals; cases bm.status_sys <;> simpa using hcur)
  · intro bm e pre chunk hpos hbody hne hlow hsys hk0 hfit
    obtain ⟨d, ds, rfl⟩ : ∃ d r, chunk = d :: r := by
      cases chunk with
      | nil => exact absurd rfl hne
      | cons d r => exact ⟨d, r, rfl⟩
    have hd2 : data = pre ++ (d :: ds ++ hb :: []) := by rw [hdata, hbody]; simp
    rw [parse_enter bm e data pre _ hd2 (by simp) hpos, entry_locals_sys bm hsys]
    rw [retry_again data _ _ _ _ _ e e (by
      rw [retry_body_data data pre (ds ++ [hb]) d _ _ e (by rw [hd2]; simp) rfl
        (and_0x80_of_lt d (hlow d (by simp)))]
      exact parse_message_sysex_high data (d :: ds) pre [] hb (enter bm data)
        (Locals.mk Buf.sys 256 bm.buffer_sys_len 0xF0 pre.length) e rfl (by simp [hk0])
        hd2 rfl (low_of_lt _ hlow) hbit (by simpa using hfit) (Nat.le_refl _))]
    rw [hf]
    exact hretry _ _ e f (by
      rw [consume_snd_cur, hdl, hbody]; simp)
  · intro bm e pre chunk t hpos hbody ht hlow hfit
    have hd2 : data = pre ++ (t :: 0xF0 :: (chunk ++ [hb])) := by rw [hdata, hbody]; simp
    have hk : (enter bm data).buffer_sys_len < 256 := by
      rw [enter_buffer_sys_len]; omega
    rw [parse_enter bm e data pre _ hd2 (by simp) hpos]
    rw [retry_again data _ _ _ _ _ e e (by
      rw [retry_body_ts_status data pre (chunk ++ [hb]) t 0xF0 _ _ e hd2 rfl
        (and_0x80_of_ge t ht.2 ht.1) (by decide)]
      rw [parse_status_sysex_start data (pre ++ [t]) (chunk ++ [hb])
        { enter bm data with ts := (enter bm data).ts_high ||| (t &&& 0x7F) } _ e
        (by rw [hd2]; simp) (by simp) (by simp) hk]
      exact parse_message_sysex_high data chunk (pre ++ [t, 0xF0]) [] hb _ _ e rfl
        (by simp [sysex_started]) (by rw [hd2]; simp) (by simp [sysex_started])
        (low_of_lt _ hlow) hbit
        (by simp [sysex_started, enter_buffer_sys_len]; omega) (by simp [sysex_started]))]
    rw [hf]
    exact hretry _ _ e f (by
      rw [consume_snd_cur, hdl, hbody]; simp [sysex_started]; omega)

/-- Witness of C16 on the packet of `test_ble_midi_parse_invalid_system_exclusive`
(80 80 F0 01 80), parsed from the all-zero state. -/
theorem timestamp_last_byte_witness :
    3 ≤ ([0x80, 0x80, 0xF0, 0x01, 0x80] : List Nat).length ∧
    ∃ bm1, ble_midi_parse ble_midi.zero 0 [0x80, 0x80, 0xF0, 0x01, 0x80] =
        Outcome.ret bm1 EINVAL (-1) ∧ bm1.current_len = 0 :=
  ⟨by decide,
   (timestamp_last_byte [0x80, 0x80, 0xF0, 0x01, 0x80] [0x80, 0x80, 0xF0, 0x01] 0x80 rfl
      (by decide) (by decide)).2.2.2 ble_midi.zero 0 [0x80] [0x01] 0x80
      (Or.inl ⟨rfl, by decide, 0x80, rfl, by decide, by decide⟩) rfl (by decide) (by decide)
      (by decide)⟩

/-! ## The cursor at the moment a call leaves -/

theorem after_data_trace_step (bm : ble_midi) (l : Locals) (e m : Nat) :
    (after_data_trace bm l e m).step = after_data bm l e m := by
  unfold after_data_trace after_data
  split_ifs <;> rfl

theorem parse_message_trace_step (data : List Nat) (bm : ble_midi) (l : Locals) (e : Nat) :
    (parse_message_trace data bm l e).step = parse_message data bm l e := by
  unfold parse_message_trace parse_message
  simp only
  generalize (if l.bm_buffer_len = 0 ∧ bm.status_restore = true then
      (({ (store bm l l.bm_status).1 with status_restore := false } : ble_midi),
        (store bm l l.bm_status).2)
    else (bm, l)) = p
  by_cases hm : ble_midi_message_len p.2.bm_status = 0
  · rw [if_pos hm, if_pos hm]; rfl
  · rw [if_neg hm, if_neg hm]
    cases data_loop data (data.length + 1) p.1 p.2 (ble_midi_message_len p.2.bm_status) with
    | goto_final bm1 l1 => rfl
    | exit bm1 l1 m => exact after_data_trace_step bm1 l1 e m
    | out_of_bounds => rfl
    | out_of_fuel => rfl

theorem parse_status_trace_step (data : List Nat) (bm : ble_midi) (l : Locals) (e s : Nat) :
    (parse_status_trace data bm l e s).step = parse_status data bm l e s := by
  unfold parse_status_trace parse_status
  simp only
  split_ifs
  all_goals first | rfl | exact parse_message_trace_step _ _ _ _

theorem retry_body_trace_step (data : List Nat) (bm : ble_midi) (l : Locals) (e : Nat) :
    (retry_body_trace data bm l e).step = retry_body data bm l e := by
  unfold retry_body_trace retry_body
  cases h0 : data[l.bm_current_len]? with
  | none => rfl
  | some b =>
    simp only
    by_cases hb : b &&& 0x80 ≠ 0
    · rw [if_pos hb, if_pos hb]
      by_cases hend : l.bm_current_len + 1 = data.length
      · rw [if_pos hend, if_pos hend]; rfl
      · rw [if_neg hend, if_neg hend]
        cases h1 : data[l.bm_current_len + 1]? with
        | none => rfl
        | some s =>
          simp only
          by_cases hs : s &&& 0x80 ≠ 0
          · rw [if_pos hs, if_pos hs]; exact parse_status_trace_step _ _ _ _ _
          · rw [if_neg hs, if_neg hs]; exact parse_message_trace_step _ _ _ _
    · rw [if_neg hb, if_neg hb]; exact parse_message_trace_step _ _ _ _

theorem retry_trace_outcome (data : List Nat) : ∀ (fuel : Nat) (bm : ble_midi) (l : Locals)
    (e : Nat), (retry_trace data fuel bm l e).outcome = retry data fuel bm l e := by
  intro fuel
  induction fuel with
  | zero => intro bm l e; rfl
  | succ f ih =>
    intro bm l e
    have h := retry_body_trace_step data bm l e
    rw [retry_trace, retry]
    cases hp : retry_body_trace data bm l e with
    | done x =>
      rw [hp] at h
      simp only [Pass.step] at h
      rw [← h]
    | again bm1 l1 e1 =>
      rw [hp] at h
      simp only [Pass.step] at h
      rw [← h]
      exact ih bm1 l1 e1

/-- The traced call returns what `ble_midi_parse` returns. -/
theorem parse_trace_outcome (bm : ble_midi) (e : Nat) (data : List Nat) :
    (ble_midi_parse_trace bm e data).outcome = ble_midi_parse bm e data := by
  unfold ble_midi_parse_trace ble_midi_parse
  simp only
  by_cases hend : bm.current_len = data.length
  · rw [if_pos hend, if_pos hend]; rfl
  · rw [if_neg hend, if_neg hend]
    split_ifs <;>
      first
      | rfl
      | exact retry_trace_outcome _ _ _ _ _
      | (cases h0 : data[0]? with
          | none => rfl
          | some h =>
            simp only
            split_ifs <;> first | rfl | exact retry_trace_outcome _ _ _ _ _)

/-! ## Invariants of a call -/

theorem keeps_refl (bm : ble_midi) : Keeps bm bm := ⟨rfl, rfl, rfl, rfl, rfl⟩

theorem lok_size (l : Locals) (h : LOK l) :
    l.bm_buffer_size ≤ 256 ∧ l.bm_buffer_size ≠ 0 ∧ (l.bm_status = 0xF0 → l.bm_buffer_size = 256) := by
  obtain ⟨_, h2, h3⟩ := h
  refine ⟨?_, ?_, ?_⟩
  · rw [h2]; cases l.bm_buffer <;> simp [Buf.size]
  · rw [h2]; cases l.bm_buffer <;> simp [Buf.size]
  · intro hs; rw [h2, h3 hs]; rfl

theorem good_store (bm0 bm : ble_midi) (l : Locals) (v : Nat) (hk : Keeps bm0 bm) (hw : WF bm) :
    Keeps bm0 (store bm l v).1 ∧ WF (store bm l v).1 := by
  unfold store
  cases l.bm_buffer <;> simp only [Keeps, WF, List.length_set] at hk hw ⊢ <;> exact ⟨hk, hw⟩

theorem lok_store (bm : ble_midi) (l : Locals) (v : Nat) (h : LOK l)
    (hroom : l.bm_buffer_len < l.bm_buffer_size) : LOK (store bm l v).2 := by
  obtain ⟨_, h2, h3⟩ := h
  refine ⟨?_, ?_, ?_⟩
  · rw [store_snd_len, store_snd_size]; omega
  · rw [store_snd_size, store_snd_buffer]; exact h2
  · rw [store_snd_status, store_snd_buffer]; exact h3

theorem ts_bound (th b : Nat) (h1 : th % 128 = 0) (h2 : th ≤ 8064) :
    th ||| (b &&& 0x7F) < 8192 := by
  have hb : b &&& 0x7F ≤ 0x7F := Nat.and_le_right
  exact Nat.or_lt_two_pow (n := 13) (by omega) (by omega)

theorem ts_high_bound (h : Nat) : ((h &&& 0x3F) <<< 7) % 128 = 0 ∧ (h &&& 0x3F) <<< 7 ≤ 8064 := by
  have hb : h &&& 0x3F ≤ 0x3F := Nat.and_le_right
  rw [Nat.shiftLeft_eq]
  omega

theorem good_ts (bm0 bm : ble_midi) (b : Nat) (hk : Keeps bm0 bm) (hw : WF bm) :
    Keeps bm0 { bm with ts := bm.ts_high ||| (b &&& 0x7F) } ∧
      WF { bm with ts := bm.ts_high ||| (b &&& 0x7F) } := by
  obtain ⟨w1, w2, w3, w4, w5, w6, w7, w8⟩ := hw
  exact ⟨hk, w1, w2, w3, w4, ts_bound _ _ w7 w8, w6, w7, w8⟩

theorem good_ts_high (bm0 bm : ble_midi) (h : Nat) (hk : Keeps bm0 bm) (hw : WF bm) :
    Keeps bm0 { bm with ts_high := (h &&& 0x3F) <<< 7 } ∧
      WF { bm with ts_high := (h &&& 0x3F) <<< 7 } := by
  obtain ⟨w1, w2, w3, w4, w5, w6, _, _⟩ := hw
  exact ⟨hk, w1, w2, w3, w4, w5, w6, (ts_high_bound h).1, (ts_high_bound h).2⟩

theorem good_sysex_start (bm0 bm : ble_midi) (hk : Keeps bm0 bm) (hw : WF bm) :
    Keeps bm0 { bm with ts_sys := bm.ts, status_sys := true } ∧
      WF { bm with ts_sys := bm.ts, status_sys := true } := by
  obtain ⟨w1, w2, w3, w4, w5, w6, w7, w8⟩ := hw
  exact ⟨hk, w1, w2, w3, w4, w5, w5, w7, w8⟩

theorem good_sysex_stop (bm0 bm : ble_midi) (hk : Keeps bm0 bm) (hw : WF bm) :
    Keeps bm0 { bm with status_sys := false } ∧ WF { bm with status_sys := false } :=
  ⟨hk, hw⟩

theorem good_restore (bm0 bm : ble_midi) (hk : Keeps bm0 bm) (hw : WF bm) :
    Keeps bm0 { bm with status_restore := false } ∧ WF { bm with status_restore := false } :=
  ⟨hk, hw⟩

theorem good_sys_len (bm0 bm : ble_midi) (n : Nat) (hn : n ≤ 256) (hk : Keeps bm0 bm)
    (hw : WF bm) :
    Keeps bm0 { bm with buffer_sys_len := n } ∧ WF { bm with buffer_sys_len := n } := by
  obtain ⟨w1, w2, _, w4, w5, w6, w7, w8⟩ := hw
  exact ⟨hk, w1, w2, hn, w4, w5, w6, w7, w8⟩

/-! ## The data-byte loop keeps the invariants -/

theorem loop_ok_step (data : List Nat) (bm0 : ble_midi) (l l1 : Locals) (m : Nat) (r : LoopExit)
    (hcur : l.bm_current_len < l1.bm_current_len) (hst : l1.bm_status = l.bm_status)
    (h : LoopOK data bm0 l1 (m - 1) r) : LoopOK data bm0 l m r := by
  cases r with
  | goto_final bm2 l2 =>
    obtain ⟨a1, a2, a3, a4, a5, a6⟩ := h
    exact ⟨a1, a2, a3, a4, by omega, by rw [a6, hst]⟩
  | exit bm2 l2 m2 =>
    obtain ⟨a1, a2, a3, a4, a5, a6, _⟩ := h
    exact ⟨a1, a2, a3, by omega, a5, by rw [a6, hst], Or.inl (by omega)⟩
  | out_of_bounds => exact h
  | out_of_fuel => exact h

theorem data_loop_ok (data : List Nat) (bm0 : ble_midi) :
    ∀ (fuel : Nat) (bm : ble_midi) (l : Locals) (m : Nat), Keeps bm0 bm → WF bm → LOK l →
      l.bm_current_len < data.length → data.length - l.bm_current_len ≤ fuel →
      LoopOK data bm0 l m (data_loop data fuel bm l m) := by
  intro fuel
  induction fuel with
  | zero => intro bm l m _ _ _ h1 h2; omega
  | succ f ih =>
    intro bm l m hk hw hl hcur hfuel
    rw [data_loop]
    by_cases hm : m - 1 = 0
    · rw [if_pos hm]
      exact ⟨hk, hw, hl, Nat.le_refl _, hcur, rfl, Or.inr ⟨rfl, rfl, Or.inl hm⟩⟩
    · rw [if_neg hm]
      obtain ⟨b, hb⟩ : ∃ b, data[l.bm_current_len]? = some b :=
        ⟨data[l.bm_current_len], List.getElem?_eq_getElem hcur⟩
      rw [hb]
      simp only
      by_cases hhigh : b &&& 0x80 ≠ 0
      · rw [if_pos hhigh]
        exact ⟨hk, hw, hl, Nat.le_refl _, hcur, rfl,
          Or.inr ⟨rfl, rfl, Or.inr (Or.inl ⟨b, hb, hhigh⟩)⟩⟩
      · rw [if_neg hhigh]
        by_cases hroom : l.bm_buffer_len < l.bm_buffer_size
        · rw [if_neg (not_not.mpr hroom)]
          have hg := good_store bm0 bm l b hk hw
          have hl1 := lok_store bm l b hl hroom
          by_cases hend : (store bm l b).2.bm_current_len + 1 = data.length
          · rw [if_pos hend]
            refine ⟨hg.1, hg.2, hl1, hend, ?_, store_snd_status bm l b⟩
            show l.bm_current_len < (store bm l b).2.bm_current_len + 1
            rw [store_snd_cur]; omega
          · rw [if_neg hend]
            rw [store_snd_cur] at hend
            refine loop_ok_step data bm0 l _ m _ ?_ ?_
              (ih (store bm l b).1
                { (store bm l b).2 with
                  bm_current_len := (store bm l b).2.bm_current_len + 1 } (m - 1) hg.1 hg.2 hl1
                ?_ ?_)
            · show l.bm_current_len < (store bm l b).2.bm_current_len + 1
              rw [store_snd_cur]; omega
            · exact store_snd_status bm l b
            · show (store bm l b).2.bm_current_len + 1 < data.length
              rw [store_snd_cur]; omega
            · show data.length - ((store bm l b).2.bm_current_len + 1) ≤ f
              rw [store_snd_cur]; omega
        · rw [if_pos hroom]
          exact ⟨hk, hw, hl, Nat.le_refl _, hcur, rfl,
            Or.inr ⟨rfl, rfl, Or.inr (Or.inr (by have := hl.1; omega))⟩⟩

/-! ## One pass from `retry` keeps the invariants -/

theorem message_len_one (s : Nat) (h : ble_midi_message_len s = 1) : s &&& 0xF0 = 0xF0 := by
  unfold ble_midi_message_len at h
  have hbig := size_max_large
  split_ifs at h <;> first | assumption | omega

theorem after_data_trace_ok (data : List Nat) (c0 lp : Nat) (bm0 bm : ble_midi) (l : Locals)
    (e m : Nat) (hk : Keeps bm0 bm) (hw : WF bm) (hl : LOK l)
    (hcur : l.bm_current_len < data.length) (hc0 : c0 ≤ l.bm_current_len)
    (hstrict : c0 < l.bm_current_len ∨ l.bm_status = 0xF0 ∨ m ≠ 0)
    (hprog : lp < l.bm_current_len ∨ l.bm_buffer_len = l.bm_buffer_size ∨ l.bm_status ≠ 0xF0) :
    PassOK data c0 lp bm0 e (after_data_trace bm l e m) := by
  unfold after_data_trace
  by_cases h1 : m ≠ 0 ∧ l.bm_status ≠ 0xF0
  · rw [if_pos h1]
    exact ⟨hk, hw, Nat.le_of_lt hcur, Or.inr (Or.inr rfl)⟩
  · rw [if_neg h1]
    by_cases h2 : l.bm_buffer_len = l.bm_buffer_size
    · rw [if_pos h2]
      refine ⟨hk, hw, hl, Nat.le_of_lt hcur, hc0, ?_, ?_⟩
      · intro hs
        rcases hstrict with h | h | h
        · exact h
        · exact absurd h hs
        · exact absurd ⟨h, hs⟩ h1
      · intro _
        exact Or.inr ⟨rfl, h2, hcur⟩
    · rw [if_neg h2]
      by_cases h3 : l.bm_status = 0xF0
      · rw [if_pos h3]
        have hsz := lok_size l hl
        have hg := good_sys_len bm0 bm l.bm_buffer_len (by have := hl.1; omega) hk hw
        refine ⟨hg.1, hg.2, hl, ?_, hcur, h3, rfl⟩
        rcases hprog with h | h | h
        · exact h
        · exact absurd h h2
        · exact absurd h3 h
      · rw [if_neg h3]
        refine ⟨hk, hw, hl, Nat.le_of_lt hcur, hc0, ?_, ?_⟩
        · intro _
          rcases hstrict with h | h | h
          · exact h
          · exact absurd h h3
          · exact absurd ⟨h, h3⟩ h1
        · intro hs; exact absurd hs h3

/-- The length lookup and the data bytes, from any structure and locals. -/
theorem message_body_ok (data : List Nat) (c0 lp : Nat) (bm0 : ble_midi) (e : Nat)
    (p : ble_midi × Locals) (hk : Keeps bm0 p.1) (hw : WF p.1) (hl : LOK p.2)
    (hcur : p.2.bm_current_len < data.length) (hc0 : c0 ≤ p.2.bm_current_len)
    (hlp0 : lp ≤ p.2.bm_current_len)
    (hst : c0 < p.2.bm_current_len ∨ p.2.bm_status = 0xF0 ∨
      ble_midi_message_len p.2.bm_status ≠ 1)
    (hlp : lp < p.2.bm_current_len ∨
      ∃ b, data[p.2.bm_current_len]? = some b ∧ b &&& 0x80 = 0) :
    PassOK data c0 lp bm0 e
      (if ble_midi_message_len p.2.bm_status = 0 then
        Pass.done (Leave.at_fail p.1 ENOMSG p.2.bm_current_len)
      else
        match data_loop data (data.length + 1) p.1 p.2 (ble_midi_message_len p.2.bm_status) with
        | LoopExit.goto_final bm1 l1 => Pass.done (Leave.at_final bm1 l1 e)
        | LoopExit.exit bm1 l1 m => after_data_trace bm1 l1 e m
        | LoopExit.out_of_bounds => Pass.done Leave.out_of_bounds
        | LoopExit.out_of_fuel => Pass.done Leave.out_of_fuel) := by
  by_cases hm : ble_midi_message_len p.2.bm_status = 0
  · rw [if_pos hm]
    exact ⟨hk, hw, Nat.le_of_lt hcur, Or.inr (Or.inl rfl)⟩
  · rw [if_neg hm]
    have hloop := data_loop_ok data bm0 (data.length + 1) p.1 p.2
      (ble_midi_message_len p.2.bm_status) hk hw hl hcur (by omega)
    cases hr : data_loop data (data.length + 1) p.1 p.2 (ble_midi_message_len p.2.bm_status) with
    | goto_final bm1 l1 =>
      rw [hr] at hloop
      obtain ⟨a1, a2, a3, a4, a5, a6⟩ := hloop
      refine ⟨a1, a2, a3, Nat.le_of_eq a4, by omega, fun _ => by omega, fun _ => Or.inl ⟨a4, rfl⟩⟩
    | exit bm1 l1 m1 =>
      rw [hr] at hloop
      obtain ⟨a1, a2, a3, a4, a5, a6, a7⟩ := hloop
      refine after_data_trace_ok data c0 lp bm0 bm1 l1 e m1 a1 a2 a3 a5 (by omega) ?_ ?_
      · rcases a7 with h | ⟨h1, h2, h3⟩
        · exact Or.inl (by omega)
        · clear h3 hlp
          rcases hst with h | h | h
          · exact Or.inl (by omega)
          · exact Or.inr (Or.inl (by rw [a6]; exact h))
          · exact Or.inr (Or.inr (by omega))
      · rcases a7 with h | ⟨h1, h2, h3⟩
        · exact Or.inl (by omega)
        · rcases hlp with h | ⟨b, hb, hlow⟩
          · exact Or.inl (by omega)
          · rcases h3 with h | ⟨b1, hb1, hhigh⟩ | h
            · refine Or.inr (Or.inr ?_)
              intro hs
              rw [a6] at hs
              rw [hs, message_len_sysex] at h
              have := size_max_large
              omega
            · rw [hb] at hb1
              cases hb1
              exact absurd hlow hhigh
            · exact Or.inr (Or.inl h)
    | out_of_bounds => rw [hr] at hloop; exact hloop
    | out_of_fuel => rw [hr] at hloop; exact hloop

theorem parse_message_trace_ok (data : List Nat) (c0 lp : Nat) (bm0 bm : ble_midi) (l : Locals)
    (e : Nat) (hk : Keeps bm0 bm) (hw : WF bm) (hl : LOK l)
    (hcur : l.bm_current_len < data.length) (hc0 : c0 ≤ l.bm_current_len)
    (hlp0 : lp ≤ l.bm_current_len)
    (hst : c0 < l.bm_current_len ∨ l.bm_status = 0xF0 ∨ ble_midi_message_len l.bm_status ≠ 1)
    (hlp : lp < l.bm_current_len ∨ ∃ b, data[l.bm_current_len]? = some b ∧ b &&& 0x80 = 0) :
    PassOK data c0 lp bm0 e (parse_message_trace data bm l e) := by
  unfold parse_message_trace
  simp only
  by_cases hr : l.bm_buffer_len = 0 ∧ bm.status_restore = true
  · rw [if_pos hr]
    have hsz := lok_size l hl
    have hg := good_store bm0 bm l l.bm_status hk hw
    have hg2 := good_restore bm0 (store bm l l.bm_status).1 hg.1 hg.2
    have hl1 := lok_store bm l l.bm_status hl (by omega)
    refine message_body_ok data c0 lp bm0 e
      (({ (store bm l l.bm_status).1 with status_restore := false } : ble_midi),
        (store bm l l.bm_status).2) hg2.1 hg2.2 hl1 ?_ ?_ ?_ ?_ ?_
    · show (store bm l l.bm_status).2.bm_current_len < data.length
      rw [store_snd_cur]; exact hcur
    · show c0 ≤ (store bm l l.bm_status).2.bm_current_len
      rw [store_snd_cur]; exact hc0
    · show lp ≤ (store bm l l.bm_status).2.bm_current_len
      rw [store_snd_cur]; exact hlp0
    · show c0 < (store bm l l.bm_status).2.bm_current_len ∨
        (store bm l l.bm_status).2.bm_status = 0xF0 ∨
        ble_midi_message_len (store bm l l.bm_status).2.bm_status ≠ 1
      rw [store_snd_cur, store_snd_status]; exact hst
    · show lp < (store bm l l.bm_status).2.bm_current_len ∨
        ∃ b, data[(store bm l l.bm_status).2.bm_current_len]? = some b ∧ b &&& 0x80 = 0
      rw [store_snd_cur]; exact hlp
  · rw [if_neg hr]
    exact message_body_ok data c0 lp bm0 e (bm, l) hk hw hl hcur hc0 hlp0 hst hlp

theorem parse_status_trace_ok (data : List Nat) (c0 lp : Nat) (bm0 bm : ble_midi) (l : Locals)
    (e s : Nat) (hk : Keeps bm0 bm) (hw : WF bm) (hl : LOK l)
    (hcur : l.bm_current_len < data.length) (hc0 : c0 < l.bm_current_len)
    (hlp0 : lp < l.bm_current_len) :
    PassOK data c0 lp bm0 e (parse_status_trace data bm l e s) := by
  have key : ∀ (q : ble_midi × Locals), Keeps bm0 q.1 → WF q.1 → LOK q.2 →
      q.2.bm_current_len = l.bm_current_len →
      PassOK data c0 lp bm0 e
        (if q.2.bm_current_len + 1 = data.length then
          Pass.done (Leave.at_final q.1 { q.2 with bm_current_len := q.2.bm_current_len + 1 } e)
        else parse_message_trace data q.1
          { q.2 with bm_current_len := q.2.bm_current_len + 1 } e) := by
    intro q qk qw ql qc
    by_cases hend : q.2.bm_current_len + 1 = data.length
    · rw [if_pos hend]
      exact ⟨qk, qw, ql, Nat.le_of_eq hend,
        by show c0 ≤ q.2.bm_current_len + 1; omega,
        fun _ => by show c0 < q.2.bm_current_len + 1; omega,
        fun _ => Or.inl ⟨hend, rfl⟩⟩
    · rw [if_neg hend]
      exact parse_message_trace_ok data c0 lp bm0 q.1 _ e qk qw ql
        (by show q.2.bm_current_len + 1 < data.length; omega)
        (by show c0 ≤ q.2.bm_current_len + 1; omega)
        (by show lp ≤ q.2.bm_current_len + 1; omega)
        (Or.inl (by show c0 < q.2.bm_current_len + 1; omega))
        (Or.inl (by show lp < q.2.bm_current_len + 1; omega))
  have room : ∀ (p : ble_midi × Locals), Keeps bm0 p.1 → WF p.1 → LOK p.2 →
      p.2.bm_current_len = l.bm_current_len →
      PassOK data c0 lp bm0 e
        (if (if p.2.bm_buffer_len < p.2.bm_buffer_size then store p.1 p.2 p.2.bm_status
              else p).2.bm_current_len + 1 = data.length then
          Pass.done (Leave.at_final
            (if p.2.bm_buffer_len < p.2.bm_buffer_size then store p.1 p.2 p.2.bm_status
              else p).1
            { (if p.2.bm_buffer_len < p.2.bm_buffer_size then store p.1 p.2 p.2.bm_status
                else p).2 with
              bm_current_len :=
                (if p.2.bm_buffer_len < p.2.bm_buffer_size then store p.1 p.2 p.2.bm_status
                  else p).2.bm_current_len + 1 } e)
        else parse_message_trace data
          (if p.2.bm_buffer_len < p.2.bm_buffer_size then store p.1 p.2 p.2.bm_status else p).1
          { (if p.2.bm_buffer_len < p.2.bm_buffer_size then store p.1 p.2 p.2.bm_status
              else p).2 with
            bm_current_len :=
              (if p.2.bm_buffer_len < p.2.bm_buffer_size then store p.1 p.2 p.2.bm_status
                else p).2.bm_current_len + 1 } e) := by
    intro p pk pw pl pc
    by_cases hroom : p.2.bm_buffer_len < p.2.bm_buffer_size
    · simp only [if_pos hroom]
      have hg := good_store bm0 p.1 p.2 p.2.bm_status pk pw
      exact key (store p.1 p.2 p.2.bm_status) hg.1 hg.2 (lok_store p.1 p.2 _ pl hroom)
        (by rw [store_snd_cur]; exact pc)
    · simp only [if_neg hroom]
      exact key p pk pw pl pc
  unfold parse_status_trace
  simp only
  by_cases h0 : s = 0xF0
  · simp only [if_pos h0]
    have hg := good_sysex_start bm0 bm hk hw
    exact room (({ bm with ts_sys := bm.ts, status_sys := true } : ble_midi),
      Locals.mk Buf.sys Buf.sys.size bm.buffer_sys_len s l.bm_current_len) hg.1 hg.2
      ⟨hw.2.2.1, rfl, fun _ => rfl⟩ rfl
  · simp only [if_neg h0]
    by_cases h7 : s = 0xF7
    · simp only [if_pos h7]
      have hg := good_sysex_stop bm0 bm hk hw
      exact room (({ bm with status_sys := false } : ble_midi), { l with bm_status := s })
        hg.1 hg.2 ⟨hl.1, hl.2.1, fun h => absurd h h0⟩ rfl
    · simp only [if_neg h7]
      exact room (bm, { l with bm_status := s }) hk hw ⟨hl.1, hl.2.1, fun h => absurd h h0⟩ rfl

theorem retry_body_trace_ok (data : List Nat) (c0 : Nat) (bm0 bm : ble_midi) (l : Locals)
    (e : Nat) (hk : Keeps bm0 bm) (hw : WF bm) (hl : LOK l)
    (hcur : l.bm_current_len < data.length) (hc0 : c0 ≤ l.bm_current_len)
    (hst : c0 < l.bm_current_len ∨ l.bm_status = 0xF0 ∨ ble_midi_message_len l.bm_status ≠ 1) :
    PassOK data c0 l.bm_current_len bm0 e (retry_body_trace data bm l e) := by
  unfold retry_body_trace
  obtain ⟨b, hb⟩ : ∃ b, data[l.bm_current_len]? = some b :=
    ⟨data[l.bm_current_len], List.getElem?_eq_getElem hcur⟩
  rw [hb]
  simp only
  by_cases hhigh : b &&& 0x80 ≠ 0
  · rw [if_pos hhigh]
    have hg := good_ts bm0 bm b hk hw
    by_cases hend : l.bm_current_len + 1 = data.length
    · rw [if_pos hend]
      exact ⟨hg.1, hg.2, Nat.le_of_eq hend, Or.inl rfl⟩
    · rw [if_neg hend]
      have hcur1 : l.bm_current_len + 1 < data.length := by omega
      obtain ⟨s, hs⟩ : ∃ s, data[l.bm_current_len + 1]? = some s :=
        ⟨data[l.bm_current_len + 1], List.getElem?_eq_getElem hcur1⟩
      rw [hs]
      simp only
      by_cases hsh : s &&& 0x80 ≠ 0
      · rw [if_pos hsh]
        exact parse_status_trace_ok data c0 l.bm_current_len bm0 _
          { l with bm_current_len := l.bm_current_len + 1 } e s hg.1 hg.2 hl hcur1
          (by show c0 < l.bm_current_len + 1; omega)
          (by show l.bm_current_len < l.bm_current_len + 1; omega)
      · rw [if_neg hsh]
        exact parse_message_trace_ok data c0 l.bm_current_len bm0 _
          { l with bm_current_len := l.bm_current_len + 1 } e hg.1 hg.2 hl hcur1
          (by show c0 ≤ l.bm_current_len + 1; omega)
          (by show l.bm_current_len ≤ l.bm_current_len + 1; omega)
          (Or.inl (by show c0 < l.bm_current_len + 1; omega))
          (Or.inl (by show l.bm_current_len < l.bm_current_len + 1; omega))
  · rw [if_neg hhigh]
    exact parse_message_trace_ok data c0 l.bm_current_len bm0 bm l e hk hw hl hcur hc0
      (Nat.le_refl _) hst (Or.inr ⟨b, hb, not_not.mp hhigh⟩)

/-! ## A call keeps the invariants -/

theorem retry_trace_ok (data : List Nat) (c0 : Nat) (bm0 : ble_midi) (e : Nat) :
    ∀ (fuel : Nat) (bm : ble_midi) (l : Locals), Keeps bm0 bm → WF bm → LOK l →
      l.bm_current_len < data.length → c0 ≤ l.bm_current_len →
      (c0 < l.bm_current_len ∨ l.bm_status = 0xF0 ∨ ble_midi_message_len l.bm_status ≠ 1) →
      data.length - l.bm_current_len ≤ fuel →
      LeaveOK data c0 bm0 e (retry_trace data fuel bm l e) := by
  intro fuel
  induction fuel with
  | zero => intro bm l _ _ _ h1 _ _ h2; omega
  | succ f ih =>
    intro bm l hk hw hl hcur hc0 hst hfuel
    have hp := retry_body_trace_ok data c0 bm0 bm l e hk hw hl hcur hc0 hst
    rw [retry_trace]
    cases hr : retry_body_trace data bm l e with
    | done x =>
      rw [hr] at hp
      exact hp
    | again bm1 l1 e1 =>
      rw [hr] at hp
      obtain ⟨a1, a2, a3, a4, a5, a6, a7⟩ := hp
      simp only
      rw [a7]
      exact ih bm1 l1 a1 a2 a3 a5 (by omega) (Or.inr (Or.inl a6)) (by omega)

theorem lok_entry (bm : ble_midi) (hw : WF bm) (c : Nat) :
    LOK (if bm.status_sys = true then
        Locals.mk Buf.sys Buf.sys.size bm.buffer_sys_len 0xF0 c
      else Locals.mk Buf.midi Buf.midi.size 0 bm.status c) := by
  by_cases hs : bm.status_sys = true
  · rw [if_pos hs]
    exact ⟨hw.2.2.1, rfl, fun _ => rfl⟩
  · rw [if_neg hs]
    refine ⟨Nat.zero_le _, rfl, ?_⟩
    intro h
    have h4 := hw.2.2.2.1
    change bm.status = 0xF0 at h
    rw [h] at h4
    exact absurd (by decide) h4

/-- A call made on a well-formed structure whose cursor is within the packet
leaves through one of the labels, never by a read outside the packet, with the
invariants `LeaveOK`. -/
theorem parse_trace_ok (bm : ble_midi) (e : Nat) (data : List Nat) (hw : WF bm)
    (hcur : bm.current_len ≤ data.length) :
    LeaveOK data bm.current_len bm e (ble_midi_parse_trace bm e data) := by
  unfold ble_midi_parse_trace
  simp only
  by_cases hend : bm.current_len = data.length
  · rw [if_pos hend]
    exact ⟨rfl, rfl, hend, hend⟩
  · rw [if_neg hend]
    have hlt : bm.current_len < data.length := by omega
    have hl := lok_entry bm hw bm.current_len
    have hl1 := lok_entry bm hw (bm.current_len + 1)
    have hst : (if bm.status_sys = true then
        Locals.mk Buf.sys Buf.sys.size bm.buffer_sys_len 0xF0 bm.current_len
      else Locals.mk Buf.midi Buf.midi.size 0 bm.status bm.current_len).bm_status = 0xF0 ∨
        ble_midi_message_len (if bm.status_sys = true then
          Locals.mk Buf.sys Buf.sys.size bm.buffer_sys_len 0xF0 bm.current_len
        else Locals.mk Buf.midi Buf.midi.size 0 bm.status bm.current_len).bm_status ≠ 1 := by
      by_cases hs : bm.status_sys = true
      · rw [if_pos hs]; exact Or.inl rfl
      · rw [if_neg hs]
        refine Or.inr ?_
        intro h
        exact hw.2.2.2.1 (message_len_one bm.status h)
    by_cases h0 : bm.current_len = 0
    · have hif : (if bm.status_sys = true then
          Locals.mk Buf.sys Buf.sys.size bm.buffer_sys_len 0xF0 bm.current_len
        else Locals.mk Buf.midi Buf.midi.size 0 bm.status bm.current_len).bm_current_len = 0 := by
        split_ifs <;> exact h0
      rw [if_pos hif]
      by_cases h3 : data.length < 3
      · rw [if_pos h3]
        exact ⟨keeps_refl bm, hw, by rw [hif]; exact Nat.zero_le _, Or.inl rfl⟩
      · rw [if_neg h3]
        obtain ⟨h, hh⟩ : ∃ h, data[0]? = some h :=
          ⟨data[0], List.getElem?_eq_getElem (by omega)⟩
        rw [hh]
        simp only
        by_cases hhdr : h >>> 6 ≠ 0x02
        · rw [if_pos hhdr]
          exact ⟨keeps_refl bm, hw, by rw [hif]; exact Nat.zero_le _, Or.inl rfl⟩
        · rw [if_neg hhdr]
          have hg := good_ts_high bm bm h (keeps_refl bm) hw
          refine retry_trace_ok data bm.current_len bm e (data.length + 1) _ _ hg.1 hg.2 ?_ ?_ ?_
            ?_ ?_
          · split_ifs at hl1 ⊢ <;> exact hl1
          · split_ifs <;> (show bm.current_len + 1 < data.length; omega)
          · split_ifs <;> (show bm.current_len ≤ bm.current_len + 1; omega)
          · refine Or.inl ?_
            split_ifs <;> (show bm.current_len < bm.current_len + 1; omega)
          · omega
    · have hif : ¬ (if bm.status_sys = true then
          Locals.mk Buf.sys Buf.sys.size bm.buffer_sys_len 0xF0 bm.current_len
        else Locals.mk Buf.midi Buf.midi.size 0 bm.status bm.current_len).bm_current_len = 0 := by
        split_ifs <;> exact h0
      rw [if_neg hif]
      refine retry_trace_ok data bm.current_len bm e (data.length + 1) bm _ (keeps_refl bm) hw hl
        ?_ ?_ (Or.inr hst) ?_
      · split_ifs <;> exact hlt
      · split_ifs <;> exact Nat.le_refl _
      · omega

theorem parse_trace_beyond (bm : ble_midi) (e : Nat) (data : List Nat)
    (hcur : data.length < bm.current_len) :
    ble_midi_parse_trace bm e data = Leave.out_of_bounds := by
  have hne : bm.current_len ≠ data.length := by omega
  have h0 : bm.current_len ≠ 0 := by omega
  have hread : data[bm.current_len]? = none := List.getElem?_eq_none (by omega)
  unfold ble_midi_parse_trace
  simp only
  rw [if_neg hne]
  by_cases hs : bm.status_sys = true
  · simp only [if_pos hs, if_neg h0]
    simp [retry_trace, retry_body_trace, hread]
  · simp only [if_neg hs, if_neg h0]
    simp [retry_trace, retry_body_trace, hread]

/-! ## States reached by calls -/

/-! ## What a call returns -/

theorem wf_emit (bm : ble_midi) (l : Locals) (hw : WF bm) : WF (emit bm l) := by
  obtain ⟨w1, w2, w3, w4, w5, w6, w7, w8⟩ := hw
  refine ⟨w1, w2, ?_, ?_, ?_, w6, w7, w8⟩
  · show (if l.bm_status = 0xF7 then 0 else bm.buffer_sys_len) ≤ 256
    split_ifs <;> omega
  · show (if l.bm_status &&& 0xF0 ≠ 0xF0 then l.bm_status else bm.status) &&& 0xF0 ≠ 0xF0
    split_ifs with h
    · exact h
    · exact w4
  · show (if l.bm_status = 0xF7 then bm.ts_sys else bm.ts) < 8192
    split_ifs
    · exact w6
    · exact w5

theorem wf_suspend (bm : ble_midi) (l : Locals) (hw : WF bm) (hn : l.bm_buffer_len ≤ 256) :
    WF (suspend bm l) := by
  obtain ⟨w1, w2, _, w4, w5, w6, w7, w8⟩ := hw
  exact ⟨w1, w2, hn, w4, w5, w6, w7, w8⟩

theorem wf_cursor (bm : ble_midi) (c : Nat) (hw : WF bm) : WF { bm with current_len := c } := hw

theorem wf_zero : WF ble_midi.zero :=
  ⟨List.length_replicate 8 0, zero_buffer_sys_length, Nat.zero_le _, by decide, by decide,
    by decide, by decide, by decide⟩

/-- The value a call returns is 0, 1 or -1, and 0 and -1 go with the stored
cursor 0. -/
theorem leave_outcome_rv (x : Leave) (bm1 : ble_midi) (e1 : Nat) (rv : Int)
    (h : x.outcome = Outcome.ret bm1 e1 rv) :
    (rv = 0 ∨ rv = 1 ∨ rv = -1) ∧ (rv ≤ 0 → bm1.current_len = 0) := by
  cases x with
  | at_final bm l e =>
    by_cases hs : l.bm_status = 0xF0
    · simp only [Leave.outcome] at h
      rw [final_suspend bm l e hs] at h
      injection h with h1 h2 h3
      subst h1 h3
      exact ⟨Or.inl rfl, fun _ => rfl⟩
    · simp only [Leave.outcome] at h
      rw [final_emit bm l e hs] at h
      injection h with h1 h2 h3
      subst h3
      exact ⟨Or.inr (Or.inl rfl), fun hle => absurd hle (by decide)⟩
  | at_fail bm e c =>
    simp only [Leave.outcome, fail] at h
    injection h with h1 h2 h3
    subst h1 h3
    exact ⟨Or.inr (Or.inr rfl), fun _ => rfl⟩
  | at_reset bm e c =>
    simp only [Leave.outcome, reset] at h
    injection h with h1 h2 h3
    subst h1 h3
    exact ⟨Or.inl rfl, fun _ => rfl⟩
  | out_of_bounds => simp [Leave.outcome] at h
  | out_of_fuel => simp [Leave.outcome] at h

/-- From the invariants at the label of leaving to the returned structure. -/
theorem leave_outcome_ok (data : List Nat) (c0 : Nat) (bm0 : ble_midi) (e0 : Nat) (x : Leave)
    (hw0 : WF bm0) (h : LeaveOK data c0 bm0 e0 x) :
    ∃ bm1 e1 rv, x.outcome = Outcome.ret bm1 e1 rv ∧ WF bm1 ∧
      ((rv = 1 ∧ c0 < bm1.current_len ∧ bm1.current_len ≤ data.length ∧
          x.cursor = some bm1.current_len) ∨
       (rv = 0 ∧ bm1.current_len = 0 ∧
          (x.cursor = some data.length ∨
            (e1 = EMSGSIZE ∧ bm1.buffer_sys_len = 256 ∧
              ∃ c, x.cursor = some c ∧ c < data.length))) ∨
       (rv = -1 ∧ bm1.current_len = 0 ∧ (e1 = EINVAL ∨ e1 = ENOMSG ∨ e1 = EBADMSG))) := by
  cases x with
  | at_final bm l e =>
    obtain ⟨_, a2, a3, a4, a5, a6, a7⟩ := h
    have hsz := lok_size l a3
    by_cases hs : l.bm_status = 0xF0
    · refine ⟨suspend bm l, e, 0, final_suspend bm l e hs,
        wf_suspend bm l a2 (by have := a3.1; omega), Or.inr (Or.inl ⟨rfl, rfl, ?_⟩)⟩
      rcases a7 hs with ⟨b1, _⟩ | ⟨b1, b2, b3⟩
      · exact Or.inl (by simp [Leave.cursor, b1])
      · refine Or.inr ⟨b1, ?_, l.bm_current_len, rfl, b3⟩
        show l.bm_buffer_len = 256
        rw [b2]; exact hsz.2.2 hs
    · exact ⟨emit bm l, e, 1, final_emit bm l e hs, wf_emit bm l a2,
        Or.inl ⟨rfl, a6 hs, a4, rfl⟩⟩
  | at_fail bm e c =>
    obtain ⟨_, a2, _, a4⟩ := h
    exact ⟨{ bm with current_len := 0 }, e, -1, rfl, wf_cursor bm 0 a2,
      Or.inr (Or.inr ⟨rfl, rfl, a4⟩)⟩
  | at_reset bm e c =>
    obtain ⟨a1, _, a3, _⟩ := h
    refine ⟨{ bm with current_len := 0 }, e, 0, rfl, ?_, Or.inr (Or.inl ⟨rfl, rfl, Or.inl ?_⟩)⟩
    · rw [a1]; exact wf_cursor bm0 0 hw0
    · simp [Leave.cursor, a3]
  | out_of_bounds => exact absurd h id
  | out_of_fuel => exact absurd h id

/-! ## Calls on well-formed structures -/

/-- A call made on a well-formed structure whose stored cursor is within the
packet returns: 1 with the cursor moved forward, 0 with the cursor at the end
of the packet or the SysEx array full, or -1 with `errno` set; the structure
it leaves is well formed. -/
theorem parse_call_ok (bm : ble_midi) (e : Nat) (data : List Nat) (hw : WF bm)
    (hcur : bm.current_len ≤ data.length) :
    ∃ bm1 e1 rv, ble_midi_parse bm e data = Outcome.ret bm1 e1 rv ∧ WF bm1 ∧
      ((rv = 1 ∧ bm.current_len < bm1.current_len ∧ bm1.current_len ≤ data.length ∧
          (ble_midi_parse_trace bm e data).cursor = some bm1.current_len) ∨
       (rv = 0 ∧ bm1.current_len = 0 ∧
          ((ble_midi_parse_trace bm e data).cursor = some data.length ∨
            (e1 = EMSGSIZE ∧ bm1.buffer_sys_len = 256 ∧
              ∃ c, (ble_midi_parse_trace bm e data).cursor = some c ∧ c < data.length))) ∨
       (rv = -1 ∧ bm1.current_len = 0 ∧ (e1 = EINVAL ∨ e1 = ENOMSG ∨ e1 = EBADMSG))) := by
  have h := leave_outcome_ok data bm.current_len bm e (ble_midi_parse_trace bm e data) hw
    (parse_trace_ok bm e data hw hcur)
  rw [parse_trace_outcome] at h
  exact h

/-- A call that returns was made with the stored cursor within the packet, and
it leaves a well-formed structure when it was given one. -/
theorem parse_call_wf (bm : ble_midi) (e : Nat) (data : List Nat) (bm1 : ble_midi) (e1 : Nat)
    (rv : Int) (hw : WF bm) (h : ble_midi_parse bm e data = Outcome.ret bm1 e1 rv) :
    WF bm1 ∧ bm.current_len ≤ data.length := by
  by_cases hcur : bm.current_len ≤ data.length
  · obtain ⟨bm2, e2, rv2, hc, hw2, _⟩ := parse_call_ok bm e data hw hcur
    rw [h] at hc
    injection hc with h1 h2 h3
    rw [h1]
    exact ⟨hw2, hcur⟩
  · rw [← parse_trace_outcome, parse_trace_beyond bm e data (by omega)] at h
    simp [Leave.outcome] at h

/-- The value a call returns is 0, 1 or -1, and after 0 and -1 the stored
cursor is 0, in every state. -/
theorem parse_rv_cursor (bm : ble_midi) (e : Nat) (data : List Nat) (bm1 : ble_midi) (e1 : Nat)
    (rv : Int) (h : ble_midi_parse bm e data = Outcome.ret bm1 e1 rv) :
    (rv = 0 ∨ rv = 1 ∨ rv = -1) ∧ (rv ≤ 0 → bm1.current_len = 0) :=
  leave_outcome_rv (ble_midi_parse_trace bm e data) bm1 e1 rv
    (by rw [parse_trace_outcome]; exact h)

theorem reachable_wf (bm : ble_midi) (h : Reachable bm) : WF bm := by
  induction h with
  | zero => exact wf_zero
  | call bm e data bm1 e1 rv _ _ hcall ih => exact (parse_call_wf bm e data bm1 e1 rv ih hcall).1

theorem protocol_wf (bm : ble_midi) (data : List Nat) (h : Protocol bm data) :
    WF bm ∧ bm.current_len ≤ data.length := by
  induction h with
  | start data => exact ⟨wf_zero, Nat.zero_le _⟩
  | again bm e data bm1 e1 _ hcall ih =>
    obtain ⟨bm2, e2, rv2, hc, hw2, hcase⟩ := parse_call_ok bm e data ih.1 ih.2
    rw [hcall] at hc
    injection hc with h1 h2 h3
    subst h1 h2 h3
    refine ⟨hw2, ?_⟩
    rcases hcase with ⟨_, _, hle, _⟩ | ⟨h0, _⟩ | ⟨h0, _⟩
    · exact hle
    · exact absurd h0 (by decide)
    · exact absurd h0 (by decide)
  | next bm e data bm1 e1 rv data1 _ hcall hrv ih =>
    refine ⟨(parse_call_wf bm e data bm1 e1 rv ih.1 hcall).1, ?_⟩
    rw [(parse_rv_cursor bm e data bm1 e1 rv hcall).2 hrv]
    exact Nat.zero_le _

/-- A first call on a packet that holds one complete timestamped message
other than SysEx start or end, no SysEx being in flight. -/
theorem fresh_message_call (bm : ble_midi) (e h t s : Nat) (ds : List Nat)
    (hcur : bm.current_len = 0) (hsys : bm.status_sys = false)
    (hbuf : bm.buffer_midi.length = 8)
    (hh : 0x80 ≤ h ∧ h < 0xC0) (ht : 0x80 ≤ t ∧ t < 0x100) (hs : s < 0x100) (hf0 : s ≠ 0xF0)
    (hf7 : s ≠ 0xF7) (hlen : ble_midi_message_len s = ds.length + 1)
    (hlow : ∀ d ∈ ds, d < 0x80) :
    ∃ bm1, ble_midi_parse bm e (h :: t :: s :: ds) = Outcome.ret bm1 e 1 ∧
      bm1.message = s :: ds ∧ bm1.len = ble_midi_message_len s ∧
      bm1.buffer = some Buf.midi ∧
      bm1.ts = ((h &&& 0x3F) <<< 7) ||| (t &&& 0x7F) := by
  have hle := message_len_le s hf0
  have hcall := parse_complete_message bm e (h :: t :: s :: ds) [h] ds [] t s (by simp)
    (Or.inl ⟨hcur, by simp, h, rfl, hh.1, hh.2⟩) hsys
    (and_0x80_of_ge t ht.2 ht.1) (status_high s hs (by rw [hlen]; omega)) hf0 hf7 hlen
    (low_of_lt ds hlow)
  refine ⟨_, hcall,
    msg_state_message _ t s ds _ (by rw [enter_buffer_midi]; exact hbuf) (by omega), ?_, rfl, ?_⟩
  · rw [hlen]; rfl
  · show (enter bm (h :: t :: s :: ds)).ts_high ||| (t &&& 0x7F) = _
    rw [enter_ts_high_first bm h _ hcur]

/-! ## Error recovery -/

/-- C17 (amended): in every state reached from the all-zero state by calls of
`ble_midi_parse`, if a call returns -1 and leaves no SysEx in flight
(`status_sys` clear), then a fresh packet h, t, s, data bytes holding one
complete timestamped channel-voice message makes the next call return 1 with
`buffer[0..len)` equal to s followed by the data bytes and `len` the classifier
length of s, exactly as the call from the all-zero state does (same message,
`len`, buffer and timestamp). -/
theorem error_recovery (bm bm1 : ble_midi) (e e1 e2 : Nat) (data : List Nat) (h t s : Nat)
    (ds : List Nat) (hreach : Reachable bm)
    (hfail : ble_midi_parse bm e data = Outcome.ret bm1 e1 (-1))
    (hsys : bm1.status_sys = false)
    (hh : 0x80 ≤ h ∧ h < 0xC0) (ht : 0x80 ≤ t ∧ t < 0x100) (hs : 0x80 ≤ s ∧ s < 0xF0)
    (hlen : ble_midi_message_len s = ds.length + 1) (hlow : ∀ d ∈ ds, d < 0x80) :
    ∃ bm2 bmz,
      ble_midi_parse bm1 e2 (h :: t :: s :: ds) = Outcome.ret bm2 e2 1 ∧
      bm2.message = s :: ds ∧ bm2.len = ble_midi_message_len s ∧
      ble_midi_parse ble_midi.zero e2 (h :: t :: s :: ds) = Outcome.ret bmz e2 1 ∧
      bm2.message = bmz.message ∧ bm2.len = bmz.len ∧ bm2.buffer = bmz.buffer ∧
      bm2.ts = bmz.ts := by
  have hw1 := (parse_call_wf bm e data bm1 e1 (-1) (reachable_wf bm hreach) hfail).1
  have hcur1 := (parse_rv_cursor bm e data bm1 e1 (-1) hfail).2 (by decide)
  obtain ⟨bm2, hc2, hm2, hl2, hb2, ht2⟩ := fresh_message_call bm1 e2 h t s ds hcur1 hsys hw1.1
    hh ht (by omega) (by omega) (by omega) hlen hlow
  obtain ⟨bmz, hcz, hmz, hlz, hbz, htz⟩ := fresh_message_call ble_midi.zero e2 h t s ds rfl rfl
    rfl hh ht (by omega) (by omega) (by omega) hlen hlow
  exact ⟨bm2, bmz, hc2, hm2, hl2, hcz, by rw [hm2, hmz], by rw [hl2, hlz], by rw [hb2, hbz],
    by rw [ht2, htz]⟩

set_option maxRecDepth 100000 in
theorem note_on_call_six :
    ble_midi_parse ble_midi.zero 0 [0x80, 0x81, 0x90, 0x40, 0x7f, 0x80] =
      Outcome.ret note_on_emitted 0 1 := by
  decide

set_option maxRecDepth 100000 in
theorem note_on_call_fail :
    ble_midi_parse note_on_emitted 0 [0x80, 0x81, 0x90, 0x40, 0x7f, 0x80] =
      Outcome.ret { note_on_emitted with ts := 0, current_len := 0 } EINVAL (-1) := by
  decide

/-- Witness of the amended C17: from the all-zero state the packet
80 81 90 40 7F 80 makes the first call emit the note-on message and the second
call return -1 (the timestamp byte 80 is the last byte); no SysEx is in flight,
and the fresh packet 80 81 90 40 7F is then parsed as from the all-zero
state. -/
theorem error_recovery_witness :
    ∃ bm2 bmz,
      ble_midi_parse { note_on_emitted with ts := 0, current_len := 0 } 0
          (0x80 :: 0x81 :: 0x90 :: [0x40, 0x7f]) = Outcome.ret bm2 0 1 ∧
      bm2.message = 0x90 :: [0x40, 0x7f] ∧ bm2.len = ble_midi_message_len 0x90 ∧
      ble_midi_parse ble_midi.zero 0 (0x80 :: 0x81 :: 0x90 :: [0x40, 0x7f]) =
        Outcome.ret bmz 0 1 ∧
      bm2.message = bmz.message ∧ bm2.len = bmz.len ∧ bm2.buffer = bmz.buffer ∧
      bm2.ts = bmz.ts :=
  error_recovery note_on_emitted { note_on_emitted with ts := 0, current_len := 0 } 0 EINVAL 0
    [0x80, 0x81, 0x90, 0x40, 0x7f, 0x80] 0x80 0x81 0x90 [0x40, 0x7f]
    (Reachable.call ble_midi.zero 0 [0x80, 0x81, 0x90, 0x40, 0x7f, 0x80] note_on_emitted 0 1
      Reachable.zero (by decide) note_on_call_six)
    note_on_call_fail rfl (by decide) (by decide) (by decide) (by decide) (by decide)

set_option maxRecDepth 100000 in
/-- Counterexample to C17 as stated: from the all-zero state the packet
80 80 F0 01 80 (`test_ble_midi_parse_invalid_system_exclusive`) makes the call
return -1 and leaves the SysEx in flight; the fresh packet 80 81 90 40 7F then
makes the call return 1 with the five bytes F0 01 90 40 7F, whereas from the
all-zero state the same packet gives the three bytes 90 40 7F. -/
theorem error_recovery_counterexample :
    (parse_calls [0x80, 0x80, 0xF0, 0x01, 0x80] 1 ble_midi.zero 0).map Outcome.view =
      [some (-1, [])] ∧
    (parse_packets [[0x80, 0x80, 0xF0, 0x01, 0x80], [0x80, 0x81, 0x90, 0x40, 0x7F]]
        ble_midi.zero 0).map (fun s => (s.emitted, s.rvs, s.bm.len)) =
      some ([[0xF0, 0x01, 0x90, 0x40, 0x7F]], [-1, 0], 5) ∧
    (parse_packets [[0x80, 0x81, 0x90, 0x40, 0x7F]] ble_midi.zero 0).map
        (fun s => (s.emitted, s.rvs, s.bm.len)) =
      some ([[0x90, 0x40, 0x7F]], [0], 3) := by
  decide

/-! ## Completion -/

/-- C18 (amended): in every state and for every packet, a call of
`ble_midi_parse` that returns 0 or -1 leaves `current_len = 0`, so that the
next call with the same packet starts again at the header instead of returning
0: it returns 0, `errno` and the structure untouched, if the packet is empty,
and -1 with `errno = EINVAL` if the packet is not empty and has fewer than 3
bytes or a first byte that is no header. The call that returns 0 without
parsing is the one made with `current_len` equal to the packet length (right
after the last message of the packet was emitted): it only clears
`current_len`. -/
theorem completion_resets_cursor (bm bm1 : ble_midi) (e e1 : Nat) (data : List Nat) (rv : Int)
    (hcall : ble_midi_parse bm e data = Outcome.ret bm1 e1 rv) (hrv : rv = 0 ∨ rv = -1) :
    bm1.current_len = 0 ∧
    (data = [] → ble_midi_parse bm1 e1 data = Outcome.ret bm1 e1 0) ∧
    (data ≠ [] → (data.length < 3 ∨ ∃ h, data.head? = some h ∧ h >>> 6 ≠ 2) →
      ble_midi_parse bm1 e1 data = Outcome.ret bm1 EINVAL (-1)) ∧
    (∀ (bm2 : ble_midi) (e2 : Nat), bm2.current_len = data.length →
      ble_midi_parse bm2 e2 data = Outcome.ret { bm2 with current_len := 0 } e2 0) := by
  have hcur : bm1.current_len = 0 :=
    (parse_rv_cursor bm e data bm1 e1 rv hcall).2 (by rcases hrv with h | h <;> omega)
  refine ⟨hcur, ?_, ?_, ?_⟩
  · intro hnil
    rw [hnil]
    exact parse_empty bm1 e1 hcur
  · intro hne hbad
    rcases hbad with hshort | ⟨h, hhead, hh⟩
    · exact parse_reject_short bm1 e1 data hcur hne hshort
    · cases data with
      | nil => exact absurd rfl hne
      | cons x post =>
        simp only [List.head?_cons, Option.some.injEq] at hhead
        rw [hhead]
        exact parse_reject_header bm1 e1 h post hcur hh
  · intro bm2 e2 hend
    exact parse_entry_end bm2 e2 data hend

/-- Witness of the amended C18 on the packet of
`test_ble_midi_parse_invalid_header`, parsed from the all-zero state. -/
theorem completion_resets_cursor_witness :
    ble_midi.zero.current_len = 0 ∧
    (([0x10, 0x80, 0x90, 0x40, 0x7f] : List Nat) = [] →
      ble_midi_parse ble_midi.zero EINVAL [0x10, 0x80, 0x90, 0x40, 0x7f] =
        Outcome.ret ble_midi.zero EINVAL 0) ∧
    (([0x10, 0x80, 0x90, 0x40, 0x7f] : List Nat) ≠ [] →
      (([0x10, 0x80, 0x90, 0x40, 0x7f] : List Nat).length < 3 ∨
        ∃ h, ([0x10, 0x80, 0x90, 0x40, 0x7f] : List Nat).head? = some h ∧ h >>> 6 ≠ 2) →
      ble_midi_parse ble_midi.zero EINVAL [0x10, 0x80, 0x90, 0x40, 0x7f] =
        Outcome.ret ble_midi.zero EINVAL (-1)) ∧
    (∀ (bm2 : ble_midi) (e2 : Nat),
      bm2.current_len = ([0x10, 0x80, 0x90, 0x40, 0x7f] : List Nat).length →
      ble_midi_parse bm2 e2 [0x10, 0x80, 0x90, 0x40, 0x7f] =
        Outcome.ret { bm2 with current_len := 0 } e2 0) :=
  completion_resets_cursor ble_midi.zero ble_midi.zero 0 EINVAL [0x10, 0x80, 0x90, 0x40, 0x7f]
    (-1) (parse_reject_header ble_midi.zero 0 0x10 [0x80, 0x90, 0x40, 0x7f] rfl (by decide))
    (Or.inr rfl)

set_option maxRecDepth 100000 in
/-- Counterexample to C18 as stated, from the all-zero state. The packet
10 80 90 40 7F makes the call return -1, and the call made again with the same
packet returns -1, not 0. The packet 85 81 C0 42 makes the calls return 1, then
0, and the call made again with the same packet returns 1 and emits the message
C0 42 a second time. -/
theorem completion_resets_cursor_counterexample :
    (parse_calls [0x10, 0x80, 0x90, 0x40, 0x7f] 2 ble_midi.zero 0).map Outcome.view =
      [some (-1, []), some (-1, [])] ∧
    (parse_calls [0x85, 0x81, 0xC0, 0x42] 3 ble_midi.zero 0).map Outcome.view =
      [some (1, [0xC0, 0x42]), some (0, [0xC0, 0x42]), some (1, [0xC0, 0x42])] := by
  decide

/-! ## The cursor -/

/-- C19 (amended): under the caller protocol, whenever `ble_midi_parse`
returns 0 either its cursor had reached the packet length, or the SysEx array
is full: then `errno` is `EMSGSIZE`, `buffer_sys_len` is 256 and the cursor
stands before the end of the packet, the bytes from the cursor on being left
unparsed. -/
theorem no_more_cursor (bm bm1 : ble_midi) (e e1 : Nat) (data : List Nat)
    (hproto : Protocol bm data)
    (hcall : ble_midi_parse bm e data = Outcome.ret bm1 e1 0) :
    (ble_midi_parse_trace bm e data).cursor = some data.length ∨
    (e1 = EMSGSIZE ∧ bm1.buffer_sys_len = 256 ∧
      ∃ c, (ble_midi_parse_trace bm e data).cursor = some c ∧ c < data.length) := by
  obtain ⟨hw, hcur⟩ := protocol_wf bm data hproto
  obtain ⟨bm2, e2, rv2, hc, _, hcase⟩ := parse_call_ok bm e data hw hcur
  rw [hcall] at hc
  injection hc with h1 h2 h3
  subst h1 h2 h3
  rcases hcase with ⟨h0, _⟩ | ⟨_, _, hres⟩ | ⟨h0, _⟩
  · exact absurd h0 (by decide)
  · exact hres
  · exact absurd h0 (by decide)

/-- C20: under the caller protocol, whenever `ble_midi_parse` returns 1 the
stored `current_len` after the call is strictly greater than the stored
`current_len` before the call and is at most the packet length. -/
theorem cursor_monotone (bm bm1 : ble_midi) (e e1 : Nat) (data : List Nat)
    (hproto : Protocol bm data)
    (hcall : ble_midi_parse bm e data = Outcome.ret bm1 e1 1) :
    bm.current_len < bm1.current_len ∧ bm1.current_len ≤ data.length := by
  obtain ⟨hw, hcur⟩ := protocol_wf bm data hproto
  obtain ⟨bm2, e2, rv2, hc, _, hcase⟩ := parse_call_ok bm e data hw hcur
  rw [hcall] at hc
  injection hc with h1 h2 h3
  subst h1 h2 h3
  rcases hcase with ⟨_, hlt, hle, _⟩ | ⟨h0, _⟩ | ⟨h0, _⟩
  · exact ⟨hlt, hle⟩
  · exact absurd h0 (by decide)
  · exact absurd h0 (by decide)

set_option maxRecDepth 100000 in
theorem note_on_call :
    ble_midi_parse ble_midi.zero 0 [0x80, 0x81, 0x90, 0x40, 0x7f] =
      Outcome.ret note_on_emitted 0 1 := by
  decide

set_option maxRecDepth 100000 in
theorem note_on_call_end :
    ble_midi_parse note_on_emitted 0 [0x80, 0x81, 0x90, 0x40, 0x7f] =
      Outcome.ret { note_on_emitted with current_len := 0 } 0 0 := by
  decide

/-- Witness of C19: the packet 80 81 90 40 7F from the all-zero state; the
first call emits the note-on message, the second call returns 0 with the cursor
at the packet length. -/
theorem no_more_cursor_witness :
    (ble_midi_parse_trace note_on_emitted 0 [0x80, 0x81, 0x90, 0x40, 0x7f]).cursor =
      some ([0x80, 0x81, 0x90, 0x40, 0x7f] : List Nat).length ∨
    (0 = EMSGSIZE ∧ ({ note_on_emitted with current_len := 0 } : ble_midi).buffer_sys_len = 256 ∧
      ∃ c, (ble_midi_parse_trace note_on_emitted 0 [0x80, 0x81, 0x90, 0x40, 0x7f]).cursor =
        some c ∧ c < ([0x80, 0x81, 0x90, 0x40, 0x7f] : List Nat).length) :=
  no_more_cursor note_on_emitted { note_on_emitted with current_len := 0 } 0 0
    [0x80, 0x81, 0x90, 0x40, 0x7f]
    (Protocol.again ble_midi.zero 0 [0x80, 0x81, 0x90, 0x40, 0x7f] note_on_emitted 0
      (Protocol.start [0x80, 0x81, 0x90, 0x40, 0x7f]) note_on_call)
    note_on_call_end

set_option maxRecDepth 1000000 in
/-- Counterexample to C19 as stated: the first call on `overflow_packet` from
the all-zero state returns 0 with the cursor at index 258 of the 265 bytes; the
caller loop ends with nothing emitted, `errno = EMSGSIZE`, and the bytes from
index 258 on, among them the note-on message, are never parsed. -/
theorem no_more_cursor_counterexample :
    (ble_midi_parse ble_midi.zero 0 overflow_packet).rv? = some 0 ∧
    (ble_midi_parse_trace ble_midi.zero 0 overflow_packet).cursor = some 258 ∧
    overflow_packet.length = 265 ∧
    (parse_packet ble_midi.zero 0 overflow_packet).map (fun d => (d.emitted, d.rv, d.errno)) =
      some ([], 0, EMSGSIZE) := by
  decide!

/-- Witness of C20: the first call on the packet 80 81 90 40 7F from the
all-zero state returns 1 and moves the stored cursor from 0 to 5. -/
theorem cursor_monotone_witness :
    ble_midi.zero.current_len < note_on_emitted.current_len ∧
    note_on_emitted.current_len ≤ ([0x80, 0x81, 0x90, 0x40, 0x7f] : List Nat).length :=
  cursor_monotone ble_midi.zero note_on_emitted 0 0 [0x80, 0x81, 0x90, 0x40, 0x7f]
    (Protocol.start [0x80, 0x81, 0x90, 0x40, 0x7f]) note_on_call

theorem data_loop_cur (data : List Nat) :
    ∀ (fuel : Nat) (bm : ble_midi) (l : Locals) (m : Nat), l.bm_current_len < data.length →
      CurLoop data l (data_loop data fuel bm l m) := by
  intro fuel
  induction fuel with
  | zero => intro bm l m _; exact True.intro
  | succ f ih =>
    intro bm l m hcur
    rw [data_loop]
    by_cases hm : m - 1 = 0
    · rw [if_pos hm]
      exact ⟨Nat.le_refl _, hcur⟩
    · rw [if_neg hm]
      obtain ⟨b, hb⟩ : ∃ b, data[l.bm_current_len]? = some b :=
        ⟨data[l.bm_current_len], List.getElem?_eq_getElem hcur⟩
      rw [hb]
      simp only
      by_cases hhigh : b &&& 0x80 ≠ 0
      · rw [if_pos hhigh]
        exact ⟨Nat.le_refl _, hcur⟩
      · rw [if_neg hhigh]
        by_cases hroom : l.bm_buffer_len < l.bm_buffer_size
        · rw [if_neg (not_not.mpr hroom)]
          by_cases hend : (store bm l b).2.bm_current_len + 1 = data.length
          · rw [if_pos hend]
            refine ⟨?_, Nat.le_of_eq hend⟩
            show l.bm_current_len ≤ (store bm l b).2.bm_current_len + 1
            rw [store_snd_cur]; omega
          · rw [if_neg hend]
            rw [store_snd_cur] at hend
            have h := ih (store bm l b).1
              { (store bm l b).2 with
                bm_current_len := (store bm l b).2.bm_current_len + 1 } (m - 1)
              (by show (store bm l b).2.bm_current_len + 1 < data.length
                  rw [store_snd_cur]; omega)
            have hstep : l.bm_current_len ≤
                ({ (store bm l b).2 with
                  bm_current_len := (store bm l b).2.bm_current_len + 1 } : Locals).bm_current_len := by
              show l.bm_current_len ≤ (store bm l b).2.bm_current_len + 1
              rw [store_snd_cur]; omega
            revert h
            cases data_loop data f (store bm l b).1
              { (store bm l b).2 with
                bm_current_len := (store bm l b).2.bm_current_len + 1 } (m - 1) with
            | goto_final bm2 l2 => intro h; exact ⟨Nat.le_trans hstep h.1, h.2⟩
            | exit bm2 l2 m2 => intro h; exact ⟨Nat.le_trans hstep h.1, h.2⟩
            | out_of_bounds => intro h; exact h
            | out_of_fuel => intro h; exact h
        · rw [if_pos hroom]
          exact ⟨Nat.le_refl _, hcur⟩

theorem after_data_trace_cur (data : List Nat) (c : Nat) (bm : ble_midi) (l : Locals) (e m : Nat)
    (hcur : l.bm_current_len < data.length) (hc : c ≤ l.bm_current_len) :
    CurPass data c (after_data_trace bm l e m) := by
  unfold after_data_trace
  split_ifs
  · exact True.intro
  · exact ⟨hc, Nat.le_of_lt hcur⟩
  · exact ⟨hc, hcur⟩
  · exact ⟨hc, Nat.le_of_lt hcur⟩

theorem message_body_cur (data : List Nat) (c e : Nat) (p : ble_midi × Locals)
    (hcur : p.2.bm_current_len < data.length) (hc : c ≤ p.2.bm_current_len) :
    CurPass data c
      (if ble_midi_message_len p.2.bm_status = 0 then
        Pass.done (Leave.at_fail p.1 ENOMSG p.2.bm_current_len)
      else
        match data_loop data (data.length + 1) p.1 p.2 (ble_midi_message_len p.2.bm_status) with
        | LoopExit.goto_final bm1 l1 => Pass.done (Leave.at_final bm1 l1 e)
        | LoopExit.exit bm1 l1 m => after_data_trace bm1 l1 e m
        | LoopExit.out_of_bounds => Pass.done Leave.out_of_bounds
        | LoopExit.out_of_fuel => Pass.done Leave.out_of_fuel) := by
  by_cases hm : ble_midi_message_len p.2.bm_status = 0
  · rw [if_pos hm]; exact True.intro
  · rw [if_neg hm]
    have hloop := data_loop_cur data (data.length + 1) p.1 p.2
      (ble_midi_message_len p.2.bm_status) hcur
    revert hloop
    cases data_loop data (data.length + 1) p.1 p.2 (ble_midi_message_len p.2.bm_status) with
    | goto_final bm1 l1 => intro h; exact ⟨Nat.le_trans hc h.1, h.2⟩
    | exit bm1 l1 m1 =>
      intro h
      exact after_data_trace_cur data c bm1 l1 e m1 h.2 (Nat.le_trans hc h.1)
    | out_of_bounds => intro h; exact h
    | out_of_fuel => intro _; exact True.intro

theorem parse_message_trace_cur (data : List Nat) (c : Nat) (bm : ble_midi) (l : Locals)
    (e : Nat) (hcur : l.bm_current_len < data.length) (hc : c ≤ l.bm_current_len) :
    CurPass data c (parse_message_trace data bm l e) := by
  unfold parse_message_trace
  simp only
  by_cases hr : l.bm_buffer_len = 0 ∧ bm.status_restore = true
  · rw [if_pos hr]
    exact message_body_cur data c e
      (({ (store bm l l.bm_status).1 with status_restore := false } : ble_midi),
        (store bm l l.bm_status).2)
      (by show (store bm l l.bm_status).2.bm_current_len < data.length
          rw [store_snd_cur]; exact hcur)
      (by show c ≤ (store bm l l.bm_status).2.bm_current_len
          rw [store_snd_cur]; exact hc)
  · rw [if_neg hr]
    exact message_body_cur data c e (bm, l) hcur hc

theorem parse_status_trace_cur (data : List Nat) (c : Nat) (bm : ble_midi) (l : Locals)
    (e s : Nat) (hcur : l.bm_current_len < data.length) (hc : c ≤ l.bm_current_len) :
    CurPass data c (parse_status_trace data bm l e s) := by
  have key : ∀ (q : ble_midi × Locals), q.2.bm_current_len = l.bm_current_len →
      CurPass data c
        (if q.2.bm_current_len + 1 = data.length then
          Pass.done (Leave.at_final q.1 { q.2 with bm_current_len := q.2.bm_current_len + 1 } e)
        else parse_message_trace data q.1
          { q.2 with bm_current_len := q.2.bm_current_len + 1 } e) := by
    intro q qc
    by_cases hend : q.2.bm_current_len + 1 = data.length
    · rw [if_pos hend]
      exact ⟨by show c ≤ q.2.bm_current_len + 1; omega, Nat.le_of_eq hend⟩
    · rw [if_neg hend]
      exact parse_message_trace_cur data c q.1 _ e
        (by show q.2.bm_current_len + 1 < data.length; omega)
        (by show c ≤ q.2.bm_current_len + 1; omega)
  have room : ∀ (p : ble_midi × Locals), p.2.bm_current_len = l.bm_current_len →
      CurPass data c
        (if (if p.2.bm_buffer_len < p.2.bm_buffer_size then store p.1 p.2 p.2.bm_status
              else p).2.bm_current_len + 1 = data.length then
          Pass.done (Leave.at_final
            (if p.2.bm_buffer_len < p.2.bm_buffer_size then store p.1 p.2 p.2.bm_status
              else p).1
            { (if p.2.bm_buffer_len < p.2.bm_buffer_size then store p.1 p.2 p.2.bm_status
                else p).2 with
              bm_current_len :=
                (if p.2.bm_buffer_len < p.2.bm_buffer_size then store p.1 p.2 p.2.bm_status
                  else p).2.bm_current_len + 1 } e)
        else parse_message_trace data
          (if p.2.bm_buffer_len < p.2.bm_buffer_size then store p.1 p.2 p.2.bm_status else p).1
          { (if p.2.bm_buffer_len < p.2.bm_buffer_size then store p.1 p.2 p.2.bm_status
              else p).2 with
            bm_current_len :=
              (if p.2.bm_buffer_len < p.2.bm_buffer_size then store p.1 p.2 p.2.bm_status
                else p).2.bm_current_len + 1 } e) := by
    intro p pc
    by_cases hroom : p.2.bm_buffer_len < p.2.bm_buffer_size
    · simp only [if_pos hroom]
      exact key (store p.1 p.2 p.2.bm_status) (by rw [store_snd_cur]; exact pc)
    · simp only [if_neg hroom]
      exact key p pc
  unfold parse_status_trace
  simp only
  by_cases h0 : s = 0xF0
  · simp only [if_pos h0]
    exact room (({ bm with ts_sys := bm.ts, status_sys := true } : ble_midi),
      Locals.mk Buf.sys Buf.sys.size bm.buffer_sys_len s l.bm_current_len) rfl
  · simp only [if_neg h0]
    by_cases h7 : s = 0xF7
    · simp only [if_pos h7]
      exact room (({ bm with status_sys := false } : ble_midi), { l with bm_status := s }) rfl
    · simp only [if_neg h7]
      exact room (bm, { l with bm_status := s }) rfl

theorem retry_body_trace_cur (data : List Nat) (c : Nat) (bm : ble_midi) (l : Locals)
    (e : Nat) (hcur : l.bm_current_len < data.length) (hc : c ≤ l.bm_current_len) :
    CurPass data c (retry_body_trace data bm l e) := by
  unfold retry_body_trace
  obtain ⟨b, hb⟩ : ∃ b, data[l.bm_current_len]? = some b :=
    ⟨data[l.bm_current_len], List.getElem?_eq_getElem hcur⟩
  rw [hb]
  simp only
  by_cases hhigh : b &&& 0x80 ≠ 0
  · rw [if_pos hhigh]
    by_cases hend : l.bm_current_len + 1 = data.length
    · rw [if_pos hend]; exact True.intro
    · rw [if_neg hend]
      have hcur1 : l.bm_current_len + 1 < data.length := by omega
      obtain ⟨s, hs⟩ : ∃ s, data[l.bm_current_len + 1]? = some s :=
        ⟨data[l.bm_current_len + 1], List.getElem?_eq_getElem hcur1⟩
      rw [hs]
      simp only
      by_cases hsh : s &&& 0x80 ≠ 0
      · rw [if_pos hsh]
        exact parse_status_trace_cur data c _
          { l with bm_current_len := l.bm_current_len + 1 } e s hcur1
          (by show c ≤ l.bm_current_len + 1; omega)
      · rw [if_neg hsh]
        exact parse_message_trace_cur data c _
          { l with bm_current_len := l.bm_current_len + 1 } e hcur1
          (by show c ≤ l.bm_current_len + 1; omega)
  · rw [if_neg hhigh]
    exact parse_message_trace_cur data c bm l e hcur hc

theorem retry_trace_cur (data : List Nat) (c : Nat) :
    ∀ (fuel : Nat) (bm : ble_midi) (l : Locals) (e : Nat), l.bm_current_len < data.length →
      c ≤ l.bm_current_len → CurLeave data c (retry_trace data fuel bm l e) := by
  intro fuel
  induction fuel with
  | zero => intro bm l e _ _; exact True.intro
  | succ f ih =>
    intro bm l e hcur hc
    have hp := retry_body_trace_cur data c bm l e hcur hc
    rw [retry_trace]
    revert hp
    cases retry_body_trace data bm l e with
    | done x => intro hp; exact hp
    | again bm1 l1 e1 => intro hp; exact ih bm1 l1 e1 hp.2 hp.1

/-- A call made with the stored cursor within the packet makes no read
outside the packet, and when it leaves through `final` its cursor is at least
1 and within the packet; no assumption is made on the rest of the structure. -/
theorem parse_trace_cur (bm : ble_midi) (e : Nat) (data : List Nat)
    (hcur : bm.current_len ≤ data.length) :
    CurLeave data 1 (ble_midi_parse_trace bm e data) := by
  unfold ble_midi_parse_trace
  simp only
  by_cases hend : bm.current_len = data.length
  · rw [if_pos hend]; exact True.intro
  · rw [if_neg hend]
    have hlt : bm.current_len < data.length := by omega
    by_cases h0 : bm.current_len = 0
    · have hif : (if bm.status_sys = true then
          Locals.mk Buf.sys Buf.sys.size bm.buffer_sys_len 0xF0 bm.current_len
        else Locals.mk Buf.midi Buf.midi.size 0 bm.status bm.current_len).bm_current_len = 0 := by
        split_ifs <;> exact h0
      rw [if_pos hif]
      by_cases h3 : data.length < 3
      · rw [if_pos h3]; exact True.intro
      · rw [if_neg h3]
        obtain ⟨h, hh⟩ : ∃ h, data[0]? = some h :=
          ⟨data[0], List.getElem?_eq_getElem (by omega)⟩
        rw [hh]
        simp only
        by_cases hhdr : h >>> 6 ≠ 0x02
        · rw [if_pos hhdr]; exact True.intro
        · rw [if_neg hhdr]
          refine retry_trace_cur data 1 (data.length + 1) _ _ e ?_ ?_
          · split_ifs <;> (show bm.current_len + 1 < data.length; omega)
          · split_ifs <;> (show 1 ≤ bm.current_len + 1; omega)
    · have hif : ¬ (if bm.status_sys = true then
          Locals.mk Buf.sys Buf.sys.size bm.buffer_sys_len 0xF0 bm.current_len
        else Locals.mk Buf.midi Buf.midi.size 0 bm.status bm.current_len).bm_current_len = 0 := by
        split_ifs <;> exact h0
      rw [if_neg hif]
      refine retry_trace_cur data 1 (data.length + 1) bm _ e ?_ ?_
      · split_ifs <;> exact hlt
      · split_ifs <;> (show 1 ≤ bm.current_len; omega)

theorem leave_outcome_bounds (x : Leave) (h : x.outcome = Outcome.out_of_bounds) :
    x = Leave.out_of_bounds := by
  cases x with
  | at_final bm l e =>
    by_cases hs : l.bm_status = 0xF0
    · simp only [Leave.outcome] at h
      rw [final_suspend bm l e hs] at h
      exact absurd h (by simp)
    · simp only [Leave.outcome] at h
      rw [final_emit bm l e hs] at h
      exact absurd h (by simp)
  | at_fail bm e c => simp [Leave.outcome, fail] at h
  | at_reset bm e c => simp [Leave.outcome, reset] at h
  | out_of_bounds => rfl
  | out_of_fuel => simp [Leave.outcome] at h

theorem leave_emit_cursor (data : List Nat) (x : Leave) (bm1 : ble_midi) (e1 : Nat)
    (hc : CurLeave data 1 x) (h : x.outcome = Outcome.ret bm1 e1 1) :
    bm1.current_len ≠ 0 := by
  cases x with
  | at_final bmf l ef =>
    by_cases hs : l.bm_status = 0xF0
    · simp only [Leave.outcome] at h
      rw [final_suspend bmf l ef hs] at h
      injection h with h1 h2 h3
      exact absurd h3 (by decide)
    · simp only [Leave.outcome] at h
      rw [final_emit bmf l ef hs] at h
      injection h with h1 h2 h3
      rw [← h1]
      show l.bm_current_len ≠ 0
      have := hc.1
      omega
  | at_fail bmf ef c =>
    simp only [Leave.outcome, fail] at h
    injection h with h1 h2 h3
    exact absurd h3 (by decide)
  | at_reset bmf ef c =>
    simp only [Leave.outcome, reset] at h
    injection h with h1 h2 h3
    exact absurd h3 (by decide)
  | out_of_bounds => exact absurd hc id
  | out_of_fuel => simp [Leave.outcome] at h

/-- After a call that returned 1 the stored cursor is not 0, in every
state. -/
theorem parse_emit_cursor (bm : ble_midi) (e : Nat) (data : List Nat) (bm1 : ble_midi)
    (e1 : Nat) (h : ble_midi_parse bm e data = Outcome.ret bm1 e1 1) :
    bm1.current_len ≠ 0 := by
  by_cases hcur : bm.current_len ≤ data.length
  · rw [← parse_trace_outcome] at h
    exact leave_emit_cursor data _ bm1 e1 (parse_trace_cur bm e data hcur) h
  · rw [← parse_trace_outcome, parse_trace_beyond bm e data (by omega)] at h
    simp [Leave.outcome] at h

/-! ## The stored cursor after a call -/

/-- C21: in every state and for every packet, a call of `ble_midi_parse` that
returns 0 or -1 leaves `current_len = 0`, and a call that returns 1 leaves
`current_len` different from 0. -/
theorem cursor_after_call (bm bm1 : ble_midi) (e e1 : Nat) (data : List Nat) (rv : Int)
    (hcall : ble_midi_parse bm e data = Outcome.ret bm1 e1 rv) :
    (rv = 0 ∨ rv = -1 → bm1.current_len = 0) ∧ (rv = 1 → bm1.current_len ≠ 0) := by
  constructor
  · intro hrv
    exact (parse_rv_cursor bm e data bm1 e1 rv hcall).2 (by rcases hrv with h | h <;> omega)
  · intro hrv
    rw [hrv] at hcall
    exact parse_emit_cursor bm e data bm1 e1 hcall

/-- Witness of C21 on the packet 80 81 90 40 7F 80 parsed from the all-zero
state: the first call returns 1 and leaves the cursor 5, the second call
returns -1 and leaves the cursor 0. -/
theorem cursor_after_call_witness :
    note_on_emitted.current_len ≠ 0 ∧
    ({ note_on_emitted with ts := 0, current_len := 0 } : ble_midi).current_len = 0 :=
  ⟨(cursor_after_call ble_midi.zero note_on_emitted 0 0 [0x80, 0x81, 0x90, 0x40, 0x7f, 0x80] 1
      note_on_call_six).2 rfl,
   (cursor_after_call note_on_emitted { note_on_emitted with ts := 0, current_len := 0 } 0
      EINVAL [0x80, 0x81, 0x90, 0x40, 0x7f, 0x80] (-1) note_on_call_fail).1 (Or.inr rfl)⟩

/-! ## Reads of the packet -/

/-- A call made with the stored cursor beyond the packet reads outside the
packet. -/
theorem parse_beyond_bounds (bm : ble_midi) (e : Nat) (data : List Nat)
    (hcur : data.length < bm.current_len) :
    ble_midi_parse bm e data = Outcome.out_of_bounds := by
  rw [← parse_trace_outcome, parse_trace_beyond bm e data hcur]
  rfl

/-- C28: a call made with `current_len <= len` never reads `data[i]` with
`i >= len`, whatever the rest of the structure holds: the call does not end in
the outcome `out_of_bounds`, which the embedding gives to every read outside
the packet. When the structure is moreover well formed, as every structure
reached from the all-zero one is, the call returns. -/
theorem reads_in_bounds (bm : ble_midi) (e : Nat) (data : List Nat)
    (hcur : bm.current_len ≤ data.length) :
    ble_midi_parse bm e data ≠ Outcome.out_of_bounds ∧
    (WF bm → ∃ bm1 e1 rv, ble_midi_parse bm e data = Outcome.ret bm1 e1 rv) := by
  refine ⟨?_, ?_⟩
  · intro h
    have hc := parse_trace_cur bm e data hcur
    rw [← parse_trace_outcome] at h
    rw [leave_outcome_bounds _ h] at hc
    exact hc
  · intro hw
    obtain ⟨bm1, e1, rv, h, _⟩ := parse_call_ok bm e data hw hcur
    exact ⟨bm1, e1, rv, h⟩

/-- Witness of C28: the second call on the packet 80 81 90 40 7F 80, made
with the cursor 5. -/
theorem reads_in_bounds_witness :
    ble_midi_parse note_on_emitted 0 [0x80, 0x81, 0x90, 0x40, 0x7f, 0x80] ≠
      Outcome.out_of_bounds ∧
    (WF note_on_emitted → ∃ bm1 e1 rv,
      ble_midi_parse note_on_emitted 0 [0x80, 0x81, 0x90, 0x40, 0x7f, 0x80] =
        Outcome.ret bm1 e1 rv) :=
  reads_in_bounds note_on_emitted 0 [0x80, 0x81, 0x90, 0x40, 0x7f, 0x80] (by decide)

/-! ## Timestamps -/

/-- C23: in every structure reached from the all-zero one by calls of
`ble_midi_parse` on any packets, `ts <= 8191`, `ts_sys <= 8191`, and `ts_high`
is a multiple of 128 not exceeding 8064. -/
theorem timestamp_range (bm : ble_midi) (h : Reachable bm) :
    bm.ts ≤ 8191 ∧ bm.ts_sys ≤ 8191 ∧ bm.ts_high % 128 = 0 ∧ bm.ts_high ≤ 8064 := by
  obtain ⟨_, _, _, _, w5, w6, w7, w8⟩ := reachable_wf bm h
  exact ⟨by omega, by omega, w7, w8⟩

set_option maxRecDepth 100000 in
theorem high_stamp_call :
    ble_midi_parse ble_midi.zero 0 [0xBF, 0xFF, 0x90, 0x40, 0x7f] =
      Outcome.ret { note_on_emitted with ts := 8191, ts_high := 8064 } 0 1 := by
  decide

/-- Witness of C23: the packet BF FF 90 40 7F, whose header and timestamp
bytes carry the largest timestamp, parsed from the all-zero state. -/
theorem timestamp_range_witness :
    ({ note_on_emitted with ts := 8191, ts_high := 8064 } : ble_midi).ts ≤ 8191 ∧
    ({ note_on_emitted with ts := 8191, ts_high := 8064 } : ble_midi).ts_sys ≤ 8191 ∧
    ({ note_on_emitted with ts := 8191, ts_high := 8064 } : ble_midi).ts_high % 128 = 0 ∧
    ({ note_on_emitted with ts := 8191, ts_high := 8064 } : ble_midi).ts_high ≤ 8064 :=
  timestamp_range { note_on_emitted with ts := 8191, ts_high := 8064 }
    (Reachable.call ble_midi.zero 0 [0xBF, 0xFF, 0x90, 0x40, 0x7f] _ 0 1 Reachable.zero
      (by decide) high_stamp_call)

/-! ## Termination of the caller loop -/

/-- The first call on a packet, when it returns 1, has consumed the header and
at least one more byte. -/
theorem parse_first_cursor (bm : ble_midi) (e : Nat) (data : List Nat) (bm1 : ble_midi)
    (e1 : Nat) (hw : WF bm) (h0 : bm.current_len = 0)
    (h : ble_midi_parse bm e data = Outcome.ret bm1 e1 1) : 2 ≤ bm1.current_len := by
  rw [← parse_trace_outcome] at h
  unfold ble_midi_parse_trace at h
  simp only at h
  by_cases hend : bm.current_len = data.length
  · rw [if_pos hend] at h
    simp only [Leave.outcome, reset] at h
    injection h with h1 h2 h3
    exact absurd h3 (by decide)
  · rw [if_neg hend] at h
    have hif : (if bm.status_sys = true then
        Locals.mk Buf.sys Buf.sys.size bm.buffer_sys_len 0xF0 bm.current_len
      else Locals.mk Buf.midi Buf.midi.size 0 bm.status bm.current_len).bm_current_len = 0 := by
      split_ifs <;> exact h0
    rw [if_pos hif] at h
    by_cases h3 : data.length < 3
    · rw [if_pos h3] at h
      simp only [Leave.outcome, fail] at h
      injection h with h1 h2 h3
      exact absurd h3 (by decide)
    · rw [if_neg h3] at h
      obtain ⟨hd, hh⟩ : ∃ hd, data[0]? = some hd :=
        ⟨data[0], List.getElem?_eq_getElem (by omega)⟩
      rw [hh] at h
      simp only at h
      by_cases hhdr : hd >>> 6 ≠ 0x02
      · rw [if_pos hhdr] at h
        simp only [Leave.outcome, fail] at h
        injection h with h1 h2 h3
        exact absurd h3 (by decide)
      · rw [if_neg hhdr] at h
        have hg := good_ts_high bm bm hd (keeps_refl bm) hw
        have hl1 := lok_entry bm hw (bm.current_len + 1)
        have hstat : (if bm.status_sys = true then
            Locals.mk Buf.sys Buf.sys.size bm.buffer_sys_len 0xF0 bm.current_len
          else Locals.mk Buf.midi Buf.midi.size 0 bm.status bm.current_len).bm_status = 0xF0 ∨
            ble_midi_message_len (if bm.status_sys = true then
              Locals.mk Buf.sys Buf.sys.size bm.buffer_sys_len 0xF0 bm.current_len
            else Locals.mk Buf.midi Buf.midi.size 0 bm.status bm.current_len).bm_status ≠ 1 := by
          by_cases hs : bm.status_sys = true
          · rw [if_pos hs]; exact Or.inl rfl
          · rw [if_neg hs]
            exact Or.inr (fun hm => hw.2.2.2.1 (message_len_one bm.status hm))
        have hx := retry_trace_ok data 1 bm e (data.length + 1)
          { bm with ts_high := (hd &&& 0x3F) <<< 7 }
          { (if bm.status_sys = true then
              Locals.mk Buf.sys Buf.sys.size bm.buffer_sys_len 0xF0 bm.current_len
            else Locals.mk Buf.midi Buf.midi.size 0 bm.status bm.current_len) with
            bm_current_len := (if bm.status_sys = true then
              Locals.mk Buf.sys Buf.sys.size bm.buffer_sys_len 0xF0 bm.current_len
            else Locals.mk Buf.midi Buf.midi.size 0 bm.status bm.current_len).bm_current_len + 1 }
          hg.1 hg.2
          (by split_ifs at hl1 ⊢ <;> exact hl1)
          (by split_ifs <;> (show bm.current_len + 1 < data.length; omega))
          (by split_ifs <;> (show 1 ≤ bm.current_len + 1; omega))
          (Or.inr hstat)
          (by split_ifs <;> (show data.length - (bm.current_len + 1) ≤ data.length + 1; omega))
        obtain ⟨bm2, e2, rv2, hc, _, hcase⟩ := leave_outcome_ok data 1 bm e _ hw hx
        rw [h] at hc
        injection hc with c1 c2 c3
        subst c1 c3
        rcases hcase with ⟨_, hlt, _⟩ | ⟨hz, _⟩ | ⟨hz, _⟩
        · omega
        · exact absurd hz (by decide)
        · exact absurd hz (by decide)

/-- The caller loop ends with a call that returns 0 or -1 when it is allowed
more calls than bytes remain behind the stored cursor. -/
theorem parse_loop_ends (data : List Nat) :
    ∀ (n : Nat) (bm : ble_midi) (e : Nat) (emitted : List (List Nat)), WF bm →
      bm.current_len ≤ data.length → data.length < bm.current_len + n →
      ∃ d, parse_loop data n bm e emitted = some d ∧ d.rv ≤ 0 := by
  intro n
  induction n with
  | zero => intro bm e emitted _ h1 h2; omega
  | succ k ih =>
    intro bm e emitted hw hcur hn
    obtain ⟨bm1, e1, rv, hc, hw1, hcase⟩ := parse_call_ok bm e data hw hcur
    rw [parse_loop, hc]
    simp only
    rcases hcase with ⟨hrv, hlt, hle, _⟩ | ⟨hrv, _⟩ | ⟨hrv, _⟩
    · rw [hrv, if_neg (by decide)]
      exact ih bm1 e1 _ hw1 hle (by omega)
    · rw [hrv, if_pos (by decide)]
      exact ⟨⟨bm1, e1, emitted, 0⟩, rfl, Int.le_refl 0⟩
    · rw [hrv, if_pos (by decide)]
      exact ⟨⟨bm1, e1, emitted, -1⟩, rfl, by show (-1 : Int) ≤ 0; decide⟩

/-- C29 (amended): for every structure reached from the all-zero one with
`current_len = 0` and every packet of length `len`, every call of
`ble_midi_parse` returns and the caller loop of `midi_watch_ble_midi` gets a
result `<= 0` after at most `len` calls when `len >= 1`, and after one call
when the packet is empty. -/
theorem decode_loop_terminates (bm : ble_midi) (e : Nat) (data : List Nat)
    (hreach : Reachable bm) (h0 : bm.current_len = 0) :
    ∃ d, parse_loop data (max data.length 1) bm e [] = some d ∧ d.rv ≤ 0 := by
  have hw := reachable_wf bm hreach
  obtain ⟨k, hk⟩ : ∃ k, max data.length 1 = k + 1 := ⟨max data.length 1 - 1, by omega⟩
  rw [hk]
  obtain ⟨bm1, e1, rv, hc, hw1, hcase⟩ := parse_call_ok bm e data hw (by omega)
  rw [parse_loop, hc]
  simp only
  rcases hcase with ⟨hrv, hlt, hle, _⟩ | ⟨hrv, _⟩ | ⟨hrv, _⟩
  · rw [hrv, if_neg (by decide)]
    rw [hrv] at hc
    have h2 := parse_first_cursor bm e data bm1 e1 hw h0 hc
    exact parse_loop_ends data k bm1 e1 _ hw1 hle (by omega)
  · rw [hrv, if_pos (by decide)]
    exact ⟨⟨bm1, e1, [], 0⟩, rfl, Int.le_refl 0⟩
  · rw [hrv, if_pos (by decide)]
    exact ⟨⟨bm1, e1, [], -1⟩, rfl, by show (-1 : Int) ≤ 0; decide⟩

/-- Witness of the amended C29: the packet 80 81 90 40 7F 80 presented to the
all-zero structure. -/
theorem decode_loop_terminates_witness :
    ∃ d, parse_loop [0x80, 0x81, 0x90, 0x40, 0x7f, 0x80]
        (max ([0x80, 0x81, 0x90, 0x40, 0x7f, 0x80] : List Nat).length 1) ble_midi.zero 0 []
        = some d ∧ d.rv ≤ 0 :=
  decode_loop_terminates ble_midi.zero 0 [0x80, 0x81, 0x90, 0x40, 0x7f, 0x80] Reachable.zero rfl

set_option maxRecDepth 100000 in
/-- Counterexample to C29 as stated: for the empty packet (`len = 0`)
presented to the all-zero structure the result `<= 0` comes with the first
call, not after at most `len = 0` calls. -/
theorem decode_loop_terminates_counterexample :
    parse_loop [] ([] : List Nat).length ble_midi.zero 0 [] = none ∧
    (parse_loop [] 1 ble_midi.zero 0 []).map (fun d => (d.rv, d.emitted)) = some (0, []) := by
  decide

/-! ## Undefined status bytes -/

set_option maxRecDepth 100000 in
theorem undefined_len : ∀ u, (u = 0xF4 ∨ u = 0xF5 ∨ u = 0xF9 ∨ u = 0xFD) →
    ble_midi_message_len u = 0 ∧ u &&& 0x80 ≠ 0 ∧ u ≠ 0xF0 ∧ u ≠ 0xF7 := by
  intro u hu
  rcases hu with h | h | h | h <;> subst h <;> decide

/-- C30: an undefined status byte u (0xF4, 0xF5, 0xF9 or 0xFD) that directly
follows a timestamp byte t while no SysEx is in flight, the call standing
behind the header of the packet or behind earlier messages `pre`: when u is
the last byte of the packet the call returns 1 and emits the one-byte message
u, `errno` untouched; when at least one more byte follows u the call returns
-1 with `errno = ENOMSG`. -/
theorem undefined_status (bm : ble_midi) (e : Nat) (pre : List Nat) (t u b : Nat)
    (rest : List Nat)
    (hpos : (bm.current_len = 0 ∧ ∃ h, pre = [h] ∧ 0x80 ≤ h ∧ h < 0xC0) ∨
      (bm.current_len ≠ 0 ∧ bm.current_len = pre.length))
    (hsys : bm.status_sys = false)
    (hbuf : bm.buffer_midi.length = 8) (ht : 0x80 ≤ t ∧ t < 0x100)
    (hu : u = 0xF4 ∨ u = 0xF5 ∨ u = 0xF9 ∨ u = 0xFD) :
    (∃ bm1, ble_midi_parse bm e (pre ++ [t, u]) = Outcome.ret bm1 e 1 ∧ bm1.message = [u] ∧
      bm1.len = 1) ∧
    (∃ bm1, ble_midi_parse bm e (pre ++ t :: u :: b :: rest) = Outcome.ret bm1 ENOMSG (-1) ∧
      bm1.current_len = 0) := by
  obtain ⟨hlen0, hhigh, hf0, hf7⟩ := undefined_len u hu
  have htb := and_0x80_of_ge t ht.2 ht.1
  have hposd : ∀ post : List Nat, 2 ≤ post.length → Pos bm (pre ++ post) pre := by
    intro post hp
    rcases hpos with ⟨h0, h, hpre, hh⟩ | h
    · refine Or.inl ⟨h0, ?_, h, hpre, hh⟩
      rw [hpre]; simp; omega
    · exact Or.inr h
  constructor
  · have hbE : (enter bm (pre ++ [t, u])).buffer_midi.length = 8 := by
      rw [enter_buffer_midi]; exact hbuf
    have hdl : (pre ++ [t, u]).length = pre.length + 2 := by simp
    rw [parse_enter bm e (pre ++ [t, u]) pre _ rfl (by simp) (hposd [t, u] (by simp)),
      entry_locals_midi bm hsys]
    generalize enter bm (pre ++ [t, u]) = bmE at hbE ⊢
    have hbody : retry_body (pre ++ [t, u]) bmE (Locals.mk Buf.midi 8 0 bm.status pre.length) e =
        Step.done (Outcome.ret
          (emit { bmE with ts := bmE.ts_high ||| (t &&& 0x7F),
                           buffer_midi := bmE.buffer_midi.set 0 u }
            (Locals.mk Buf.midi 8 1 u (pre.length + 2))) e 1) := by
      rw [retry_body_ts_status (pre ++ [t, u]) pre [] t u bmE _ e rfl rfl htb hhigh]
      unfold parse_status
      simp [hf0, hf7, store, final_emit]
    refine ⟨_, retry_done (pre ++ [t, u]) _ _ _ e _ hbody, ?_, rfl⟩
    have h1 := take_succ_set u bmE.buffer_midi 0 (by omega)
    simpa [emit, ble_midi.message] using h1
  · have hdl : (pre ++ t :: u :: b :: rest).length = pre.length + (3 + rest.length) := by
      simp; omega
    rw [parse_enter bm e (pre ++ t :: u :: b :: rest) pre _ rfl (by simp)
      (hposd (t :: u :: b :: rest) (by simp)), entry_locals_midi bm hsys]
    generalize enter bm (pre ++ t :: u :: b :: rest) = bmE
    have hbody : retry_body (pre ++ t :: u :: b :: rest) bmE
        (Locals.mk Buf.midi 8 0 bm.status pre.length) e =
        Step.done (fail { bmE with ts := bmE.ts_high ||| (t &&& 0x7F),
                                   buffer_midi := bmE.buffer_midi.set 0 u } ENOMSG) := by
      rw [retry_body_ts_status (pre ++ t :: u :: b :: rest) pre (b :: rest) t u bmE _ e rfl rfl
        htb hhigh]
      have hne : ¬ (pre.length + 1 + 1 = pre.length + (rest.length + 1 + 1 + 1)) := by omega
      unfold parse_status
      simp [hf0, hf7, store, parse_message, hlen0, hne]
    exact ⟨_, retry_done (pre ++ t :: u :: b :: rest) _ _ _ e _ hbody, rfl⟩

/-- Witness of C30: the packets 80 81 F4 and 80 81 F4 00 presented to the
all-zero structure. -/
theorem undefined_status_witness :
    (∃ bm1, ble_midi_parse ble_midi.zero 0 ([0x80] ++ [0x81, 0xF4]) = Outcome.ret bm1 0 1 ∧
      bm1.message = [0xF4] ∧ bm1.len = 1) ∧
    (∃ bm1, ble_midi_parse ble_midi.zero 0 ([0x80] ++ 0x81 :: 0xF4 :: 0x00 :: []) =
        Outcome.ret bm1 ENOMSG (-1) ∧ bm1.current_len = 0) :=
  undefined_status ble_midi.zero 0 [0x80] 0x81 0xF4 0x00 []
    (Or.inl ⟨rfl, 0x80, rfl, by decide, by decide⟩) rfl rfl (by decide) (Or.inl rfl)

theorem real_time_facts : ∀ r,
    (r = 0xF8 ∨ r = 0xFA ∨ r = 0xFB ∨ r = 0xFC ∨ r = 0xFE ∨ r = 0xFF) →
    r &&& 0x80 ≠ 0 ∧ r ≠ 0xF0 ∧ r ≠ 0xF7 ∧ ble_midi_message_len r = 1 := by
  intro r hr
  rcases hr with h | h | h | h | h | h <;> subst h <;> decide

theorem sysinv_mid (bm : ble_midi) (acc : List Nat) (h : SysInv bm acc) : SysMid bm acc :=
  h.2

theorem sysmid_acc_le (bm : ble_midi) (acc : List Nat) (h : SysMid bm acc) :
    acc.length ≤ 256 := by
  obtain ⟨_, hbuf, _, hacc, _⟩ := h
  have := congrArg List.length hacc
  rw [List.length_take] at this
  omega

/-- The status byte of a real-time message met while the SysEx array is the
active buffer: the byte is stored behind the bytes gathered so far and the
call goes to `final` with the SysEx array as the buffer. -/
theorem parse_status_real_time (data pre rest : List Nat) (r : Nat) (bm : ble_midi)
    (k cur st e : Nat) (hdata : data = pre ++ r :: rest) (hcur : cur = pre.length)
    (hr : r = 0xF8 ∨ r = 0xFA ∨ r = 0xFB ∨ r = 0xFC ∨ r = 0xFE ∨ r = 0xFF)
    (hroom : k < 256) :
    ∃ e1, parse_status data bm (Locals.mk Buf.sys 256 k st cur) e r =
      Step.done (Outcome.ret
        (emit { bm with buffer_sys := bm.buffer_sys.set k r }
          (Locals.mk Buf.sys 256 (k + 1) r (cur + 1))) e1 1) := by
  obtain ⟨_, hf0, hf7, hlen1⟩ := real_time_facts r hr
  have hdl : data.length = pre.length + (1 + rest.length) := by rw [hdata]; simp; omega
  by_cases hrest : rest = []
  · subst hrest
    refine ⟨e, ?_⟩
    have hlen : pre.length + 1 = data.length := by rw [hdl]; simp
    unfold parse_status
    simp [hf0, hf7, hroom, store, hcur, hlen, final_emit]
  · have hp : 0 < rest.length := List.length_pos.mpr hrest
    have hne : ¬ (pre.length + 1 = data.length) := by omega
    have hloop : ∀ (bmx : ble_midi) (lx : Locals),
        data_loop data (data.length + 1) bmx lx 1 = LoopExit.exit bmx lx 0 :=
      fun bmx lx => data_loop_msg_done data data.length bmx lx
    by_cases hfull : k + 1 = 256
    · refine ⟨EMSGSIZE, ?_⟩
      unfold parse_status
      simp [hf0, hf7, hroom, store, hcur, hne, parse_message, hlen1, hloop, after_data, hfull,
        final_emit]
    · refine ⟨e, ?_⟩
      unfold parse_status
      simp [hf0, hf7, hroom, store, hcur, hne, parse_message, hlen1, hloop, after_data, hfull,
        final_emit]

/-- The pass from `retry` over a timestamp byte and a real-time status byte
while the SysEx array is the active buffer. -/
theorem retry_sysex_real_time (data pre rest : List Nat) (tr r : Nat) (bm : ble_midi)
    (k cur st f e : Nat) (hdata : data = pre ++ tr :: r :: rest) (hcur : cur = pre.length)
    (htr : tr &&& 0x80 ≠ 0)
    (hr : r = 0xF8 ∨ r = 0xFA ∨ r = 0xFB ∨ r = 0xFC ∨ r = 0xFE ∨ r = 0xFF)
    (hroom : k < 256) :
    ∃ e1, retry data (f + 1) bm (Locals.mk Buf.sys 256 k st cur) e =
      Outcome.ret
        (emit { bm with ts := bm.ts_high ||| (tr &&& 0x7F), buffer_sys := bm.buffer_sys.set k r }
          (Locals.mk Buf.sys 256 (k + 1) r (cur + 2))) e1 1 := by
  obtain ⟨hhigh, _, _, _⟩ := real_time_facts r hr
  obtain ⟨e1, h1⟩ := parse_status_real_time data (pre ++ [tr]) rest r
    { bm with ts := bm.ts_high ||| (tr &&& 0x7F) } k (cur + 1) st e (by rw [hdata]; simp)
    (by simp [hcur]) hr hroom
  refine ⟨e1, ?_⟩
  apply retry_done
  rw [retry_body_ts_status data pre rest tr r bm _ e hdata hcur htr hhigh]
  exact h1

/-- The structure a real-time message leaves when it is met with the SysEx
array active: the message the caller reads is the gathered SysEx bytes followed
by the real-time byte; the SysEx in flight keeps its bytes, its length and its
timestamp. -/
theorem emit_real_time (bm : ble_midi) (acc : List Nat) (r cur : Nat)
    (hr : r = 0xF8 ∨ r = 0xFA ∨ r = 0xFB ∨ r = 0xFC ∨ r = 0xFE ∨ r = 0xFF)
    (hmid : SysMid bm acc) (hroom : acc.length < 256) :
    (emit { bm with buffer_sys := bm.buffer_sys.set acc.length r }
        (Locals.mk Buf.sys 256 (acc.length + 1) r cur)).message = acc ++ [r] ∧
    (emit { bm with buffer_sys := bm.buffer_sys.set acc.length r }
        (Locals.mk Buf.sys 256 (acc.length + 1) r cur)).len = acc.length + 1 ∧
    SysMid (emit { bm with buffer_sys := bm.buffer_sys.set acc.length r }
        (Locals.mk Buf.sys 256 (acc.length + 1) r cur)) acc ∧
    (emit { bm with buffer_sys := bm.buffer_sys.set acc.length r }
        (Locals.mk Buf.sys 256 (acc.length + 1) r cur)).current_len = cur ∧
    (emit { bm with buffer_sys := bm.buffer_sys.set acc.length r }
        (Locals.mk Buf.sys 256 (acc.length + 1) r cur)).ts_sys = bm.ts_sys ∧
    (emit { bm with buffer_sys := bm.buffer_sys.set acc.length r }
        (Locals.mk Buf.sys 256 (acc.length + 1) r cur)).buffer = some Buf.sys := by
  obtain ⟨_, _, hf7, _⟩ := real_time_facts r hr
  obtain ⟨hsys, hbuf, hk, hacc, hne⟩ := hmid
  have htk := take_succ_set r bm.buffer_sys acc.length (by omega)
  rw [hacc] at htk
  refine ⟨?_, rfl, ⟨?_, ?_, ?_, ?_, hne⟩, rfl, rfl, rfl⟩
  · simpa [emit, ble_midi.message] using htk
  · simpa [emit] using hsys
  · simp [emit, hbuf]
  · simp [emit, hf7, hk]
  · have h2 : (bm.buffer_sys.set acc.length r).take acc.length = acc := by
      have := congrArg (List.take acc.length) htk
      simpa [List.take_take] using this
    simpa [emit] using h2

/-! ## Calls while a SysEx is in flight, anywhere in a packet -/

theorem sysmid_enter (bm : ble_midi) (data acc : List Nat) (h : SysMid bm acc) :
    SysMid (enter bm data) acc := by
  unfold enter; split_ifs
  · exact h
  · exact h

theorem enter_ts_sys (bm : ble_midi) (data : List Nat) : (enter bm data).ts_sys = bm.ts_sys := by
  unfold enter; split_ifs <;> rfl

theorem sysmid_consume (bm : ble_midi) (acc ds : List Nat) (cur : Nat) (h : SysMid bm acc)
    (hfit : acc.length + ds.length ≤ 256) :
    SysMid { (consume bm (Locals.mk Buf.sys 256 acc.length 0xF0 cur) ds).1 with
      buffer_sys_len := acc.length + ds.length } (acc ++ ds) := by
  obtain ⟨hsys, hbuf, hk, hacc, hne⟩ := h
  refine ⟨?_, ?_, ?_, ?_, by simp [hne]⟩
  · simpa [consume] using hsys
  · simp [consume, write_at_length, hbuf]
  · simp
  · have h := write_at_take ds bm.buffer_sys acc.length (by omega)
    rw [hacc] at h
    simpa [consume] using h

theorem sysmid_begun (bm : ble_midi) (body : List Nat) (cur : Nat)
    (hbuf : bm.buffer_sys.length = 256) (hk : bm.buffer_sys_len = 0)
    (hfit : 1 + body.length ≤ 256) :
    SysMid { (consume (sysex_started bm cur).1 (sysex_started bm cur).2 body).1 with
      buffer_sys_len := 1 + body.length } (0xF0 :: body) := by
  have h0 : (bm.buffer_sys.set 0 0xF0).take 1 = [0xF0] := by
    have := take_succ_set 0xF0 bm.buffer_sys 0 (by omega)
    simpa using this
  have h1 := write_at_take body (bm.buffer_sys.set 0 0xF0) 1 (by simp [hbuf]; omega)
  rw [h0] at h1
  refine ⟨rfl, ?_, ?_, ?_, by simp⟩
  · simp [consume, sysex_started, write_at_length, hbuf]
  · simp; omega
  · have e1 : (0xF0 :: body).length = 1 + body.length := by simp; omega
    rw [e1]
    simpa [consume, sysex_started, hk] using h1

/-- From `retry`, the SysEx array being the active buffer with the bytes `acc`
gathered: SysEx body bytes `chunk` (possibly none), a timestamp byte and a
real-time status byte. The call returns 1, and what the caller reads is the
gathered SysEx bytes followed by the real-time byte; the SysEx stays in flight
with the body bytes added. -/
theorem retry_sysex_rt (data pre chunk rest acc : List Nat) (tr r : Nat) (bmx : ble_midi)
    (f e : Nat) (hdata : data = pre ++ (chunk ++ tr :: r :: rest))
    (hmid : SysMid bmx acc) (hlow : ∀ d ∈ chunk, d &&& 0x80 = 0) (htr : tr &&& 0x80 ≠ 0)
    (hr : r = 0xF8 ∨ r = 0xFA ∨ r = 0xFB ∨ r = 0xFC ∨ r = 0xFE ∨ r = 0xFF)
    (hfit : acc.length + chunk.length < 256) :
    ∃ bm1 e1, retry data (f + 2) bmx (Locals.mk Buf.sys 256 acc.length 0xF0 pre.length) e =
        Outcome.ret bm1 e1 1 ∧
      bm1.message = acc ++ chunk ++ [r] ∧ bm1.len = acc.length + chunk.length + 1 ∧
      SysMid bm1 (acc ++ chunk) ∧ bm1.current_len = pre.length + chunk.length + 2 ∧
      bm1.ts_sys = bmx.ts_sys ∧ bm1.buffer = some Buf.sys := by
  have ha0 : acc.length ≠ 0 := by
    intro h0; exact hmid.2.2.2.2 (List.eq_nil_of_length_eq_zero h0)
  by_cases hc : chunk = []
  · subst hc
    obtain ⟨e1, h1⟩ := retry_sysex_real_time data pre rest tr r bmx acc.length pre.length 0xF0
      (f + 1) e (by simpa using hdata) rfl htr hr (by simpa using hfit)
    have hm2 : SysMid { bmx with ts := bmx.ts_high ||| (tr &&& 0x7F) } acc := hmid
    obtain ⟨g1, g2, g3, g4, g5, g6⟩ :=
      emit_real_time { bmx with ts := bmx.ts_high ||| (tr &&& 0x7F) } acc r (pre.length + 2) hr
        hm2 (by simpa using hfit)
    refine ⟨_, e1, h1, ?_, ?_, ?_, ?_, ?_, ?_⟩
    · simpa using g1
    · simpa using g2
    · simpa using g3
    · simpa using g4
    · exact g5
    · exact g6
  · obtain ⟨d, ds, rfl⟩ : ∃ d r, chunk = d :: r := by
      cases chunk with
      | nil => exact absurd rfl hc
      | cons d r => exact ⟨d, r, rfl⟩
    have hpass := parse_message_sysex_high data (d :: ds) pre (r :: rest) tr bmx
      (Locals.mk Buf.sys 256 acc.length 0xF0 pre.length) e rfl (by simp [ha0]) hdata rfl hlow htr
      hfit (Nat.le_refl _)
    rw [retry_again data _ _ _ _ _ e e (by
      rw [retry_body_data data pre (ds ++ tr :: r :: rest) d _ _ e (by rw [hdata]; simp) rfl
        (hlow d (by simp))]
      exact hpass)]
    have hm1 := sysmid_consume bmx acc (d :: ds) pre.length hmid (by omega)
    have hl2 : (consume bmx (Locals.mk Buf.sys 256 acc.length 0xF0 pre.length) (d :: ds)).2 =
        Locals.mk Buf.sys 256 (acc ++ d :: ds).length 0xF0 (pre.length + (d :: ds).length) := by
      simp [consume]
    have hlen2 : acc.length + (d :: ds).length = (acc ++ d :: ds).length := by simp
    rw [hl2]
    obtain ⟨e1, h1⟩ := retry_sysex_real_time data (pre ++ d :: ds) rest tr r
      { (consume bmx (Locals.mk Buf.sys 256 acc.length 0xF0 pre.length) (d :: ds)).1 with
        buffer_sys_len := acc.length + (d :: ds).length }
      (acc ++ d :: ds).length (pre.length + (d :: ds).length) 0xF0 f e
      (by rw [hdata]; simp) (by simp) htr hr (by rw [← hlen2]; exact hfit)
    obtain ⟨g1, g2, g3, g4, g5, g6⟩ :=
      emit_real_time
        { (consume bmx (Locals.mk Buf.sys 256 acc.length 0xF0 pre.length) (d :: ds)).1 with
          buffer_sys_len := acc.length + (d :: ds).length,
          ts := bmx.ts_high ||| (tr &&& 0x7F) }
        (acc ++ d :: ds) r (pre.length + (d :: ds).length + 2) hr hm1
        (by rw [← hlen2]; exact hfit)
    refine ⟨_, e1, h1, ?_, ?_, ?_, ?_, ?_, ?_⟩
    · simpa using g1
    · rw [hlen2]; exact g2
    · exact g3
    · exact g4
    · exact g5
    · exact g6

/-- From `retry`, the SysEx array being the active buffer with the bytes `acc`
gathered: SysEx body bytes `chunk` (possibly none), a timestamp byte and 0xF7
that end the packet. The call returns 1 with the whole message, the timestamp
stored when the SysEx began, and the reassembly buffer empty again. -/
theorem retry_sysex_tail (data pre chunk acc : List Nat) (t : Nat) (bmx : ble_midi)
    (f e : Nat) (hdata : data = pre ++ (chunk ++ [t, 0xF7]))
    (hmid : SysMid bmx acc) (hlow : ∀ d ∈ chunk, d &&& 0x80 = 0) (ht : t &&& 0x80 ≠ 0)
    (hfit : acc.length + chunk.length + 1 ≤ 256) :
    ∃ bm1, retry data (f + 2) bmx (Locals.mk Buf.sys 256 acc.length 0xF0 pre.length) e =
        Outcome.ret bm1 e 1 ∧
      bm1.message = acc ++ chunk ++ [0xF7] ∧ bm1.len = acc.length + chunk.length + 1 ∧
      bm1.current_len = data.length ∧ bm1.ts = bmx.ts_sys ∧
      bm1.buffer_sys_len = 0 ∧ bm1.status_sys = false ∧ bm1.buffer = some Buf.sys := by
  obtain ⟨hsys, hbuf, hk, hacc, hne⟩ := hmid
  have ha0 : acc.length ≠ 0 := by
    intro h0; exact hne (List.eq_nil_of_length_eq_zero h0)
  have htk := take_write_set bmx.buffer_sys acc.length chunk 0xF7 (by rw [hbuf]; omega)
  rw [hacc] at htk
  have hdl : data.length = pre.length + (chunk.length + 2) := by rw [hdata]; simp
  by_cases hc : chunk = []
  · subst hc
    rw [retry_sysex_stop data pre t _ acc.length pre.length 0xF0 _ e (by simpa using hdata) rfl
      ht (by simp at hfit; omega)]
    refine ⟨_, rfl, ?_, ?_, ?_, ?_, ?_, ?_, ?_⟩
    · simpa [emit, ble_midi.message, write_at] using htk
    · simp [emit]
    · simp [emit, hdl]
    · simp [emit]
    · simp [emit]
    · simp [emit]
    · simp [emit]
  · obtain ⟨d, ds, rfl⟩ : ∃ d r, chunk = d :: r := by
      cases chunk with
      | nil => exact absurd rfl hc
      | cons d r => exact ⟨d, r, rfl⟩
    have hpass := parse_message_sysex_high data (d :: ds) pre [0xF7] t bmx
      (Locals.mk Buf.sys 256 acc.length 0xF0 pre.length) e rfl (by simp [ha0]) hdata rfl hlow ht
      (by simp at hfit ⊢; omega) (Nat.le_refl _)
    rw [retry_again data _ _ _ _ _ e e (by
      rw [retry_body_data data pre (ds ++ [t, 0xF7]) d _ _ e (by rw [hdata]; simp) rfl
        (hlow d (by simp))]
      exact hpass)]
    have hl2 : (consume bmx (Locals.mk Buf.sys 256 acc.length 0xF0 pre.length) (d :: ds)).2 =
        Locals.mk Buf.sys 256 (acc.length + (d :: ds).length) 0xF0
          (pre.length + (d :: ds).length) := rfl
    rw [hl2, retry_sysex_stop data (pre ++ d :: ds) t _ _ _ 0xF0 _ e
      (by rw [hdata]; simp) (by simp) ht (by simp at hfit ⊢; omega)]
    refine ⟨_, rfl, ?_, ?_, ?_, ?_, ?_, ?_, ?_⟩
    · simpa [emit, ble_midi.message, consume] using htk
    · simp [emit]
    · simp [emit, hdl]; omega
    · simp [emit, consume]
    · simp [emit]
    · simp [emit]
    · simp [emit]

/-- From `retry`, the SysEx array being the active buffer with the bytes `acc`
gathered: SysEx body bytes up to the end of the packet. The call returns 0 and
the SysEx stays in flight with the body bytes added. -/
theorem retry_sysex_chunk (data pre chunk acc : List Nat) (bmx : ble_midi)
    (f e : Nat) (hdata : data = pre ++ chunk) (hchunk : chunk ≠ [])
    (hmid : SysMid bmx acc) (hlow : ∀ d ∈ chunk, d &&& 0x80 = 0)
    (hfit : acc.length + chunk.length ≤ 256) :
    ∃ bm1, retry data (f + 1) bmx (Locals.mk Buf.sys 256 acc.length 0xF0 pre.length) e =
        Outcome.ret bm1 e 0 ∧
      SysInv bm1 (acc ++ chunk) ∧ bm1.ts_sys = bmx.ts_sys := by
  obtain ⟨hsys, hbuf, hk, hacc, hne⟩ := hmid
  have ha0 : acc.length ≠ 0 := by
    intro h0; exact hne (List.eq_nil_of_length_eq_zero h0)
  obtain ⟨d, ds, rfl⟩ : ∃ d r, chunk = d :: r := by
    cases chunk with
    | nil => exact absurd rfl hchunk
    | cons d r => exact ⟨d, r, rfl⟩
  have hbody : retry_body data bmx (Locals.mk Buf.sys 256 acc.length 0xF0 pre.length) e =
      Step.done (Outcome.ret
        (suspend (consume bmx (Locals.mk Buf.sys 256 acc.length 0xF0 pre.length) (d :: ds)).1
          (consume bmx (Locals.mk Buf.sys 256 acc.length 0xF0 pre.length) (d :: ds)).2) e 0) := by
    rw [retry_body_data data pre ds d _ _ e hdata rfl (hlow d (by simp))]
    rw [parse_message_sysex_end data (d :: ds) pre bmx _ e rfl (by simp) (by simp [ha0]) hdata
      rfl hlow hfit (Nat.le_refl _)]
    rw [final_suspend _ _ e rfl]
  refine ⟨_, retry_done data f _ _ e _ hbody,
    suspend_sysinv bmx acc.length pre.length acc (d :: ds) hsys hbuf rfl hacc hne hfit, ?_⟩
  simp [suspend, consume]

/-! ## Calls on a SysEx, at any position of a packet -/

/-- The pass from `retry` over a timestamp byte, the SysEx start byte and the
body bytes `body`, up to a byte with bit 7 set: the pass ends with
`goto retry`, the SysEx being in flight with the start byte and the body bytes
gathered and the timestamp of the start byte stored in `ts_sys`. -/
theorem sysex_begin_pass (data pre body rest : List Nat) (t0 hb : Nat) (bmE : ble_midi)
    (st e : Nat) (hdata : data = pre ++ (t0 :: 0xF0 :: (body ++ hb :: rest)))
    (hk : bmE.buffer_sys_len = 0) (hbuf : bmE.buffer_sys.length = 256)
    (ht0 : t0 &&& 0x80 ≠ 0) (hhb : hb &&& 0x80 ≠ 0) (hlow : ∀ d ∈ body, d &&& 0x80 = 0)
    (hfit : 1 + body.length < 256) :
    ∃ bmS, retry_body data bmE (Locals.mk Buf.midi 8 0 st pre.length) e =
        Step.again bmS
          (Locals.mk Buf.sys 256 (0xF0 :: body).length 0xF0 (pre ++ t0 :: 0xF0 :: body).length) e ∧
      SysMid bmS (0xF0 :: body) ∧ bmS.ts_sys = bmE.ts_high ||| (t0 &&& 0x7F) := by
  have hpass : retry_body data bmE (Locals.mk Buf.midi 8 0 st pre.length) e =
      Step.again
        { (consume (sysex_started { bmE with
              ts := bmE.ts_high ||| (t0 &&& 0x7F) } (pre.length + 1 + 1)).1
            (sysex_started { bmE with
              ts := bmE.ts_high ||| (t0 &&& 0x7F) } (pre.length + 1 + 1)).2 body).1
          with buffer_sys_len := 1 + body.length }
        (Locals.mk Buf.sys 256 (0xF0 :: body).length 0xF0 (pre ++ t0 :: 0xF0 :: body).length)
        e := by
    rw [retry_body_ts_status data pre (body ++ hb :: rest) t0 0xF0 _ _ e hdata rfl ht0
      (by decide)]
    rw [parse_status_sysex_start data (pre ++ [t0]) (body ++ hb :: rest) _ _ e
      (by rw [hdata]; simp) (by simp) (by simp) (by simp [hk])]
    rw [parse_message_sysex_high data body (pre ++ [t0, 0xF0]) rest hb _ _ e rfl
      (by simp [sysex_started]) (by rw [hdata]; simp) (by simp [sysex_started]) hlow hhb
      (by simp [sysex_started, hk]; omega) (by simp [sysex_started])]
    simp [sysex_started, consume, hk, Nat.add_assoc, Nat.add_comm]
    omega
  refine ⟨_, hpass, ?_, ?_⟩
  · exact sysmid_begun { bmE with ts := bmE.ts_high ||| (t0 &&& 0x7F) } body
      (pre.length + 1 + 1) hbuf hk (by omega)
  · simp [consume, sysex_started]

theorem enter_buffer_sys_length (bm : ble_midi) (data : List Nat) :
    (enter bm data).buffer_sys.length = bm.buffer_sys.length := by
  rw [enter_buffer_sys]

/-- A call that parses a timestamp byte, the SysEx start byte, body bytes, a
timestamp byte and a real-time status byte, no SysEx being in flight and the
reassembly buffer empty: it returns 1, and what the caller reads is the SysEx
start byte and the body bytes followed by the real-time byte. -/
theorem sysex_begin_rt_call (bm : ble_midi) (e : Nat) (data pre body rest : List Nat)
    (t0 tr r : Nat) (hdata : data = pre ++ (t0 :: 0xF0 :: (body ++ tr :: r :: rest)))
    (hpos : Pos bm data pre) (hsys : bm.status_sys = false) (hk : bm.buffer_sys_len = 0)
    (hbuf : bm.buffer_sys.length = 256) (ht0 : t0 &&& 0x80 ≠ 0) (htr : tr &&& 0x80 ≠ 0)
    (hr : r = 0xF8 ∨ r = 0xFA ∨ r = 0xFB ∨ r = 0xFC ∨ r = 0xFE ∨ r = 0xFF)
    (hlow : ∀ d ∈ body, d &&& 0x80 = 0) (hfit : 1 + body.length < 256) :
    ∃ bm1 e1, ble_midi_parse bm e data = Outcome.ret bm1 e1 1 ∧
      bm1.message = 0xF0 :: (body ++ [r]) ∧ bm1.len = body.length + 2 ∧
      SysMid bm1 (0xF0 :: body) ∧ bm1.current_len = pre.length + body.length + 4 ∧
      bm1.ts_sys = (enter bm data).ts_high ||| (t0 &&& 0x7F) ∧ bm1.buffer = some Buf.sys := by
  rw [parse_enter bm e data pre _ hdata (by simp) hpos, entry_locals_midi bm hsys]
  obtain ⟨bmS, hpass, hmS, htsS⟩ := sysex_begin_pass data pre body (r :: rest) t0 tr
    (enter bm data) bm.status e hdata (by rw [enter_buffer_sys_len]; exact hk)
    (by rw [enter_buffer_sys_length]; exact hbuf) ht0 htr hlow hfit
  rw [retry_again data _ _ _ _ _ e e hpass]
  obtain ⟨f, hf⟩ : ∃ f, data.length = f + 2 := ⟨data.length - 2, by rw [hdata]; simp; omega⟩
  rw [hf]
  obtain ⟨bm1, e1, h1, g1, g2, g3, g4, g5, g6⟩ := retry_sysex_rt data
    (pre ++ t0 :: 0xF0 :: body) [] rest (0xF0 :: body) tr r bmS f e (by rw [hdata]; simp) hmS
    (by simp) htr hr (by simp; omega)
  refine ⟨bm1, e1, h1, ?_, ?_, ?_, ?_, ?_, g6⟩
  · simpa using g1
  · simpa using g2
  · simpa using g3
  · rw [g4]; simp; omega
  · rw [g5, htsS]

/-- A call that parses a whole SysEx message, no SysEx being in flight and the
reassembly buffer empty: the timestamp it leaves is that of the start byte. -/
theorem sysex_begin_tail_call (bm : ble_midi) (e : Nat) (data pre body : List Nat)
    (t0 tl : Nat) (hdata : data = pre ++ (t0 :: 0xF0 :: (body ++ [tl, 0xF7])))
    (hpos : Pos bm data pre) (hsys : bm.status_sys = false) (hk : bm.buffer_sys_len = 0)
    (hbuf : bm.buffer_sys.length = 256) (ht0 : t0 &&& 0x80 ≠ 0) (htl : tl &&& 0x80 ≠ 0)
    (hlow : ∀ d ∈ body, d &&& 0x80 = 0) (hfit : body.length + 2 ≤ 256) :
    ∃ bm1, ble_midi_parse bm e data = Outcome.ret bm1 e 1 ∧
      bm1.message = 0xF0 :: (body ++ [0xF7]) ∧ bm1.len = body.length + 2 ∧
      bm1.ts = (enter bm data).ts_high ||| (t0 &&& 0x7F) ∧ bm1.buffer_sys_len = 0 ∧
      bm1.status_sys = false := by
  rw [parse_enter bm e data pre _ hdata (by simp) hpos, entry_locals_midi bm hsys]
  obtain ⟨bmS, hpass, hmS, htsS⟩ := sysex_begin_pass data pre body [0xF7] t0 tl
    (enter bm data) bm.status e hdata (by rw [enter_buffer_sys_len]; exact hk)
    (by rw [enter_buffer_sys_length]; exact hbuf) ht0 htl hlow (by omega)
  rw [retry_again data _ _ _ _ _ e e hpass]
  obtain ⟨f, hf⟩ : ∃ f, data.length = f + 2 := ⟨data.length - 2, by rw [hdata]; simp; omega⟩
  rw [hf]
  obtain ⟨bm1, h1, g1, g2, _, g4, g5, g6, _⟩ := retry_sysex_tail data
    (pre ++ t0 :: 0xF0 :: body) [] (0xF0 :: body) tl bmS f e (by rw [hdata]; simp) hmS
    (by simp) htl (by simp; omega)
  refine ⟨bm1, h1, ?_, ?_, ?_, g5, g6⟩
  · simpa using g1
  · simpa using g2
  · rw [g4, htsS]

/-- A call that stands, a SysEx being in flight, in front of body bytes
(possibly none), a timestamp byte and a real-time status byte. -/
theorem sysex_rt_call (bm : ble_midi) (e : Nat) (data pre chunk rest acc : List Nat)
    (tr r : Nat) (hdata : data = pre ++ (chunk ++ tr :: r :: rest)) (hpos : Pos bm data pre)
    (hmid : SysMid bm acc) (hlow : ∀ d ∈ chunk, d &&& 0x80 = 0) (htr : tr &&& 0x80 ≠ 0)
    (hr : r = 0xF8 ∨ r = 0xFA ∨ r = 0xFB ∨ r = 0xFC ∨ r = 0xFE ∨ r = 0xFF)
    (hfit : acc.length + chunk.length < 256) :
    ∃ bm1 e1, ble_midi_parse bm e data = Outcome.ret bm1 e1 1 ∧
      bm1.message = acc ++ chunk ++ [r] ∧ bm1.len = acc.length + chunk.length + 1 ∧
      SysMid bm1 (acc ++ chunk) ∧ bm1.current_len = pre.length + chunk.length + 2 ∧
      bm1.ts_sys = bm.ts_sys ∧ bm1.buffer = some Buf.sys := by
  rw [parse_enter bm e data pre _ hdata (by simp) hpos, entry_locals_sys bm hmid.1, hmid.2.2.1]
  obtain ⟨f, hf⟩ : ∃ f, data.length + 1 = f + 2 := ⟨data.length - 1, by rw [hdata]; simp; omega⟩
  rw [hf]
  obtain ⟨bm1, e1, h1, g1, g2, g3, g4, g5, g6⟩ := retry_sysex_rt data pre chunk rest acc tr r
    (enter bm data) f e hdata (sysmid_enter bm data acc hmid) hlow htr hr hfit
  exact ⟨bm1, e1, h1, g1, g2, g3, g4, by rw [g5, enter_ts_sys], g6⟩

/-- A call that stands, a SysEx being in flight, in front of body bytes
(possibly none), a timestamp byte and 0xF7 that end the packet. -/
theorem sysex_tail_call (bm : ble_midi) (e : Nat) (data pre chunk acc : List Nat)
    (t : Nat) (hdata : data = pre ++ (chunk ++ [t, 0xF7])) (hpos : Pos bm data pre)
    (hmid : SysMid bm acc) (hlow : ∀ d ∈ chunk, d &&& 0x80 = 0) (ht : t &&& 0x80 ≠ 0)
    (hfit : acc.length + chunk.length + 1 ≤ 256) :
    ∃ bm1, ble_midi_parse bm e data = Outcome.ret bm1 e 1 ∧
      bm1.message = acc ++ chunk ++ [0xF7] ∧ bm1.len = acc.length + chunk.length + 1 ∧
      bm1.current_len = data.length ∧ bm1.ts = bm.ts_sys ∧
      bm1.buffer_sys_len = 0 ∧ bm1.status_sys = false := by
  rw [parse_enter bm e data pre _ hdata (by simp) hpos, entry_locals_sys bm hmid.1, hmid.2.2.1]
  obtain ⟨f, hf⟩ : ∃ f, data.length + 1 = f + 2 := ⟨data.length - 1, by rw [hdata]; simp; omega⟩
  obtain ⟨bm1, h1, g1, g2, g3, g4, g5, g6, _⟩ := retry_sysex_tail data pre chunk acc t
    (enter bm data) f e hdata (sysmid_enter bm data acc hmid) hlow ht hfit
  rw [hf]
  exact ⟨bm1, h1, g1, g2, g3, by rw [g4, enter_ts_sys], g5, g6⟩

/-- A call that stands, a SysEx being in flight, in front of body bytes that
go up to the end of the packet. -/
theorem sysex_chunk_call (bm : ble_midi) (e : Nat) (data pre chunk acc : List Nat)
    (hdata : data = pre ++ chunk) (hchunk : chunk ≠ []) (hpos : Pos bm data pre)
    (hmid : SysMid bm acc) (hlow : ∀ d ∈ chunk, d &&& 0x80 = 0)
    (hfit : acc.length + chunk.length ≤ 256) :
    ∃ bm1, ble_midi_parse bm e data = Outcome.ret bm1 e 0 ∧
      SysInv bm1 (acc ++ chunk) ∧ bm1.ts_sys = bm.ts_sys := by
  rw [parse_enter bm e data pre _ hdata hchunk hpos, entry_locals_sys bm hmid.1, hmid.2.2.1]
  obtain ⟨bm1, h1, g1, g2⟩ := retry_sysex_chunk data pre chunk acc (enter bm data) data.length
    e hdata hchunk (sysmid_enter bm data acc hmid) hlow hfit
  exact ⟨bm1, h1, g1, by rw [g2, enter_ts_sys]⟩

/-! ## The timestamp of a SysEx -/

/-- C22: a SysEx message whose start byte 0xF0 is parsed right after the
timestamp byte t0 in a packet with header h, no SysEx being in flight and the
reassembly buffer empty. Whether its end byte 0xF7 comes in the same packet or
in a later packet, after continuation packets with or without timestamp
bytes, the call that parses 0xF7 returns 1 with
`ts = ((h & 0x3F) << 7) | (t0 & 0x7F)`, the timestamp of the start and not the
one in front of 0xF7, and with `buffer_sys_len = 0`. -/
theorem sysex_timestamp (bm : ble_midi) (e h t0 hl tl : Nat) (body cl : List Nat)
    (conts : List (Nat × Option Nat × List Nat))
    (hcur : bm.current_len = 0) (hsys : bm.status_sys = false) (hk : bm.buffer_sys_len = 0)
    (hbuf : bm.buffer_sys.length = 256)
    (hh : 0x80 ≤ h ∧ h < 0xC0) (ht0 : 0x80 ≤ t0 ∧ t0 < 0x100)
    (hhl : 0x80 ≤ hl ∧ hl < 0xC0) (htl : 0x80 ≤ tl ∧ tl < 0x100)
    (hbody : ∀ d ∈ body, d < 0x80) (hcl : ∀ d ∈ cl, d < 0x80)
    (hconts : ∀ p ∈ conts, 0x80 ≤ p.1 ∧ p.1 < 0xC0 ∧ (∀ t ∈ p.2.1, 0x80 ≤ t ∧ t < 0x100) ∧
      p.2.2 ≠ [] ∧ 3 ≤ (cont_packet p).length ∧ ∀ d ∈ p.2.2, d < 0x80)
    (hM : (0xF0 :: (body ++ chunks_ts conts ++ cl) ++ [0xF7]).length ≤ 256) :
    (∃ bm1, ble_midi_parse bm e (h :: t0 :: 0xF0 :: (body ++ [tl, 0xF7])) =
        Outcome.ret bm1 e 1 ∧
      bm1.message = 0xF0 :: (body ++ [0xF7]) ∧
      bm1.ts = ((h &&& 0x3F) <<< 7) ||| (t0 &&& 0x7F) ∧ bm1.buffer_sys_len = 0) ∧
    (∃ s bm1, parse_packets ((h :: t0 :: 0xF0 :: body) :: conts.map cont_packet) bm e =
        some s ∧
      ble_midi_parse s.bm s.errno (hl :: (cl ++ [tl, 0xF7])) = Outcome.ret bm1 s.errno 1 ∧
      bm1.message = 0xF0 :: (body ++ chunks_ts conts ++ cl) ++ [0xF7] ∧
      bm1.ts = ((h &&& 0x3F) <<< 7) ||| (t0 &&& 0x7F) ∧ bm1.buffer_sys_len = 0) := by
  have hlen : body.length + (chunks_ts conts).length + cl.length + 2 ≤ 256 := by
    simp at hM; omega
  have ht0b := and_0x80_of_ge t0 ht0.2 ht0.1
  have htlb := and_0x80_of_ge tl htl.2 htl.1
  constructor
  · obtain ⟨bm1, hcall, hmsg, _, hts, hkl, _⟩ := sysex_begin_tail_call bm e
      (h :: t0 :: 0xF0 :: (body ++ [tl, 0xF7])) [h] body t0 tl rfl
      (Or.inl ⟨hcur, by simp, h, rfl, hh.1, hh.2⟩) hsys hk hbuf ht0b htlb
      (low_of_lt body hbody) (by omega)
    refine ⟨bm1, hcall, hmsg, ?_, hkl⟩
    rw [hts, enter_ts_high_first bm h _ hcur]
  · obtain ⟨bmA, hcallA, hinvA, htsA⟩ := parse_sysex_first bm e h t0 body hcur hsys hk hbuf hh
      ht0b (low_of_lt body hbody)
    rw [if_pos (by omega)] at hcallA
    have hinvA2 : SysInv bmA ((0xF0 :: body).take 256) := by
      simpa using hinvA
    obtain ⟨s, hs, _, _, _, hinvS, _, hes, hts⟩ := overflow_packets_zero e conts body bmA e
      hinvA2 (by intro hbig; omega) (by intro _; rfl) hconts
    have htake : (0xF0 :: (body ++ chunks_ts conts)).take 256 = 0xF0 :: (body ++ chunks_ts conts) :=
      List.take_of_length_le (by simp; omega)
    rw [htake] at hinvS
    have herr : s.errno = e := hes (by omega)
    obtain ⟨bm1, hcall1, hmsg1, _, _, hts1, hkl1, _⟩ := parse_sysex_last s.bm s.errno hl tl cl
      (0xF0 :: (body ++ chunks_ts conts)) hinvS hhl htlb (low_of_lt cl hcl) (by simp; omega)
    have hp := parse_packet_zero bm bmA e e 0 (h :: t0 :: 0xF0 :: body) hcallA (Int.le_refl 0)
    refine ⟨_, bm1, parse_packets_cons _ _ bm e _ s hp hs, hcall1, ?_, ?_, hkl1⟩
    · simpa using hmsg1
    · rw [hts1, hts, htsA]

/-- Witness of C22 on the packets of
`test_ble_midi_parse_multiple_system_exclusive` (80 81 F0 01 02 03 and
80 04 05 82 F7, timestamp 0x0001), parsed from the all-zero state. -/
theorem sysex_timestamp_witness :
    (∃ bm1, ble_midi_parse ble_midi.zero 0 (0x80 :: 0x81 :: 0xF0 :: ([0x01, 0x02, 0x03] ++
          [0x82, 0xF7])) = Outcome.ret bm1 0 1 ∧
      bm1.message = 0xF0 :: ([0x01, 0x02, 0x03] ++ [0xF7]) ∧
      bm1.ts = ((0x80 &&& 0x3F) <<< 7) ||| (0x81 &&& 0x7F) ∧ bm1.buffer_sys_len = 0) ∧
    (∃ s bm1, parse_packets ((0x80 :: 0x81 :: 0xF0 :: [0x01, 0x02, 0x03]) ::
          ([] : List (Nat × Option Nat × List Nat)).map cont_packet) ble_midi.zero 0 = some s ∧
      ble_midi_parse s.bm s.errno (0x80 :: ([0x04, 0x05] ++ [0x82, 0xF7])) =
        Outcome.ret bm1 s.errno 1 ∧
      bm1.message = 0xF0 :: ([0x01, 0x02, 0x03] ++ chunks_ts [] ++ [0x04, 0x05]) ++ [0xF7] ∧
      bm1.ts = ((0x80 &&& 0x3F) <<< 7) ||| (0x81 &&& 0x7F) ∧ bm1.buffer_sys_len = 0) :=
  sysex_timestamp ble_midi.zero 0 0x80 0x81 0x80 0x82 [0x01, 0x02, 0x03] [0x04, 0x05] []
    rfl rfl rfl zero_buffer_sys_length (by decide) (by decide) (by decide) (by decide)
    (by decide) (by decide) (by simp) (by decide)

/-! ## Real-time messages inside a SysEx -/

set_option maxRecDepth 100000 in
/-- C24, the code at the failing inputs: from the all-zero state the packet
80 81 F0 01 82 F8 02 83 F7 (a real-time message between two SysEx body bytes)
makes the first call return 1 with `len = 3` and the bytes F0 01 F8 in the
buffer, not the one-byte message F8; the second call returns 1 with the SysEx
F0 01 02 F7. The same holds for the packet 80 81 F0 01 82 F8 83 F7, the
real-time message standing between the last body byte and the timestamp of
0xF7. -/
theorem real_time_in_sysex :
    (parse_calls [0x80, 0x81, 0xF0, 0x01, 0x82, 0xF8, 0x02, 0x83, 0xF7] 3 ble_midi.zero 0).map
        (fun o => match o with
          | Outcome.ret bm errno rv => some (rv, bm.message, bm.len, errno)
          | _ => none) =
      [some (1, [0xF0, 0x01, 0xF8], 3, 0), some (1, [0xF0, 0x01, 0x02, 0xF7], 4, 0),
       some (0, [0xF0, 0x01, 0x02, 0xF7], 4, 0)] ∧
    (parse_calls [0x80, 0x81, 0xF0, 0x01, 0x82, 0xF8, 0x83, 0xF7] 3 ble_midi.zero 0).map
        (fun o => match o with
          | Outcome.ret bm errno rv => some (rv, bm.message, bm.len, errno)
          | _ => none) =
      [some (1, [0xF0, 0x01, 0xF8], 3, 0), some (1, [0xF0, 0x01, 0xF7], 3, 0),
       some (0, [0xF0, 0x01, 0xF7], 3, 0)] := by
  decide

/-- C25: a SysEx message M = F0, b1, b2, ..., F7 of at most 256 bytes sent from
the all-zero state with one timestamped real-time message tr, r behind the body
bytes b1. When the whole SysEx is in one packet, the second call parses 0xF7
and returns 1 with `buffer[0..len)` equal to F0, b1, b2, F7. When the first
packet ends behind b2 and the body goes on in continuation packets of at least
3 bytes, the last packet ending with a timestamp byte and 0xF7, the caller loop
emits two messages, the second of which, emitted by the call that parses 0xF7,
is M; the real-time byte is not part of it. -/
theorem sysex_through_real_time (e h t0 tr r hl tl : Nat) (b1 b2 cl : List Nat)
    (conts : List (Nat × List Nat))
    (hh : 0x80 ≤ h ∧ h < 0xC0) (ht0 : 0x80 ≤ t0 ∧ t0 < 0x100) (htr : 0x80 ≤ tr ∧ tr < 0x100)
    (hr : r = 0xF8 ∨ r = 0xFA ∨ r = 0xFB ∨ r = 0xFC ∨ r = 0xFE ∨ r = 0xFF)
    (hhl : 0x80 ≤ hl ∧ hl < 0xC0) (htl : 0x80 ≤ tl ∧ tl < 0x100)
    (hb1 : ∀ d ∈ b1, d < 0x80) (hb2 : ∀ d ∈ b2, d < 0x80) (hcl : ∀ d ∈ cl, d < 0x80)
    (hconts : ∀ p ∈ conts, 0x80 ≤ p.1 ∧ p.1 < 0xC0 ∧ 2 ≤ p.2.length ∧ ∀ d ∈ p.2, d < 0x80)
    (hM : (0xF0 :: (b1 ++ b2 ++ chunks conts ++ cl) ++ [0xF7]).length ≤ 256) :
    (∃ bm1 e1 bm2,
      ble_midi_parse ble_midi.zero e
          (h :: t0 :: 0xF0 :: (b1 ++ tr :: r :: (b2 ++ [tl, 0xF7]))) = Outcome.ret bm1 e1 1 ∧
      ble_midi_parse bm1 e1
          (h :: t0 :: 0xF0 :: (b1 ++ tr :: r :: (b2 ++ [tl, 0xF7]))) = Outcome.ret bm2 e1 1 ∧
      bm2.message = 0xF0 :: (b1 ++ b2) ++ [0xF7] ∧ bm2.len = b1.length + b2.length + 2) ∧
    (∃ s, parse_packets ((h :: t0 :: 0xF0 :: (b1 ++ tr :: r :: b2)) ::
          (conts.map (fun p => p.1 :: p.2) ++ [hl :: (cl ++ [tl, 0xF7])])) ble_midi.zero e =
        some s ∧
      s.emitted = [0xF0 :: (b1 ++ [r]), 0xF0 :: (b1 ++ b2 ++ chunks conts ++ cl) ++ [0xF7]] ∧
      ∀ rv ∈ s.rvs, rv = 0) := by
  have hlen : b1.length + b2.length + (chunks conts).length + cl.length + 2 ≤ 256 := by
    simp at hM; omega
  have ht0b := and_0x80_of_ge t0 ht0.2 ht0.1
  have htrb := and_0x80_of_ge tr htr.2 htr.1
  have htlb := and_0x80_of_ge tl htl.2 htl.1
  constructor
  · obtain ⟨bm1, e1, hc1, _, _, hmid1, hcur1, _, _⟩ := sysex_begin_rt_call ble_midi.zero e
      (h :: t0 :: 0xF0 :: (b1 ++ tr :: r :: (b2 ++ [tl, 0xF7]))) [h] b1 (b2 ++ [tl, 0xF7])
      t0 tr r rfl (Or.inl ⟨rfl, by simp, h, rfl, hh.1, hh.2⟩) rfl rfl zero_buffer_sys_length
      ht0b htrb hr (low_of_lt b1 hb1) (by omega)
    obtain ⟨bm2, hc2, hm2, hl2, _⟩ := sysex_tail_call bm1 e1
      (h :: t0 :: 0xF0 :: (b1 ++ tr :: r :: (b2 ++ [tl, 0xF7])))
      (h :: t0 :: 0xF0 :: (b1 ++ [tr, r])) b2 (0xF0 :: b1) tl (by simp)
      (Or.inr ⟨by rw [hcur1]; omega, by rw [hcur1]; simp; omega⟩) hmid1 (low_of_lt b2 hb2)
      htlb (by simp; omega)
    refine ⟨bm1, e1, bm2, hc1, hc2, ?_, ?_⟩
    · simpa using hm2
    · rw [hl2]; simp; omega
  · obtain ⟨bm1, e1, hc1, hm1, _, hmid1, hcur1, _, _⟩ := sysex_begin_rt_call ble_midi.zero e
      (h :: t0 :: 0xF0 :: (b1 ++ tr :: r :: b2)) [h] b1 b2
      t0 tr r rfl (Or.inl ⟨rfl, by simp, h, rfl, hh.1, hh.2⟩) rfl rfl zero_buffer_sys_length
      ht0b htrb hr (low_of_lt b1 hb1) (by omega)
    have hsecond : ∃ bmB, ble_midi_parse bm1 e1 (h :: t0 :: 0xF0 :: (b1 ++ tr :: r :: b2)) =
        Outcome.ret bmB e1 0 ∧ SysInv bmB (0xF0 :: (b1 ++ b2)) := by
      by_cases hb : b2 = []
      · subst hb
        refine ⟨{ bm1 with current_len := 0 },
          parse_entry_end bm1 e1 _ (by rw [hcur1]; simp; omega), ?_⟩
        rw [List.append_nil]
        exact ⟨rfl, hmid1⟩
      · obtain ⟨bmB, hcB, hinvB, _⟩ := sysex_chunk_call bm1 e1
          (h :: t0 :: 0xF0 :: (b1 ++ tr :: r :: b2)) (h :: t0 :: 0xF0 :: (b1 ++ [tr, r])) b2
          (0xF0 :: b1) (by simp) hb
          (Or.inr ⟨by rw [hcur1]; omega, by rw [hcur1]; simp; omega⟩) hmid1 (low_of_lt b2 hb2)
          (by simp; omega)
        exact ⟨bmB, hcB, by simpa using hinvB⟩
    obtain ⟨bmB, hcB, hinvB⟩ := hsecond
    have hp := parse_packet_one ble_midi.zero bm1 bmB e e1 e1 0
      (h :: t0 :: 0xF0 :: (b1 ++ tr :: r :: b2)) (by simp) hc1 hcB (Int.le_refl 0)
    obtain ⟨s, hs, hem, hrv, _⟩ := sysex_rest_packets e1 hl tl cl hhl htlb (low_of_lt cl hcl)
      conts (0xF0 :: (b1 ++ b2)) bmB hinvB hconts (by simp; omega)
    refine ⟨_, parse_packets_cons _ _ ble_midi.zero e _ s hp hs, ?_, ?_⟩
    · simp [hem, hm1]
    · intro rv hrv1
      simp at hrv1
      rcases hrv1 with h0 | h0
      · exact h0
      · exact hrv rv h0

/-- Witness of C25: the SysEx F0 01 02 F7 with the real-time message 82 F8
behind the body byte 01, in one packet and with the end in a second
packet. -/
theorem sysex_through_real_time_witness :
    (∃ bm1 e1 bm2,
      ble_midi_parse ble_midi.zero 0
          (0x80 :: 0x81 :: 0xF0 :: ([0x01] ++ 0x82 :: 0xF8 :: ([0x02] ++ [0x83, 0xF7]))) =
        Outcome.ret bm1 e1 1 ∧
      ble_midi_parse bm1 e1
          (0x80 :: 0x81 :: 0xF0 :: ([0x01] ++ 0x82 :: 0xF8 :: ([0x02] ++ [0x83, 0xF7]))) =
        Outcome.ret bm2 e1 1 ∧
      bm2.message = 0xF0 :: ([0x01] ++ [0x02]) ++ [0xF7] ∧
      bm2.len = [0x01].length + [0x02].length + 2) ∧
    (∃ s, parse_packets ((0x80 :: 0x81 :: 0xF0 :: ([0x01] ++ 0x82 :: 0xF8 :: [0x02])) ::
          (([] : List (Nat × List Nat)).map (fun p => p.1 :: p.2) ++
            [0x80 :: ([] ++ [0x83, 0xF7])])) ble_midi.zero 0 = some s ∧
      s.emitted = [0xF0 :: ([0x01] ++ [0xF8]),
        0xF0 :: ([0x01] ++ [0x02] ++ chunks [] ++ []) ++ [0xF7]] ∧
      ∀ rv ∈ s.rvs, rv = 0) :=
  sysex_through_real_time 0 0x80 0x81 0x82 0xF8 0x80 0x83 [0x01] [0x02] [] []
    (by decide) (by decide) (by decide) (by decide) (by decide) (by decide) (by decide)
    (by decide) (by simp) (by simp) (by decide)

theorem store_fst_sys_len (bm : ble_midi) (l : Locals) (v : Nat) :
    (store bm l v).1.buffer_sys_len = bm.buffer_sys_len := by
  unfold store; split <;> rfl

theorem sys_ne_midi (l : Locals) (hs : l.bm_buffer = Buf.sys) (hm : l.bm_buffer = Buf.midi) :
    False := by
  rw [hs] at hm
  cases hm

theorem midl_mono (j k : Nat) (l : Locals) (hjk : j ≤ k) (h : MidL j l) : MidL k l :=
  ⟨h.1, fun hm => Nat.le_trans (h.2 hm) hjk⟩

theorem midl_store (bm : ble_midi) (l : Locals) (v k : Nat) (h : MidL k l)
    (hroom : l.bm_buffer_len < l.bm_buffer_size) : MidL (k + 1) (store bm l v).2 := by
  refine ⟨lok_store bm l v h.1 hroom, ?_⟩
  rw [store_snd_buffer, store_snd_len]
  intro hm
  have := h.2 hm
  omega

/-! ## The message handed to the caller fits its array -/

theorem data_loop_mid (data : List Nat) :
    ∀ (fuel : Nat) (bm : ble_midi) (l : Locals) (m : Nat), bm.buffer_sys_len ≤ 256 → LOK l →
      (l.bm_buffer = Buf.midi → l.bm_buffer_len + (m - 1) ≤ 3) →
      MidLoop (data_loop data fuel bm l m) := by
  intro fuel
  induction fuel with
  | zero => intro bm l m _ _ _; exact True.intro
  | succ f ih =>
    intro bm l m hb hl hm
    have hstay : bm.buffer_sys_len ≤ 256 ∧ MidL 3 l :=
      ⟨hb, hl, fun h => by have := hm h; omega⟩
    rw [data_loop]
    by_cases h0 : m - 1 = 0
    · rw [if_pos h0]
      exact hstay
    · rw [if_neg h0]
      cases hd : data[l.bm_current_len]? with
      | none => exact True.intro
      | some b =>
        simp only
        by_cases hhigh : b &&& 0x80 ≠ 0
        · rw [if_pos hhigh]
          exact hstay
        · rw [if_neg hhigh]
          by_cases hroom : l.bm_buffer_len < l.bm_buffer_size
          · rw [if_neg (not_not.mpr hroom)]
            have hl1 := lok_store bm l b hl hroom
            have hb1 : (store bm l b).1.buffer_sys_len ≤ 256 := by
              rw [store_fst_sys_len]; exact hb
            have hm1 : (store bm l b).2.bm_buffer = Buf.midi →
                (store bm l b).2.bm_buffer_len + (m - 1 - 1) ≤ 3 := by
              rw [store_snd_buffer, store_snd_len]
              intro h
              have := hm h
              omega
            by_cases hend : (store bm l b).2.bm_current_len + 1 = data.length
            · rw [if_pos hend]
              exact ⟨hb1, hl1, fun h => Nat.le_trans (Nat.le_add_right _ _) (hm1 h)⟩
            · rw [if_neg hend]
              exact ih (store bm l b).1
                { (store bm l b).2 with
                  bm_current_len := (store bm l b).2.bm_current_len + 1 } (m - 1) hb1 hl1 hm1
          · rw [if_pos hroom]
            exact hstay

theorem fail_mid (bm : ble_midi) (e : Nat) : MidOut (fail bm e) := by
  intro h
  exact absurd h (by decide)

theorem reset_mid (bm : ble_midi) (e : Nat) : MidOut (reset bm e) := by
  intro h
  exact absurd h (by decide)

theorem final_mid (bm : ble_midi) (l : Locals) (e : Nat) (h : MidL 3 l) :
    MidOut (final bm l e) := by
  by_cases hs : l.bm_status = 0xF0
  · rw [final_suspend bm l e hs]
    intro h1
    exact absurd h1 (by decide)
  · rw [final_emit bm l e hs]
    intro _
    obtain ⟨⟨h1, h2, _⟩, h4⟩ := h
    cases hb : l.bm_buffer with
    | midi =>
      refine Or.inr ⟨?_, h4 hb⟩
      show some l.bm_buffer = some Buf.midi
      rw [hb]
    | sys =>
      refine Or.inl ⟨?_, ?_⟩
      · show some l.bm_buffer = some Buf.sys
        rw [hb]
      · show l.bm_buffer_len ≤ 256
        rw [h2, hb] at h1
        exact h1

theorem after_data_mid (bm : ble_midi) (l : Locals) (e m : Nat) (h : MidL 3 l) :
    MidStep (after_data bm l e m) := by
  unfold after_data
  by_cases h1 : m ≠ 0 ∧ l.bm_status ≠ 0xF0
  · rw [if_pos h1]
    exact fail_mid bm EBADMSG
  · rw [if_neg h1]
    by_cases h2 : l.bm_buffer_len = l.bm_buffer_size
    · rw [if_pos h2]
      exact final_mid bm l EMSGSIZE h
    · rw [if_neg h2]
      by_cases h3 : l.bm_status = 0xF0
      · rw [if_pos h3]
        have hsz := lok_size l h.1
        refine ⟨?_, h.1, fun hm => (sys_ne_midi l (h.1.2.2 h3) hm).elim⟩
        show l.bm_buffer_len ≤ 256
        have := h.1.1
        omega
      · rw [if_neg h3]
        exact final_mid bm l e h

/-- The length lookup and the data bytes, from any structure and locals. -/
theorem message_body_mid (data : List Nat) (e : Nat) (p : ble_midi × Locals)
    (hb : p.1.buffer_sys_len ≤ 256) (h : MidL 1 p.2) :
    MidStep
      (if ble_midi_message_len p.2.bm_status = 0 then Step.done (fail p.1 ENOMSG)
      else
        match data_loop data (data.length + 1) p.1 p.2 (ble_midi_message_len p.2.bm_status) with
        | LoopExit.goto_final bm1 l1 => Step.done (final bm1 l1 e)
        | LoopExit.exit bm1 l1 m => after_data bm1 l1 e m
        | LoopExit.out_of_bounds => Step.done Outcome.out_of_bounds
        | LoopExit.out_of_fuel => Step.done Outcome.out_of_fuel) := by
  by_cases hm : ble_midi_message_len p.2.bm_status = 0
  · rw [if_pos hm]
    exact fail_mid p.1 ENOMSG
  · rw [if_neg hm]
    have hloop := data_loop_mid data (data.length + 1) p.1 p.2
      (ble_midi_message_len p.2.bm_status) hb h.1
      (fun hmid => by
        have hs : p.2.bm_status ≠ 0xF0 := fun hs => sys_ne_midi p.2 (h.1.2.2 hs) hmid
        have h3 := message_len_le p.2.bm_status hs
        have h1 := h.2 hmid
        omega)
    revert hloop
    cases data_loop data (data.length + 1) p.1 p.2 (ble_midi_message_len p.2.bm_status) with
    | goto_final bm1 l1 => intro h1; exact final_mid bm1 l1 e h1.2
    | exit bm1 l1 m1 => intro h1; exact after_data_mid bm1 l1 e m1 h1.2
    | out_of_bounds => intro _; exact True.intro
    | out_of_fuel => intro _; exact True.intro

theorem restore_mid (bm : ble_midi) (l : Locals) (hb : bm.buffer_sys_len ≤ 256) (h : MidL 1 l) :
    (if l.bm_buffer_len = 0 ∧ bm.status_restore = true then
        (({ (store bm l l.bm_status).1 with status_restore := false } : ble_midi),
          (store bm l l.bm_status).2)
      else (bm, l)).1.buffer_sys_len ≤ 256 ∧
    MidL 1 (if l.bm_buffer_len = 0 ∧ bm.status_restore = true then
        (({ (store bm l l.bm_status).1 with status_restore := false } : ble_midi),
          (store bm l l.bm_status).2)
      else (bm, l)).2 := by
  by_cases hr : l.bm_buffer_len = 0 ∧ bm.status_restore = true
  · rw [if_pos hr]
    have hsz := lok_size l h.1
    refine ⟨?_, lok_store bm l l.bm_status h.1 (by omega), ?_⟩
    · show (store bm l l.bm_status).1.buffer_sys_len ≤ 256
      rw [store_fst_sys_len]; exact hb
    · show (store bm l l.bm_status).2.bm_buffer = Buf.midi →
        (store bm l l.bm_status).2.bm_buffer_len ≤ 1
      rw [store_snd_len]
      intro _
      omega
  · rw [if_neg hr]
    exact ⟨hb, h⟩

theorem parse_message_mid (data : List Nat) (bm : ble_midi) (l : Locals) (e : Nat)
    (hb : bm.buffer_sys_len ≤ 256) (h : MidL 1 l) : MidStep (parse_message data bm l e) := by
  have hp := restore_mid bm l hb h
  unfold parse_message
  simp only
  exact message_body_mid data e _ hp.1 hp.2

theorem status_switch_mid (bm : ble_midi) (l : Locals) (s : Nat) (hb : bm.buffer_sys_len ≤ 256)
    (h : MidL 0 l) :
    (if s = 0xF0 then
        (({ bm with ts_sys := bm.ts, status_sys := true } : ble_midi),
         ({ ({ l with bm_status := s } : Locals) with
            bm_buffer := Buf.sys, bm_buffer_size := Buf.sys.size,
            bm_buffer_len := bm.buffer_sys_len } : Locals))
      else if s = 0xF7 then (({ bm with status_sys := false } : ble_midi),
        ({ l with bm_status := s } : Locals))
      else (bm, ({ l with bm_status := s } : Locals))).1.buffer_sys_len ≤ 256 ∧
    MidL 0 (if s = 0xF0 then
        (({ bm with ts_sys := bm.ts, status_sys := true } : ble_midi),
         ({ ({ l with bm_status := s } : Locals) with
            bm_buffer := Buf.sys, bm_buffer_size := Buf.sys.size,
            bm_buffer_len := bm.buffer_sys_len } : Locals))
      else if s = 0xF7 then (({ bm with status_sys := false } : ble_midi),
        ({ l with bm_status := s } : Locals))
      else (bm, ({ l with bm_status := s } : Locals))).2 := by
  by_cases h0 : s = 0xF0
  · rw [if_pos h0]
    exact ⟨hb, ⟨hb, rfl, fun _ => rfl⟩, fun hm => Buf.noConfusion hm⟩
  · rw [if_neg h0]
    have hl : MidL 0 ({ l with bm_status := s } : Locals) :=
      ⟨⟨h.1.1, h.1.2.1, fun hs => absurd hs h0⟩, h.2⟩
    by_cases h7 : s = 0xF7
    · rw [if_pos h7]
      exact ⟨hb, hl⟩
    · rw [if_neg h7]
      exact ⟨hb, hl⟩

theorem status_store_mid (p : ble_midi × Locals) (hb : p.1.buffer_sys_len ≤ 256)
    (h : MidL 0 p.2) :
    (if p.2.bm_buffer_len < p.2.bm_buffer_size then store p.1 p.2 p.2.bm_status
      else p).1.buffer_sys_len ≤ 256 ∧
    MidL 1 (if p.2.bm_buffer_len < p.2.bm_buffer_size then store p.1 p.2 p.2.bm_status
      else p).2 := by
  by_cases hroom : p.2.bm_buffer_len < p.2.bm_buffer_size
  · rw [if_pos hroom]
    exact ⟨by rw [store_fst_sys_len]; exact hb, midl_store p.1 p.2 _ 0 h hroom⟩
  · rw [if_neg hroom]
    exact ⟨hb, midl_mono 0 1 p.2 (by omega) h⟩

theorem status_tail_mid (data : List Nat) (e : Nat) (q : ble_midi × Locals)
    (hb : q.1.buffer_sys_len ≤ 256) (h : MidL 1 q.2) :
    MidStep
      (if q.2.bm_current_len + 1 = data.length then
        Step.done (final q.1 { q.2 with bm_current_len := q.2.bm_current_len + 1 } e)
      else parse_message data q.1 { q.2 with bm_current_len := q.2.bm_current_len + 1 } e) := by
  by_cases hend : q.2.bm_current_len + 1 = data.length
  · rw [if_pos hend]
    exact final_mid q.1 _ e (midl_mono 1 3 _ (by omega) h)
  · rw [if_neg hend]
    exact parse_message_mid data q.1 _ e hb h

theorem parse_status_mid (data : List Nat) (bm : ble_midi) (l : Locals) (e s : Nat)
    (hb : bm.buffer_sys_len ≤ 256) (h : MidL 0 l) : MidStep (parse_status data bm l e s) := by
  have hp := status_switch_mid bm l s hb h
  have hq := status_store_mid _ hp.1 hp.2
  unfold parse_status
  simp only
  exact status_tail_mid data e _ hq.1 hq.2

theorem retry_body_mid (data : List Nat) (bm : ble_midi) (l : Locals) (e : Nat)
    (hb : bm.buffer_sys_len ≤ 256) (h : MidL 0 l) : MidStep (retry_body data bm l e) := by
  unfold retry_body
  cases hd : data[l.bm_current_len]? with
  | none => exact True.intro
  | some b =>
    simp only
    by_cases hhigh : b &&& 0x80 ≠ 0
    · rw [if_pos hhigh]
      by_cases hend : l.bm_current_len + 1 = data.length
      · rw [if_pos hend]
        exact fail_mid _ EINVAL
      · rw [if_neg hend]
        cases hd1 : data[l.bm_current_len + 1]? with
        | none => exact True.intro
        | some s =>
          simp only
          by_cases hsh : s &&& 0x80 ≠ 0
          · rw [if_pos hsh]
            exact parse_status_mid data _ _ e s hb h
          · rw [if_neg hsh]
            exact parse_message_mid data _ _ e hb (midl_mono 0 1 _ (by omega) h)
    · rw [if_neg hhigh]
      exact parse_message_mid data bm l e hb (midl_mono 0 1 l (by omega) h)

theorem retry_mid (data : List Nat) :
    ∀ (fuel : Nat) (bm : ble_midi) (l : Locals) (e : Nat), bm.buffer_sys_len ≤ 256 → MidL 0 l →
      MidOut (retry data fuel bm l e) := by
  intro fuel
  induction fuel with
  | zero => intro bm l e _ _; exact True.intro
  | succ f ih =>
    intro bm l e hb h
    have hp := retry_body_mid data bm l e hb h
    rw [retry]
    revert hp
    cases retry_body data bm l e with
    | done o => intro hp; exact hp
    | again bm1 l1 e1 => intro hp; exact ih bm1 l1 e1 hp.1 hp.2

theorem midl_entry (bm : ble_midi) (c : Nat) (hb : bm.buffer_sys_len ≤ 256)
    (hst : bm.status ≠ 0xF0) :
    MidL 0 (if bm.status_sys = true then
        Locals.mk Buf.sys Buf.sys.size bm.buffer_sys_len 0xF0 c
      else Locals.mk Buf.midi Buf.midi.size 0 bm.status c) := by
  by_cases hs : bm.status_sys = true
  · rw [if_pos hs]
    exact ⟨⟨hb, rfl, fun _ => rfl⟩, fun hm => Buf.noConfusion hm⟩
  · rw [if_neg hs]
    exact ⟨⟨Nat.zero_le _, rfl, fun h => absurd h hst⟩, fun _ => Nat.le_refl 0⟩

theorem parse_mid (bm : ble_midi) (e : Nat) (data : List Nat) (hb : bm.buffer_sys_len ≤ 256)
    (hst : bm.status ≠ 0xF0) : MidOut (ble_midi_parse bm e data) := by
  have hl := midl_entry bm bm.current_len hb hst
  have hl1 := midl_entry bm (bm.current_len + 1) hb hst
  unfold ble_midi_parse
  simp only
  by_cases hend : bm.current_len = data.length
  · rw [if_pos hend]
    exact reset_mid bm e
  · rw [if_neg hend]
    by_cases hs : bm.status_sys = true
    · simp only [if_pos hs] at hl hl1 ⊢
      by_cases h0 : bm.current_len = 0
      · rw [if_pos h0]
        by_cases h3 : data.length < 3
        · rw [if_pos h3]
          exact fail_mid bm EINVAL
        · rw [if_neg h3]
          cases hd : data[0]? with
          | none => exact True.intro
          | some h =>
            simp only
            by_cases hhdr : h >>> 6 ≠ 0x02
            · rw [if_pos hhdr]
              exact fail_mid bm EINVAL
            · rw [if_neg hhdr]
              exact retry_mid data _ _ _ e hb hl1
      · rw [if_neg h0]
        exact retry_mid data _ bm _ e hb hl
    · simp only [if_neg hs] at hl hl1 ⊢
      by_cases h0 : bm.current_len = 0
      · rw [if_pos h0]
        by_cases h3 : data.length < 3
        · rw [if_pos h3]
          exact fail_mid bm EINVAL
        · rw [if_neg h3]
          cases hd : data[0]? with
          | none => exact True.intro
          | some h =>
            simp only
            by_cases hhdr : h >>> 6 ≠ 0x02
            · rw [if_pos hhdr]
              exact fail_mid bm EINVAL
            · rw [if_neg hhdr]
              exact retry_mid data _ _ _ e hb hl1
      · rw [if_neg h0]
        exact retry_mid data _ bm _ e hb hl

theorem wf_status (bm : ble_midi) (hw : WF bm) : bm.status ≠ 0xF0 := by
  intro h
  have h4 := hw.2.2.2.1
  rw [h] at h4
  exact absurd (by decide) h4

theorem writes_nil : WritesOK [] := by
  intro w hw
  cases hw

theorem writes_cons (w : Buf × Nat × Nat) (ws : List (Buf × Nat × Nat))
    (h : w.2.1 < w.1.size) (hs : WritesOK ws) : WritesOK (w :: ws) := by
  intro x hx
  rcases List.mem_cons.mp hx with hx | hx
  · rw [hx]; exact h
  · exact hs x hx

theorem writes_append (ws vs : List (Buf × Nat × Nat)) (h : WritesOK ws) (hs : WritesOK vs) :
    WritesOK (ws ++ vs) := by
  intro x hx
  rcases List.mem_append.mp hx with hx | hx
  · exact h x hx
  · exact hs x hx

theorem buf_size_pos (b : Buf) : 0 < b.size := by
  cases b <;> decide

theorem data_loop_writes_ok (data : List Nat) :
    ∀ (fuel : Nat) (bm : ble_midi) (l : Locals) (m : Nat),
      l.bm_buffer_size = l.bm_buffer.size → WritesOK (data_loop_writes data fuel bm l m) := by
  intro fuel
  induction fuel with
  | zero => intro bm l m _; exact writes_nil
  | succ f ih =>
    intro bm l m hsz
    rw [data_loop_writes]
    by_cases h0 : m - 1 = 0
    · rw [if_pos h0]
      exact writes_nil
    · rw [if_neg h0]
      cases hd : data[l.bm_current_len]? with
      | none => exact writes_nil
      | some b =>
        simp only
        by_cases hhigh : b &&& 0x80 ≠ 0
        · rw [if_pos hhigh]
          exact writes_nil
        · rw [if_neg hhigh]
          by_cases hroom : l.bm_buffer_len < l.bm_buffer_size
          · rw [if_neg (not_not.mpr hroom)]
            refine writes_cons _ _ (by show l.bm_buffer_len < l.bm_buffer.size; omega) ?_
            by_cases hend : (store bm l b).2.bm_current_len + 1 = data.length
            · rw [if_pos hend]
              exact writes_nil
            · rw [if_neg hend]
              exact ih (store bm l b).1
                { (store bm l b).2 with
                  bm_current_len := (store bm l b).2.bm_current_len + 1 } (m - 1)
                (by show (store bm l b).2.bm_buffer_size = (store bm l b).2.bm_buffer.size
                    rw [store_snd_size, store_snd_buffer]; exact hsz)
          · rw [if_pos hroom]
            exact writes_nil

theorem parse_message_writes_ok (data : List Nat) (bm : ble_midi) (l : Locals)
    (hsz : l.bm_buffer_size = l.bm_buffer.size) : WritesOK (parse_message_writes data bm l) := by
  unfold parse_message_writes
  simp only
  by_cases hr : l.bm_buffer_len = 0 ∧ bm.status_restore = true
  · simp only [if_pos hr]
    have hw : WritesOK [(l.bm_buffer, l.bm_buffer_len, l.bm_status)] :=
      writes_cons _ _ (by show l.bm_buffer_len < l.bm_buffer.size
                          rw [hr.1]; exact buf_size_pos _) writes_nil
    by_cases hm : ble_midi_message_len (store bm l l.bm_status).2.bm_status = 0
    · rw [if_pos hm]
      exact hw
    · rw [if_neg hm]
      exact writes_append _ _ hw (data_loop_writes_ok data _ _ _ _
        (by rw [store_snd_size, store_snd_buffer]; exact hsz))
  · simp only [if_neg hr]
    by_cases hm : ble_midi_message_len l.bm_status = 0
    · rw [if_pos hm]
      exact writes_nil
    · rw [if_neg hm]
      exact writes_append _ _ writes_nil (data_loop_writes_ok data _ _ _ _ hsz)

theorem status_tail_writes_ok (data : List Nat) (p : ble_midi × Locals)
    (hsz : p.2.bm_buffer_size = p.2.bm_buffer.size) :
    WritesOK
      (if (if p.2.bm_buffer_len < p.2.bm_buffer_size then store p.1 p.2 p.2.bm_status
            else p).2.bm_current_len + 1 = data.length then
        (if p.2.bm_buffer_len < p.2.bm_buffer_size then
          [(p.2.bm_buffer, p.2.bm_buffer_len, p.2.bm_status)] else [])
      else
        (if p.2.bm_buffer_len < p.2.bm_buffer_size then
          [(p.2.bm_buffer, p.2.bm_buffer_len, p.2.bm_status)] else []) ++
        parse_message_writes data
          (if p.2.bm_buffer_len < p.2.bm_buffer_size then store p.1 p.2 p.2.bm_status else p).1
          { (if p.2.bm_buffer_len < p.2.bm_buffer_size then store p.1 p.2 p.2.bm_status
              else p).2 with
            bm_current_len :=
              (if p.2.bm_buffer_len < p.2.bm_buffer_size then store p.1 p.2 p.2.bm_status
                else p).2.bm_current_len + 1 }) := by
  by_cases hroom : p.2.bm_buffer_len < p.2.bm_buffer_size
  · simp only [if_pos hroom]
    have hw : WritesOK [(p.2.bm_buffer, p.2.bm_buffer_len, p.2.bm_status)] :=
      writes_cons _ _ (by show p.2.bm_buffer_len < p.2.bm_buffer.size; omega) writes_nil
    by_cases hend : (store p.1 p.2 p.2.bm_status).2.bm_current_len + 1 = data.length
    · rw [if_pos hend]
      exact hw
    · rw [if_neg hend]
      exact writes_append _ _ hw (parse_message_writes_ok data _ _
        (by show (store p.1 p.2 p.2.bm_status).2.bm_buffer_size =
              (store p.1 p.2 p.2.bm_status).2.bm_buffer.size
            rw [store_snd_size, store_snd_buffer]; exact hsz))
  · simp only [if_neg hroom]
    by_cases hend : p.2.bm_current_len + 1 = data.length
    · rw [if_pos hend]
      exact writes_nil
    · rw [if_neg hend]
      exact writes_append _ _ writes_nil (parse_message_writes_ok data _ _ hsz)

theorem parse_status_writes_ok (data : List Nat) (bm : ble_midi) (l : Locals) (s : Nat)
    (hsz : l.bm_buffer_size = l.bm_buffer.size) :
    WritesOK (parse_status_writes data bm l s) := by
  unfold parse_status_writes
  simp only
  by_cases h0 : s = 0xF0
  · simp only [if_pos h0]
    exact status_tail_writes_ok data
      (({ bm with ts_sys := bm.ts, status_sys := true } : ble_midi),
        Locals.mk Buf.sys Buf.sys.size bm.buffer_sys_len s l.bm_current_len) rfl
  · simp only [if_neg h0]
    by_cases h7 : s = 0xF7
    · simp only [if_pos h7]
      exact status_tail_writes_ok data
        (({ bm with status_sys := false } : ble_midi), { l with bm_status := s }) hsz
    · simp only [if_neg h7]
      exact status_tail_writes_ok data (bm, { l with bm_status := s }) hsz

theorem retry_body_writes_ok (data : List Nat) (bm : ble_midi) (l : Locals)
    (hsz : l.bm_buffer_size = l.bm_buffer.size) : WritesOK (retry_body_writes data bm l) := by
  unfold retry_body_writes
  cases hd : data[l.bm_current_len]? with
  | none => exact writes_nil
  | some b =>
    simp only
    by_cases hhigh : b &&& 0x80 ≠ 0
    · rw [if_pos hhigh]
      by_cases hend : l.bm_current_len + 1 = data.length
      · rw [if_pos hend]
        exact writes_nil
      · rw [if_neg hend]
        cases hd1 : data[l.bm_current_len + 1]? with
        | none => exact writes_nil
        | some s =>
          simp only
          by_cases hsh : s &&& 0x80 ≠ 0
          · rw [if_pos hsh]
            exact parse_status_writes_ok data _ _ s hsz
          · rw [if_neg hsh]
            exact parse_message_writes_ok data _ _ hsz
    · rw [if_neg hhigh]
      exact parse_message_writes_ok data bm l hsz

theorem retry_writes_ok (data : List Nat) :
    ∀ (fuel : Nat) (bm : ble_midi) (l : Locals) (e : Nat), bm.buffer_sys_len ≤ 256 → MidL 0 l →
      WritesOK (retry_writes data fuel bm l e) := by
  intro fuel
  induction fuel with
  | zero => intro bm l e _ _; exact writes_nil
  | succ f ih =>
    intro bm l e hb h
    have hp := retry_body_mid data bm l e hb h
    rw [retry_writes]
    refine writes_append _ _ (retry_body_writes_ok data bm l h.1.2.1) ?_
    revert hp
    cases retry_body data bm l e with
    | done o => intro _; exact writes_nil
    | again bm1 l1 e1 => intro hp; exact ih bm1 l1 e1 hp.1 hp.2

theorem parse_writes_ok (bm : ble_midi) (e : Nat) (data : List Nat)
    (hb : bm.buffer_sys_len ≤ 256) (hst : bm.status ≠ 0xF0) :
    WritesOK (ble_midi_parse_writes bm e data) := by
  have hl := midl_entry bm bm.current_len hb hst
  have hl1 := midl_entry bm (bm.current_len + 1) hb hst
  unfold ble_midi_parse_writes
  simp only
  by_cases hend : bm.current_len = data.length
  · rw [if_pos hend]
    exact writes_nil
  · rw [if_neg hend]
    by_cases hs : bm.status_sys = true
    · simp only [if_pos hs] at hl hl1 ⊢
      by_cases h0 : bm.current_len = 0
      · rw [if_pos h0]
        by_cases h3 : data.length < 3
        · rw [if_pos h3]
          exact writes_nil
        · rw [if_neg h3]
          cases hd : data[0]? with
          | none => exact writes_nil
          | some h =>
            simp only
            by_cases hhdr : h >>> 6 ≠ 0x02
            · rw [if_pos hhdr]
              exact writes_nil
            · rw [if_neg hhdr]
              exact retry_writes_ok data _ _ _ e hb hl1
      · rw [if_neg h0]
        exact retry_writes_ok data _ bm _ e hb hl
    · simp only [if_neg hs] at hl hl1 ⊢
      by_cases h0 : bm.current_len = 0
      · rw [if_pos h0]
        by_cases h3 : data.length < 3
        · rw [if_pos h3]
          exact writes_nil
        · rw [if_neg h3]
          cases hd : data[0]? with
          | none => exact writes_nil
          | some h =>
            simp only
            by_cases hhdr : h >>> 6 ≠ 0x02
            · rw [if_pos hhdr]
              exact writes_nil
            · rw [if_neg hhdr]
              exact retry_writes_ok data _ _ _ e hb hl1
      · rw [if_neg h0]
        exact retry_writes_ok data _ bm _ e hb hl

/-! ## The listed writes are the writes of the call -/

theorem apply_writes_cons (a : List Nat × List Nat) (w : Buf × Nat × Nat)
    (ws : List (Buf × Nat × Nat)) :
    apply_writes a (w :: ws) = apply_writes (apply_writes a [w]) ws := rfl

theorem apply_writes_append (a : List Nat × List Nat) (ws vs : List (Buf × Nat × Nat)) :
    apply_writes a (ws ++ vs) = apply_writes (apply_writes a ws) vs := by
  unfold apply_writes
  rw [List.foldl_append]

theorem store_arrays (bm : ble_midi) (l : Locals) (v : Nat) :
    (store bm l v).1.arrays = apply_writes bm.arrays [(l.bm_buffer, l.bm_buffer_len, v)] := by
  cases hb : l.bm_buffer <;> simp [store, hb, apply_writes, ble_midi.arrays]

theorem data_loop_arr (data : List Nat) :
    ∀ (fuel : Nat) (bm : ble_midi) (l : Locals) (m : Nat),
      ArrLoop (apply_writes bm.arrays (data_loop_writes data fuel bm l m))
        (data_loop data fuel bm l m) := by
  intro fuel
  induction fuel with
  | zero => intro bm l m; exact True.intro
  | succ f ih =>
    intro bm l m
    rw [data_loop, data_loop_writes]
    by_cases h0 : m - 1 = 0
    · simp only [if_pos h0]
      exact rfl
    · simp only [if_neg h0]
      cases hd : data[l.bm_current_len]? with
      | none => exact True.intro
      | some b =>
        simp only
        by_cases hhigh : b &&& 0x80 ≠ 0
        · simp only [if_pos hhigh]
          exact rfl
        · simp only [if_neg hhigh]
          by_cases hroom : l.bm_buffer_len < l.bm_buffer_size
          · simp only [if_neg (not_not.mpr hroom)]
            by_cases hend : (store bm l b).2.bm_current_len + 1 = data.length
            · simp only [if_pos hend]
              exact store_arrays bm l b
            · simp only [if_neg hend]
              rw [apply_writes_cons, ← store_arrays]
              exact ih (store bm l b).1
                { (store bm l b).2 with
                  bm_current_len := (store bm l b).2.bm_current_len + 1 } (m - 1)
          · simp only [if_pos hroom]
            exact rfl

theorem final_arr (bm : ble_midi) (l : Locals) (e : Nat) : ArrOut bm.arrays (final bm l e) := by
  by_cases hs : l.bm_status = 0xF0
  · rw [final_suspend bm l e hs]
    exact rfl
  · rw [final_emit bm l e hs]
    exact rfl

theorem after_data_arr (bm : ble_midi) (l : Locals) (e m : Nat) :
    ArrStep bm.arrays (after_data bm l e m) := by
  unfold after_data
  by_cases h1 : m ≠ 0 ∧ l.bm_status ≠ 0xF0
  · rw [if_pos h1]
    exact rfl
  · rw [if_neg h1]
    by_cases h2 : l.bm_buffer_len = l.bm_buffer_size
    · rw [if_pos h2]
      exact final_arr bm l EMSGSIZE
    · rw [if_neg h2]
      by_cases h3 : l.bm_status = 0xF0
      · rw [if_pos h3]
        exact rfl
      · rw [if_neg h3]
        exact final_arr bm l e

/-- The data bytes and what follows them, from any structure and locals. -/
theorem message_body_arr (data : List Nat) (e m : Nat) (a : List Nat × List Nat)
    (p : ble_midi × Locals) (hp : p.1.arrays = a) :
    ArrStep (apply_writes a (data_loop_writes data (data.length + 1) p.1 p.2 m))
      (match data_loop data (data.length + 1) p.1 p.2 m with
        | LoopExit.goto_final bm1 l1 => Step.done (final bm1 l1 e)
        | LoopExit.exit bm1 l1 m1 => after_data bm1 l1 e m1
        | LoopExit.out_of_bounds => Step.done Outcome.out_of_bounds
        | LoopExit.out_of_fuel => Step.done Outcome.out_of_fuel) := by
  have hloop := data_loop_arr data (data.length + 1) p.1 p.2 m
  rw [hp] at hloop
  revert hloop
  cases data_loop data (data.length + 1) p.1 p.2 m with
  | goto_final bm1 l1 =>
    intro h
    have h1 := final_arr bm1 l1 e
    rw [show bm1.arrays = _ from h] at h1
    exact h1
  | exit bm1 l1 m1 =>
    intro h
    have h1 := after_data_arr bm1 l1 e m1
    rw [show bm1.arrays = _ from h] at h1
    exact h1
  | out_of_bounds => intro _; exact True.intro
  | out_of_fuel => intro _; exact True.intro

theorem parse_message_arr (data : List Nat) (bm : ble_midi) (l : Locals) (e : Nat) :
    ArrStep (apply_writes bm.arrays (parse_message_writes data bm l))
      (parse_message data bm l e) := by
  unfold parse_message parse_message_writes
  simp only
  by_cases hr : l.bm_buffer_len = 0 ∧ bm.status_restore = true
  · simp only [if_pos hr]
    by_cases hm : ble_midi_message_len (store bm l l.bm_status).2.bm_status = 0
    · simp only [if_pos hm]
      exact store_arrays bm l l.bm_status
    · simp only [if_neg hm]
      rw [apply_writes_append]
      exact message_body_arr data e _ _
        (({ (store bm l l.bm_status).1 with status_restore := false } : ble_midi),
          (store bm l l.bm_status).2) (store_arrays bm l l.bm_status)
  · simp only [if_neg hr]
    by_cases hm : ble_midi_message_len l.bm_status = 0
    · simp only [if_pos hm]
      exact rfl
    · simp only [if_neg hm]
      rw [apply_writes_append]
      exact message_body_arr data e _ _ (bm, l) rfl

theorem status_tail_arr (data : List Nat) (e : Nat) (a : List Nat × List Nat)
    (p : ble_midi × Locals) (hp : p.1.arrays = a) :
    ArrStep
      (apply_writes a
        (if (if p.2.bm_buffer_len < p.2.bm_buffer_size then store p.1 p.2 p.2.bm_status
              else p).2.bm_current_len + 1 = data.length then
          (if p.2.bm_buffer_len < p.2.bm_buffer_size then
            [(p.2.bm_buffer, p.2.bm_buffer_len, p.2.bm_status)] else [])
        else
          (if p.2.bm_buffer_len < p.2.bm_buffer_size then
            [(p.2.bm_buffer, p.2.bm_buffer_len, p.2.bm_status)] else []) ++
          parse_message_writes data
            (if p.2.bm_buffer_len < p.2.bm_buffer_size then store p.1 p.2 p.2.bm_status
              else p).1
            { (if p.2.bm_buffer_len < p.2.bm_buffer_size then store p.1 p.2 p.2.bm_status
                else p).2 with
              bm_current_len :=
                (if p.2.bm_buffer_len < p.2.bm_buffer_size then store p.1 p.2 p.2.bm_status
                  else p).2.bm_current_len + 1 }))
      (if (if p.2.bm_buffer_len < p.2.bm_buffer_size then store p.1 p.2 p.2.bm_status
            else p).2.bm_current_len + 1 = data.length then
        Step.done (final
          (if p.2.bm_buffer_len < p.2.bm_buffer_size then store p.1 p.2 p.2.bm_status
            else p).1
          { (if p.2.bm_buffer_len < p.2.bm_buffer_size then store p.1 p.2 p.2.bm_status
              else p).2 with
            bm_current_len :=
              (if p.2.bm_buffer_len < p.2.bm_buffer_size then store p.1 p.2 p.2.bm_status
                else p).2.bm_current_len + 1 } e)
      else parse_message data
        (if p.2.bm_buffer_len < p.2.bm_buffer_size then store p.1 p.2 p.2.bm_status else p).1
        { (if p.2.bm_buffer_len < p.2.bm_buffer_size then store p.1 p.2 p.2.bm_status
            else p).2 with
          bm_current_len :=
            (if p.2.bm_buffer_len < p.2.bm_buffer_size then store p.1 p.2 p.2.bm_status
              else p).2.bm_current_len + 1 } e) := by
  subst hp
  by_cases hroom : p.2.bm_buffer_len < p.2.bm_buffer_size
  · simp only [if_pos hroom]
    by_cases hend : (store p.1 p.2 p.2.bm_status).2.bm_current_len + 1 = data.length
    · simp only [if_pos hend]
      rw [← store_arrays]
      exact final_arr _ _ e
    · simp only [if_neg hend]
      rw [apply_writes_append, ← store_arrays]
      exact parse_message_arr data _ _ e
  · simp only [if_neg hroom]
    by_cases hend : p.2.bm_current_len + 1 = data.length
    · simp only [if_pos hend]
      exact final_arr _ _ e
    · simp only [if_neg hend]
      rw [apply_writes_append]
      exact parse_message_arr data _ _ e

theorem parse_status_arr (data : List Nat) (bm : ble_midi) (l : Locals) (e s : Nat) :
    ArrStep (apply_writes bm.arrays (parse_status_writes data bm l s))
      (parse_status data bm l e s) := by
  unfold parse_status parse_status_writes
  simp only
  by_cases h0 : s = 0xF0
  · simp only [if_pos h0]
    exact status_tail_arr data e _
      (({ bm with ts_sys := bm.ts, status_sys := true } : ble_midi),
        Locals.mk Buf.sys Buf.sys.size bm.buffer_sys_len s l.bm_current_len) rfl
  · simp only [if_neg h0]
    by_cases h7 : s = 0xF7
    · simp only [if_pos h7]
      exact status_tail_arr data e _
        (({ bm with status_sys := false } : ble_midi), { l with bm_status := s }) rfl
    · simp only [if_neg h7]
      exact status_tail_arr data e _ (bm, { l with bm_status := s }) rfl

theorem retry_body_arr (data : List Nat) (bm : ble_midi) (l : Locals) (e : Nat) :
    ArrStep (apply_writes bm.arrays (retry_body_writes data bm l)) (retry_body data bm l e) := by
  unfold retry_body retry_body_writes
  cases hd : data[l.bm_current_len]? with
  | none => exact True.intro
  | some b =>
    simp only
    by_cases hhigh : b &&& 0x80 ≠ 0
    · simp only [if_pos hhigh]
      by_cases hend : l.bm_current_len + 1 = data.length
      · simp only [if_pos hend]
        exact rfl
      · simp only [if_neg hend]
        cases hd1 : data[l.bm_current_len + 1]? with
        | none => exact True.intro
        | some s =>
          simp only
          by_cases hsh : s &&& 0x80 ≠ 0
          · simp only [if_pos hsh]
            exact parse_status_arr data
              { bm with ts := bm.ts_high ||| (b &&& 0x7F) }
              { l with bm_current_len := l.bm_current_len + 1 } e s
          · simp only [if_neg hsh]
            exact parse_message_arr data
              { bm with ts := bm.ts_high ||| (b &&& 0x7F) }
              { l with bm_current_len := l.bm_current_len + 1 } e
    · simp only [if_neg hhigh]
      exact parse_message_arr data bm l e

theorem retry_arr (data : List Nat) :
    ∀ (fuel : Nat) (bm : ble_midi) (l : Locals) (e : Nat),
      ArrOut (apply_writes bm.arrays (retry_writes data fuel bm l e))
        (retry data fuel bm l e) := by
  intro fuel
  induction fuel with
  | zero => intro bm l e; exact True.intro
  | succ f ih =>
    intro bm l e
    have hp := retry_body_arr data bm l e
    rw [retry, retry_writes, apply_writes_append]
    revert hp
    cases retry_body data bm l e with
    | done o => intro hp; exact hp
    | again bm1 l1 e1 =>
      intro hp
      have h1 := ih bm1 l1 e1
      rw [show bm1.arrays = _ from hp] at h1
      exact h1

theorem parse_arr (bm : ble_midi) (e : Nat) (data : List Nat) :
    ArrOut (apply_writes bm.arrays (ble_midi_parse_writes bm e data))
      (ble_midi_parse bm e data) := by
  unfold ble_midi_parse ble_midi_parse_writes
  simp only
  by_cases hend : bm.current_len = data.length
  · simp only [if_pos hend]
    exact rfl
  · simp only [if_neg hend]
    by_cases hs : bm.status_sys = true
    · simp only [if_pos hs]
      by_cases h0 : bm.current_len = 0
      · simp only [if_pos h0]
        by_cases h3 : data.length < 3
        · simp only [if_pos h3]
          exact rfl
        · simp only [if_neg h3]
          cases hd : data[0]? with
          | none => exact True.intro
          | some h =>
            simp only
            by_cases hhdr : h >>> 6 ≠ 0x02
            · simp only [if_pos hhdr]
              exact rfl
            · simp only [if_neg hhdr]
              exact retry_arr data _ { bm with ts_high := (h &&& 0x3F) <<< 7 } _ e
      · simp only [if_neg h0]
        exact retry_arr data _ bm _ e
    · simp only [if_neg hs]
      by_cases h0 : bm.current_len = 0
      · simp only [if_pos h0]
        by_cases h3 : data.length < 3
        · simp only [if_pos h3]
          exact rfl
        · simp only [if_neg h3]
          cases hd : data[0]? with
          | none => exact True.intro
          | some h =>
            simp only
            by_cases hhdr : h >>> 6 ≠ 0x02
            · simp only [if_pos hhdr]
              exact rfl
            · simp only [if_neg hhdr]
              exact retry_arr data _ { bm with ts_high := (h &&& 0x3F) <<< 7 } _ e
      · simp only [if_neg h0]
        exact retry_arr data _ bm _ e

/-! ## The capacity of the buffers -/

/-- C27: in every parser structure reached from the all-zero structure by
calls of `ble_midi_parse` on any packets, `buffer_sys_len <= 256` and the two
arrays have their capacities 8 and 256. A call made on such a structure, on any
packet, that returns 1 hands over a message of `len <= 256` when `buffer`
designates `buffer_sys` and of `len <= 3` when it designates `buffer_midi`;
every write the call makes into an array has its index below the capacity of
that array; and the arrays a returning call leaves are the arrays it was given
with exactly these writes applied. -/
theorem buffer_capacity (bm : ble_midi) (e : Nat) (data : List Nat) (h : Reachable bm) :
    bm.buffer_sys_len ≤ 256 ∧ bm.buffer_midi.length = Buf.midi.size ∧
    bm.buffer_sys.length = Buf.sys.size ∧
    (∀ bm1 e1, ble_midi_parse bm e data = Outcome.ret bm1 e1 1 →
      (bm1.buffer = some Buf.sys ∧ bm1.len ≤ 256) ∨
      (bm1.buffer = some Buf.midi ∧ bm1.len ≤ 3)) ∧
    (∀ w ∈ ble_midi_parse_writes bm e data, w.2.1 < w.1.size) ∧
    (∀ bm1 e1 rv, ble_midi_parse bm e data = Outcome.ret bm1 e1 rv →
      (bm1.buffer_midi, bm1.buffer_sys) =
        apply_writes (bm.buffer_midi, bm.buffer_sys) (ble_midi_parse_writes bm e data)) := by
  have hw := reachable_wf bm h
  have hb : bm.buffer_sys_len ≤ 256 := hw.2.2.1
  have hst := wf_status bm hw
  refine ⟨hb, hw.1, hw.2.1, ?_, parse_writes_ok bm e data hb hst, ?_⟩
  · intro bm1 e1 hcall
    have hm := parse_mid bm e data hb hst
    rw [hcall] at hm
    exact hm rfl
  · intro bm1 e1 rv hcall
    have ha := parse_arr bm e data
    rw [hcall] at ha
    exact ha

set_option maxRecDepth 100000 in
/-- The writes of the call that parses the note-on message of the packet
80 81 90 40 7F from the all-zero state. -/
theorem note_on_writes :
    ble_midi_parse_writes ble_midi.zero 0 [0x80, 0x81, 0x90, 0x40, 0x7f] =
      [(Buf.midi, 0, 0x90), (Buf.midi, 1, 0x40), (Buf.midi, 2, 0x7f)] := by
  decide

/-- Witness of C27: the structure left by the first call on the packet
80 81 90 40 7F 80, and the second call on that packet. -/
theorem buffer_capacity_witness :
    note_on_emitted.buffer_sys_len ≤ 256 ∧ note_on_emitted.buffer_midi.length = Buf.midi.size ∧
    note_on_emitted.buffer_sys.length = Buf.sys.size ∧
    (∀ bm1 e1, ble_midi_parse note_on_emitted 0 [0x80, 0x81, 0x90, 0x40, 0x7f, 0x80] =
        Outcome.ret bm1 e1 1 →
      (bm1.buffer = some Buf.sys ∧ bm1.len ≤ 256) ∨
      (bm1.buffer = some Buf.midi ∧ bm1.len ≤ 3)) ∧
    (∀ w ∈ ble_midi_parse_writes note_on_emitted 0 [0x80, 0x81, 0x90, 0x40, 0x7f, 0x80],
      w.2.1 < w.1.size) ∧
    (∀ bm1 e1 rv, ble_midi_parse note_on_emitted 0 [0x80, 0x81, 0x90, 0x40, 0x7f, 0x80] =
        Outcome.ret bm1 e1 rv →
      (bm1.buffer_midi, bm1.buffer_sys) =
        apply_writes (note_on_emitted.buffer_midi, note_on_emitted.buffer_sys)
          (ble_midi_parse_writes note_on_emitted 0 [0x80, 0x81, 0x90, 0x40, 0x7f, 0x80])) :=
  buffer_capacity note_on_emitted 0 [0x80, 0x81, 0x90, 0x40, 0x7f, 0x80]
    (Reachable.call ble_midi.zero 0 [0x80, 0x81, 0x90, 0x40, 0x7f, 0x80] _ 0 1 Reachable.zero
      (by decide) note_on_call_six)

theorem start_watches :
    (midi_transport_start fresh_world).watches =
      (1, 2, 3, [⟨1, Watch.ble_midi⟩, ⟨2, Watch.input⟩, ⟨3, Watch.output⟩], 4) := by
  decide

theorem ble_eof_dispatch :
    (dispatch (midi_transport_start fresh_world) 1 GIOStatus.G_IO_STATUS_EOF []).map
        World.watches =
      some (1, 2, 3, [⟨2, Watch.input⟩, ⟨3, Watch.output⟩], 3) := by
  decide

/-- C26, the code at the failing inputs. On a transport with the three
descriptors open, `midi_transport_start` installs the three watches and the
invariant holds. When `midi_watch_ble_midi` then meets the end of the BLE-MIDI
link it returns FALSE, its watch is removed and its reference dropped, but
`midi.fd_watch_id` keeps the id 1: the invariant is broken in a reachable
state, and a later `midi_transport_start` installs no BLE-MIDI watch. The
sibling callbacks `midi_watch_input` and `midi_watch_output` clear their ids on
that path. After `midi_transport_stop` all three ids are still non-zero while
the event loop holds no watch. -/
theorem watch_ids_after_removal :
    watch_invariant fresh_world = true ∧
    watch_invariant (midi_transport_start fresh_world) = true ∧
    (midi_transport_start fresh_world).watches =
      (1, 2, 3, [⟨1, Watch.ble_midi⟩, ⟨2, Watch.input⟩, ⟨3, Watch.output⟩], 4) ∧
    (dispatch (midi_transport_start fresh_world) 1 GIOStatus.G_IO_STATUS_EOF []).map
        (fun w => (w.watches, watch_invariant w, (midi_transport_start w).watches)) =
      some ((1, 2, 3, [⟨2, Watch.input⟩, ⟨3, Watch.output⟩], 3), false,
        (1, 2, 3, [⟨2, Watch.input⟩, ⟨3, Watch.output⟩], 3)) ∧
    (dispatch (midi_transport_start fresh_world) 2 GIOStatus.G_IO_STATUS_EOF []).map
        (fun w => (w.watches, watch_invariant w)) =
      some ((1, 0, 3, [⟨1, Watch.ble_midi⟩, ⟨3, Watch.output⟩], 3), true) ∧
    (dispatch (midi_transport_start fresh_world) 3 GIOStatus.G_IO_STATUS_EOF []).map
        (fun w => (w.watches, watch_invariant w)) =
      some ((1, 2, 0, [⟨1, Watch.ble_midi⟩, ⟨2, Watch.input⟩], 3), true) ∧
    (midi_transport_stop (midi_transport_start fresh_world)).watches = (1, 2, 3, [], 1) ∧
    watch_invariant (midi_transport_stop (midi_transport_start fresh_world)) = false ∧
    (∃ w, BridgeReachable w ∧ watch_invariant w = false) := by
  refine ⟨by decide, by decide, by decide, by rfl, by rfl, by rfl, by decide,
    by decide, ?_⟩
  exact ⟨midi_transport_stop (midi_transport_start fresh_world),
    BridgeReachable.stop _ (BridgeReachable.start _ BridgeReachable.fresh), by decide⟩

end BleMidi
